import Mathlib

/-!
# MPD HTTP/ICY input stream: shallow embedding and verified properties

The definitions below embed `src/inputStream_http.c` (the non-blocking HTTP
client of the input stream layer).

Conventions of the embedding.

* A `char` is a `Char`; a received byte `b` is the character with code `b`.
  `char` is taken to be signed (the platform the source was written for; the
  source itself tests `metalen < 0` after reading a `char`), `int` is 32 bits,
  `long` and `size_t` are 64 bits.
* A C string (`char *` pointing at NUL-terminated text) is the `List Char` of
  the characters before its terminating NUL.  A pointer into a string is the
  index (a `Nat`) of the character it points at; `NULL` is `none`.
* `char buffer[HTTP_BUFFER_SIZE]` together with `buflen` is modelled by the
  list `buffer` of the bytes stored at positions `0 .. buflen-1` and by the
  counter `buflen` itself (a `size_t`, so arithmetic on it wraps modulo
  `2^64`).  Bytes of the array at or beyond `buflen` are not modelled.
* The operating system is a record of scripted answers (`OS`): every system
  call of the source takes its answer from the head of the matching script and
  records its effect in the log.
-/

namespace MPD

/-! ## Machine integers -/

/-- Conversion of a mathematical integer to a 32-bit `int` (two's complement). -/
def wrapInt (x : Int) : Int := (x + 2147483648) % 4294967296 - 2147483648

/-- Conversion of a mathematical integer to a 64-bit `long` (two's complement). -/
def wrapLong (x : Int) : Int :=
  (x + 9223372036854775808) % 18446744073709551616 - 9223372036854775808

/-- Conversion of a mathematical integer to a 64-bit `size_t`. -/
def wrapSize (x : Int) : Nat := (x % 18446744073709551616).toNat

def LONG_MAX : Int := 9223372036854775807

def LONG_MIN : Int := -9223372036854775808

/-! ## The C library functions used by the source -/

/-- The characters of a buffer seen as a C string: those before the first NUL. -/
def cstr (s : List Char) : List Char := s.takeWhile (fun c => c != Char.ofNat 0)

/-- Function `strchr(s, c)`: index of the first occurrence of `c` in `s`. -/
def strchr : List Char → Char → Option Nat
  | [], _ => none
  | x :: xs, c => if x = c then some 0 else (strchr xs c).map (· + 1)

/-- Function `strstr(s, pat)`: index of the first occurrence of `pat` in `s`. -/
def strstr : List Char → List Char → Option Nat
  | [], pat => if pat = [] then some 0 else none
  | x :: xs, pat =>
    if pat.isPrefixOf (x :: xs) then some 0 else (strstr xs pat).map (· + 1)

/-- Test `strncmp(a, b, n) == 0` on C strings: the first `n` characters agree
(a string shorter than `n` has to end where the other one does). -/
def strncmp_eq (a b : List Char) (n : Nat) : Bool := a.take n == b.take n

/-- Function `isspace` in the C locale. -/
def isspace (c : Char) : Bool := c.toNat = 32 || (9 ≤ c.toNat && c.toNat ≤ 13)

/-- Function `isdigit`. -/
def isdigit (c : Char) : Bool := 48 ≤ c.toNat && c.toNat ≤ 57

/-- Value of a string of decimal digits. -/
def digitsValue (ds : List Char) : Nat :=
  ds.foldl (fun acc c => acc * 10 + (c.toNat - 48)) 0

/-- Function `strtol(s, &test, 10)`: white space is skipped, an optional sign is
read, then the longest run of digits; the value is clamped to the range of
`long`.  The second component is the index `test` points at (`0` when no
digits were found). -/
def strtol (s : List Char) : Int × Nat :=
  let ws := (s.takeWhile isspace).length
  let s1 := s.drop ws
  let neg : Bool := s1.head? = some '-'
  let sg : Nat := if s1.head? = some '-' ∨ s1.head? = some '+' then 1 else 0
  let ds := (s1.drop sg).takeWhile isdigit
  if ds = [] then (0, 0)
  else
    let v : Int := (digitsValue ds : Int)
    (if neg then max (-v) LONG_MIN else min v LONG_MAX, ws + sg + ds.length)

/-- Function `atol(s)`, which is `strtol(s, NULL, 10)`. -/
def atol (s : List Char) : Int := (strtol s).1

/-- Function `atoi(s)`, which is `(int) strtol(s, NULL, 10)`. -/
def atoi (s : List Char) : Int := wrapInt (strtol s).1

/-! ## Constants of the source -/

def HTTP_CONN_STATE_CLOSED : Nat := 0

def HTTP_CONN_STATE_INIT : Nat := 1

def HTTP_CONN_STATE_HELLO : Nat := 2

def HTTP_CONN_STATE_OPEN : Nat := 3

def HTTP_CONN_STATE_REOPEN : Nat := 4

def HTTP_BUFFER_SIZE : Nat := 131072

def HTTP_PREBUFFER_SIZE : Nat := HTTP_BUFFER_SIZE >>> 2

def HTTP_REDIRECT_MAX : Int := 10

/-! ## Data model -/

/-- The structure `InputStreamHTTPData` of the source.  The array
`char buffer[HTTP_BUFFER_SIZE]` is held in two parts: `buffer`, the bytes that
`buflen` counts, and `stale`, the bytes that follow them in the array as far
as they have been written (left behind by `memmove` and by `buflen = 0`, or
the NUL that `getHTTPHello` stores after what it received). -/
structure InputStreamHTTPData where
  host : Option (List Char)
  path : Option (List Char)
  port : Int
  sock : Int
  connState : Nat
  buffer : List Char
  buflen : Nat
  stale : List Char
  timesRedirected : Int
  icyMetaint : Int
  prebuffer : Bool
  icyOffset : Int
  deriving DecidableEq, Repr

/-- Modelled from the spec: the declaration of `InputStream` (`inputStream.h`)
is not among the sources.  These are the fields this transport reads and
writes (the spec's `offset`, `content_length`, `seekable`, `mime`,
`meta_name`, `meta_title`), with the transport's private data
(`inStream->data`); `size` holds the `long` that `atol` returns. -/
structure InputStream where
  offset : Int
  size : Int
  seekable : Bool
  mime : Option (List Char)
  metaName : Option (List Char)
  metaTitle : Option (List Char)
  data : InputStreamHTTPData
  deriving DecidableEq, Repr

/-- Function `newInputStreamHTTPData`.  The fields the source leaves
uninitialised (`sock`, `buffer`, `buflen`) start empty here; they are set by
`initHTTPConnection` before anything reads them. -/
def newInputStreamHTTPData : InputStreamHTTPData :=
  { host := none, path := none, port := 80, sock := -1,
    connState := HTTP_CONN_STATE_CLOSED, buffer := [], buflen := 0, stale := [],
    timesRedirected := 0, icyMetaint := 0, prebuffer := false, icyOffset := 0 }

/-- Function `parseUrl`: returns the status (`0` or `-1`) and the session data
as the function leaves it (the host is stored before the port is checked). -/
def parseUrl (data : InputStreamHTTPData) (url : List Char) :
    Int × InputStreamHTTPData :=
  if !strncmp_eq "http://".toList url 7 then (-1, data) else
  let temp := url.drop 7
  let slash := strchr temp '/'
  let colon := strchr temp ':'
  if (match slash, colon with
      | some s, some c => decide (s ≤ c)
      | _, _ => false) then (-1, data) else
  let len : Nat :=
    match colon, slash with
    | some c, _ => c + 1
    | none, some s => s + 1
    | none, none => temp.length + 1
  if len ≤ 1 then (-1, data) else
  let data := { data with host := some (temp.take (len - 1)) }
  let fetchPort : Option Nat :=
    match colon, slash with
    | some c, none => some c
    | some c, some s => if s ≠ c + 1 then some c else none
    | none, _ => none
  match fetchPort with
  | some c =>
    let r := strtol (temp.drop (c + 1))
    let data := { data with port := wrapInt r.1 }
    let test := (temp.drop (c + 1)).drop r.2
    if data.port ≤ 0 || (test.head? ≠ none && test.head? ≠ some '/') then (-1, data)
    else
      (0, { data with path := some (match slash with
                                    | some s => temp.drop s
                                    | none => "/".toList) })
  | none =>
    (0, { data with path := some (match slash with
                                  | some s => temp.drop s
                                  | none => "/".toList) })

/-! ## The operating system -/

inductive Errno where
  | EINTR
  | EAGAIN
  | EINPROGRESS
  | EOTHER
  deriving DecidableEq, Repr

/-- Answer of a system call that returns an `int` and sets `errno`. -/
structure Ret where
  val : Int
  errno : Errno
  deriving DecidableEq, Repr

inductive AddrType where
  | AF_INET
  | AF_INET6
  | AF_OTHER
  deriving DecidableEq, Repr

/-- Answers to the calls of one `initHTTPConnection`: `gethostbyname` (`none` is
the null pointer, also when nothing is scripted), whether the build has `HAVE_IPV6` and `ipv6Supported()`
holds, `socket`, `connect`. -/
structure ConnAnswer where
  he : Option AddrType
  ipv6 : Bool
  sockfd : Int
  connect : Ret
  deriving DecidableEq, Repr

/-- What `write` returns: the whole request was taken, `k` bytes were taken, or
the call failed (`-1`). -/
inductive WriteAnswer where
  | all
  | count (k : Nat)
  | fail
  deriving DecidableEq, Repr

/-- Answers to the calls of one `finishHTTPInit`: `select`, the `SO_ERROR`
value that `getsockopt` stores, `write`. -/
structure InitAnswer where
  select : Ret
  soError : Int
  written : WriteAnswer
  deriving DecidableEq, Repr

/-- What the peer does next on the connection, as seen by `recv` and `read`:
the call fails with an `errno`, or bytes have arrived (no bytes: the peer
closed the connection and the call returns `0`). -/
inductive RecvAnswer where
  | fail (e : Errno)
  | bytes (bs : List Char)
  deriving DecidableEq, Repr

/-- The effects of the session on the operating system. -/
inductive Call where
  | gethostbyname (host : List Char)
  | socket (fd : Int)
  | connect (port : Int)
  | close (wasOpen : Bool)
  | write (bs : List Char)
  deriving DecidableEq, Repr

/-- The operating system: the scripted answers still to come, whether the
session's socket descriptor is open, and the log of the calls made. -/
structure OS where
  conns : List ConnAnswer
  inits : List InitAnswer
  selects : List Ret
  recvs : List RecvAnswer
  sockOpen : Bool
  log : List Call
  deriving DecidableEq, Repr

/-- System call `close(data->sock)`. -/
def OS.close (os : OS) : OS :=
  { os with sockOpen := false, log := os.log ++ [Call.close os.sockOpen] }

/-- System calls `recv(sock, buf, len, 0)` and `read(sock, buf, len)`: at most
`len` of the bytes that have arrived are taken, the others stay queued.  With
nothing scripted the call would block (`EAGAIN`). -/
def OS.recv (os : OS) (len : Nat) : RecvAnswer × OS :=
  match os.recvs with
  | [] => (RecvAnswer.fail Errno.EAGAIN, os)
  | RecvAnswer.fail e :: rest => (RecvAnswer.fail e, { os with recvs := rest })
  | RecvAnswer.bytes bs :: rest =>
    if bs.length ≤ len then (RecvAnswer.bytes bs, { os with recvs := rest })
    else (RecvAnswer.bytes (bs.take len),
          { os with recvs := RecvAnswer.bytes (bs.drop len) :: rest })

/-- Function `initHTTPConnection`. -/
def initHTTPConnection (inStream : InputStream) (os : OS) : Int × InputStream × OS :=
  let os := { os with log := os.log ++ [Call.gethostbyname (inStream.data.host.getD [])] }
  match os.conns with
  | [] => (-1, inStream, os)
  | a :: rest =>
    let os := { os with conns := rest }
    match a.he with
    | none => (-1, inStream, os)
    | some ty =>
      if ty = AddrType.AF_OTHER ∨ (ty = AddrType.AF_INET6 ∧ a.ipv6 = false) then
        (-1, inStream, os)
      else
      let data := { inStream.data with sock := a.sockfd }
      if a.sockfd < 0 then (-1, { inStream with data := data }, os) else
      let os := { os with sockOpen := true, log := os.log ++ [Call.socket a.sockfd] }
      let os := { os with log := os.log ++ [Call.connect inStream.data.port] }
      if a.connect.val < 0 ∧ a.connect.errno ≠ Errno.EINPROGRESS then
        (-1, { inStream with data := data }, os.close)
      else
        (0, { inStream with
                data := { data with connState := HTTP_CONN_STATE_INIT,
                                    buflen := 0, buffer := [],
                                    stale := data.buffer ++ data.stale } }, os)

/-- The request that `finishHTTPInit` composes with `snprintf(request, 2048, ...)`
(at most 2047 characters are kept). -/
def httpRequest (path host : List Char) (offset : Int) : List Char :=
  ("GET ".toList ++ path ++ " HTTP/1.1\r\n".toList
    ++ "Host: ".toList ++ host ++ "\r\n".toList
    ++ "Connection: close\r\n".toList
    ++ "User-Agent: ".toList ++ "httpTest".toList ++ "/".toList ++ "0.0.0".toList
    ++ "\r\n".toList
    ++ "Range: bytes=".toList ++ (toString offset).toList ++ "-\r\n".toList
    ++ "Icy-Metadata:1\r\n".toList
    ++ "\r\n".toList).take 2047

/-- Function `finishHTTPInit`. -/
def finishHTTPInit (inStream : InputStream) (os : OS) : Int × InputStream × OS :=
  match os.inits with
  | [] => (0, inStream, os)
  | a :: rest =>
    let os := { os with inits := rest }
    let data := inStream.data
    if a.select.val = 0 ∨ (a.select.val < 0 ∧ a.select.errno = Errno.EINTR) then
      (0, inStream, os)
    else if a.select.val < 0 then
      (-1, { inStream with data := { data with connState := HTTP_CONN_STATE_CLOSED } },
        os.close)
    else if a.soError ≠ 0 then
      (-1, { inStream with data := { data with connState := HTTP_CONN_STATE_CLOSED } },
        os.close)
    else
      let request := httpRequest (data.path.getD []) (data.host.getD []) inStream.offset
      let ret : Int :=
        match a.written with
        | WriteAnswer.all => request.length
        | WriteAnswer.count k => k
        | WriteAnswer.fail => -1
      let os := { os with log := os.log ++ [Call.write (request.take ret.toNat)] }
      if ret ≠ request.length then
        (-1, { inStream with data := { data with connState := HTTP_CONN_STATE_CLOSED } },
          os.close)
      else
        (0, { inStream with data := { data with connState := HTTP_CONN_STATE_HELLO } }, os)

/-- The value of a header line as the source copies it with `strdup` while the
line's `\r` is overwritten by NUL: `p` is the string at `cur`, `n` the length
of the field name with its leading `\r\n`, `t` the distance from `cur+n` to the
next `\r\n`, `incr` the offset the copy starts at. -/
def headerValue (p : List Char) (n t incr : Nat) : List Char :=
  (p.take (n + t)).drop incr

/-- The value `incr` has after `while(*(incr+cur) == ' ') incr++`, started at
`n`, while the character at `n + t` is NUL. -/
def skipSpaces (p : List Char) (n t : Nat) : Nat :=
  n + (((p.take (n + t)).drop n).takeWhile (fun c => c = ' ')).length

/-- One pass of the body of the header loop of `getHTTPHello`, for the line at
`p` (the string at `cur`); `none` is the `break`. -/
def helloField (p : List Char) (inStream : InputStream) : Option InputStream :=
  if strncmp_eq p "\r\nContent-Length: ".toList 18 then
    some (if inStream.size = 0 then { inStream with size := atol (p.drop 18) }
          else inStream)
  else if strncmp_eq p "\r\nicy-metaint:".toList 14 then
    some { inStream with data := { inStream.data with icyMetaint := atoi (p.drop 14) } }
  else if strncmp_eq p "\r\nicy-name:".toList 11 then
    match strstr (p.drop 11) "\r\n".toList with
    | none => none
    | some t =>
      some { inStream with metaName := some (headerValue p 11 t (skipSpaces p 11 t)) }
  else if strncmp_eq p "\r\nx-audiocast-name:".toList 19 then
    match strstr (p.drop 19) "\r\n".toList with
    | none => none
    | some t =>
      some { inStream with metaName := some (headerValue p 19 t (skipSpaces p 19 t)) }
  else if strncmp_eq p "\r\nContent-Type:".toList 15 then
    match strstr (p.drop 15) "\r\n".toList with
    | none => none
    | some t => some { inStream with mime := some (headerValue p 15 t 15) }
  else some inStream

/-- The header loop of `getHTTPHello` (`while(cur && cur!=needle)`), over the C
string `cs` held in the buffer.  Every pass moves `cur` forward by at least two
characters, so `fuel = cs.length` passes are never used up. -/
def helloFields (cs : List Char) (needle : Nat) :
    Nat → Option Nat → InputStream → InputStream
  | 0, _, inStream => inStream
  | _ + 1, none, inStream => inStream
  | fuel + 1, some cur, inStream =>
    if cur = needle then inStream else
    match helloField (cs.drop cur) inStream with
    | none => inStream
    | some inStream =>
      helloFields cs needle fuel
        ((strstr (cs.drop (cur + 2)) "\r\n".toList).map (· + (cur + 2))) inStream

/-- The fatal exit of `getHTTPHello` that also empties the buffer. -/
def helloFail (inStream : InputStream) (os : OS) : Int × InputStream × OS :=
  (-1, { inStream with data := { inStream.data with
            connState := HTTP_CONN_STATE_CLOSED, buflen := 0, buffer := [],
            stale := inStream.data.buffer ++ inStream.data.stale } },
    os.close)

/-- The status line test of `getHTTPHello` on the C string `cs` held in the
buffer: the value of `rc`, or `none` for the final `else`. -/
def helloStatus (cs : List Char) : Option Int :=
  if strncmp_eq cs "HTTP/1.0 ".toList 9 then some (atoi (cs.drop 9))
  else if strncmp_eq cs "HTTP/1.1 ".toList 9 then some (atoi (cs.drop 9))
  else if strncmp_eq cs "ICY 200 OK".toList 10 then some 200
  else if strncmp_eq cs "ICY 400 Server Full".toList 19 then some 400
  else if strncmp_eq cs "ICY 404".toList 7 then some 404
  else none

/-- The value the status line test of `getHTTPHello` leaves in
`inStream->seekable`. -/
def helloSeekable (cs : List Char) (seekable : Bool) : Bool :=
  if strncmp_eq cs "HTTP/1.0 ".toList 9 then false
  else if strncmp_eq cs "HTTP/1.1 ".toList 9 then true
  else if strncmp_eq cs "ICY 200 OK".toList 10 then false
  else seekable

/-- The header parser: `getHTTPHello` from the search for `\r\n\r\n` on, with
what `recv` returned already stored in the buffer and counted in `buflen`. -/
def helloParse (inStream : InputStream) (os : OS) : Int × InputStream × OS :=
  let data := inStream.data
  let cs := cstr data.buffer
  match strstr cs "\r\n\r\n".toList with
  | none => (0, inStream, os)
  | some needle =>
    match helloStatus cs with
    | none =>
      (-1, { inStream with data := { data with connState := HTTP_CONN_STATE_CLOSED } },
        os.close)
    | some rc =>
      let inStream := { inStream with seekable := helloSeekable cs inStream.seekable }
      if rc = 200 ∨ rc = 206 then
        let inStream := helloFields cs needle cs.length (strstr cs "\r\n".toList) inStream
        let inStream :=
          if inStream.size ≤ 0 then { inStream with seekable := false } else inStream
        let data := inStream.data
        let buflen := wrapSize ((data.buflen : Int) - ((needle : Int) + 4))
        let data := { data with buflen := buflen,
                                buffer := (data.buffer.drop (needle + 4)).take buflen,
                                stale := (data.buffer ++ data.stale).drop buflen,
                                connState := HTTP_CONN_STATE_OPEN,
                                prebuffer := true }
        (0, { inStream with data := data, seekable := false }, os)
      else if rc = 301 ∨ rc = 302 then
        match strstr cs "Location: ".toList with
        | some loc =>
          let url := (cs.drop (loc + 10)).takeWhile (fun c => c != '\r')
          let r := parseUrl inStream.data url
          let inStream := { inStream with data := r.2 }
          if r.1 = 0 ∧ r.2.timesRedirected < HTTP_REDIRECT_MAX then
            (0, { inStream with data := { r.2 with
                    timesRedirected := r.2.timesRedirected + 1,
                    connState := HTTP_CONN_STATE_REOPEN,
                    buflen := 0, buffer := [],
                    stale := r.2.buffer ++ r.2.stale } }, os.close)
          else helloFail inStream os
        | none => helloFail inStream os
      else helloFail inStream os

/-- Function `getHTTPHello`: the readiness test and the receive, then the
header parser `helloParse`. -/
def getHTTPHello (inStream : InputStream) (os : OS) : Int × InputStream × OS :=
  let data := inStream.data
  let sel : Ret := os.selects.headD ⟨0, Errno.EOTHER⟩
  let os := { os with selects := os.selects.tail }
  if sel.val = 0 ∨ (sel.val < 0 ∧ sel.errno = Errno.EINTR) then (0, inStream, os)
  else if sel.val < 0 then helloFail inStream os
  else if data.buflen ≥ HTTP_BUFFER_SIZE - 1 then
    (-1, { inStream with data := { data with connState := HTTP_CONN_STATE_CLOSED } },
      os.close)
  else
  match os.recv (HTTP_BUFFER_SIZE - 1 - data.buflen) with
  | (RecvAnswer.fail e, os) =>
    if e = Errno.EAGAIN ∨ e = Errno.EINTR then (0, inStream, os)
    else helloFail inStream os
  | (RecvAnswer.bytes bs, os) =>
    if bs.length = 0 then helloFail inStream os else
    helloParse
      { inStream with data := { data with buffer := data.buffer ++ bs,
                                          buflen := data.buflen + bs.length,
                                          stale := Char.ofNat 0 ::
                                            data.stale.drop (bs.length + 1) } } os

/-- The tokens `strtok_r(temp, ";", &r)` yields one after the other: the
non-empty runs of characters between separators. -/
def strtok_r (s : List Char) (sep : Char) : List (List Char) :=
  (s.splitOn sep).filter (fun t => !t.isEmpty)

/-- The body of the token loop of `parseIcyMetadata` for the token `s`. -/
def icyToken (inStream : InputStream) (s : List Char) : InputStream :=
  if strncmp_eq s "StreamTitle=".toList 12 then
    let cur : Nat := if (s.drop 12).head? = some (Char.ofNat 39) then 13 else 12
    let s := if s.getLast? = some (Char.ofNat 39) then s.dropLast else s
    { inStream with metaTitle := some (s.drop cur) }
  else inStream

/-- Function `parseIcyMetadata`: `metadata` holds what follows the pointer the
source passes, of which `size` bytes are copied and NUL-terminated. -/
def parseIcyMetadata (inStream : InputStream) (metadata : List Char) (size : Nat) :
    InputStream :=
  (strtok_r (cstr (metadata.take size)) ';').foldl icyToken inStream

/-- Conversion of a (signed) `char` to `int`. -/
def charToInt (c : Char) : Int := if c.toNat < 128 then c.toNat else (c.toNat : Int) - 256

/-- One guarded step of `inputStream_httpBuffer`:
`if(data->connState == state) { if(f(inStream) < 0) return -1; }`; the first
component is what `f` returned (`0` when the step is skipped). -/
def pumpStage (state : Nat) (f : InputStream → OS → Int × InputStream × OS)
    (inStream : InputStream) (os : OS) : Int × InputStream × OS :=
  if inStream.data.connState = state then f inStream os else (0, inStream, os)

/-- The first setting of the prebuffer flag in `inputStream_httpBuffer`:
`if(data->buflen == 0 || data->buflen < data->icyMetaint) data->prebuffer = 1;
else if(data->buflen > HTTP_PREBUFFER_SIZE) data->prebuffer = 0;`. -/
def prebufferMark (data : InputStreamHTTPData) : InputStreamHTTPData :=
  if data.buflen = 0 ∨ data.buflen < wrapSize data.icyMetaint then
    { data with prebuffer := true }
  else if data.buflen > HTTP_PREBUFFER_SIZE then { data with prebuffer := false }
  else data

/-- The read of `inputStream_httpBuffer` into the free space of the buffer
(`if(data->connState == HTTP_CONN_STATE_OPEN && data->buflen <
HTTP_BUFFER_SIZE-1) ...`); the first component is the final value of `readed`. -/
def fillRead (data : InputStreamHTTPData) (os : OS) : Nat × InputStreamHTTPData × OS :=
  if data.connState = HTTP_CONN_STATE_OPEN ∧ data.buflen < HTTP_BUFFER_SIZE - 1 then
    match os.recv (HTTP_BUFFER_SIZE - 1 - data.buflen) with
    | (RecvAnswer.fail e, os) =>
      if e = Errno.EAGAIN ∨ e = Errno.EINTR then (0, data, os)
      else (0, { data with connState := HTTP_CONN_STATE_CLOSED }, os.close)
    | (RecvAnswer.bytes bs, os) =>
      if bs.length = 0 then
        (0, { data with connState := HTTP_CONN_STATE_CLOSED }, os.close)
      else
        (bs.length, { data with buffer := data.buffer ++ bs,
                                buflen := data.buflen + bs.length,
                                stale := data.stale.drop bs.length }, os)
  else (0, data, os)

/-- The last statement on the prebuffer flag in `inputStream_httpBuffer`:
`if(data->buflen > HTTP_PREBUFFER_SIZE) data->prebuffer = 0;`. -/
def prebufferClear (data : InputStreamHTTPData) : InputStreamHTTPData :=
  if data.buflen > HTTP_PREBUFFER_SIZE then { data with prebuffer := false } else data

/-- The second half of `inputStream_httpBuffer`, from `switch(data->connState)`
on: the prebuffer flag and the read into the free space of the buffer. -/
def httpBufferFill (inStream : InputStream) (os : OS) : Int × InputStream × OS :=
  if inStream.data.connState ≠ HTTP_CONN_STATE_OPEN ∧
      inStream.data.connState ≠ HTTP_CONN_STATE_CLOSED then
    (-1, inStream, os)
  else
    (if (fillRead (prebufferMark inStream.data) os).1 ≠ 0 then 1 else 0,
      { inStream with data := prebufferClear (fillRead (prebufferMark inStream.data) os).2.1 },
      (fillRead (prebufferMark inStream.data) os).2.2)

/-- Function `inputStream_httpBuffer`. -/
def inputStream_httpBuffer (inStream : InputStream) (os : OS) : Int × InputStream × OS :=
  let r1 := pumpStage HTTP_CONN_STATE_REOPEN initHTTPConnection inStream os
  if r1.1 < 0 then (-1, r1.2) else
  let r2 := pumpStage HTTP_CONN_STATE_INIT finishHTTPInit r1.2.1 r1.2.2
  if r2.1 < 0 then (-1, r2.2) else
  let r3 := pumpStage HTTP_CONN_STATE_HELLO getHTTPHello r2.2.1 r2.2.2
  if r3.1 < 0 then (-1, r3.2) else
  httpBufferFill r3.2.1 r3.2.2

/-- What `inputStream_httpRead` gives back: the number of elements it returns,
the bytes it copied to `ptr`, and the stream and operating system after it.
The flag `fault` is set when the function does not return: it divides by an
element size of zero and the process is killed; the other fields then hold the
state at that point. -/
structure ReadResult where
  ret : Nat
  out : List Char
  inStream : InputStream
  os : OS
  fault : Bool := false
  deriving DecidableEq, Repr

/-- The number of bytes the delivery step of `inputStream_httpRead` sends:
`tosend = inlen > maxToSend ? maxToSend : inlen; tosend = (tosend/size)*size;`
(the division and the product are taken in `size_t`).  With an element size of
zero the division has no result (`none`): the process is killed. -/
def deliverCount (size : Nat) (inlen maxToSend : Int) : Option Int :=
  if size = 0 then none
  else some (wrapLong (((wrapSize (if inlen > maxToSend then maxToSend else inlen) / size)
    * size : Nat) : Int))

/-- The effect on the stream of delivering `tosend` bytes: `data->buflen -=
tosend; data->icyOffset+= tosend; memmove(data->buffer, data->buffer+tosend,
data->buflen); inStream->offset += tosend;`.  The bytes moved to the front are
those of the array from `tosend` on, as many as the new `buflen` counts and the
array holds. -/
def deliverBytes (inStream : InputStream) (tosend : Int) : InputStream :=
  { inStream with
      data := { inStream.data with
        buflen := wrapSize ((inStream.data.buflen : Int) - tosend),
        icyOffset := wrapInt (inStream.data.icyOffset + tosend),
        buffer := ((inStream.data.buffer ++ inStream.data.stale).drop (wrapSize tosend)).take
                    (wrapSize ((inStream.data.buflen : Int) - tosend)),
        stale := (inStream.data.buffer ++ inStream.data.stale).drop
                    (wrapSize ((inStream.data.buflen : Int) - tosend)) },
      offset := wrapLong (inStream.offset + tosend) }

/-- The delivery step of `inputStream_httpRead` (`if(data->buflen > 0) ...` and
the `return tosend/size`), with the values `inlen` and `maxToSend` have at that
point.  `memcpy(ptr, data->buffer, tosend)` copies the first `tosend` bytes of
the array: the buffered bytes and, when `tosend` exceeds their number, the
bytes that follow them there.  With an element size of zero both divisions
kill the process. -/
def httpDeliver (inStream : InputStream) (os : OS) (size : Nat) (inlen maxToSend : Int) :
    ReadResult :=
  if inStream.data.buflen > 0 then
    match deliverCount size inlen maxToSend with
    | none => { ret := 0, out := [], inStream := inStream, os := os, fault := true }
    | some tosend =>
      { ret := wrapSize tosend / size
        out := (inStream.data.buffer ++ inStream.data.stale).take (wrapSize tosend)
        inStream := deliverBytes inStream tosend
        os := os }
  else if size = 0 then
    { ret := 0, out := [], inStream := inStream, os := os, fault := true }
  else { ret := wrapSize 0 / size, out := [], inStream := inStream, os := os }

/-- The length of the metadata block at the front of the buffer, as the source
computes it: `int metalen = *(data->buffer); metalen <<= 4;
if(metalen < 0) metalen = 0;`. -/
def icyMetalen (buffer : List Char) : Int :=
  if wrapInt (charToInt (buffer.headD (Char.ofNat 0)) * 16) < 0 then 0
  else wrapInt (charToInt (buffer.headD (Char.ofNat 0)) * 16)

/-- The bound the source puts on a delivery while metadata is interleaved:
`maxToSend = data->icyMetaint-data->icyOffset;
maxToSend = maxToSend > data->buflen ? data->buflen : maxToSend;`. -/
def icyMaxToSend (data : InputStreamHTTPData) : Int :=
  if wrapSize (wrapInt (data.icyMetaint - data.icyOffset)) > data.buflen then
    wrapLong data.buflen
  else wrapInt (data.icyMetaint - data.icyOffset)

/-- The removal of a metadata block of `metalen` bytes (and its length byte)
from the front of the buffer: `if(metalen > 0) parseIcyMetadata(...);
data->buflen -= metalen+1; memmove(...); data->icyOffset = 0;`. -/
def dropMetadata (inStream : InputStream) (metalen : Int) : InputStream :=
  { (if metalen > 0 then
        parseIcyMetadata inStream (inStream.data.buffer.drop 1) metalen.toNat
      else inStream) with
      data := { inStream.data with
        buflen := wrapSize ((inStream.data.buflen : Int) - (metalen + 1)),
        buffer := (inStream.data.buffer.drop (metalen + 1).toNat).take
                    (wrapSize ((inStream.data.buflen : Int) - (metalen + 1))),
        stale := (inStream.data.buffer ++ inStream.data.stale).drop
                    (wrapSize ((inStream.data.buflen : Int) - (metalen + 1))),
        icyOffset := 0 } }

/-- The removal of the metadata block at the front of the buffer. -/
def icyConsume (inStream : InputStream) : InputStream :=
  dropMetadata inStream (icyMetalen inStream.data.buffer)

/-- The part of `inputStream_httpRead` after the call of
`inputStream_httpBuffer`: the test of the connection state, the removal of a
metadata block and the delivery; `inlen` and `maxToSend` are the values the
function computed on entry. -/
def httpReadPumped (inStream : InputStream) (os : OS) (size : Nat) (inlen maxToSend : Int) :
    ReadResult :=
  let data := inStream.data
  if ¬ ((data.connState = HTTP_CONN_STATE_OPEN ∧
          ¬ (data.prebuffer = true ∨ data.buflen < wrapSize data.icyMetaint)) ∨
        (data.connState = HTTP_CONN_STATE_CLOSED ∧ data.buflen ≠ 0)) then
    { ret := 0, out := [], inStream := inStream, os := os }
  else if data.icyMetaint > 0 then
    if data.icyOffset ≥ data.icyMetaint then
      if wrapSize (icyMetalen data.buffer + 1) > data.buflen then
        if (HTTP_BUFFER_SIZE : Int) < icyMetalen data.buffer + 1 then
          { ret := 0, out := []
            inStream := { inStream with data := { data with
                            connState := HTTP_CONN_STATE_CLOSED, buflen := 0, buffer := [],
                            stale := data.buffer ++ data.stale } }
            os := os.close }
        else { ret := 0, out := [], inStream := inStream, os := os }
      else
        httpDeliver (icyConsume inStream) os size inlen
          (icyMaxToSend (icyConsume inStream).data)
    else httpDeliver inStream os size inlen (icyMaxToSend data)
  else httpDeliver inStream os size inlen maxToSend

/-- Function `inputStream_httpRead`, for a request of `nmemb` elements of
`size` bytes: `inlen` and `maxToSend` are initialised, then the pump runs. -/
def inputStream_httpRead (inStream : InputStream) (os : OS) (size nmemb : Nat) :
    ReadResult :=
  let inlen : Int := wrapLong ((size * nmemb : Nat) : Int)
  let maxToSend : Int := wrapLong (inStream.data.buflen : Int)
  let pumped := inputStream_httpBuffer inStream os
  httpReadPumped pumped.2.1 pumped.2.2 size inlen maxToSend

/-- Function `inputStream_httpClose`: the socket is closed unless the state is
closed; the session data is freed, which leaves the operating system. -/
def inputStream_httpClose (inStream : InputStream) (os : OS) : Int × OS :=
  if inStream.data.connState = HTTP_CONN_STATE_CLOSED then (0, os) else (0, os.close)

/-- Function `inputStream_httpAtEOF`. -/
def inputStream_httpAtEOF (inStream : InputStream) : Int :=
  if inStream.data.connState = HTTP_CONN_STATE_CLOSED then
    if inStream.data.buflen = 0 then 1 else 0
  else 0

/-- Function `inputStream_httpSeek`. -/
def inputStream_httpSeek (_inStream : InputStream) (_offset : Int) (_whence : Int) : Int := -1

/-- Function `inputStream_httpOpen`.  On failure the session data is freed; the
stream is returned with the data as it was when freed. -/
def inputStream_httpOpen (inStream : InputStream) (url : List Char) (os : OS) :
    Int × InputStream × OS :=
  let data := newInputStreamHTTPData
  let inStream := { inStream with data := data }
  let r := parseUrl data url
  let inStream := { inStream with data := r.2 }
  if r.1 < 0 then (-1, inStream, os) else
  let c := initHTTPConnection inStream os
  if c.1 < 0 then (-1, c.2) else (0, c.2)

/-! ## Sessions -/

/-- A stream as it is before `inputStream_httpOpen`: offset and size zero, no
metadata. -/
def exampleStream : InputStream :=
  { offset := 0, size := 0, seekable := false, mime := none, metaName := none,
    metaTitle := none, data := newInputStreamHTTPData }

/-- An operating system with nothing scripted and no socket. -/
def idleOS : OS :=
  { conns := [], inits := [], selects := [], recvs := [], sockOpen := false, log := [] }

/-- The answers of a working network to one connection attempt: the host
resolves, `socket` returns descriptor `3`, `connect` is in progress; then the
socket is writable without error and takes the whole request. -/
def connectingOS (selects : List Ret) (recvs : List RecvAnswer) : OS :=
  { conns := [{ he := some AddrType.AF_INET, ipv6 := false, sockfd := 3,
                connect := { val := -1, errno := Errno.EINPROGRESS } }]
    inits := [{ select := { val := 1, errno := Errno.EOTHER }, soError := 0,
                written := WriteAnswer.all }]
    selects := selects
    recvs := recvs
    sockOpen := false
    log := [] }

/-- The answer of a `select` that reports the socket ready. -/
def selReady : Ret := { val := 1, errno := Errno.EOTHER }

/-- The session states a caller can bring about: a successful
`inputStream_httpOpen`, followed by any number of calls of
`inputStream_httpBuffer` and `inputStream_httpRead`, under any scripted
behaviour of the operating system. -/
inductive Reachable : InputStream → OS → Prop where
  | opened (inStream0 : InputStream) (url : List Char) (os0 : OS) :
      (inputStream_httpOpen inStream0 url os0).1 = 0 →
      Reachable (inputStream_httpOpen inStream0 url os0).2.1
        (inputStream_httpOpen inStream0 url os0).2.2
  | pumped (inStream : InputStream) (os : OS) :
      Reachable inStream os →
      Reachable (inputStream_httpBuffer inStream os).2.1
        (inputStream_httpBuffer inStream os).2.2
  | read (inStream : InputStream) (os : OS) (size nmemb : Nat) :
      Reachable inStream os →
      Reachable (inputStream_httpRead inStream os size nmemb).inStream
        (inputStream_httpRead inStream os size nmemb).os

/-- The session states a caller can bring about with reads it can make: every
read asks for elements of a positive size whose total `size * nmemb`, the
number of bytes the caller's array has room for, is within the range of
`long`. -/
inductive ReachableSized : InputStream → OS → Prop where
  | opened (inStream0 : InputStream) (url : List Char) (os0 : OS) :
      (inputStream_httpOpen inStream0 url os0).1 = 0 →
      ReachableSized (inputStream_httpOpen inStream0 url os0).2.1
        (inputStream_httpOpen inStream0 url os0).2.2
  | pumped (inStream : InputStream) (os : OS) :
      ReachableSized inStream os →
      ReachableSized (inputStream_httpBuffer inStream os).2.1
        (inputStream_httpBuffer inStream os).2.2
  | read (inStream : InputStream) (os : OS) (size nmemb : Nat) :
      0 < size → size * nmemb ≤ 9223372036854775807 →
      ReachableSized inStream os →
      ReachableSized (inputStream_httpRead inStream os size nmemb).inStream
        (inputStream_httpRead inStream os size nmemb).os

/-- The relation between the metadata interval and the offset in it that the
session keeps: the interval is an `int`, the offset is zero until the header
is accepted, and it stays within a positive interval. -/
def IcyOffsetInv (data : InputStreamHTTPData) : Prop :=
  data.icyMetaint ≤ 2147483647 ∧
  (data.connState ≠ HTTP_CONN_STATE_OPEN → data.connState ≠ HTTP_CONN_STATE_CLOSED →
    data.icyOffset = 0) ∧
  (data.icyMetaint > 0 → 0 ≤ data.icyOffset ∧ data.icyOffset ≤ data.icyMetaint)

/-- A peer that sends the response `HTTP/1.1 200 OK`, `Content-Length: 1`, the
body `X` in two segments, the first one ending inside the header, and then
closes the connection. -/
def splitHeaderOS : OS :=
  connectingOS [selReady, selReady]
    [RecvAnswer.bytes "HTTP/1.1 200 OK\r\nContent-Len".toList,
     RecvAnswer.bytes "gth: 1\r\n\r\nX".toList,
     RecvAnswer.bytes []]

/-- The session opened on `http://h/` against `splitHeaderOS`. -/
def splitHeaderOpen : Int × InputStream × OS :=
  inputStream_httpOpen exampleStream "http://h/".toList splitHeaderOS

/-- The first read of 100 bytes (element size 1) of that session. -/
def splitHeaderRead1 : ReadResult :=
  inputStream_httpRead splitHeaderOpen.2.1 splitHeaderOpen.2.2 1 100

/-- The second read of 100 bytes (element size 1) of that session. -/
def splitHeaderRead2 : ReadResult :=
  inputStream_httpRead splitHeaderRead1.inStream splitHeaderRead1.os 1 100

/-- A session on `http://h/` in the open state whose prebuffer flag is clear
and whose buffer holds five bytes. -/
def drainedStream : InputStream :=
  { exampleStream with
      data := { newInputStreamHTTPData with
                  host := some "h".toList, path := some "/".toList, sock := 3,
                  connState := HTTP_CONN_STATE_OPEN,
                  buffer := "abcde".toList, buflen := 5 } }

/-- An operating system whose socket is open and on which ten more bytes have
arrived. -/
def drainedOS : OS :=
  { idleOS with recvs := [RecvAnswer.bytes "0123456789".toList], sockOpen := true }

/-- A network on which two connection attempts succeed and the first server
answers `302 Found` with `Location: http://other/path`. -/
def redirectOS : OS :=
  { conns := [{ he := some AddrType.AF_INET, ipv6 := false, sockfd := 3,
                connect := { val := -1, errno := Errno.EINPROGRESS } },
              { he := some AddrType.AF_INET, ipv6 := false, sockfd := 4,
                connect := { val := -1, errno := Errno.EINPROGRESS } }]
    inits := [{ select := selReady, soError := 0, written := WriteAnswer.all },
              { select := selReady, soError := 0, written := WriteAnswer.all }]
    selects := [selReady]
    recvs := [RecvAnswer.bytes
                "HTTP/1.1 302 Found\r\nLocation: http://other/path\r\n\r\n".toList]
    sockOpen := false
    log := [] }

/-- The session opened on `http://a:8000/x` against `redirectOS`. -/
def redirectOpen : Int × InputStream × OS :=
  inputStream_httpOpen exampleStream "http://a:8000/x".toList redirectOS

/-- The first pump of that session: the request is sent and the redirect is
received. -/
def redirectPump1 : Int × InputStream × OS :=
  inputStream_httpBuffer redirectOpen.2.1 redirectOpen.2.2

/-- The second pump of that session: the reconnect. -/
def redirectPump2 : Int × InputStream × OS :=
  inputStream_httpBuffer redirectPump1.2.1 redirectPump1.2.2

/-! ## The interleaved metadata stream -/

/-- The bytes an answer of the peer carries. -/
def RecvAnswer.payload : RecvAnswer → List Char
  | RecvAnswer.fail _ => []
  | RecvAnswer.bytes bs => bs

/-- The bytes the peer has sent and no `recv` or `read` has taken yet. -/
def OS.pending (os : OS) : List Char :=
  os.recvs.foldr (fun a acc => a.payload ++ acc) []

/-- One period of a stream with interleaved metadata: a segment of audio bytes,
the length byte of the metadata block and the bytes of the block. -/
structure IcyFrame where
  audio : List Char
  len : Char
  text : List Char
  deriving DecidableEq, Repr

/-- The body of a response made of the given periods: every audio segment is
followed by its metadata block. -/
def icyBody : List IcyFrame → List Char
  | [] => []
  | f :: fs => f.audio ++ f.len :: (f.text ++ icyBody fs)

/-- The audio segments of the given periods, in order. -/
def icyAudio : List IcyFrame → List Char
  | [] => []
  | f :: fs => f.audio ++ icyAudio fs

/-- Successive calls of `inputStream_httpRead` with element size 1, one for
each requested count: the bytes returned, concatenated, and the stream and
operating system after the last call. -/
def readRun (inStream : InputStream) (os : OS) : List Nat → List Char × InputStream × OS
  | [] => ([], inStream, os)
  | n :: ns =>
    ((inputStream_httpRead inStream os 1 n).out
        ++ (readRun (inputStream_httpRead inStream os 1 n).inStream
              (inputStream_httpRead inStream os 1 n).os ns).1,
      (readRun (inputStream_httpRead inStream os 1 n).inStream
        (inputStream_httpRead inStream os 1 n).os ns).2)

/-- What is left of a stream with metadata every `m` audio bytes: `IcyRem m off
rest audio` says that `rest`, read from a point where `off` audio bytes have
passed since the last block, is made of audio bytes and whole metadata blocks
(with a length byte below 128) in their places, and carries the audio bytes
`audio`; it may end at any point between two blocks. -/
inductive IcyRem (m : Nat) : Nat → List Char → List Char → Prop where
  | done (off : Nat) : off ≤ m → IcyRem m off [] []
  | audio (off : Nat) (c : Char) (rest audio : List Char) :
      off < m → IcyRem m (off + 1) rest audio → IcyRem m off (c :: rest) (c :: audio)
  | block (c : Char) (text rest audio : List Char) :
      c.toNat < 128 → text.length = c.toNat * 16 → IcyRem m 0 rest audio →
      IcyRem m m (c :: (text ++ rest)) audio

/-- The state of a session that is delivering a stream with metadata every `m`
bytes, of which the audio bytes `audio` are still to be delivered: the header
has been accepted, the buffer holds `buflen` bytes within its capacity, and
the buffered bytes followed by the bytes still to be received are what is left
of the stream at `icyOffset`. -/
def IcyInv (m : Nat) (audio : List Char) (inStream : InputStream) (os : OS) : Prop :=
  inStream.data.icyMetaint = (m : Int) ∧
  inStream.data.buffer.length = inStream.data.buflen ∧
  inStream.data.buflen ≤ HTTP_BUFFER_SIZE - 1 ∧
  (inStream.data.connState = HTTP_CONN_STATE_OPEN ∨
    inStream.data.connState = HTTP_CONN_STATE_CLOSED) ∧
  ∃ off : Nat, inStream.data.icyOffset = (off : Int) ∧
    IcyRem m off (inStream.data.buffer ++ os.pending) audio

/-- A peer that sends the response `ICY 200 OK`, `icy-metaint:2` and a body of
one period whose length byte is 128 (2 audio bytes `ab`, then 2048 bytes `x`
of metadata), and closes the connection. -/
def bigBlockOS : OS :=
  connectingOS [selReady]
    [RecvAnswer.bytes ("ICY 200 OK\r\nicy-metaint:2\r\n\r\nab".toList
        ++ Char.ofNat 128 :: List.replicate 2048 'x'),
     RecvAnswer.bytes []]

/-- The one period that `bigBlockOS` sends. -/
def bigBlockFrames : List IcyFrame :=
  [{ audio := "ab".toList, len := Char.ofNat 128, text := List.replicate 2048 'x' }]

/-- The session opened on `http://h/` against `bigBlockOS`. -/
def bigBlockOpen : Int × InputStream × OS :=
  inputStream_httpOpen exampleStream "http://h/".toList bigBlockOS

/-- A peer that sends the response `ICY 200 OK`, `icy-metaint:10` and a body of
10 audio bytes, a metadata block of length byte 1 (16 bytes `x`) and 10 more
audio bytes, in two segments, and closes the connection. -/
def icyOS : OS :=
  connectingOS [selReady]
    [RecvAnswer.bytes ("ICY 200 OK\r\nicy-metaint:10\r\n\r\n0123456789".toList
        ++ Char.ofNat 1 :: List.replicate 6 'x'),
     RecvAnswer.bytes (List.replicate 10 'x' ++ "abcdefghij".toList),
     RecvAnswer.bytes []]

/-- The one whole period that `icyOS` sends. -/
def icyFrames : List IcyFrame :=
  [{ audio := "0123456789".toList, len := Char.ofNat 1, text := List.replicate 16 'x' }]

/-- The audio that `icyOS` sends after the last metadata block. -/
def icyTail : List Char := "abcdefghij".toList

/-- The session opened on `http://h/` against `icyOS`. -/
def icyOpen : Int × InputStream × OS :=
  inputStream_httpOpen exampleStream "http://h/".toList icyOS

/-- The first pump of that session: the request is sent and the header is
accepted. -/
def icyPump : Int × InputStream × OS :=
  inputStream_httpBuffer icyOpen.2.1 icyOpen.2.2

/-- Whether an answer of `recv` ends the connection: no bytes (the peer has
closed) or an error other than `EAGAIN` and `EINTR`. -/
def RecvAnswer.closes : RecvAnswer → Bool
  | RecvAnswer.fail e => decide (¬ (e = Errno.EAGAIN ∨ e = Errno.EINTR))
  | RecvAnswer.bytes bs => decide (bs.length = 0)

/-- A peer that sends its bytes in any number of segments, with any number of
calls that would block in between, and then ends the connection: the last
answer of the script ends the connection and no earlier one does. -/
def closesAtEnd : List RecvAnswer → Bool
  | [] => false
  | [a] => a.closes
  | a :: b :: rest => !a.closes && closesAtEnd (b :: rest)

/-- The size of a script of answers: one for each answer and one for each byte. -/
def recvWeight : List RecvAnswer → Nat
  | [] => 0
  | a :: rest => 1 + a.payload.length + recvWeight rest

/-- A number of reads of at least one byte that is enough to deliver a whole
stream: two for each answer and byte still to be received, one for each byte
buffered. -/
def readsNeeded (inStream : InputStream) (os : OS) : Nat :=
  2 * recvWeight os.recvs + inStream.data.buflen

/-- The state of a session that is delivering a stream with metadata every `m`
bytes from a peer that ends the connection after the last byte, with an
interval that fits the buffer. -/
def IcyLive (m : Nat) (audio : List Char) (inStream : InputStream) (os : OS) : Prop :=
  IcyInv m audio inStream os ∧ m ≤ HTTP_BUFFER_SIZE - 1 ∧
  ((inStream.data.connState = HTTP_CONN_STATE_OPEN ∧ closesAtEnd os.recvs = true) ∨
    (inStream.data.connState = HTTP_CONN_STATE_CLOSED ∧ os.recvs = []))

/-! ## The header block seen line by line -/

/-- The header lines of a response as they stand in the buffer after the status
line: every line preceded by `\r\n`, then the empty line that ends the
header. -/
def headerLines : List (List Char) → List Char
  | [] => "\r\n\r\n".toList
  | l :: ls => '\r' :: '\n' :: (l ++ headerLines ls)

/-- What one pass of the header loop does with the header line `l`, when `rest`
is the text that follows the line in the buffer (`atol` and `atoi` read on
into it when the line's value has no digit). -/
def headerLine (l rest : List Char) (inStream : InputStream) : InputStream :=
  if "Content-Length: ".toList <+: l then
    (if inStream.size = 0 then { inStream with size := atol (l.drop 16 ++ rest) }
     else inStream)
  else if "icy-metaint:".toList <+: l then
    { inStream with data := { inStream.data with icyMetaint := atoi (l.drop 12 ++ rest) } }
  else if "icy-name:".toList <+: l then
    { inStream with metaName := some ((l.drop 9).dropWhile (fun c => c = ' ')) }
  else if "x-audiocast-name:".toList <+: l then
    { inStream with metaName := some ((l.drop 17).dropWhile (fun c => c = ' ')) }
  else if "Content-Type:".toList <+: l then
    { inStream with mime := some (l.drop 13) }
  else inStream

/-- The header loop seen line by line: `headerLine` for every header line in
turn, `tail` being what follows the header block in the buffer. -/
def headerFold : List (List Char) → List Char → InputStream → InputStream
  | [], _, inStream => inStream
  | l :: ls, tail, inStream =>
    headerFold ls tail (headerLine l (headerLines ls ++ tail) inStream)

/-! ## Sessions that end in an error, a retry or a short stream -/

/-- A peer whose response starts with a status line the source does not know
(`HTTP/2 200 OK`), followed by six more bytes. -/
def rejectedOS : OS :=
  connectingOS [selReady] [RecvAnswer.bytes "HTTP/2 200 OK\r\n\r\nsecret".toList]

/-- The session opened on `http://h/` against `rejectedOS`. -/
def rejectedOpen : Int × InputStream × OS :=
  inputStream_httpOpen exampleStream "http://h/".toList rejectedOS

/-- The first read of 100 bytes (element size 1) of that session. -/
def rejectedRead1 : ReadResult :=
  inputStream_httpRead rejectedOpen.2.1 rejectedOpen.2.2 1 100

/-- The second read of 100 bytes (element size 1) of that session. -/
def rejectedRead2 : ReadResult :=
  inputStream_httpRead rejectedRead1.inStream rejectedRead1.os 1 100

/-- The network of `redirectOS`, on which the host named by the redirect does
not resolve at the first attempt and resolves at the second. -/
def retryOS : OS :=
  { redirectOS with
      conns := [{ he := some AddrType.AF_INET, ipv6 := false, sockfd := 3,
                  connect := { val := -1, errno := Errno.EINPROGRESS } },
                { he := none, ipv6 := false, sockfd := -1,
                  connect := { val := -1, errno := Errno.EOTHER } },
                { he := some AddrType.AF_INET, ipv6 := false, sockfd := 4,
                  connect := { val := -1, errno := Errno.EINPROGRESS } }] }

/-- The session opened on `http://a/x` against `retryOS`. -/
def retryOpen : Int × InputStream × OS :=
  inputStream_httpOpen exampleStream "http://a/x".toList retryOS

/-- The first pump of that session: the request is sent and the redirect is
received. -/
def retryPump1 : Int × InputStream × OS :=
  inputStream_httpBuffer retryOpen.2.1 retryOpen.2.2

/-- The second pump of that session: the host `other` does not resolve. -/
def retryPump2 : Int × InputStream × OS :=
  inputStream_httpBuffer retryPump1.2.1 retryPump1.2.2

/-- The third pump of that session. -/
def retryPump3 : Int × InputStream × OS :=
  inputStream_httpBuffer retryPump2.2.1 retryPump2.2.2

/-- A peer that sends the response `HTTP/1.1 200 OK` with the body `abc` and
closes the connection. -/
def shortOS : OS :=
  connectingOS [selReady]
    [RecvAnswer.bytes "HTTP/1.1 200 OK\r\n\r\nabc".toList, RecvAnswer.bytes []]

/-- The session opened on `http://h/` against `shortOS`. -/
def shortOpen : Int × InputStream × OS :=
  inputStream_httpOpen exampleStream "http://h/".toList shortOS

/-- The first read of 100 bytes (element size 1) of that session. -/
def shortRead1 : ReadResult :=
  inputStream_httpRead shortOpen.2.1 shortOpen.2.2 1 100

/-- The second read of 100 bytes (element size 1) of that session. -/
def shortRead2 : ReadResult :=
  inputStream_httpRead shortRead1.inStream shortRead1.os 1 100

/-- A peer that sends the response `ICY 200 OK`, `icy-metaint:2`, the audio
`ab`, the length byte `len` and three bytes `x`, and closes the connection. -/
def truncatedOS (len : Char) : OS :=
  connectingOS [selReady]
    [RecvAnswer.bytes ("ICY 200 OK\r\nicy-metaint:2\r\n\r\nab".toList ++ len :: "xxx".toList),
     RecvAnswer.bytes []]

/-- The session opened on `http://h/` against `truncatedOS len`. -/
def truncatedOpen (len : Char) : Int × InputStream × OS :=
  inputStream_httpOpen exampleStream "http://h/".toList (truncatedOS len)

/-- The first read of 100 bytes (element size 1) of that session. -/
def truncatedRead1 (len : Char) : ReadResult :=
  inputStream_httpRead (truncatedOpen len).2.1 (truncatedOpen len).2.2 1 100

/-- The pump at the start of the second read of that session. -/
def truncatedPump2 (len : Char) : Int × InputStream × OS :=
  inputStream_httpBuffer (truncatedRead1 len).inStream (truncatedRead1 len).os

/-- The second read of 100 bytes (element size 1) of that session. -/
def truncatedRead2 (len : Char) : ReadResult :=
  inputStream_httpRead (truncatedRead1 len).inStream (truncatedRead1 len).os 1 100

/-- A peer that sends the response `HTTP/1.1 200 OK` with the header lines
`Content-Type: audio/mpeg` and `icy-name: Radio`. -/
def mimeOS : OS :=
  connectingOS [selReady]
    [RecvAnswer.bytes
      "HTTP/1.1 200 OK\r\nContent-Type: audio/mpeg\r\nicy-name: Radio\r\n\r\n".toList]

/-- The session opened on `http://h/` against `mimeOS`. -/
def mimeOpen : Int × InputStream × OS :=
  inputStream_httpOpen exampleStream "http://h/".toList mimeOS

/-- The first pump of that session: the request is sent and the header is
accepted. -/
def mimePump : Int × InputStream × OS :=
  inputStream_httpBuffer mimeOpen.2.1 mimeOpen.2.2

/-- A session that is waiting for the header, with the bytes `buffer`
received so far. -/
def helloState (buffer : List Char) : InputStream :=
  { exampleStream with
      data := { newInputStreamHTTPData with
                  host := some "h".toList, path := some "/".toList, sock := 3,
                  connState := HTTP_CONN_STATE_HELLO,
                  buffer := buffer, buflen := buffer.length } }

/-! ## Sessions for the header, the pump and the request -/

/-- A session that is waiting for the header and has received the start of the
response `HTTP/1.1 200 OK`, `Content-Length: 5`. -/
def partialHello : InputStream := helloState "HTTP/1.1 200 OK\r\nContent-Le".toList

/-- A peer whose next segment holds the rest of that header and the first three
bytes `abc` of the body. -/
def partialHelloOS : OS :=
  { idleOS with selects := [selReady]
                recvs := [RecvAnswer.bytes "ngth: 5\r\n\r\nabc".toList]
                sockOpen := true }

/-- The socket is open exactly in the states in which the session uses it:
connecting, awaiting the header, open. -/
def SockInv (inStream : InputStream) (os : OS) : Prop :=
  os.sockOpen = true ↔
    (inStream.data.connState = HTTP_CONN_STATE_INIT ∨
      inStream.data.connState = HTTP_CONN_STATE_HELLO ∨
      inStream.data.connState = HTTP_CONN_STATE_OPEN)

/-- The discipline a step from `(s, o)` to `(s1, o1)` keeps on the socket: a
step that enters the closed or the reopening state leaves the socket closed,
and a step after which a socket is open that was not open before ends in the
connecting state. -/
def SocketStep (s : InputStream) (o : OS) (s1 : InputStream) (o1 : OS) : Prop :=
  ((s1.data.connState = HTTP_CONN_STATE_CLOSED ∨
        s1.data.connState = HTTP_CONN_STATE_REOPEN) →
      s1.data.connState ≠ s.data.connState → o1.sockOpen = false) ∧
  (o.sockOpen = false → o1.sockOpen = true →
      s1.data.connState = HTTP_CONN_STATE_INIT)

/-- The answer of a `select` that reports nothing within the zero timeout. -/
def selIdle : Ret := { val := 0, errno := Errno.EOTHER }

/-- The answer of a `select` that fails. -/
def selFault : Ret := { val := -1, errno := Errno.EOTHER }

/-- A network on which the connection is in progress and the `select` of the
first `finishHTTPInit` answers `sel`. -/
def pendingOS (sel : Ret) : OS :=
  { connectingOS [] [] with
      inits := [{ select := sel, soError := 0, written := WriteAnswer.all }] }

/-- The session opened on `http://h/` against `pendingOS sel`. -/
def pendingOpen (sel : Ret) : Int × InputStream × OS :=
  inputStream_httpOpen exampleStream "http://h/".toList (pendingOS sel)

/-- The first pump of that session. -/
def pendingPump (sel : Ret) : Int × InputStream × OS :=
  inputStream_httpBuffer (pendingOpen sel).2.1 (pendingOpen sel).2.2

/-- The pump of the session `partialHello` when `select` reports nothing. -/
def idleHelloPump : Int × InputStream × OS :=
  inputStream_httpBuffer partialHello { partialHelloOS with selects := [selIdle] }

/-- The pump of the open session `mimePump` when the read fails with an error
other than `EAGAIN` and `EINTR`. -/
def faultOpenPump : Int × InputStream × OS :=
  inputStream_httpBuffer mimePump.2.1
    { mimePump.2.2 with recvs := [RecvAnswer.fail Errno.EOTHER] }

/-- The pump of the open session `mimePump` when the read would block. -/
def idleOpenPump : Int × InputStream × OS :=
  inputStream_httpBuffer mimePump.2.1
    { mimePump.2.2 with recvs := [RecvAnswer.fail Errno.EAGAIN] }

/-- A peer that sends the response `ICY 200 OK`, `icy-metaint:40000`, then
nothing for a while (the read would block), then the first 35000 bytes of the
body in one segment. -/
def wideOS : OS :=
  connectingOS [selReady]
    [RecvAnswer.bytes "ICY 200 OK\r\nicy-metaint:40000\r\n\r\n".toList,
     RecvAnswer.fail Errno.EAGAIN,
     RecvAnswer.bytes (List.replicate 35000 'x')]

/-- The session opened on `http://h/` against `wideOS`. -/
def wideOpen : Int × InputStream × OS :=
  inputStream_httpOpen exampleStream "http://h/".toList wideOS

/-- The first pump of that session: the request is sent and the header is
accepted. -/
def widePump1 : Int × InputStream × OS :=
  inputStream_httpBuffer wideOpen.2.1 wideOpen.2.2

/-- The second pump of that session: the 35000 bytes are read. -/
def widePump2 : Int × InputStream × OS :=
  inputStream_httpBuffer widePump1.2.1 widePump1.2.2

/-- The first read of 100 bytes (element size 1) of the session `bigBlockOpen`:
the header is accepted, the peer closes, the audio `ab` is returned. -/
def bigBlockRead1 : ReadResult :=
  inputStream_httpRead bigBlockOpen.2.1 bigBlockOpen.2.2 1 100

/-- The pump at the start of the second read of that session. -/
def bigBlockPump2 : Int × InputStream × OS :=
  inputStream_httpBuffer bigBlockRead1.inStream bigBlockRead1.os

/-- The second read of 100 bytes (element size 1) of that session. -/
def bigBlockRead2 : ReadResult :=
  inputStream_httpRead bigBlockRead1.inStream bigBlockRead1.os 1 100

/-- The first read of 100 bytes (element size 1) of the session `icyOpen`: the
header is accepted and the second segment is read; nothing is returned while
the session prebuffers. -/
def icyRead1 : ReadResult :=
  inputStream_httpRead icyOpen.2.1 icyOpen.2.2 1 100

/-- The second read of 100 bytes of that session: the peer has closed, the
first ten audio bytes are returned. -/
def icyRead2 : ReadResult :=
  inputStream_httpRead icyRead1.inStream icyRead1.os 1 100

/-- The pump at the start of the third read of that session. -/
def icyPump3 : Int × InputStream × OS :=
  inputStream_httpBuffer icyRead2.inStream icyRead2.os

/-- The third read of 100 bytes of that session. -/
def icyRead3 : ReadResult :=
  inputStream_httpRead icyRead2.inStream icyRead2.os 1 100

/-- The lines that the format string of `finishHTTPInit` spells out, for the
path, the host and the offset of the session. -/
def requestLines (path host : List Char) (offset : Int) : List (List Char) :=
  ["GET ".toList ++ path ++ " HTTP/1.1".toList,
   "Host: ".toList ++ host,
   "Connection: close".toList,
   "User-Agent: ".toList ++ "httpTest".toList ++ "/".toList ++ "0.0.0".toList,
   "Range: bytes=".toList ++ (toString offset).toList ++ "-".toList,
   "Icy-Metadata:1".toList]

/-- A complete request made of the given lines: each line is ended by `\r\n`
and an empty line closes the request. -/
def requestOfLines (lines : List (List Char)) : List Char :=
  lines.foldr (fun l acc => l ++ "\r\n".toList ++ acc) "\r\n".toList

/-- The lines of the request as the specification words them, with the
`User-Agent` value `agent`: the last line is `Icy-Metadata: 1`. -/
def specRequestLines (path host : List Char) (offset : Int) (agent : List Char) :
    List (List Char) :=
  ["GET ".toList ++ path ++ " HTTP/1.1".toList,
   "Host: ".toList ++ host,
   "Connection: close".toList,
   "User-Agent: ".toList ++ agent,
   "Range: bytes=".toList ++ (toString offset).toList ++ "-".toList,
   "Icy-Metadata: 1".toList]

/-- The session opened on `http://h/` followed by a path of 2100 letters `a`,
on a working network. -/
def longPathOpen : Int × InputStream × OS :=
  inputStream_httpOpen exampleStream ("http://h/".toList ++ List.replicate 2100 'a')
    (connectingOS [] [])

/-! ## String utilities (`util/StringUtil.cxx`) -/

/-- Function `std::copy_n(src, n, dest)` on the memory at `dest`: the first `n`
bytes at `dest` are replaced by the first `n` bytes at `src`. -/
def copy_n (src : List Char) (n : Nat) (dest : List Char) : List Char :=
  src.take n ++ dest.drop n

/-- Function `CopyString`: `dest` and `src` are the bytes of memory from the two
pointers on (the C string at `src` ends at its first NUL); the result is the
memory at `dest` after the call and the offset from `dest` of the pointer
returned.  The subtraction `size - 1` is taken in `size_t`. -/
def CopyString (dest src : List Char) (size : Nat) : List Char × Nat :=
  let length := (cstr src).length
  let length := if length ≥ size then wrapSize ((size : Int) - 1) else length
  let p := length
  ((copy_n src length dest).set p (Char.ofNat 0), p)

/-! ## The openmpt decoder plugin (`decoder/plugins/OpenmptDecoderPlugin.cxx`) -/

def SUBTUNE_PREFIX : List Char := "tune_".toList

def ULONG_MAX : Nat := 18446744073709551615

/-- The structure `OpenmptContainerPath`. -/
structure OpenmptContainerPath where
  path : List Char
  track : Nat
  deriving DecidableEq, Repr

/-- The functions of the repository that the plugin calls and whose code is not
among the sources: `StringAfterPrefix` (`util/StringCompare.hxx`; `none` is
the null pointer), `Path::GetBase` (`none` is a null path) and
`Path::GetDirectoryName` (`fs/Path.hxx`), and `StringFormat<CAPACITY>`
(`util/StringFormat.hxx`), given the capacity and the text that the format and
its arguments spell out.  They are parameters of the plugin's functions. -/
structure PathLib where
  StringAfterPrefix : List Char → List Char → Option (List Char)
  GetBase : List Char → Option (List Char)
  GetDirectoryName : List Char → List Char
  StringFormat : Nat → List Char → List Char

/-- Function `strtoul(s, &endptr, 10)`: white space is skipped, an optional sign
is read, then the longest run of digits; a value beyond the range of
`unsigned long` gives `ULONG_MAX`, and a minus sign negates the value in
`unsigned long`.  The second component is the index `endptr` points at (`0`
when no digits were found). -/
def strtoul (s : List Char) : Nat × Nat :=
  let ws := (s.takeWhile isspace).length
  let s1 := s.drop ws
  let neg : Bool := s1.head? = some '-'
  let sg : Nat := if s1.head? = some '-' ∨ s1.head? = some '+' then 1 else 0
  let ds := (s1.drop sg).takeWhile isdigit
  if ds = [] then (0, 0)
  else
    let v : Nat := digitsValue ds
    (if v > ULONG_MAX then ULONG_MAX else if neg then wrapSize (-(v : Int)) else v,
      ws + sg + ds.length)

/-- Function `ParseSubtuneName`: the `unsigned long` that `strtoul` returns is
converted to `unsigned` (32 bits). -/
def ParseSubtuneName (lib : PathLib) (base : List Char) : Nat :=
  match lib.StringAfterPrefix base SUBTUNE_PREFIX with
  | none => 0
  | some base =>
    if (strtoul base).2 = 0 ∨ (base.drop (strtoul base).2).head? ≠ some '.' then 0
    else (strtoul base).1 % 4294967296

/-- Function `ParseContainerPath` (`NarrowPath` hands the bytes of the path on
as they are). -/
def ParseContainerPath (lib : PathLib) (path_fs : List Char) : OpenmptContainerPath :=
  match lib.GetBase path_fs with
  | none => { path := path_fs, track := 0 }
  | some base =>
    if ParseSubtuneName lib base < 1 then { path := path_fs, track := 0 }
    else { path := lib.GetDirectoryName path_fs,
           track := wrapSize ((ParseSubtuneName lib base : Int) - 1) % 4294967296 }

/-- The conversion `%03u` of `printf`: the decimal digits of the value, padded
with zeros on the left to three characters. -/
def formatU03 (u : Nat) : List Char :=
  List.replicate (3 - (Nat.repr u).toList.length) '0' ++ (Nat.repr u).toList

/-- The name that the loop of `openmpt_container_scan` gives the subsong `i`
of a module of type `ext`:
`StringFormat<32>(SUBTUNE_PREFIX "%03u.%s", i+1, ext.c_str())`; the `int`
`i+1` is printed as an `unsigned`. -/
def subtuneName (lib : PathLib) (i : Int) (ext : List Char) : List Char :=
  lib.StringFormat 32
    (SUBTUNE_PREFIX ++ formatU03 (wrapInt (i + 1) % 4294967296).toNat ++ ".".toList
      ++ cstr ext)

/-- Function `openmpt_container_scan`: the names of the songs of the list it
returns, for a module with `subsongs` subsongs for which the library answers
`type i` to `get_metadata("type")` in the pass for subsong `i`. -/
def openmpt_container_scan (lib : PathLib) (subsongs : Int) (type : Nat → List Char) :
    List (List Char) :=
  if subsongs ≤ 1 then []
  else (List.range subsongs.toNat).map (fun (i : Nat) => subtuneName lib (i : Int) (type i))

/-- The helper functions as their names and their use say, on paths with the
separator `/`: the text after a prefix; the part of a path after its last
separator; the part before it (`.` without a separator, `/` when the
last separator is the first character); the first `capacity - 1` characters of
the formatted text. -/
def posixLib : PathLib where
  StringAfterPrefix s p := if p.isPrefixOf s then some (s.drop p.length) else none
  GetBase p := some (p.reverse.takeWhile (fun c => c != '/')).reverse
  GetDirectoryName p :=
    if '/' ∉ p then ".".toList
    else if (p.reverse.dropWhile (fun c => c != '/')).length = 1 then "/".toList
    else (p.reverse.dropWhile (fun c => c != '/')).reverse.dropLast
  StringFormat capacity text := text.take (capacity - 1)

/-! ## Redirects followed -/

/-- The stream and operating system with which `inputStream_httpBuffer` calls
`getHTTPHello`: what its first two steps leave, when neither fails and the
state is then `HTTP_CONN_STATE_HELLO`; `none` when the pump does not make the
call. -/
def pumpToHello (inStream : InputStream) (os : OS) : Option (InputStream × OS) :=
  let r1 := pumpStage HTTP_CONN_STATE_REOPEN initHTTPConnection inStream os
  if r1.1 < 0 then none else
  let r2 := pumpStage HTTP_CONN_STATE_INIT finishHTTPInit r1.2.1 r1.2.2
  if r2.1 < 0 then none else
  if r2.2.1.data.connState = HTTP_CONN_STATE_HELLO then some r2.2 else none

/-- Whether a call of `inputStream_httpBuffer` follows a redirect: its call of
`getHTTPHello` leaves the session in the state `HTTP_CONN_STATE_REOPEN`, from
which the next pump connects to the location the response named. -/
def followsRedirect (inStream : InputStream) (os : OS) : Bool :=
  match pumpToHello inStream os with
  | none => false
  | some r => decide ((getHTTPHello r.1 r.2).2.1.data.connState = HTTP_CONN_STATE_REOPEN)

/-- The session states a caller can bring about, with the number of redirects
the session has followed: none after `inputStream_httpOpen`, and one more
after every call of `inputStream_httpBuffer`, made by the caller or by
`inputStream_httpRead`, that follows a redirect. -/
inductive Followed : Nat → InputStream → OS → Prop where
  | opened (inStream0 : InputStream) (url : List Char) (os0 : OS) :
      (inputStream_httpOpen inStream0 url os0).1 = 0 →
      Followed 0 (inputStream_httpOpen inStream0 url os0).2.1
        (inputStream_httpOpen inStream0 url os0).2.2
  | pumped (k : Nat) (inStream : InputStream) (os : OS) :
      Followed k inStream os → followsRedirect inStream os = false →
      Followed k (inputStream_httpBuffer inStream os).2.1
        (inputStream_httpBuffer inStream os).2.2
  | redirected (k : Nat) (inStream : InputStream) (os : OS) :
      Followed k inStream os → followsRedirect inStream os = true →
      Followed (k + 1) (inputStream_httpBuffer inStream os).2.1
        (inputStream_httpBuffer inStream os).2.2
  | read (k : Nat) (inStream : InputStream) (os : OS) (size nmemb : Nat) :
      Followed k inStream os → followsRedirect inStream os = false →
      Followed k (inputStream_httpRead inStream os size nmemb).inStream
        (inputStream_httpRead inStream os size nmemb).os
  | readRedirected (k : Nat) (inStream : InputStream) (os : OS) (size nmemb : Nat) :
      Followed k inStream os → followsRedirect inStream os = true →
      Followed (k + 1) (inputStream_httpRead inStream os size nmemb).inStream
        (inputStream_httpRead inStream os size nmemb).os

/-- The response `302 Found` with `Location: http://other/path`. -/
def redirectResponse : List Char :=
  "HTTP/1.1 302 Found\r\nLocation: http://other/path\r\n\r\n".toList

/-- A network on which `n` connection attempts succeed and every server
answers `302 Found` with `Location: http://other/path`. -/
def redirectsOS (n : Nat) : OS :=
  { conns := List.replicate n
      { he := some AddrType.AF_INET, ipv6 := false, sockfd := 3,
        connect := { val := -1, errno := Errno.EINPROGRESS } }
    inits := List.replicate n
      { select := selReady, soError := 0, written := WriteAnswer.all }
    selects := List.replicate n selReady
    recvs := List.replicate n (RecvAnswer.bytes redirectResponse)
    sockOpen := false
    log := [] }

/-- The session opened on `http://a/x` against `redirectsOS 11`, after `n` calls
of `inputStream_httpBuffer`. -/
def redirectsRun : Nat → Int × InputStream × OS
  | 0 => inputStream_httpOpen exampleStream "http://a/x".toList (redirectsOS 11)
  | n + 1 => inputStream_httpBuffer (redirectsRun n).2.1 (redirectsRun n).2.2

/-- The stream and operating system with which the eleventh pump of that
session calls `getHTTPHello`: the connection to the tenth location is made and
the request is sent. -/
def redirectsHello : Int × InputStream × OS :=
  finishHTTPInit (initHTTPConnection (redirectsRun 10).2.1 (redirectsRun 10).2.2).2.1
    (initHTTPConnection (redirectsRun 10).2.1 (redirectsRun 10).2.2).2.2

/-! ## Status lines read by `atoi` -/

theorem strchr_append_of_not_mem (a b : List Char) (c : Char) (h : c ∉ a) :
    strchr (a ++ c :: b) c = some a.length := by
  induction a with
  | nil => simp [strchr]
  | cons x xs ih =>
    have hx : x ≠ c := fun e => h (by simp [e])
    have hxs : c ∉ xs := fun e => h (by simp [e])
    simp [strchr, hx, ih hxs]

theorem strchr_eq_none_of_not_mem (a : List Char) (c : Char) (h : c ∉ a) :
    strchr a c = none := by
  induction a with
  | nil => simp [strchr]
  | cons x xs ih =>
    have hx : x ≠ c := fun e => h (by simp [e])
    have hxs : c ∉ xs := fun e => h (by simp [e])
    simp [strchr, hx, ih hxs]

theorem strncmp_http (t : List Char) :
    strncmp_eq "http://".toList ("http://".toList ++ t) 7 = true := by
  simp [strncmp_eq]

theorem takeWhile_isdigit_append (ds rest : List Char) (hd : ∀ c ∈ ds, isdigit c = true)
    (hr : ∀ c, rest.head? = some c → isdigit c = false) :
    (ds ++ rest).takeWhile isdigit = ds := by
  induction ds with
  | nil =>
    cases rest with
    | nil => simp
    | cons r rs => simp [List.takeWhile, hr r (by simp)]
  | cons x xs ih =>
    have hx : isdigit x = true := hd x (by simp)
    simp [List.takeWhile, hx]
    exact ih (fun c hc => hd c (by simp [hc]))

theorem isdigit_not_special (c : Char) (h : isdigit c = true) :
    isspace c = false ∧ c ≠ '-' ∧ c ≠ '+' ∧ c ≠ '/' ∧ c ≠ ':' := by
  simp only [isdigit, Bool.and_eq_true, decide_eq_true_eq] at h
  refine ⟨?_, ?_, ?_, ?_, ?_⟩
  · simp only [isspace, Bool.or_eq_false_iff, decide_eq_false_iff_not, Bool.and_eq_false_iff]
    omega
  all_goals
    intro e
    subst e
    revert h
    decide

/-- On a non-empty digit string followed by the end of the text or by a
character that is no digit, `strtol` reads exactly the digits. -/
theorem strtol_digits (ds rest : List Char) (hne : ds ≠ [])
    (hd : ∀ c ∈ ds, isdigit c = true)
    (hr : ∀ c, rest.head? = some c → isdigit c = false)
    (hv : (digitsValue ds : Int) ≤ LONG_MAX) :
    strtol (ds ++ rest) = ((digitsValue ds : Int), ds.length) := by
  obtain ⟨d, ds', rfl⟩ := List.exists_cons_of_ne_nil hne
  have hdd := isdigit_not_special d (hd d (by simp))
  have h1 : ((d :: ds') ++ rest).takeWhile isspace = [] := by
    simp [List.takeWhile, hdd.1]
  have h2 := takeWhile_isdigit_append (d :: ds') rest hd hr
  unfold strtol
  simp only [h1, List.length_nil, List.drop_zero]
  have h3 : ((d :: ds') ++ rest).head? = some d := by simp
  have h4 : ¬ (some d = some '-' ∨ some d = some '+') := by
    simp [hdd.2.1, hdd.2.2.1]
  simp only [h3, h4, if_false, List.drop_zero, h2]
  simp [hdd.2.1, min_eq_left hv]

/-! ### URL parsing -/

theorem wrapInt_of_range (x : Int) (h1 : -2147483648 ≤ x) (h2 : x < 2147483648) :
    wrapInt x = x := by
  unfold wrapInt
  omega

/-- Parsing `http://host:digits path`: the general form of the round trip, for
every way of writing the port as a string of digits. -/
theorem parseUrl_host_port_path (data : InputStreamHTTPData) (host ds path : List Char)
    (hne : host ≠ []) (hc : ':' ∉ host) (hs : '/' ∉ host)
    (hdne : ds ≠ []) (hd : ∀ c ∈ ds, isdigit c = true)
    (hp1 : 1 ≤ digitsValue ds) (hp2 : digitsValue ds ≤ 65535)
    (hpath : path.head? = some '/') :
    parseUrl data ("http://".toList ++ (host ++ ':' :: (ds ++ path))) =
      (0, { data with host := some host, port := (digitsValue ds : Int),
                      path := some path }) := by
  obtain ⟨p', rfl⟩ : ∃ p', path = '/' :: p' := by
    cases path with
    | nil => simp at hpath
    | cons a b => simp at hpath; exact ⟨b, by rw [hpath]⟩
  have hdrop : ("http://".toList ++ (host ++ ':' :: (ds ++ '/' :: p'))).drop 7
      = host ++ ':' :: (ds ++ '/' :: p') := by
    simp
  have hcolon : strchr (host ++ ':' :: (ds ++ '/' :: p')) ':' = some host.length :=
    strchr_append_of_not_mem _ _ _ hc
  have hslash : strchr (host ++ ':' :: (ds ++ '/' :: p')) '/'
      = some (host.length + 1 + ds.length) := by
    have hnot : '/' ∉ host ++ ':' :: ds := by
      intro hm
      rcases List.mem_append.1 hm with h | h
      · exact hs h
      · rcases List.mem_cons.1 h with h | h
        · exact absurd h (by decide)
        · exact (isdigit_not_special _ (hd _ h)).2.2.2.1 rfl
    have := strchr_append_of_not_mem (host ++ ':' :: ds) p' '/' hnot
    rw [show host ++ ':' :: (ds ++ '/' :: p') = (host ++ ':' :: ds) ++ '/' :: p' by simp, this]
    simp only [List.length_append, List.length_cons]
    congr 1
    omega
  have hlen : 0 < host.length := List.length_pos.2 hne
  have hdl : 0 < ds.length := List.length_pos.2 hdne
  have hst : strtol (ds ++ '/' :: p') = ((digitsValue ds : Int), ds.length) := by
    apply strtol_digits ds ('/' :: p') hdne hd
    · intro c hc'
      simp at hc'
      subst hc'
      decide
    · simp only [LONG_MAX]
      omega
  have hw : wrapInt (digitsValue ds : Int) = (digitsValue ds : Int) := by
    apply wrapInt_of_range <;> omega
  unfold parseUrl
  simp only [strncmp_http, hdrop, hcolon, hslash]
  have e1 : (host ++ ':' :: (ds ++ '/' :: p')).drop (host.length + 1) = ds ++ '/' :: p' := by
    rw [show host ++ ':' :: (ds ++ '/' :: p') = (host ++ [':']) ++ (ds ++ '/' :: p') by simp]
    exact List.drop_left' (by simp)
  have e2 : (host ++ ':' :: (ds ++ '/' :: p')).drop (host.length + 1 + ds.length) = '/' :: p' := by
    rw [show host ++ ':' :: (ds ++ '/' :: p') = (host ++ ':' :: ds) ++ ('/' :: p') by simp]
    exact List.drop_left' (by simp; omega)
  have e3 : (host ++ ':' :: (ds ++ '/' :: p')).take host.length = host := by
    exact List.take_left' rfl
  have e4 : (ds ++ '/' :: p').drop ds.length = '/' :: p' := List.drop_left' rfl
  have hnle : ¬ (host.length + 1 + ds.length ≤ host.length) := by omega
  have hne2 : host.length + 1 + ds.length ≠ host.length + 1 := by omega
  have hpos : ¬ ((digitsValue ds : Int) ≤ 0) := by omega
  simp [hnle, hne2, e1, e2, e3, e4, hst, hw, hpos]
  exact hne

theorem digitChar_toNat (k : Nat) (h : k < 10) : (Nat.digitChar k).toNat = 48 + k := by
  interval_cases k <;> rfl

theorem digitsValue_snoc (l : List Char) (d : Char) :
    digitsValue (l ++ [d]) = digitsValue l * 10 + (d.toNat - 48) := by
  simp [digitsValue, List.foldl_append]

theorem toDigitsCore_spec (f : Nat) : ∀ (n : Nat) (acc : List Char), n < f →
    ∃ l, Nat.toDigitsCore 10 f n acc = l ++ acc ∧ l ≠ [] ∧
      (∀ c ∈ l, isdigit c = true) ∧ digitsValue l = n := by
  induction f with
  | zero => intro n acc h; omega
  | succ f ih =>
    intro n acc h
    have hk : n % 10 < 10 := Nat.mod_lt _ (by decide)
    have hdig : isdigit (Nat.digitChar (n % 10)) = true := by
      simp only [isdigit, digitChar_toNat _ hk, Bool.and_eq_true, decide_eq_true_eq]
      omega
    by_cases h0 : n / 10 = 0
    · refine ⟨[Nat.digitChar (n % 10)], ?_, by simp, ?_, ?_⟩
      · simp [Nat.toDigitsCore, h0]
      · intro c hc
        simp at hc
        subst hc
        exact hdig
      · simp only [digitsValue, List.foldl_cons, List.foldl_nil, digitChar_toNat _ hk]
        omega
    · obtain ⟨l, hl, _, hd, hv⟩ := ih (n / 10) (Nat.digitChar (n % 10) :: acc) (by omega)
      refine ⟨l ++ [Nat.digitChar (n % 10)], ?_, by simp, ?_, ?_⟩
      · simp [Nat.toDigitsCore, h0, hl]
      · intro c hc
        rcases List.mem_append.1 hc with hc | hc
        · exact hd c hc
        · simp at hc
          subst hc
          exact hdig
      · rw [digitsValue_snoc, hv, digitChar_toNat _ hk]
        omega

/-- The decimal numeral of `p` is a non-empty string of digits with value `p`. -/
theorem repr_digits (p : Nat) :
    (Nat.repr p).toList ≠ [] ∧ (∀ c ∈ (Nat.repr p).toList, isdigit c = true) ∧
      digitsValue (Nat.repr p).toList = p := by
  obtain ⟨l, hl, hne, hd, hv⟩ := toDigitsCore_spec (p + 1) p [] (by omega)
  have e : (Nat.repr p).toList = l := by
    simp [Nat.repr, Nat.toDigits, hl, List.asString]
  rw [e]
  exact ⟨hne, hd, hv⟩

/-- C5. For every non-empty host without `:` and `/`, every port `p` with
`1 ≤ p ≤ 65535` written in decimal and every path that begins with `/`,
`parseUrl` applied to `http://` + host + `:` + p + path succeeds (returns `0`)
and stores exactly that host, that port and that path in the session data,
leaving the other fields as they were. -/
theorem parseUrl_roundtrip (data : InputStreamHTTPData) (host path : List Char) (p : Nat)
    (hne : host ≠ []) (hc : ':' ∉ host) (hs : '/' ∉ host)
    (hp1 : 1 ≤ p) (hp2 : p ≤ 65535) (hpath : path.head? = some '/') :
    parseUrl data ("http://".toList ++ (host ++ ':' :: ((Nat.repr p).toList ++ path))) =
      (0, { data with host := some host, port := (p : Int), path := some path }) := by
  obtain ⟨h1, h2, h3⟩ := repr_digits p
  have := parseUrl_host_port_path data host (Nat.repr p).toList path hne hc hs h1 h2
    (by omega) (by omega) hpath
  rw [h3] at this
  exact this

theorem parseUrl_roundtrip_witness :
    parseUrl newInputStreamHTTPData
        ("http://".toList ++ ("example.org".toList ++ ':' :: ((Nat.repr 8000).toList
          ++ "/stream.ogg".toList))) =
      (0, { newInputStreamHTTPData with host := some "example.org".toList, port := (8000 : Int),
                                        path := some "/stream.ogg".toList }) :=
  parseUrl_roundtrip newInputStreamHTTPData "example.org".toList "/stream.ogg".toList 8000
    (by decide) (by decide) (by decide) (by decide) (by decide) (by decide)

theorem strchr_append_left (a l : List Char) (c : Char) (h : c ∉ a) :
    strchr (a ++ l) c = (strchr l c).map (· + a.length) := by
  induction a with
  | nil => simp
  | cons x xs ih =>
    have hx : x ≠ c := fun e => h (by simp [e])
    have hxs : c ∉ xs := fun e => h (by simp [e])
    have e : strchr (x :: xs ++ l) c = (strchr (xs ++ l) c).map (· + 1) := by
      simp [strchr, hx]
    rw [e, ih hxs]
    cases strchr l c <;> simp [Nat.add_assoc]

theorem strchr_isSome_of_mem (l : List Char) (c : Char) (h : c ∈ l) :
    ∃ k, strchr l c = some k := by
  induction l with
  | nil => simp at h
  | cons x xs ih =>
    by_cases hx : x = c
    · exact ⟨0, by simp [strchr, hx]⟩
    · have : c ∈ xs := by
        rcases List.mem_cons.1 h with h | h
        · exact absurd h.symm hx
        · exact h
      obtain ⟨k, hk⟩ := ih this
      exact ⟨k + 1, by simp [strchr, hx, hk]⟩

/-- C6. `parseUrl` fails (returns `-1`) for every URL `http://` + rest in which
the first `:` of rest comes after its first `/`, and for every URL whose host
part is empty (rest is empty, or begins with `/`, or begins with `:`);
`inputStream_httpOpen` then fails as well. -/
theorem parseUrl_malformed (data : InputStreamHTTPData) (inStream : InputStream) (os : OS)
    (rest : List Char)
    (h : (∃ a b, rest = a ++ '/' :: b ∧ '/' ∉ a ∧ ':' ∉ a ∧ ':' ∈ b) ∨
         rest = [] ∨ rest.head? = some '/' ∨ rest.head? = some ':') :
    (parseUrl data ("http://".toList ++ rest)).1 = -1 ∧
      (inputStream_httpOpen inStream ("http://".toList ++ rest) os).1 = -1 := by
  have key : ∀ d, (parseUrl d ("http://".toList ++ rest)).1 = -1 := by
    intro d
    have hdrop : ("http://".toList ++ rest).drop 7 = rest := by simp
    unfold parseUrl
    simp only [strncmp_http, hdrop]
    rcases h with ⟨a, b, rfl, hs, hc, hcb⟩ | rfl | h | h
    · have h1 : strchr (a ++ '/' :: b) '/' = some a.length :=
        strchr_append_of_not_mem _ _ _ hs
      obtain ⟨k, hk⟩ := strchr_isSome_of_mem b ':' hcb
      have h2 : strchr (a ++ '/' :: b) ':' = some (k + 1 + a.length) := by
        rw [strchr_append_left _ _ _ hc]
        simp [strchr, hk]
      have : a.length ≤ k + 1 + a.length := by omega
      simp [h1, h2, this]
    · simp [strchr]
    · obtain ⟨r, rfl⟩ : ∃ r, rest = '/' :: r := by
        cases rest with
        | nil => simp at h
        | cons x xs => simp at h; exact ⟨xs, by rw [h]⟩
      have h1 : strchr ('/' :: r) '/' = some 0 := by simp [strchr]
      have h2 : strchr ('/' :: r) ':' = (strchr r ':').map (· + 1) := by
        simp [strchr]
      rw [h1, h2]
      cases strchr r ':' <;> simp
    · obtain ⟨r, rfl⟩ : ∃ r, rest = ':' :: r := by
        cases rest with
        | nil => simp at h
        | cons x xs => simp at h; exact ⟨xs, by rw [h]⟩
      have h1 : strchr (':' :: r) ':' = some 0 := by simp [strchr]
      have h2 : strchr (':' :: r) '/' = (strchr r '/').map (· + 1) := by
        simp [strchr]
      rw [h1, h2]
      cases strchr r '/' <;> simp
  refine ⟨key data, ?_⟩
  have hk := key newInputStreamHTTPData
  unfold inputStream_httpOpen
  simp only [hk]
  simp

theorem parseUrl_malformed_witness :
    (parseUrl newInputStreamHTTPData ("http://".toList ++ "host/a:b".toList)).1 = -1 ∧
      (inputStream_httpOpen
        { offset := 0, size := 0, seekable := false, mime := none, metaName := none,
          metaTitle := none, data := newInputStreamHTTPData }
        ("http://".toList ++ "host/a:b".toList)
        { conns := [], inits := [], selects := [], recvs := [], sockOpen := false,
          log := [] }).1 = -1 :=
  parseUrl_malformed _ _ _ "host/a:b".toList
    (Or.inl ⟨"host".toList, "a:b".toList, by decide, by decide, by decide, by decide⟩)

/-- C10. In every session state `inputStream_httpAtEOF` returns true (`1`) if
the connection state is closed and the buffer holds zero bytes, and false
(`0`) in every other state, in particular while the state is closed but
buffered bytes remain. -/
theorem inputStream_httpAtEOF_spec (inStream : InputStream) :
    inputStream_httpAtEOF inStream =
      if inStream.data.connState = HTTP_CONN_STATE_CLOSED ∧ inStream.data.buflen = 0
      then 1 else 0 := by
  unfold inputStream_httpAtEOF
  by_cases h1 : inStream.data.connState = HTTP_CONN_STATE_CLOSED <;>
    by_cases h2 : inStream.data.buflen = 0 <;> simp [h1, h2]

/-! ### The header parser -/

theorem strncmp_eq_iff_prefix (cs lit : List Char) (n : Nat) (h : lit.length = n) :
    strncmp_eq cs lit n = true ↔ lit <+: cs := by
  subst h
  simp only [strncmp_eq, beq_iff_eq, List.take_length]
  rw [List.prefix_iff_eq_take]
  exact eq_comm

theorem not_both_prefix (l1 l2 cs : List Char) (h1 : l1 <+: cs) (h2 : l2 <+: cs)
    (n1 : ¬ l1 <+: l2) (n2 : ¬ l2 <+: l1) : False := by
  rcases List.prefix_or_prefix_of_prefix h1 h2 with h | h
  · exact n1 h
  · exact n2 h

/-- The verdict of the header parser on a complete header block, by the value
of `rc`. -/
theorem helloParse_cases (inStream : InputStream) (os : OS) (needle : Nat)
    (hterm : strstr (cstr inStream.data.buffer) "\r\n\r\n".toList = some needle) :
    (helloStatus (cstr inStream.data.buffer) = none →
      (helloParse inStream os).1 = -1 ∧
        (helloParse inStream os).2.1.data.connState = HTTP_CONN_STATE_CLOSED) ∧
    (∀ rc, helloStatus (cstr inStream.data.buffer) = some rc →
      ((rc = 200 ∨ rc = 206) →
        (helloParse inStream os).1 = 0 ∧
          (helloParse inStream os).2.1.data.connState = HTTP_CONN_STATE_OPEN) ∧
      (¬ (rc = 200 ∨ rc = 206) → (rc = 301 ∨ rc = 302) →
        ((helloParse inStream os).1 = 0 ∧
          (helloParse inStream os).2.1.data.connState = HTTP_CONN_STATE_REOPEN) ∨
        ((helloParse inStream os).1 = -1 ∧
          (helloParse inStream os).2.1.data.connState = HTTP_CONN_STATE_CLOSED)) ∧
      (¬ (rc = 200 ∨ rc = 206) → ¬ (rc = 301 ∨ rc = 302) →
        (helloParse inStream os).1 = -1 ∧
          (helloParse inStream os).2.1.data.connState = HTTP_CONN_STATE_CLOSED)) := by
  have hterm2 : strstr (cstr inStream.data.buffer) ['\r', '\n', '\r', '\n'] = some needle :=
    hterm
  refine ⟨?_, ?_⟩
  · intro h
    simp [helloParse, hterm2, h]
  · intro rc h
    refine ⟨?_, ?_, ?_⟩
    · intro h2
      simp [helloParse, hterm2, h, h2]
    · intro h2 h3
      simp only [helloParse, hterm, h, h2, h3, if_false, if_true]
      split
      · split
        · left; simp
        · right; simp [helloFail]
      · right; simp [helloFail]
    · intro h2 h3
      simp [helloParse, hterm2, h, h2, h3, helloFail]

theorem parseUrl_timesRedirected (data : InputStreamHTTPData) (url : List Char) :
    (parseUrl data url).2.timesRedirected = data.timesRedirected := by
  unfold parseUrl
  dsimp only
  repeat' split
  all_goals rfl

theorem initHTTPConnection_timesRedirected (inStream : InputStream) (os : OS) :
    (initHTTPConnection inStream os).2.1.data.timesRedirected
      = inStream.data.timesRedirected := by
  unfold initHTTPConnection
  dsimp only
  repeat' split
  all_goals rfl

theorem finishHTTPInit_timesRedirected (inStream : InputStream) (os : OS) :
    (finishHTTPInit inStream os).2.1.data.timesRedirected
      = inStream.data.timesRedirected := by
  unfold finishHTTPInit
  dsimp only
  repeat' split
  all_goals rfl

theorem helloField_timesRedirected (p : List Char) (inStream r : InputStream)
    (h : helloField p inStream = some r) :
    r.data.timesRedirected = inStream.data.timesRedirected := by
  unfold helloField at h
  dsimp only at h
  repeat' split at h
  all_goals first
    | (cases h; rfl)
    | (simp at h)

theorem helloFields_timesRedirected (cs : List Char) (needle : Nat) :
    ∀ (fuel : Nat) (cur : Option Nat) (inStream : InputStream),
      (helloFields cs needle fuel cur inStream).data.timesRedirected
        = inStream.data.timesRedirected := by
  intro fuel
  induction fuel with
  | zero => intro cur inStream; rfl
  | succ n ih =>
    intro cur inStream
    cases cur with
    | none => rfl
    | some c =>
      simp only [helloFields]
      split
      · rfl
      · split
        · rfl
        · rename_i r hr
          rw [ih, helloField_timesRedirected _ _ _ hr]

theorem helloParse_timesRedirected (inStream : InputStream) (os : OS) :
    (helloParse inStream os).2.1.data.timesRedirected = inStream.data.timesRedirected ∨
      (inStream.data.timesRedirected < HTTP_REDIRECT_MAX ∧
        (helloParse inStream os).2.1.data.timesRedirected
          = inStream.data.timesRedirected + 1) := by
  unfold helloParse
  dsimp only
  split
  · left; rfl
  · split
    · left; rfl
    · split
      · left
        simp only []
        split <;> simp [helloFields_timesRedirected]
      · split
        · split
          · split
            · rename_i h
              right
              rw [parseUrl_timesRedirected] at h
              exact ⟨h.2, by simp [parseUrl_timesRedirected]⟩
            · left
              simp [helloFail, parseUrl_timesRedirected]
          · left; rfl
        · left; rfl

theorem getHTTPHello_timesRedirected (inStream : InputStream) (os : OS) :
    (getHTTPHello inStream os).2.1.data.timesRedirected = inStream.data.timesRedirected ∨
      (inStream.data.timesRedirected < HTTP_REDIRECT_MAX ∧
        (getHTTPHello inStream os).2.1.data.timesRedirected
          = inStream.data.timesRedirected + 1) := by
  unfold getHTTPHello
  dsimp only
  repeat' split
  all_goals first
    | (left; rfl)
    | exact helloParse_timesRedirected _ _

theorem getHTTPHello_bound (inStream : InputStream) (os : OS)
    (h : inStream.data.timesRedirected ≤ HTTP_REDIRECT_MAX) :
    (getHTTPHello inStream os).2.1.data.timesRedirected ≤ HTTP_REDIRECT_MAX := by
  rcases getHTTPHello_timesRedirected inStream os with e | ⟨h1, e⟩
  · rw [e]; exact h
  · rw [e]; omega

/-- Whatever every part of the pump preserves, the pump preserves. -/
theorem inputStream_httpBuffer_preserves (P : InputStream → OS → Prop)
    (hinit : ∀ s o, P s o → P (initHTTPConnection s o).2.1 (initHTTPConnection s o).2.2)
    (hfinish : ∀ s o, P s o → P (finishHTTPInit s o).2.1 (finishHTTPInit s o).2.2)
    (hhello : ∀ s o, P s o → P (getHTTPHello s o).2.1 (getHTTPHello s o).2.2)
    (hfill : ∀ s o, P s o → P (httpBufferFill s o).2.1 (httpBufferFill s o).2.2)
    (inStream : InputStream) (os : OS) (h : P inStream os) :
    P (inputStream_httpBuffer inStream os).2.1 (inputStream_httpBuffer inStream os).2.2 := by
  have stage : ∀ (st : Nat) (f : InputStream → OS → Int × InputStream × OS),
      (∀ s o, P s o → P (f s o).2.1 (f s o).2.2) →
      ∀ s o, P s o → P (pumpStage st f s o).2.1 (pumpStage st f s o).2.2 := by
    intro st f hf s o hs
    unfold pumpStage
    split
    · exact hf s o hs
    · exact hs
  have b1 := stage HTTP_CONN_STATE_REOPEN _ hinit inStream os h
  have b2 := stage HTTP_CONN_STATE_INIT _ hfinish _ _ b1
  have b3 := stage HTTP_CONN_STATE_HELLO _ hhello _ _ b2
  unfold inputStream_httpBuffer
  dsimp only
  split
  · exact b1
  · split
    · exact b2
    · split
      · exact b3
      · exact hfill _ _ b3

theorem prebufferMark_eq (data : InputStreamHTTPData) :
    ∃ b, prebufferMark data = { data with prebuffer := b } := by
  unfold prebufferMark
  split
  · exact ⟨true, rfl⟩
  · split
    · exact ⟨false, rfl⟩
    · exact ⟨data.prebuffer, rfl⟩

theorem prebufferClear_eq (data : InputStreamHTTPData) :
    ∃ b, prebufferClear data = { data with prebuffer := b } := by
  unfold prebufferClear
  split
  · exact ⟨false, rfl⟩
  · exact ⟨data.prebuffer, rfl⟩

theorem fillRead_timesRedirected (data : InputStreamHTTPData) (os : OS) :
    (fillRead data os).2.1.timesRedirected = data.timesRedirected := by
  unfold fillRead
  repeat' split
  all_goals rfl

theorem httpBufferFill_timesRedirected (inStream : InputStream) (os : OS) :
    (httpBufferFill inStream os).2.1.data.timesRedirected
      = inStream.data.timesRedirected := by
  unfold httpBufferFill
  split
  · rfl
  · obtain ⟨b1, h1⟩ := prebufferMark_eq inStream.data
    obtain ⟨b2, h2⟩ := prebufferClear_eq (fillRead (prebufferMark inStream.data) os).2.1
    show (prebufferClear (fillRead (prebufferMark inStream.data) os).2.1).timesRedirected = _
    rw [h2]
    show (fillRead (prebufferMark inStream.data) os).2.1.timesRedirected = _
    rw [fillRead_timesRedirected, h1]

theorem inputStream_httpBuffer_bound (inStream : InputStream) (os : OS)
    (h : inStream.data.timesRedirected ≤ HTTP_REDIRECT_MAX) :
    (inputStream_httpBuffer inStream os).2.1.data.timesRedirected ≤ HTTP_REDIRECT_MAX := by
  apply inputStream_httpBuffer_preserves
    (fun s _ => s.data.timesRedirected ≤ HTTP_REDIRECT_MAX)
  · intro s o hs
    rw [initHTTPConnection_timesRedirected]; exact hs
  · intro s o hs
    rw [finishHTTPInit_timesRedirected]; exact hs
  · intro s o hs
    exact getHTTPHello_bound s o hs
  · intro s o hs
    rw [httpBufferFill_timesRedirected]; exact hs
  · exact h


/-! ### Frame properties of the read path -/

theorem icyToken_data (inStream : InputStream) (t : List Char) :
    (icyToken inStream t).data = inStream.data := by
  unfold icyToken
  split <;> rfl

theorem parseIcyMetadata_data (inStream : InputStream) (metadata : List Char) (size : Nat) :
    (parseIcyMetadata inStream metadata size).data = inStream.data := by
  unfold parseIcyMetadata
  generalize strtok_r (cstr (metadata.take size)) ';' = toks
  induction toks generalizing inStream with
  | nil => rfl
  | cons t ts ih => simp only [List.foldl_cons, ih, icyToken_data]

theorem deliverBytes_timesRedirected (inStream : InputStream) (tosend : Int) :
    (deliverBytes inStream tosend).data.timesRedirected = inStream.data.timesRedirected :=
  rfl

theorem dropMetadata_timesRedirected (inStream : InputStream) (metalen : Int) :
    (dropMetadata inStream metalen).data.timesRedirected = inStream.data.timesRedirected :=
  rfl

theorem httpDeliver_timesRedirected (inStream : InputStream) (os : OS) (size : Nat)
    (inlen maxToSend : Int) :
    (httpDeliver inStream os size inlen maxToSend).inStream.data.timesRedirected
      = inStream.data.timesRedirected := by
  unfold httpDeliver
  split
  · split
    · rfl
    · exact deliverBytes_timesRedirected _ _
  · split <;> rfl

theorem httpReadPumped_timesRedirected (inStream : InputStream) (os : OS) (size : Nat)
    (inlen maxToSend : Int) :
    (httpReadPumped inStream os size inlen maxToSend).inStream.data.timesRedirected
      = inStream.data.timesRedirected := by
  unfold httpReadPumped
  dsimp only
  repeat' split
  all_goals first
    | rfl
    | exact httpDeliver_timesRedirected _ _ _ _ _

theorem inputStream_httpRead_bound (inStream : InputStream) (os : OS) (size nmemb : Nat)
    (h : inStream.data.timesRedirected ≤ HTTP_REDIRECT_MAX) :
    (inputStream_httpRead inStream os size nmemb).inStream.data.timesRedirected
      ≤ HTTP_REDIRECT_MAX := by
  unfold inputStream_httpRead
  dsimp only
  rw [httpReadPumped_timesRedirected]
  exact inputStream_httpBuffer_bound inStream os h

theorem inputStream_httpOpen_timesRedirected (inStream : InputStream) (url : List Char)
    (os : OS) :
    (inputStream_httpOpen inStream url os).2.1.data.timesRedirected = 0 := by
  unfold inputStream_httpOpen
  dsimp only
  split
  · simp only [parseUrl_timesRedirected]; rfl
  · split
    · simp only [initHTTPConnection_timesRedirected, parseUrl_timesRedirected]; rfl
    · simp only [initHTTPConnection_timesRedirected, parseUrl_timesRedirected]; rfl

theorem Reachable.timesRedirected_le (inStream : InputStream) (os : OS)
    (h : Reachable inStream os) : inStream.data.timesRedirected ≤ HTTP_REDIRECT_MAX := by
  induction h with
  | opened s u o _ =>
    rw [inputStream_httpOpen_timesRedirected]; decide
  | pumped s o _ ih => exact inputStream_httpBuffer_bound s o ih
  | read s o size nmemb _ ih => exact inputStream_httpRead_bound s o size nmemb ih

theorem fillRead_closed (data : InputStreamHTTPData) (os : OS)
    (h : data.connState = HTTP_CONN_STATE_CLOSED) : fillRead data os = (0, data, os) := by
  unfold fillRead
  rw [if_neg]
  rw [h]
  intro hc
  exact absurd hc.1 (by decide)

theorem httpBufferFill_closed (inStream : InputStream) (os : OS)
    (h : inStream.data.connState = HTTP_CONN_STATE_CLOSED) :
    (httpBufferFill inStream os).2.2 = os ∧
      (httpBufferFill inStream os).2.1.data.connState = HTTP_CONN_STATE_CLOSED := by
  obtain ⟨b1, h1⟩ := prebufferMark_eq inStream.data
  have hc : (prebufferMark inStream.data).connState = HTTP_CONN_STATE_CLOSED := by
    rw [h1]; exact h
  have hf := fillRead_closed (prebufferMark inStream.data) os hc
  obtain ⟨b2, h2⟩ := prebufferClear_eq (prebufferMark inStream.data)
  unfold httpBufferFill
  rw [if_neg (fun hn => hn.2 h), hf]
  refine ⟨rfl, ?_⟩
  show (prebufferClear (prebufferMark inStream.data)).connState = _
  rw [h2]
  exact hc

/-- A pump in the closed state makes no system call and stays closed. -/
theorem inputStream_httpBuffer_closed (inStream : InputStream) (os : OS)
    (h : inStream.data.connState = HTTP_CONN_STATE_CLOSED) :
    (inputStream_httpBuffer inStream os).2.2 = os ∧
      (inputStream_httpBuffer inStream os).2.1.data.connState = HTTP_CONN_STATE_CLOSED := by
  have h1 : pumpStage HTTP_CONN_STATE_REOPEN initHTTPConnection inStream os
      = (0, inStream, os) := by
    unfold pumpStage
    rw [if_neg (by rw [h]; decide)]
  have h2 : pumpStage HTTP_CONN_STATE_INIT finishHTTPInit inStream os
      = (0, inStream, os) := by
    unfold pumpStage
    rw [if_neg (by rw [h]; decide)]
  have h3 : pumpStage HTTP_CONN_STATE_HELLO getHTTPHello inStream os
      = (0, inStream, os) := by
    unfold pumpStage
    rw [if_neg (by rw [h]; decide)]
  unfold inputStream_httpBuffer
  simp only [h1, h2, h3, lt_self_iff_false, if_false]
  exact httpBufferFill_closed inStream os h

/-- A complete 301 or 302 response met by the header parser when the counter has
reached `HTTP_REDIRECT_MAX` makes it fail (`-1`): the session is closed, the
socket is closed, the buffer is empty, no connection attempt is taken from the
operating system, and every later pump leaves the operating system untouched
and the session closed. -/
theorem helloParse_redirect_refused (inStream : InputStream) (os : OS) (needle : Nat)
    (hterm : strstr (cstr inStream.data.buffer) "\r\n\r\n".toList = some needle)
    (hpre : "HTTP/1.0 ".toList <+: cstr inStream.data.buffer ∨
        "HTTP/1.1 ".toList <+: cstr inStream.data.buffer)
    (hrc : atoi ((cstr inStream.data.buffer).drop 9) = 301 ∨
        atoi ((cstr inStream.data.buffer).drop 9) = 302)
    (hmax : HTTP_REDIRECT_MAX ≤ inStream.data.timesRedirected) :
    (helloParse inStream os).1 = -1 ∧
      (helloParse inStream os).2.1.data.connState = HTTP_CONN_STATE_CLOSED ∧
      (helloParse inStream os).2.1.data.buflen = 0 ∧
      (helloParse inStream os).2.1.data.buffer = [] ∧
      (helloParse inStream os).2.2.sockOpen = false ∧
      (helloParse inStream os).2.2.conns = os.conns ∧
      ∀ os2, (inputStream_httpBuffer (helloParse inStream os).2.1 os2).2.2 = os2 ∧
        (inputStream_httpBuffer (helloParse inStream os).2.1 os2).2.1.data.connState
          = HTTP_CONN_STATE_CLOSED := by
  have e1 := strncmp_eq_iff_prefix (cstr inStream.data.buffer) "HTTP/1.0 ".toList 9 rfl
  have e2 := strncmp_eq_iff_prefix (cstr inStream.data.buffer) "HTTP/1.1 ".toList 9 rfl
  have hst : helloStatus (cstr inStream.data.buffer)
      = some (atoi ((cstr inStream.data.buffer).drop 9)) := by
    unfold helloStatus
    rcases hpre with h | h
    · rw [if_pos (e1.2 h)]
    · by_cases h0 : strncmp_eq (cstr inStream.data.buffer) "HTTP/1.0 ".toList 9 = true
      · rw [if_pos h0]
      · rw [if_neg h0, if_pos (e2.2 h)]
  have hfail : helloParse inStream os
      = helloFail { inStream with
          seekable := helloSeekable (cstr inStream.data.buffer) inStream.seekable,
          data := (helloParse inStream os).2.1.data } os ∨
      helloParse inStream os
      = helloFail { inStream with
          seekable := helloSeekable (cstr inStream.data.buffer) inStream.seekable } os ∨
      ∃ d, helloParse inStream os
      = helloFail { inStream with
          seekable := helloSeekable (cstr inStream.data.buffer) inStream.seekable,
          data := d } os := by
    right; right
    have hn : ¬ (atoi ((cstr inStream.data.buffer).drop 9) = 200 ∨
        atoi ((cstr inStream.data.buffer).drop 9) = 206) := by omega
    unfold helloParse
    simp only [hterm, hst, hn, hrc, if_false, if_true]
    split
    · rename_i loc _
      have hlt : ¬ ((parseUrl inStream.data
            (List.takeWhile (fun c => c != '\r')
              (List.drop (loc + 10) (cstr inStream.data.buffer)))).1 = 0 ∧
          (parseUrl inStream.data
            (List.takeWhile (fun c => c != '\r')
              (List.drop (loc + 10) (cstr inStream.data.buffer)))).2.timesRedirected
            < HTTP_REDIRECT_MAX) := by
        rw [parseUrl_timesRedirected]
        intro h
        exact absurd h.2 (not_lt.2 hmax)
      rw [if_neg hlt]
      exact ⟨_, rfl⟩
    · exact ⟨_, rfl⟩
  obtain ⟨d, hd⟩ : ∃ d, helloParse inStream os
      = helloFail { inStream with
          seekable := helloSeekable (cstr inStream.data.buffer) inStream.seekable,
          data := d } os := by
    rcases hfail with h | h | h
    · exact ⟨_, h⟩
    · exact ⟨_, h⟩
    · exact h
  rw [hd]
  refine ⟨rfl, rfl, rfl, rfl, rfl, rfl, ?_⟩
  intro os2
  exact inputStream_httpBuffer_closed _ os2 rfl

/-! ### Defects met on concrete runs -/

set_option maxRecDepth 100000

/-- C1. A run the claim covers: the response `HTTP/1.1 200 OK`,
`Content-Length: 1`, body `X`, received in two segments (the first ends inside
the header) before the peer closes.  The open succeeds and the size reported is
1, but the second read of 100 bytes returns 28 elements, not the one body
byte: `maxToSend` was set from `buflen` before the pump, when the buffer held
the 28 header bytes.  After the pump one byte is buffered; the 28 bytes copied
to the caller are the body byte `X` and the 27 bytes that follow it in the
array, which the compaction of the header left there.  The byte counter wraps
and the stream reports no end. -/
theorem splitHeader_read_overruns :
    splitHeaderOpen.1 = 0 ∧
      splitHeaderRead1.ret = 0 ∧
      splitHeaderRead1.out = [] ∧
      splitHeaderRead1.inStream.data.connState = HTTP_CONN_STATE_HELLO ∧
      splitHeaderRead1.inStream.data.buflen = 28 ∧
      (inputStream_httpBuffer splitHeaderRead1.inStream splitHeaderRead1.os).2.1.data.buffer
        = ['X'] ∧
      (inputStream_httpBuffer splitHeaderRead1.inStream splitHeaderRead1.os).2.1.data.buflen
        = 1 ∧
      splitHeaderRead2.inStream.size = 1 ∧
      splitHeaderRead2.ret = 28 ∧
      splitHeaderRead2.out = 'X' :: "TTP/1.1 200 OK\r\nContent-Len".toList ∧
      splitHeaderRead2.out.length = 28 ∧
      splitHeaderRead2.inStream.data.buflen = 18446744073709551589 ∧
      splitHeaderRead2.inStream.data.connState = HTTP_CONN_STATE_CLOSED ∧
      inputStream_httpAtEOF splitHeaderRead2.inStream = 0 := by
  decide

/-- C3. The state after the second read of the run above is reachable and its
byte counter is `2^64 - 27`, far beyond `HTTP_BUFFER_SIZE`: the read removed 28
bytes from a buffer that held one. -/
theorem buflen_exceeds_capacity :
    Reachable splitHeaderRead2.inStream splitHeaderRead2.os ∧
      splitHeaderRead2.inStream.data.buflen = 18446744073709551589 ∧
      HTTP_BUFFER_SIZE < splitHeaderRead2.inStream.data.buflen :=
  ⟨Reachable.read _ _ 1 100
      (Reachable.read _ _ 1 100
        (Reachable.opened exampleStream "http://h/".toList splitHeaderOS (by decide))),
    by decide, by decide⟩

/-- C4. Two reads with element size 1 and `icyMetaint = 0` that reach the
delivery step.  In the open session `drainedStream` the pump brings the buffer
from 5 to 15 bytes, and the read of 100 bytes copies 5 bytes, not
`min(100, 15)`.  In the run of `splitHeaderOS` the buffer holds 1 byte after
the pump, and the read of 100 bytes counts 28 bytes as delivered and advances
the stream offset and `icyOffset` by 28. -/
theorem deliver_uses_stale_bound :
    (inputStream_httpBuffer drainedStream drainedOS).2.1.data.buflen = 15 ∧
      (inputStream_httpBuffer drainedStream drainedOS).2.1.data.icyMetaint = 0 ∧
      (inputStream_httpRead drainedStream drainedOS 1 100).ret = 5 ∧
      (inputStream_httpRead drainedStream drainedOS 1 100).out = "abcde".toList ∧
      (inputStream_httpRead drainedStream drainedOS 1 100).inStream.data.buffer
        = "0123456789".toList ∧
      (inputStream_httpBuffer splitHeaderRead1.inStream splitHeaderRead1.os).2.1.data.buflen
        = 1 ∧
      (inputStream_httpBuffer splitHeaderRead1.inStream
        splitHeaderRead1.os).2.1.data.icyMetaint = 0 ∧
      splitHeaderRead2.ret = 28 ∧
      splitHeaderRead2.inStream.offset = splitHeaderRead1.inStream.offset + 28 ∧
      splitHeaderRead2.inStream.data.icyOffset
        = splitHeaderRead1.inStream.data.icyOffset + 28 := by
  decide

/-- C8. A session opened on `http://a:8000/x` receives `302 Found` with
`Location: http://other/path`.  It ends in the reopening state with an empty
buffer and the counter at 1, host and path are those of the new URL, but the
port is still 8000, while parsing the new URL on its own gives port 80; the
next pump connects to port 8000 of `other`. -/
theorem redirect_keeps_port :
    redirectOpen.1 = 0 ∧
      redirectOpen.2.1.data.port = 8000 ∧
      redirectPump1.2.1.data.connState = HTTP_CONN_STATE_REOPEN ∧
      redirectPump1.2.1.data.buflen = 0 ∧
      redirectPump1.2.1.data.timesRedirected = 1 ∧
      redirectPump1.2.1.data.host = some "other".toList ∧
      redirectPump1.2.1.data.path = some "/path".toList ∧
      redirectPump1.2.1.data.port = 8000 ∧
      (parseUrl newInputStreamHTTPData "http://other/path".toList).2.port = 80 ∧
      (parseUrl newInputStreamHTTPData "http://other/path".toList).2.host
        = some "other".toList ∧
      Call.connect 8000 ∈ redirectPump2.2.2.log.drop 5 := by
  decide

/-! ### Machine arithmetic within range -/

theorem wrapSize_of_range (x : Int) (h1 : 0 ≤ x) (h2 : x < 18446744073709551616) :
    wrapSize x = x.toNat := by
  unfold wrapSize
  omega

theorem wrapSize_cast (n : Nat) (h : n < 18446744073709551616) : wrapSize (n : Int) = n := by
  unfold wrapSize
  omega

theorem wrapLong_of_range (x : Int) (h1 : -9223372036854775808 ≤ x)
    (h2 : x < 9223372036854775808) : wrapLong x = x := by
  unfold wrapLong
  omega

theorem deliverCount_one (n k : Nat) (hn : n < 9223372036854775808)
    (hk : k < 9223372036854775808) :
    deliverCount 1 (n : Int) (k : Int) = some ((min n k : Nat) : Int) := by
  unfold deliverCount
  rw [if_neg (by decide)]
  refine congrArg some ?_
  unfold wrapLong wrapSize
  simp only [Nat.div_one, Nat.mul_one]
  split <;> omega

/-! ### The bytes still to be received -/

theorem OS.recv_fail (os os1 : OS) (len : Nat) (e : Errno)
    (h : os.recv len = (RecvAnswer.fail e, os1)) : os1.pending = os.pending := by
  unfold OS.recv at h
  split at h
  · cases h; rfl
  · rename_i e1 rest hr
    cases h
    simp [OS.pending, hr, RecvAnswer.payload]
  · rename_i bs rest hr
    split at h <;> cases h

theorem OS.recv_bytes (os os1 : OS) (len : Nat) (bs : List Char)
    (h : os.recv len = (RecvAnswer.bytes bs, os1)) :
    bs.length ≤ len ∧ bs ++ os1.pending = os.pending := by
  unfold OS.recv at h
  split at h
  · cases h
  · cases h
  · rename_i bs0 rest hr
    split at h
    · rename_i hle
      cases h
      exact ⟨hle, by simp [OS.pending, hr, RecvAnswer.payload]⟩
    · cases h
      refine ⟨by simp, ?_⟩
      simp only [OS.pending, hr, RecvAnswer.payload, List.foldr_cons]
      rw [← List.append_assoc, List.take_append_drop]

/-! ### What is left of a stream with metadata -/

theorem IcyRem.audio_append (m : Nat) (rest audio : List Char) (h : IcyRem m m rest audio) :
    ∀ (a : List Char) (off : Nat), off + a.length = m →
      IcyRem m off (a ++ rest) (a ++ audio) := by
  intro a
  induction a with
  | nil =>
    intro off ho
    simp at ho
    subst ho
    exact h
  | cons c cs ih =>
    intro off ho
    simp only [List.length_cons] at ho
    exact IcyRem.audio off c _ _ (by omega) (ih (off + 1) (by omega))

theorem IcyRem.of_audio (m : Nat) : ∀ (tail : List Char) (off : Nat),
    off + tail.length ≤ m → IcyRem m off tail tail := by
  intro tail
  induction tail with
  | nil =>
    intro off ho
    exact IcyRem.done off (by simpa using ho)
  | cons c cs ih =>
    intro off ho
    simp only [List.length_cons] at ho
    exact IcyRem.audio off c _ _ (by omega) (ih (off + 1) (by omega))

/-- A body made of whole periods with length bytes below 128, followed by at
most one more segment of audio, is a well-formed stream that carries the audio
segments. -/
theorem IcyRem.of_frames (m : Nat) (frames : List IcyFrame) (tail : List Char)
    (h : ∀ f ∈ frames, f.audio.length = m ∧ f.text.length = f.len.toNat * 16 ∧
      f.len.toNat < 128)
    (ht : tail.length ≤ m) :
    IcyRem m 0 (icyBody frames ++ tail) (icyAudio frames ++ tail) := by
  induction frames with
  | nil => exact IcyRem.of_audio m tail 0 (by omega)
  | cons f fs ih =>
    obtain ⟨h1, h2, h3⟩ := h f (by simp)
    have ih1 := ih (fun g hg => h g (by simp [hg]))
    simp only [icyBody, icyAudio, List.append_assoc, List.cons_append]
    exact IcyRem.audio_append m _ _ (IcyRem.block f.len f.text _ _ h3 h2 ih1) f.audio 0
      (by omega)

theorem IcyRem.off_le (m off : Nat) (rest audio : List Char) (h : IcyRem m off rest audio) :
    off ≤ m := by
  cases h with
  | done off hle => exact hle
  | audio off c r a hlt _ => exact Nat.le_of_lt hlt
  | block c t r a _ _ _ => exact Nat.le_refl _

/-- Taking `t` audio bytes off a well-formed stream. -/
theorem IcyRem.take (m : Nat) : ∀ (t off : Nat) (rest audio : List Char),
    IcyRem m off rest audio → off + t ≤ m → t ≤ rest.length →
    ∃ audio1, audio = rest.take t ++ audio1 ∧ IcyRem m (off + t) (rest.drop t) audio1 := by
  intro t
  induction t with
  | zero =>
    intro off rest audio h _ _
    exact ⟨audio, by simp, by simpa using h⟩
  | succ t ih =>
    intro off rest audio h ho hl
    cases h with
    | done off _ => simp at hl
    | audio off c r a hlt hr =>
      simp only [List.length_cons] at hl
      obtain ⟨a1, ha, hrem⟩ := ih (off + 1) r a hr (by omega) (by omega)
      refine ⟨a1, by simp [ha], ?_⟩
      have e : off + (t + 1) = off + 1 + t := by omega
      rw [e]
      simpa using hrem
    | block c tx r a _ _ _ => omega

/-- At a block boundary a non-empty well-formed stream starts with a whole
block. -/
theorem IcyRem.at_block (m : Nat) (rest audio : List Char)
    (h : IcyRem m m rest audio) (hne : rest ≠ []) :
    ∃ c text rest1, rest = c :: (text ++ rest1) ∧ c.toNat < 128 ∧
      text.length = c.toNat * 16 ∧ IcyRem m 0 rest1 audio := by
  generalize ho : m = off at h
  cases h with
  | done off _ => exact absurd rfl hne
  | audio off c r a hlt _ => omega
  | block c tx r a h1 h2 h3 => exact ⟨c, tx, r, rfl, h1, h2, ho ▸ h3⟩

/-- A well-formed stream that is empty carries no audio. -/
theorem IcyRem.nil_audio (m off : Nat) (audio : List Char) (h : IcyRem m off [] audio) :
    audio = [] := by
  cases h with
  | done off _ => rfl

/-! ### The pump on a session that is delivering -/

theorem OS.close_pending (os : OS) : os.close.pending = os.pending := rfl

theorem fillRead_icy (data : InputStreamHTTPData) (os : OS)
    (hlen : data.buffer.length = data.buflen) (hcap : data.buflen ≤ HTTP_BUFFER_SIZE - 1)
    (hst : data.connState = HTTP_CONN_STATE_OPEN ∨ data.connState = HTTP_CONN_STATE_CLOSED) :
    (fillRead data os).2.1.icyMetaint = data.icyMetaint ∧
      (fillRead data os).2.1.icyOffset = data.icyOffset ∧
      (fillRead data os).2.1.buffer.length = (fillRead data os).2.1.buflen ∧
      (fillRead data os).2.1.buflen ≤ HTTP_BUFFER_SIZE - 1 ∧
      ((fillRead data os).2.1.connState = HTTP_CONN_STATE_OPEN ∨
        (fillRead data os).2.1.connState = HTTP_CONN_STATE_CLOSED) ∧
      (fillRead data os).2.1.buffer ++ (fillRead data os).2.2.pending
        = data.buffer ++ os.pending := by
  unfold fillRead
  split
  · rename_i hopen
    split
    · rename_i e os1 hr
      have hp := OS.recv_fail _ _ _ _ hr
      split
      · exact ⟨rfl, rfl, hlen, hcap, hst, by rw [hp]⟩
      · exact ⟨rfl, rfl, hlen, hcap, Or.inr rfl, by rw [OS.close_pending, hp]⟩
    · rename_i bs os1 hr
      obtain ⟨hl, hp⟩ := OS.recv_bytes _ _ _ _ hr
      split
      · rename_i h0
        have : bs = [] := List.length_eq_zero.1 h0
        subst this
        refine ⟨rfl, rfl, hlen, hcap, Or.inr rfl, ?_⟩
        rw [OS.close_pending]
        show data.buffer ++ os1.pending = _
        rw [← hp]
        rfl
      · refine ⟨rfl, rfl, ?_, ?_, hst, ?_⟩
        · show (data.buffer ++ bs).length = data.buflen + bs.length
          rw [List.length_append, hlen]
        · show data.buflen + bs.length ≤ HTTP_BUFFER_SIZE - 1
          have := hopen.2
          omega
        · show data.buffer ++ bs ++ os1.pending = _
          rw [List.append_assoc, hp]
  · exact ⟨rfl, rfl, hlen, hcap, hst, rfl⟩

theorem inputStream_httpBuffer_delivering (inStream : InputStream) (os : OS)
    (hst : inStream.data.connState = HTTP_CONN_STATE_OPEN ∨
      inStream.data.connState = HTTP_CONN_STATE_CLOSED) :
    inputStream_httpBuffer inStream os = httpBufferFill inStream os := by
  have h1 : pumpStage HTTP_CONN_STATE_REOPEN initHTTPConnection inStream os
      = (0, inStream, os) := by
    unfold pumpStage
    rw [if_neg (by rcases hst with h | h <;> rw [h] <;> decide)]
  have h2 : pumpStage HTTP_CONN_STATE_INIT finishHTTPInit inStream os
      = (0, inStream, os) := by
    unfold pumpStage
    rw [if_neg (by rcases hst with h | h <;> rw [h] <;> decide)]
  have h3 : pumpStage HTTP_CONN_STATE_HELLO getHTTPHello inStream os
      = (0, inStream, os) := by
    unfold pumpStage
    rw [if_neg (by rcases hst with h | h <;> rw [h] <;> decide)]
  unfold inputStream_httpBuffer
  simp only [h1, h2, h3, lt_self_iff_false, if_false]

theorem IcyInv.pump (m : Nat) (audio : List Char) (inStream : InputStream) (os : OS)
    (h : IcyInv m audio inStream os) :
    IcyInv m audio (inputStream_httpBuffer inStream os).2.1
      (inputStream_httpBuffer inStream os).2.2 := by
  obtain ⟨hm, hlen, hcap, hst, off, hoff, hrem⟩ := h
  rw [inputStream_httpBuffer_delivering inStream os hst]
  obtain ⟨b1, h1⟩ := prebufferMark_eq inStream.data
  obtain ⟨b2, h2⟩ := prebufferClear_eq (fillRead (prebufferMark inStream.data) os).2.1
  have hf := fillRead_icy (prebufferMark inStream.data) os
    (by rw [h1]; exact hlen) (by rw [h1]; exact hcap) (by rw [h1]; exact hst)
  obtain ⟨f1, f2, f3, f4, f5, f6⟩ := hf
  have e : httpBufferFill inStream os
      = (if (fillRead (prebufferMark inStream.data) os).1 ≠ 0 then 1 else 0,
          { inStream with
              data := prebufferClear (fillRead (prebufferMark inStream.data) os).2.1 },
          (fillRead (prebufferMark inStream.data) os).2.2) := by
    unfold httpBufferFill
    rw [if_neg]
    intro hn
    rcases hst with h | h
    · exact hn.1 h
    · exact hn.2 h
  rw [e]
  unfold IcyInv
  show (prebufferClear (fillRead (prebufferMark inStream.data) os).2.1).icyMetaint = _ ∧
    (prebufferClear (fillRead (prebufferMark inStream.data) os).2.1).buffer.length
      = (prebufferClear (fillRead (prebufferMark inStream.data) os).2.1).buflen ∧
    (prebufferClear (fillRead (prebufferMark inStream.data) os).2.1).buflen ≤ _ ∧
    ((prebufferClear (fillRead (prebufferMark inStream.data) os).2.1).connState = _ ∨
      (prebufferClear (fillRead (prebufferMark inStream.data) os).2.1).connState = _) ∧
    ∃ off : Nat,
      (prebufferClear (fillRead (prebufferMark inStream.data) os).2.1).icyOffset = _ ∧
      IcyRem m off
        ((prebufferClear (fillRead (prebufferMark inStream.data) os).2.1).buffer
          ++ (fillRead (prebufferMark inStream.data) os).2.2.pending) audio
  rw [h2]
  refine ⟨?_, f3, f4, f5, off, ?_, ?_⟩
  · show (fillRead (prebufferMark inStream.data) os).2.1.icyMetaint = _
    rw [f1, h1]; exact hm
  · show (fillRead (prebufferMark inStream.data) os).2.1.icyOffset = _
    rw [f2, h1]; exact hoff
  · show IcyRem m off ((fillRead (prebufferMark inStream.data) os).2.1.buffer
        ++ (fillRead (prebufferMark inStream.data) os).2.2.pending) audio
    rw [f6, h1]; exact hrem

/-! ### The read on a session that is delivering -/

theorem icyMetalen_cons (c : Char) (rest : List Char) (h : c.toNat < 128) :
    icyMetalen (c :: rest) = ((c.toNat * 16 : Nat) : Int) := by
  unfold icyMetalen charToInt wrapInt
  simp only [List.headD_cons, h, if_true]
  split <;> omega

theorem icyMaxToSend_eq (data : InputStreamHTTPData) (m off : Nat)
    (hm : data.icyMetaint = (m : Int)) (ho : data.icyOffset = (off : Int))
    (hle : off ≤ m) (hm2 : m < 2147483648) (hcap : data.buflen ≤ HTTP_BUFFER_SIZE - 1) :
    icyMaxToSend data = ((min (m - off) data.buflen : Nat) : Int) := by
  have hc : data.buflen ≤ 131071 := hcap
  unfold icyMaxToSend wrapInt wrapSize wrapLong
  rw [hm, ho]
  split <;> omega

theorem deliverBytes_fields (inStream : InputStream) (tosend : Int) :
    (deliverBytes inStream tosend).data.buflen
        = wrapSize ((inStream.data.buflen : Int) - tosend) ∧
      (deliverBytes inStream tosend).data.icyOffset
        = wrapInt (inStream.data.icyOffset + tosend) ∧
      (deliverBytes inStream tosend).data.buffer
        = ((inStream.data.buffer ++ inStream.data.stale).drop (wrapSize tosend)).take
            (wrapSize ((inStream.data.buflen : Int) - tosend)) ∧
      (deliverBytes inStream tosend).data.icyMetaint = inStream.data.icyMetaint ∧
      (deliverBytes inStream tosend).data.connState = inStream.data.connState :=
  ⟨rfl, rfl, rfl, rfl, rfl⟩

theorem dropMetadata_fields (inStream : InputStream) (metalen : Int) :
    (dropMetadata inStream metalen).data.buflen
        = wrapSize ((inStream.data.buflen : Int) - (metalen + 1)) ∧
      (dropMetadata inStream metalen).data.icyOffset = 0 ∧
      (dropMetadata inStream metalen).data.buffer
        = (inStream.data.buffer.drop (metalen + 1).toNat).take
            (wrapSize ((inStream.data.buflen : Int) - (metalen + 1))) ∧
      (dropMetadata inStream metalen).data.icyMetaint = inStream.data.icyMetaint ∧
      (dropMetadata inStream metalen).data.connState = inStream.data.connState :=
  ⟨rfl, rfl, rfl, rfl, rfl⟩

/-- The delivery step on a consistent buffer, for element size 1, a request of
`n` bytes and a bound `k` within the buffered bytes: the first `min n k` bytes
of the buffer are copied out and removed. -/
theorem httpDeliver_one (inStream : InputStream) (os : OS) (n k off : Nat)
    (hlen : inStream.data.buffer.length = inStream.data.buflen)
    (hcap : inStream.data.buflen ≤ HTTP_BUFFER_SIZE - 1)
    (ho : inStream.data.icyOffset = (off : Int))
    (hn : n < 9223372036854775808) (hk : k ≤ inStream.data.buflen)
    (hok : off + k < 2147483648) :
    (httpDeliver inStream os 1 (n : Int) (k : Int)).out
        = inStream.data.buffer.take (min n k) ∧
      (httpDeliver inStream os 1 (n : Int) (k : Int)).ret = min n k ∧
      (httpDeliver inStream os 1 (n : Int) (k : Int)).os = os ∧
      (httpDeliver inStream os 1 (n : Int) (k : Int)).inStream.data.buffer
        = inStream.data.buffer.drop (min n k) ∧
      (httpDeliver inStream os 1 (n : Int) (k : Int)).inStream.data.buflen
        = inStream.data.buflen - min n k ∧
      (httpDeliver inStream os 1 (n : Int) (k : Int)).inStream.data.icyOffset
        = ((off + min n k : Nat) : Int) ∧
      (httpDeliver inStream os 1 (n : Int) (k : Int)).inStream.data.icyMetaint
        = inStream.data.icyMetaint ∧
      (httpDeliver inStream os 1 (n : Int) (k : Int)).inStream.data.connState
        = inStream.data.connState := by
  have hc : inStream.data.buflen ≤ 131071 := hcap
  by_cases hb : inStream.data.buflen > 0
  · have hd := deliverCount_one n k hn (by omega)
    have hw : wrapSize ((min n k : Nat) : Int) = min n k := wrapSize_cast _ (by omega)
    have hw2 : wrapSize ((inStream.data.buflen : Int) - ((min n k : Nat) : Int))
        = inStream.data.buflen - min n k := by
      unfold wrapSize
      omega
    have hw3 : wrapInt ((off : Int) + ((min n k : Nat) : Int)) = ((off + min n k : Nat) : Int) := by
      unfold wrapInt
      omega
    obtain ⟨d1, d2, d3, d4, d5⟩ := deliverBytes_fields inStream ((min n k : Nat) : Int)
    unfold httpDeliver
    rw [if_pos hb, hd]
    refine ⟨?_, ?_, rfl, ?_, ?_, ?_, d4, d5⟩
    · show (inStream.data.buffer ++ inStream.data.stale).take
        (wrapSize ((min n k : Nat) : Int)) = _
      rw [hw]
      exact List.take_append_of_le_length (by rw [hlen]; omega)
    · show wrapSize ((min n k : Nat) : Int) / 1 = _
      rw [hw, Nat.div_one]
    · rw [d3, hw, hw2, List.drop_append_of_le_length (by rw [hlen]; omega),
        List.take_append_of_le_length (by rw [List.length_drop, hlen])]
      apply List.take_of_length_le
      rw [List.length_drop, hlen]
    · rw [d1, hw2]
    · rw [d2, ho, hw3]
  · have hb0 : inStream.data.buflen = 0 := by omega
    have hk0 : min n k = 0 := by omega
    have hnil : inStream.data.buffer = [] := List.length_eq_zero.1 (by rw [hlen, hb0])
    unfold httpDeliver
    rw [if_neg hb, if_neg (by decide), hk0]
    refine ⟨by simp, ?_, rfl, by simp, by simp, by simpa using ho, rfl, rfl⟩
    show wrapSize 0 / 1 = 0
    rfl

/-- The delivery step keeps the session consistent with the stream: what it
copies out is the next audio. -/
theorem IcyInv.deliver (m : Nat) (hm2 : m < 2147483648) (audio : List Char)
    (inStream : InputStream) (os : OS) (n : Nat) (hn : n < 9223372036854775808)
    (h : IcyInv m audio inStream os) :
    ∃ audio1,
      audio = (httpDeliver inStream os 1 (n : Int) (icyMaxToSend inStream.data)).out
        ++ audio1 ∧
      IcyInv m audio1
        (httpDeliver inStream os 1 (n : Int) (icyMaxToSend inStream.data)).inStream
        (httpDeliver inStream os 1 (n : Int) (icyMaxToSend inStream.data)).os := by
  obtain ⟨hm, hlen, hcap, hst, off, hoff, hrem⟩ := h
  have hc : inStream.data.buflen ≤ 131071 := hcap
  have hle := IcyRem.off_le _ _ _ _ hrem
  have hk := icyMaxToSend_eq inStream.data m off hm hoff hle hm2 hcap
  rw [hk]
  obtain ⟨e1, e2, e3, e4, e5, e6, e7, e8⟩ :=
    httpDeliver_one inStream os n (min (m - off) inStream.data.buflen) off hlen hcap hoff hn
      (Nat.min_le_right _ _) (by omega)
  have ht : min n (min (m - off) inStream.data.buflen) ≤ inStream.data.buffer.length := by
    rw [hlen]; omega
  obtain ⟨a1, ha, hr1⟩ := IcyRem.take m (min n (min (m - off) inStream.data.buflen)) off
    (inStream.data.buffer ++ os.pending) audio hrem (by omega)
    (by rw [List.length_append]; omega)
  rw [List.take_append_of_le_length ht] at ha
  rw [List.drop_append_of_le_length ht] at hr1
  refine ⟨a1, by rw [e1]; exact ha, ?_⟩
  refine ⟨by rw [e7]; exact hm, ?_, ?_, by rw [e8]; exact hst, _, e6, ?_⟩
  · rw [e4, e5, List.length_drop, hlen]
  · rw [e5]; omega
  · rw [e4, e3]; exact hr1

/-- At a block boundary with the whole block buffered, removing the block
keeps the session consistent with the stream. -/
theorem IcyInv.consume (m : Nat) (hm : 0 < m) (audio : List Char)
    (inStream : InputStream) (os : OS) (h : IcyInv m audio inStream os)
    (hoff : inStream.data.icyOffset ≥ inStream.data.icyMetaint)
    (hne : inStream.data.buflen ≠ 0)
    (hfit : ¬ wrapSize (icyMetalen inStream.data.buffer + 1) > inStream.data.buflen) :
    IcyInv m audio (icyConsume inStream) os := by
  obtain ⟨hmi, hlen, hcap, hst, off, ho, hrem⟩ := h
  have hc : inStream.data.buflen ≤ 131071 := hcap
  have hle := IcyRem.off_le _ _ _ _ hrem
  have hom : off = m := by
    rw [hmi, ho] at hoff
    omega
  subst hom
  have hbne : inStream.data.buffer ≠ [] := by
    intro e
    rw [e] at hlen
    exact hne hlen.symm
  obtain ⟨c, text, rest1, hr, hc128, htl, hrem1⟩ :=
    IcyRem.at_block off _ _ hrem (by simp [hbne])
  obtain ⟨c0, btail, hb⟩ := List.exists_cons_of_ne_nil hbne
  have hc0 : c0 = c := by
    rw [hb] at hr
    simp only [List.cons_append, List.cons.injEq] at hr
    exact hr.1
  subst hc0
  have hml := icyMetalen_cons c0 btail hc128
  rw [hb] at hr hlen
  rw [hb, hml] at hfit
  have hfit2 : c0.toNat * 16 + 1 ≤ inStream.data.buflen := by
    unfold wrapSize at hfit
    omega
  have hw : wrapSize ((inStream.data.buflen : Int) - (((c0.toNat * 16 : Nat) : Int) + 1))
      = inStream.data.buflen - (c0.toNat * 16 + 1) := by
    unfold wrapSize
    omega
  have hn1 : ((((c0.toNat * 16 : Nat) : Int) + 1)).toNat = c0.toNat * 16 + 1 := by omega
  obtain ⟨d1, d2, d3, d4, d5⟩ := dropMetadata_fields inStream ((c0.toNat * 16 : Nat) : Int)
  have hcons : icyConsume inStream = dropMetadata inStream ((c0.toNat * 16 : Nat) : Int) := by
    unfold icyConsume
    rw [hb, hml]
  rw [hcons]
  have hdl : (inStream.data.buffer.drop (c0.toNat * 16 + 1)).length
      = inStream.data.buflen - (c0.toNat * 16 + 1) := by
    rw [List.length_drop, hb, hlen]
  have hbuf : (dropMetadata inStream ((c0.toNat * 16 : Nat) : Int)).data.buffer
      = inStream.data.buffer.drop (c0.toNat * 16 + 1) := by
    rw [d3, hw, hn1]
    exact List.take_of_length_le (by rw [hdl])
  refine ⟨by rw [d4]; exact hmi, ?_, ?_, by rw [d5]; exact hst, 0, d2, ?_⟩
  · rw [hbuf, d1, hw, hdl]
  · rw [d1, hw]; omega
  · rw [hbuf]
    have hdrop : (inStream.data.buffer ++ os.pending).drop (c0.toNat * 16 + 1)
        = inStream.data.buffer.drop (c0.toNat * 16 + 1) ++ os.pending := by
      apply List.drop_append_of_le_length
      rw [hb, hlen]; exact hfit2
    rw [← hdrop, hb, hr]
    have : (c0 :: (text ++ rest1)).drop (c0.toNat * 16 + 1) = rest1 := by
      simp only [List.drop_succ_cons]
      rw [← htl]
      exact List.drop_left' rfl
    rw [this]
    exact hrem1

/-- At a metadata boundary with bytes buffered, the length byte announces at
most 127 blocks of 16 bytes. -/
theorem IcyInv.metalen_le (m : Nat) (audio : List Char)
    (inStream : InputStream) (os : OS) (h : IcyInv m audio inStream os)
    (hoff : inStream.data.icyOffset ≥ inStream.data.icyMetaint)
    (hne : inStream.data.buflen ≠ 0) :
    icyMetalen inStream.data.buffer ≤ 2040 := by
  obtain ⟨hmi, hlen, hcap, hst, off, ho, hrem⟩ := h
  have hle := IcyRem.off_le _ _ _ _ hrem
  have hom : off = m := by
    rw [hmi, ho] at hoff
    omega
  subst hom
  have hbne : inStream.data.buffer ≠ [] := by
    intro e
    rw [e] at hlen
    exact hne hlen.symm
  obtain ⟨c, text, rest1, hr, hc128, htl, hrem1⟩ :=
    IcyRem.at_block off _ _ hrem (by simp [hbne])
  obtain ⟨c0, btail, hb⟩ := List.exists_cons_of_ne_nil hbne
  have hc0 : c0 = c := by
    rw [hb] at hr
    simp only [List.cons_append, List.cons.injEq] at hr
    exact hr.1
  subst hc0
  rw [hb, icyMetalen_cons c0 btail hc128]
  omega

/-- One read with element size 1 on a session that is delivering a stream
with metadata: the bytes returned are the next audio bytes of the stream. -/
theorem IcyInv.readPumped (m : Nat) (hm : 0 < m) (hm2 : m < 2147483648)
    (audio : List Char) (inStream : InputStream) (os : OS) (n : Nat)
    (hn : n < 9223372036854775808) (maxToSend : Int) (h : IcyInv m audio inStream os) :
    ∃ audio1,
      audio = (httpReadPumped inStream os 1 (n : Int) maxToSend).out ++ audio1 ∧
      IcyInv m audio1 (httpReadPumped inStream os 1 (n : Int) maxToSend).inStream
        (httpReadPumped inStream os 1 (n : Int) maxToSend).os := by
  have hmi := h.1
  have hcap : inStream.data.buflen ≤ 131071 := h.2.2.1
  unfold httpReadPumped
  dsimp only
  split
  · exact ⟨audio, rfl, h⟩
  · rename_i hg
    have hne : inStream.data.buflen ≠ 0 := by
      intro h0
      apply hg
      rintro (⟨_, h2⟩ | ⟨_, h2⟩)
      · apply h2
        right
        rw [h0, hmi]
        unfold wrapSize
        omega
      · exact h2 h0
    have hpos : inStream.data.icyMetaint > 0 := by rw [hmi]; omega
    rw [if_pos hpos]
    split
    · rename_i hoff
      split
      · rename_i hbig
        have hsmall : ¬ ((HTTP_BUFFER_SIZE : Int) < icyMetalen inStream.data.buffer + 1) := by
          have hb : (icyMetalen inStream.data.buffer) ≤ 2147483647 := by
            unfold icyMetalen wrapInt
            split <;> omega
          have hb2 : icyMetalen inStream.data.buffer ≤ 2040 :=
            IcyInv.metalen_le m audio inStream os h hoff hne
          have : (HTTP_BUFFER_SIZE : Int) = 131072 := rfl
          omega
        rw [if_neg hsmall]
        exact ⟨audio, rfl, h⟩
      · rename_i hfit
        exact IcyInv.deliver m hm2 audio _ os n hn
          (IcyInv.consume m hm audio inStream os h hoff hne hfit)
    · exact IcyInv.deliver m hm2 audio inStream os n hn h

theorem IcyInv.read (m : Nat) (hm : 0 < m) (hm2 : m < 2147483648)
    (audio : List Char) (inStream : InputStream) (os : OS) (n : Nat)
    (hn : n < 9223372036854775808) (h : IcyInv m audio inStream os) :
    ∃ audio1,
      audio = (inputStream_httpRead inStream os 1 n).out ++ audio1 ∧
      IcyInv m audio1 (inputStream_httpRead inStream os 1 n).inStream
        (inputStream_httpRead inStream os 1 n).os := by
  have hin : wrapLong ((1 * n : Nat) : Int) = (n : Int) := by
    unfold wrapLong
    omega
  unfold inputStream_httpRead
  dsimp only
  rw [hin]
  exact IcyInv.readPumped m hm hm2 audio _ _ n hn _ (IcyInv.pump m audio inStream os h)

theorem IcyInv.run (m : Nat) (hm : 0 < m) (hm2 : m < 2147483648) :
    ∀ (reqs : List Nat) (audio : List Char) (inStream : InputStream) (os : OS),
      (∀ n ∈ reqs, n < 9223372036854775808) → IcyInv m audio inStream os →
      ∃ audio1, audio = (readRun inStream os reqs).1 ++ audio1 ∧
        IcyInv m audio1 (readRun inStream os reqs).2.1 (readRun inStream os reqs).2.2 := by
  intro reqs
  induction reqs with
  | nil =>
    intro audio inStream os _ h
    exact ⟨audio, rfl, h⟩
  | cons n ns ih =>
    intro audio inStream os hn h
    obtain ⟨a1, ha1, h1⟩ := IcyInv.read m hm hm2 audio inStream os n (hn n (by simp)) h
    obtain ⟨a2, ha2, h2⟩ := ih a1 _ _ (fun k hk => hn k (by simp [hk])) h1
    refine ⟨a2, ?_, h2⟩
    show audio = (inputStream_httpRead inStream os 1 n).out
      ++ (readRun (inputStream_httpRead inStream os 1 n).inStream
            (inputStream_httpRead inStream os 1 n).os ns).1 ++ a2
    rw [List.append_assoc, ← ha2, ← ha1]

/-- When the stream is at its end and every byte sent has been received, no
audio is left to deliver. -/
theorem IcyInv.at_end (m : Nat) (audio : List Char) (inStream : InputStream) (os : OS)
    (h : IcyInv m audio inStream os) (he : inputStream_httpAtEOF inStream = 1)
    (hp : os.pending = []) : audio = [] := by
  obtain ⟨_, hlen, _, _, off, _, hrem⟩ := h
  have hb : inStream.data.buflen = 0 := by
    by_contra hc
    unfold inputStream_httpAtEOF at he
    rw [if_neg hc] at he
    split at he <;> exact absurd he (by decide)
  have hnil : inStream.data.buffer = [] := List.length_eq_zero.1 (by rw [hlen, hb])
  rw [hnil, hp] at hrem
  exact IcyRem.nil_audio m off audio hrem

/-! ### A peer that ends the connection: every stream is delivered whole -/

theorem closesAtEnd_cons (a : RecvAnswer) (rest : List RecvAnswer)
    (h : closesAtEnd (a :: rest) = true) :
    (a.closes = true → rest = []) ∧ (a.closes = false → closesAtEnd rest = true) := by
  cases rest with
  | nil =>
    refine ⟨fun _ => rfl, fun hc => ?_⟩
    simp only [closesAtEnd] at h
    rw [h] at hc
    cases hc
  | cons b r =>
    simp only [closesAtEnd, Bool.and_eq_true, Bool.not_eq_true'] at h
    exact ⟨fun hc => (by rw [h.1] at hc; cases hc), fun _ => h.2⟩

theorem closesAtEnd_weight (l : List RecvAnswer) (h : closesAtEnd l = true) :
    1 ≤ recvWeight l := by
  cases l with
  | nil => cases h
  | cons a rest =>
    unfold recvWeight
    omega

theorem OS.pending_of_recvs_nil (os : OS) (h : os.recvs = []) : os.pending = [] := by
  unfold OS.pending
  rw [h]
  rfl

theorem OS.recv_live_fail (os os1 : OS) (len : Nat) (e : Errno)
    (hl : closesAtEnd os.recvs = true)
    (h : os.recv len = (RecvAnswer.fail e, os1)) :
    ((e = Errno.EAGAIN ∨ e = Errno.EINTR) →
        closesAtEnd os1.recvs = true ∧ recvWeight os1.recvs + 1 ≤ recvWeight os.recvs) ∧
      (¬ (e = Errno.EAGAIN ∨ e = Errno.EINTR) → os1.recvs = []) := by
  unfold OS.recv at h
  split at h
  · rename_i hr
    rw [hr] at hl
    cases hl
  · rename_i e1 rest hr
    cases h
    rw [hr] at hl
    obtain ⟨c1, c2⟩ := closesAtEnd_cons _ _ hl
    constructor
    · intro he
      refine ⟨c2 (by simp [RecvAnswer.closes, he]), ?_⟩
      show recvWeight rest + 1 ≤ recvWeight os.recvs
      rw [hr]
      simp only [recvWeight, RecvAnswer.payload, List.length_nil]
      omega
    · intro he
      exact c1 (by simp [RecvAnswer.closes, he])
  · rename_i bs rest hr
    split at h <;> cases h

theorem OS.recv_live_bytes (os os1 : OS) (len : Nat) (bs : List Char) (hlen : 0 < len)
    (hl : closesAtEnd os.recvs = true)
    (h : os.recv len = (RecvAnswer.bytes bs, os1)) :
    (bs.length = 0 → os1.recvs = []) ∧
      (bs.length ≠ 0 →
        closesAtEnd os1.recvs = true ∧ recvWeight os1.recvs + bs.length ≤ recvWeight os.recvs) := by
  unfold OS.recv at h
  split at h
  · cases h
  · cases h
  · rename_i bs0 rest hr
    rw [hr] at hl
    obtain ⟨c1, c2⟩ := closesAtEnd_cons _ _ hl
    split at h
    · cases h
      constructor
      · intro h0
        exact c1 (by simp [RecvAnswer.closes, h0])
      · intro h0
        refine ⟨c2 (by simp [RecvAnswer.closes, h0]), ?_⟩
        show recvWeight rest + bs.length ≤ recvWeight os.recvs
        rw [hr]
        simp only [recvWeight, RecvAnswer.payload]
        omega
    · rename_i hgt
      cases h
      have hb0 : bs0.length ≠ 0 := by omega
      have hrest := c2 (by simp [RecvAnswer.closes, hb0])
      constructor
      · intro h0
        rw [List.length_take] at h0
        omega
      · intro _
        constructor
        · show closesAtEnd (RecvAnswer.bytes (bs0.drop len) :: rest) = true
          cases rest with
          | nil => cases hrest
          | cons b r =>
            simp only [closesAtEnd, Bool.and_eq_true, Bool.not_eq_true']
            refine ⟨?_, hrest⟩
            simp only [RecvAnswer.closes, List.length_drop, decide_eq_false_iff_not]
            omega
        · show recvWeight (RecvAnswer.bytes (bs0.drop len) :: rest) + (bs0.take len).length
            ≤ recvWeight os.recvs
          rw [hr]
          simp only [recvWeight, RecvAnswer.payload, List.length_drop, List.length_take]
          omega

theorem fillRead_live (data : InputStreamHTTPData) (os : OS)
    (hl : (data.connState = HTTP_CONN_STATE_OPEN ∧ closesAtEnd os.recvs = true) ∨
      (data.connState = HTTP_CONN_STATE_CLOSED ∧ os.recvs = [])) :
    (((fillRead data os).2.1.connState = HTTP_CONN_STATE_OPEN ∧
          closesAtEnd (fillRead data os).2.2.recvs = true) ∨
        ((fillRead data os).2.1.connState = HTTP_CONN_STATE_CLOSED ∧
          (fillRead data os).2.2.recvs = [])) ∧
      2 * recvWeight (fillRead data os).2.2.recvs + (fillRead data os).2.1.buflen
        ≤ 2 * recvWeight os.recvs + data.buflen ∧
      (data.connState = HTTP_CONN_STATE_OPEN → data.buflen < HTTP_BUFFER_SIZE - 1 →
        2 * recvWeight (fillRead data os).2.2.recvs + (fillRead data os).2.1.buflen
          < 2 * recvWeight os.recvs + data.buflen) ∧
      (¬ (data.connState = HTTP_CONN_STATE_OPEN ∧ data.buflen < HTTP_BUFFER_SIZE - 1) →
        fillRead data os = (0, data, os)) := by
  unfold fillRead
  split
  · rename_i hopen
    have hce : closesAtEnd os.recvs = true := by
      rcases hl with h | h
      · exact h.2
      · rw [hopen.1] at h
        exact absurd h.1 (by decide)
    have hw := closesAtEnd_weight _ hce
    have hpos : 0 < HTTP_BUFFER_SIZE - 1 - data.buflen := by
      have := hopen.2
      omega
    split
    · rename_i e os1 hr
      obtain ⟨r1, r2⟩ := OS.recv_live_fail _ _ _ _ hce hr
      split
      · rename_i he
        obtain ⟨r3, r4⟩ := r1 he
        refine ⟨Or.inl ⟨hopen.1, r3⟩, ?_, ?_, ?_⟩
        · show 2 * recvWeight os1.recvs + data.buflen ≤ _
          omega
        · intro _ _
          show 2 * recvWeight os1.recvs + data.buflen < _
          omega
        · intro hn
          exact absurd hopen hn
      · rename_i he
        have r5 : os1.close.recvs = [] := r2 he
        refine ⟨Or.inr ⟨rfl, r5⟩, ?_, ?_, ?_⟩
        · show 2 * recvWeight os1.close.recvs + data.buflen ≤ _
          rw [r5]
          simp only [recvWeight]
          omega
        · intro _ _
          show 2 * recvWeight os1.close.recvs + data.buflen < _
          rw [r5]
          simp only [recvWeight]
          omega
        · intro hn
          exact absurd hopen hn
    · rename_i bs os1 hr
      obtain ⟨r1, r2⟩ := OS.recv_live_bytes _ _ _ _ hpos hce hr
      split
      · rename_i h0
        have r5 : os1.close.recvs = [] := r1 h0
        refine ⟨Or.inr ⟨rfl, r5⟩, ?_, ?_, ?_⟩
        · show 2 * recvWeight os1.close.recvs + data.buflen ≤ _
          rw [r5]
          simp only [recvWeight]
          omega
        · intro _ _
          show 2 * recvWeight os1.close.recvs + data.buflen < _
          rw [r5]
          simp only [recvWeight]
          omega
        · intro hn
          exact absurd hopen hn
      · rename_i h0
        obtain ⟨r3, r4⟩ := r2 h0
        refine ⟨Or.inl ⟨hopen.1, r3⟩, ?_, ?_, ?_⟩
        · show 2 * recvWeight os1.recvs + (data.buflen + bs.length) ≤ _
          omega
        · intro _ _
          show 2 * recvWeight os1.recvs + (data.buflen + bs.length) < _
          omega
        · intro hn
          exact absurd hopen hn
  · rename_i hn
    exact ⟨hl, Nat.le_refl _, fun h1 h2 => absurd ⟨h1, h2⟩ hn, fun _ => rfl⟩

theorem prebufferClear_full (data : InputStreamHTTPData)
    (h : data.buflen = HTTP_BUFFER_SIZE - 1) : (prebufferClear data).prebuffer = false := by
  unfold prebufferClear
  rw [if_pos (by rw [h]; decide)]

/-- The pump on a session that is delivering from a peer that ends the
connection: it takes an answer of the peer, or the connection is closed, or
the buffer is full and the prebuffer flag is down. -/
theorem IcyLive.pump_progress (m : Nat) (audio : List Char) (inStream : InputStream) (os : OS)
    (h : IcyLive m audio inStream os) :
    IcyLive m audio (inputStream_httpBuffer inStream os).2.1
        (inputStream_httpBuffer inStream os).2.2 ∧
      readsNeeded (inputStream_httpBuffer inStream os).2.1
          (inputStream_httpBuffer inStream os).2.2 ≤ readsNeeded inStream os ∧
      (readsNeeded (inputStream_httpBuffer inStream os).2.1
          (inputStream_httpBuffer inStream os).2.2 < readsNeeded inStream os ∨
        (inputStream_httpBuffer inStream os).2.1.data.connState = HTTP_CONN_STATE_CLOSED ∨
        ((inputStream_httpBuffer inStream os).2.1.data.prebuffer = false ∧
          (inputStream_httpBuffer inStream os).2.1.data.buflen = HTTP_BUFFER_SIZE - 1)) := by
  obtain ⟨hinv, hmcap, hl⟩ := h
  have hp := IcyInv.pump m audio inStream os hinv
  obtain ⟨_, _, hcap, hst, _⟩ := hinv
  rw [inputStream_httpBuffer_delivering inStream os hst] at hp ⊢
  have e : httpBufferFill inStream os
      = (if (fillRead (prebufferMark inStream.data) os).1 ≠ 0 then 1 else 0,
          { inStream with
              data := prebufferClear (fillRead (prebufferMark inStream.data) os).2.1 },
          (fillRead (prebufferMark inStream.data) os).2.2) := by
    unfold httpBufferFill
    rw [if_neg]
    intro hn
    rcases hst with h | h
    · exact hn.1 h
    · exact hn.2 h
  rw [e] at hp ⊢
  obtain ⟨b1, h1⟩ := prebufferMark_eq inStream.data
  obtain ⟨b2, h2⟩ := prebufferClear_eq (fillRead (prebufferMark inStream.data) os).2.1
  have hD1 : (prebufferMark inStream.data).connState = inStream.data.connState := by rw [h1]
  have hD2 : (prebufferMark inStream.data).buflen = inStream.data.buflen := by rw [h1]
  have hC1 : (prebufferClear (fillRead (prebufferMark inStream.data) os).2.1).connState
      = (fillRead (prebufferMark inStream.data) os).2.1.connState := by rw [h2]
  have hC2 : (prebufferClear (fillRead (prebufferMark inStream.data) os).2.1).buflen
      = (fillRead (prebufferMark inStream.data) os).2.1.buflen := by rw [h2]
  obtain ⟨f1, f2, f3, f4⟩ := fillRead_live (prebufferMark inStream.data) os
    (by rw [hD1]; exact hl)
  rw [hD1, hD2] at f3 f4
  rw [hD2] at f2
  refine ⟨⟨hp, hmcap, ?_⟩, ?_, ?_⟩
  · show ((prebufferClear (fillRead (prebufferMark inStream.data) os).2.1).connState = _ ∧ _) ∨
      ((prebufferClear (fillRead (prebufferMark inStream.data) os).2.1).connState = _ ∧ _)
    rw [hC1]
    exact f1
  · show 2 * recvWeight (fillRead (prebufferMark inStream.data) os).2.2.recvs
        + (prebufferClear (fillRead (prebufferMark inStream.data) os).2.1).buflen
      ≤ 2 * recvWeight os.recvs + inStream.data.buflen
    rw [hC2]
    exact f2
  · show 2 * recvWeight (fillRead (prebufferMark inStream.data) os).2.2.recvs
          + (prebufferClear (fillRead (prebufferMark inStream.data) os).2.1).buflen
        < 2 * recvWeight os.recvs + inStream.data.buflen ∨
      (prebufferClear (fillRead (prebufferMark inStream.data) os).2.1).connState
        = HTTP_CONN_STATE_CLOSED ∨
      ((prebufferClear (fillRead (prebufferMark inStream.data) os).2.1).prebuffer = false ∧
        (prebufferClear (fillRead (prebufferMark inStream.data) os).2.1).buflen
          = HTTP_BUFFER_SIZE - 1)
    rw [hC1, hC2]
    by_cases hgo : inStream.data.connState = HTTP_CONN_STATE_OPEN ∧
        inStream.data.buflen < HTTP_BUFFER_SIZE - 1
    · exact Or.inl (f3 hgo.1 hgo.2)
    · have hid := f4 hgo
      rw [hid]
      rcases hst with hs | hs
      · have hfull : inStream.data.buflen = HTTP_BUFFER_SIZE - 1 := by
          have : ¬ inStream.data.buflen < HTTP_BUFFER_SIZE - 1 := fun hh => hgo ⟨hs, hh⟩
          omega
        exact Or.inr (Or.inr ⟨prebufferClear_full _ (by rw [hD2]; exact hfull),
          by rw [hD2]; exact hfull⟩)
      · exact Or.inr (Or.inl (by rw [hD1]; exact hs))

theorem IcyInv.deliver_progress (m : Nat) (hm2 : m < 2147483648) (audio : List Char)
    (inStream : InputStream) (os : OS) (n : Nat) (hn : n < 9223372036854775808)
    (h : IcyInv m audio inStream os) :
    (httpDeliver inStream os 1 (n : Int) (icyMaxToSend inStream.data)).os = os ∧
      (httpDeliver inStream os 1 (n : Int) (icyMaxToSend inStream.data)).inStream.data.connState
        = inStream.data.connState ∧
      (httpDeliver inStream os 1 (n : Int) (icyMaxToSend inStream.data)).inStream.data.buflen
        ≤ inStream.data.buflen ∧
      (1 ≤ n → inStream.data.icyOffset < inStream.data.icyMetaint →
        inStream.data.buflen ≠ 0 →
        (httpDeliver inStream os 1 (n : Int) (icyMaxToSend inStream.data)).inStream.data.buflen
          < inStream.data.buflen) := by
  obtain ⟨hm, hlen, hcap, hst, off, hoff, hrem⟩ := h
  have hc : inStream.data.buflen ≤ 131071 := hcap
  have hle := IcyRem.off_le _ _ _ _ hrem
  have hk := icyMaxToSend_eq inStream.data m off hm hoff hle hm2 hcap
  rw [hk]
  obtain ⟨e1, e2, e3, e4, e5, e6, e7, e8⟩ :=
    httpDeliver_one inStream os n (min (m - off) inStream.data.buflen) off hlen hcap hoff hn
      (Nat.min_le_right _ _) (by omega)
  refine ⟨e3, e8, by rw [e5]; omega, ?_⟩
  intro h1 h2 h3
  rw [hm, hoff] at h2
  rw [e5]
  omega

/-- At a block boundary with bytes buffered, the buffer starts with the length
byte of a block of the stream. -/
theorem IcyInv.at_boundary (m : Nat) (audio : List Char)
    (inStream : InputStream) (os : OS) (h : IcyInv m audio inStream os)
    (hoff : inStream.data.icyOffset ≥ inStream.data.icyMetaint)
    (hne : inStream.data.buflen ≠ 0) :
    ∃ c text rest1, inStream.data.buffer ++ os.pending = c :: (text ++ rest1) ∧
      c.toNat < 128 ∧ text.length = c.toNat * 16 ∧
      icyMetalen inStream.data.buffer = ((c.toNat * 16 : Nat) : Int) := by
  obtain ⟨hmi, hlen, hcap, hst, off, ho, hrem⟩ := h
  have hle := IcyRem.off_le _ _ _ _ hrem
  have hom : off = m := by
    rw [hmi, ho] at hoff
    omega
  subst hom
  have hbne : inStream.data.buffer ≠ [] := by
    intro e
    rw [e] at hlen
    exact hne hlen.symm
  obtain ⟨c, text, rest1, hr, hc128, htl, hrem1⟩ :=
    IcyRem.at_block off _ _ hrem (by simp [hbne])
  obtain ⟨c0, btail, hb⟩ := List.exists_cons_of_ne_nil hbne
  have hc0 : c0 = c := by
    rw [hb] at hr
    simp only [List.cons_append, List.cons.injEq] at hr
    exact hr.1
  subst hc0
  refine ⟨c0, text, rest1, hr, hc128, htl, ?_⟩
  rw [hb, icyMetalen_cons c0 btail hc128]

theorem IcyInv.consume_progress (m : Nat) (audio : List Char)
    (inStream : InputStream) (os : OS) (h : IcyInv m audio inStream os)
    (hoff : inStream.data.icyOffset ≥ inStream.data.icyMetaint)
    (hne : inStream.data.buflen ≠ 0)
    (hfit : ¬ wrapSize (icyMetalen inStream.data.buffer + 1) > inStream.data.buflen) :
    (icyConsume inStream).data.buflen < inStream.data.buflen ∧
      (icyConsume inStream).data.connState = inStream.data.connState := by
  obtain ⟨c, text, rest1, hr, hc128, htl, hml⟩ :=
    IcyInv.at_boundary m audio inStream os h hoff hne
  have hc : inStream.data.buflen ≤ 131071 := h.2.2.1
  rw [hml] at hfit
  have hfit2 : c.toNat * 16 + 1 ≤ inStream.data.buflen := by
    unfold wrapSize at hfit
    omega
  have hw : wrapSize ((inStream.data.buflen : Int) - (((c.toNat * 16 : Nat) : Int) + 1))
      = inStream.data.buflen - (c.toNat * 16 + 1) := by
    unfold wrapSize
    omega
  obtain ⟨d1, d2, d3, d4, d5⟩ := dropMetadata_fields inStream ((c.toNat * 16 : Nat) : Int)
  have hcons : icyConsume inStream = dropMetadata inStream ((c.toNat * 16 : Nat) : Int) := by
    unfold icyConsume
    rw [hml]
  rw [hcons, d1, hw]
  exact ⟨by omega, d5⟩

/-- Once the connection is closed and every byte has been received, a block at
the front of the buffer is there whole; so is it when the buffer is full. -/
theorem IcyInv.block_fits (m : Nat) (audio : List Char)
    (inStream : InputStream) (os : OS) (h : IcyInv m audio inStream os)
    (hoff : inStream.data.icyOffset ≥ inStream.data.icyMetaint)
    (hne : inStream.data.buflen ≠ 0)
    (hall : os.pending = [] ∨ inStream.data.buflen = HTTP_BUFFER_SIZE - 1) :
    ¬ wrapSize (icyMetalen inStream.data.buffer + 1) > inStream.data.buflen := by
  obtain ⟨c, text, rest1, hr, hc128, htl, hml⟩ :=
    IcyInv.at_boundary m audio inStream os h hoff hne
  have hlen := h.2.1
  rw [hml]
  rcases hall with hp | hfull
  · rw [hp, List.append_nil] at hr
    have hl : inStream.data.buflen = 1 + (c.toNat * 16 + rest1.length) := by
      rw [← hlen, hr, List.length_cons, List.length_append, htl]
      omega
    unfold wrapSize
    omega
  · have hf : inStream.data.buflen = 131071 := hfull
    unfold wrapSize
    omega

/-- The part of a read after the pump, on a session that is delivering from a
peer that ends the connection: nothing is received, the connection state
stays, and the buffer shrinks when the connection is closed with bytes
buffered or when the buffer is full with the prebuffer flag down. -/
theorem IcyLive.readPumped_progress (m : Nat) (hm : 0 < m) (hm2 : m < 2147483648)
    (audio : List Char) (inStream : InputStream) (os : OS) (n : Nat) (h1 : 1 ≤ n)
    (hn : n < 9223372036854775808) (maxToSend : Int) (h : IcyLive m audio inStream os) :
    (httpReadPumped inStream os 1 (n : Int) maxToSend).os = os ∧
      (httpReadPumped inStream os 1 (n : Int) maxToSend).inStream.data.connState
        = inStream.data.connState ∧
      (httpReadPumped inStream os 1 (n : Int) maxToSend).inStream.data.buflen
        ≤ inStream.data.buflen ∧
      ((inStream.data.connState = HTTP_CONN_STATE_CLOSED ∧ inStream.data.buflen ≠ 0) ∨
          (inStream.data.prebuffer = false ∧ inStream.data.buflen = HTTP_BUFFER_SIZE - 1) →
        (httpReadPumped inStream os 1 (n : Int) maxToSend).inStream.data.buflen
          < inStream.data.buflen) := by
  obtain ⟨hinv, hmcap, hl⟩ := h
  have hmi := hinv.1
  have hcap : inStream.data.buflen ≤ 131071 := hinv.2.2.1
  have hmc : m ≤ 131071 := hmcap
  have hst := hinv.2.2.2.1
  have hgate : (inStream.data.connState = HTTP_CONN_STATE_CLOSED ∧ inStream.data.buflen ≠ 0) ∨
      (inStream.data.prebuffer = false ∧ inStream.data.buflen = HTTP_BUFFER_SIZE - 1) →
      ((inStream.data.connState = HTTP_CONN_STATE_OPEN ∧
          ¬ (inStream.data.prebuffer = true ∨
              inStream.data.buflen < wrapSize inStream.data.icyMetaint)) ∨
        (inStream.data.connState = HTTP_CONN_STATE_CLOSED ∧ inStream.data.buflen ≠ 0)) := by
    rintro (hc | ⟨hp, hf⟩)
    · exact Or.inr hc
    · have hf2 : inStream.data.buflen = 131071 := hf
      rcases hst with hs | hs
      · refine Or.inl ⟨hs, ?_⟩
        rintro (hpt | hlt)
        · rw [hp] at hpt
          cases hpt
        · rw [hmi] at hlt
          unfold wrapSize at hlt
          omega
      · exact Or.inr ⟨hs, by omega⟩
  have hall : (inStream.data.connState = HTTP_CONN_STATE_CLOSED ∧ inStream.data.buflen ≠ 0) ∨
      (inStream.data.prebuffer = false ∧ inStream.data.buflen = HTTP_BUFFER_SIZE - 1) →
      (os.pending = [] ∨ inStream.data.buflen = HTTP_BUFFER_SIZE - 1) := by
    rintro (hc | ⟨_, hf⟩)
    · rcases hl with hl | hl
      · rw [hc.1] at hl
        exact absurd hl.1 (by decide)
      · exact Or.inl (OS.pending_of_recvs_nil os hl.2)
    · exact Or.inr hf
  unfold httpReadPumped
  dsimp only
  split
  · rename_i hg
    exact ⟨rfl, rfl, Nat.le_refl _, fun hs => absurd (hgate hs) hg⟩
  · rename_i hg
    have hne : inStream.data.buflen ≠ 0 := by
      intro h0
      apply hg
      rintro (⟨_, h2⟩ | ⟨_, h2⟩)
      · apply h2
        right
        rw [h0, hmi]
        unfold wrapSize
        omega
      · exact h2 h0
    have hpos : inStream.data.icyMetaint > 0 := by rw [hmi]; omega
    rw [if_pos hpos]
    split
    · rename_i hoff
      split
      · rename_i hbig
        have hsmall : ¬ ((HTTP_BUFFER_SIZE : Int) < icyMetalen inStream.data.buffer + 1) := by
          have hb2 : icyMetalen inStream.data.buffer ≤ 2040 :=
            IcyInv.metalen_le m audio inStream os hinv hoff hne
          have : (HTTP_BUFFER_SIZE : Int) = 131072 := rfl
          omega
        rw [if_neg hsmall]
        exact ⟨rfl, rfl, Nat.le_refl _, fun hs =>
          absurd hbig (IcyInv.block_fits m audio inStream os hinv hoff hne (hall hs))⟩
      · rename_i hfit
        obtain ⟨c1, c2⟩ := IcyInv.consume_progress m audio inStream os hinv hoff hne hfit
        obtain ⟨d1, d2, d3, _⟩ := IcyInv.deliver_progress m hm2 audio _ os n hn
          (IcyInv.consume m hm audio inStream os hinv hoff hne hfit)
        exact ⟨d1, by rw [d2, c2], by omega, fun _ => by omega⟩
    · rename_i hoff
      obtain ⟨d1, d2, d3, d4⟩ := IcyInv.deliver_progress m hm2 audio inStream os n hn hinv
      exact ⟨d1, d2, d3, fun _ => d4 h1 (by omega) hne⟩

/-- One read of at least one byte on a session that is delivering from a peer
that ends the connection: the bytes returned are the next audio bytes, and
the number of reads still needed goes down. -/
theorem IcyLive.read_progress (m : Nat) (hm : 0 < m) (hm2 : m < 2147483648)
    (audio : List Char) (inStream : InputStream) (os : OS) (n : Nat) (h1 : 1 ≤ n)
    (hn : n < 9223372036854775808) (h : IcyLive m audio inStream os) :
    ∃ audio1,
      audio = (inputStream_httpRead inStream os 1 n).out ++ audio1 ∧
      IcyLive m audio1 (inputStream_httpRead inStream os 1 n).inStream
        (inputStream_httpRead inStream os 1 n).os ∧
      readsNeeded (inputStream_httpRead inStream os 1 n).inStream
        (inputStream_httpRead inStream os 1 n).os ≤ readsNeeded inStream os - 1 := by
  have hin : wrapLong ((1 * n : Nat) : Int) = (n : Int) := by
    unfold wrapLong
    omega
  obtain ⟨p1, p2, p3⟩ := IcyLive.pump_progress m audio inStream os h
  obtain ⟨q1, q2, q3, q4⟩ := IcyLive.readPumped_progress m hm hm2 audio _ _ n h1 hn
    (wrapLong (inStream.data.buflen : Int)) p1
  obtain ⟨a1, ha1, hi1⟩ := IcyInv.readPumped m hm hm2 audio _ _ n hn
    (wrapLong (inStream.data.buflen : Int)) p1.1
  unfold inputStream_httpRead
  dsimp only
  rw [hin]
  refine ⟨a1, ha1, ⟨hi1, p1.2.1, ?_⟩, ?_⟩
  · rw [q1, q2]
    exact p1.2.2
  · unfold readsNeeded at p2 p3 ⊢
    rw [q1]
    rcases p3 with p3 | p3 | p3
    · omega
    · rcases p1.2.2 with hl | hl
      · rw [p3] at hl
        exact absurd hl.1 (by decide)
      · by_cases hz : (inputStream_httpBuffer inStream os).2.1.data.buflen = 0
        · rw [hl.2]
          simp only [recvWeight]
          omega
        · have := q4 (Or.inl ⟨p3, hz⟩)
          omega
    · have := q4 (Or.inr p3)
      omega

/-- Reads of at least one byte from a peer that ends the connection: when there
are as many as `readsNeeded` says, they return the whole audio of the stream
and leave the stream at its end. -/
theorem IcyLive.run_complete (m : Nat) (hm : 0 < m) (hm2 : m < 2147483648) :
    ∀ (reqs : List Nat) (audio : List Char) (inStream : InputStream) (os : OS),
      (∀ n ∈ reqs, 1 ≤ n ∧ n < 9223372036854775808) → IcyLive m audio inStream os →
      readsNeeded inStream os ≤ reqs.length →
      (readRun inStream os reqs).1 = audio ∧
        inputStream_httpAtEOF (readRun inStream os reqs).2.1 = 1 := by
  intro reqs
  induction reqs with
  | nil =>
    intro audio inStream os _ h hr
    unfold readsNeeded at hr
    have hb : inStream.data.buflen = 0 := by
      simp only [List.length_nil] at hr
      omega
    have hw : recvWeight os.recvs = 0 := by
      simp only [List.length_nil] at hr
      omega
    have hcl : inStream.data.connState = HTTP_CONN_STATE_CLOSED ∧ os.recvs = [] := by
      rcases h.2.2 with hl | hl
      · have := closesAtEnd_weight _ hl.2
        omega
      · exact hl
    have he : inputStream_httpAtEOF inStream = 1 := by
      unfold inputStream_httpAtEOF
      rw [if_pos hcl.1, if_pos hb]
    exact ⟨(IcyInv.at_end m audio inStream os h.1 he
      (OS.pending_of_recvs_nil os hcl.2)).symm, he⟩
  | cons n ns ih =>
    intro audio inStream os hn h hr
    obtain ⟨a1, ha1, hl1, hd1⟩ := IcyLive.read_progress m hm hm2 audio inStream os n
      (hn n (by simp)).1 (hn n (by simp)).2 h
    obtain ⟨r1, r2⟩ := ih a1 _ _ (fun k hk => hn k (by simp [hk])) hl1
      (by simp only [List.length_cons] at hr; omega)
    refine ⟨?_, r2⟩
    show (inputStream_httpRead inStream os 1 n).out
      ++ (MPD.readRun (inputStream_httpRead inStream os 1 n).inStream
            (inputStream_httpRead inStream os 1 n).os ns).1 = audio
    rw [r1, ← ha1]

/-! ### The metadata never reaches the caller -/

/-- C2, amended. Take a session whose header has just been accepted with a
metadata interval `m`, `0 < m < 2^31` (connection open, `icyOffset = 0`,
`buflen` consistent bytes buffered), and a body (the buffered bytes followed by
the bytes still to be received) made of `m`-byte audio segments, each followed
by one metadata block whose length byte `L` is at most 127 and whose text has
`L*16` bytes, and at most `m` more audio bytes at the end.  For every sequence
of reads with element size 1 (requests below `2^63` bytes): the bytes returned
are a prefix of the audio, so none of the in-band bytes is delivered; they are
the whole audio once the stream is at its end with every byte received; and
when `m` fits the buffer, the peer ends the connection after its last byte
and every request asks for at least one byte, `readsNeeded` reads return
exactly the audio and leave the stream at its end. -/
theorem icy_reads_deliver_audio (m : Nat) (hm : 0 < m) (hm2 : m < 2147483648)
    (frames : List IcyFrame) (tail : List Char)
    (hframes : ∀ f ∈ frames,
      f.audio.length = m ∧ f.len.toNat < 128 ∧ f.text.length = f.len.toNat * 16)
    (htail : tail.length ≤ m)
    (inStream : InputStream) (os : OS)
    (hopen : inStream.data.connState = HTTP_CONN_STATE_OPEN)
    (hmi : inStream.data.icyMetaint = (m : Int))
    (hoff : inStream.data.icyOffset = 0)
    (hlen : inStream.data.buffer.length = inStream.data.buflen)
    (hcap : inStream.data.buflen ≤ HTTP_BUFFER_SIZE - 1)
    (hbody : inStream.data.buffer ++ os.pending = icyBody frames ++ tail)
    (reqs : List Nat) (hreq : ∀ n ∈ reqs, n < 9223372036854775808) :
    (∃ rest, icyAudio frames ++ tail = (readRun inStream os reqs).1 ++ rest) ∧
      (inputStream_httpAtEOF (readRun inStream os reqs).2.1 = 1 →
        (readRun inStream os reqs).2.2.pending = [] →
        (readRun inStream os reqs).1 = icyAudio frames ++ tail) ∧
      (m ≤ HTTP_BUFFER_SIZE - 1 → closesAtEnd os.recvs = true → (∀ n ∈ reqs, 1 ≤ n) →
        readsNeeded inStream os ≤ reqs.length →
        (readRun inStream os reqs).1 = icyAudio frames ++ tail ∧
          inputStream_httpAtEOF (readRun inStream os reqs).2.1 = 1) := by
  have hrem := IcyRem.of_frames m frames tail
    (fun f hf => ⟨(hframes f hf).1, (hframes f hf).2.2, (hframes f hf).2.1⟩) htail
  have hinv : IcyInv m (icyAudio frames ++ tail) inStream os :=
    ⟨hmi, hlen, hcap, Or.inl hopen, 0, by simpa using hoff, by rw [hbody]; exact hrem⟩
  obtain ⟨a1, ha1, hi1⟩ := IcyInv.run m hm hm2 reqs _ inStream os hreq hinv
  refine ⟨⟨a1, ha1⟩, ?_, ?_⟩
  · intro he hp
    have hnil := IcyInv.at_end m a1 _ _ hi1 he hp
    rw [hnil, List.append_nil] at ha1
    exact ha1.symm
  · intro hmc hce h1 hr
    exact IcyLive.run_complete m hm hm2 reqs _ inStream os (fun n hn => ⟨h1 n hn, hreq n hn⟩)
      ⟨hinv, hmc, Or.inl ⟨hopen, hce⟩⟩ hr

set_option maxRecDepth 100000

theorem icy_reads_deliver_audio_witness :
    (readRun icyPump.2.1 icyPump.2.2 (List.replicate 39 4)).1
        = "0123456789abcdefghij".toList ∧
      inputStream_httpAtEOF (readRun icyPump.2.1 icyPump.2.2 (List.replicate 39 4)).2.1 = 1 :=
  (icy_reads_deliver_audio 10 (by decide) (by decide) icyFrames icyTail (by decide) (by decide)
    icyPump.2.1 icyPump.2.2 (by decide) (by decide) (by decide) (by decide) (by decide)
    (by decide) (List.replicate 39 4) (by decide)).2.2
    (by decide) (by decide) (by decide) (by decide)

/-- C2, as stated, fails. The peer answers `ICY 200 OK`, `icy-metaint:2` and
sends one period: the audio `ab`, the length byte 128 and 2048 bytes `x` of
metadata, then closes.  The length byte is read as a signed `char`, so
`metalen` is negative and is set to `0`: only the length byte is removed, and
the second read hands the first two bytes of the metadata to the caller. -/
theorem icy_long_block_leaks :
    bigBlockOpen.1 = 0 ∧
      bigBlockOS.pending
        = "ICY 200 OK\r\nicy-metaint:2\r\n\r\n".toList ++ icyBody bigBlockFrames ∧
      (∀ f ∈ bigBlockFrames, f.audio.length = 2 ∧ f.text.length = f.len.toNat * 16) ∧
      icyAudio bigBlockFrames = ['a', 'b'] ∧
      (readRun bigBlockOpen.2.1 bigBlockOpen.2.2 [100, 100]).1 = ['a', 'b', 'x', 'x'] := by
  decide!

/-! ### Errors, retries and the prebuffer flag -/

set_option maxRecDepth 100000

/-- C14. A response with a status line the source does not know
(`HTTP/2 200 OK`, then `secret`): the first read closes the socket and the
session but keeps the 23 bytes received in the buffer, and the second read
hands all of them to the caller. -/
theorem rejected_response_is_delivered :
    rejectedOpen.1 = 0 ∧
      rejectedRead1.ret = 0 ∧
      rejectedRead1.inStream.data.connState = HTTP_CONN_STATE_CLOSED ∧
      rejectedRead1.os.sockOpen = false ∧
      rejectedRead1.inStream.data.buflen = 23 ∧
      rejectedRead2.ret = 23 ∧
      rejectedRead2.out = "HTTP/2 200 OK\r\n\r\nsecret".toList := by
  decide

/-- C15. After a redirect the host `other` does not resolve: the pump returns
`-1` and leaves the session in the reopening state, not closed, and the next
pump resolves the host again and opens a new socket. -/
theorem failed_reconnect_is_retried :
    retryOpen.1 = 0 ∧
      retryPump1.2.1.data.connState = HTTP_CONN_STATE_REOPEN ∧
      retryPump2.1 = -1 ∧
      retryPump2.2.1.data.connState = HTTP_CONN_STATE_REOPEN ∧
      retryPump2.2.2.log.count (Call.gethostbyname "other".toList) = 1 ∧
      retryPump2.2.2.log.count (Call.socket 4) = 0 ∧
      retryPump3.2.2.log.count (Call.gethostbyname "other".toList) = 2 ∧
      retryPump3.2.2.log.count (Call.socket 4) = 1 ∧
      retryPump3.2.2.sockOpen = true := by
  decide

/-- C16. Closing a session that is reopening after a redirect: the socket was
closed when the redirect was accepted, and `inputStream_httpClose` calls
`close` on the descriptor once more. -/
theorem close_while_reopening_closes_twice :
    redirectPump1.2.1.data.connState = HTTP_CONN_STATE_REOPEN ∧
      redirectPump1.2.2.sockOpen = false ∧
      redirectPump1.2.2.log.count (Call.socket 3) = 1 ∧
      redirectPump1.2.2.log.count (Call.close true) = 1 ∧
      (inputStream_httpClose redirectPump1.2.1 redirectPump1.2.2).2.log.count
        (Call.close true) = 1 ∧
      (inputStream_httpClose redirectPump1.2.1 redirectPump1.2.2).2.log.count
        (Call.close false) = 1 := by
  decide

/-- C19. The header line `Content-Type: audio/mpeg`: the stored mime value
keeps the space after the colon, while the name of the line `icy-name: Radio`
is stored without it. -/
theorem content_type_keeps_spaces :
    mimePump.1 = 0 ∧
      mimePump.2.1.data.connState = HTTP_CONN_STATE_OPEN ∧
      mimePump.2.1.mime = some " audio/mpeg".toList ∧
      mimePump.2.1.metaName = some "Radio".toList := by
  decide

/-- C12, as stated, fails. The peer sends `icy-metaint:2`, the audio `ab`, the
length byte 128 and three bytes, and closes.  At the second read the offset
has reached the interval and four bytes are buffered, fewer than
`1 + 128*16`; the read removes the length byte and returns two bytes of the
block. -/
theorem long_block_not_deferred :
    (truncatedPump2 (Char.ofNat 128)).2.1.data.icyMetaint = 2 ∧
      (truncatedPump2 (Char.ofNat 128)).2.1.data.icyOffset = 2 ∧
      (truncatedPump2 (Char.ofNat 128)).2.1.data.buffer = Char.ofNat 128 :: "xxx".toList ∧
      (truncatedPump2 (Char.ofNat 128)).2.1.data.buflen = 4 ∧
      (truncatedRead2 (Char.ofNat 128)).ret = 2 ∧
      (truncatedRead2 (Char.ofNat 128)).out = "xx".toList ∧
      (truncatedRead2 (Char.ofNat 128)).inStream.data.buflen = 1 := by
  decide

/-- C12, amended. After the pump at the start of a read, let the metadata
interval be positive, the offset have reached it, and the buffer start with a
length byte `L` of at most 127 while fewer than `1 + L*16` bytes are
buffered.  Then the read returns 0 and hands out nothing, and the session
(buffer, `buflen`, `icyOffset`, stream offset, connection state, title) and
the operating system are as the pump left them. -/
theorem incomplete_block_defers (inStream : InputStream) (os : OS) (size nmemb : Nat)
    (c : Char) (rest : List Char)
    (hb : (inputStream_httpBuffer inStream os).2.1.data.buffer = c :: rest)
    (hL : c.toNat < 128)
    (hm : (inputStream_httpBuffer inStream os).2.1.data.icyMetaint > 0)
    (hoff : (inputStream_httpBuffer inStream os).2.1.data.icyOffset
      ≥ (inputStream_httpBuffer inStream os).2.1.data.icyMetaint)
    (hshort : (inputStream_httpBuffer inStream os).2.1.data.buflen < 1 + c.toNat * 16) :
    (inputStream_httpRead inStream os size nmemb).ret = 0 ∧
      (inputStream_httpRead inStream os size nmemb).out = [] ∧
      (inputStream_httpRead inStream os size nmemb).inStream
        = (inputStream_httpBuffer inStream os).2.1 ∧
      (inputStream_httpRead inStream os size nmemb).os
        = (inputStream_httpBuffer inStream os).2.2 := by
  have hml := icyMetalen_cons c rest hL
  rw [← hb] at hml
  have hbig : wrapSize (icyMetalen (inputStream_httpBuffer inStream os).2.1.data.buffer + 1)
      > (inputStream_httpBuffer inStream os).2.1.data.buflen := by
    rw [hml]
    unfold wrapSize
    omega
  have hsmall : ¬ ((HTTP_BUFFER_SIZE : Int)
      < icyMetalen (inputStream_httpBuffer inStream os).2.1.data.buffer + 1) := by
    rw [hml]
    have : (HTTP_BUFFER_SIZE : Int) = 131072 := rfl
    omega
  unfold inputStream_httpRead
  dsimp only
  unfold httpReadPumped
  dsimp only
  by_cases hg : ¬ (((inputStream_httpBuffer inStream os).2.1.data.connState
        = HTTP_CONN_STATE_OPEN ∧
      ¬ ((inputStream_httpBuffer inStream os).2.1.data.prebuffer = true ∨
          (inputStream_httpBuffer inStream os).2.1.data.buflen
            < wrapSize (inputStream_httpBuffer inStream os).2.1.data.icyMetaint)) ∨
      ((inputStream_httpBuffer inStream os).2.1.data.connState = HTTP_CONN_STATE_CLOSED ∧
        (inputStream_httpBuffer inStream os).2.1.data.buflen ≠ 0))
  · rw [if_pos hg]
    exact ⟨rfl, rfl, rfl, rfl⟩
  · rw [if_neg hg, if_pos hm, if_pos hoff, if_pos hbig, if_neg hsmall]
    exact ⟨rfl, rfl, rfl, rfl⟩

theorem incomplete_block_defers_witness :
    (truncatedRead1 (Char.ofNat 1)).out = "ab".toList ∧
      (truncatedRead2 (Char.ofNat 1)).ret = 0 ∧
      (truncatedRead2 (Char.ofNat 1)).out = [] ∧
      (truncatedRead2 (Char.ofNat 1)).inStream = (truncatedPump2 (Char.ofNat 1)).2.1 ∧
      (truncatedRead2 (Char.ofNat 1)).os = (truncatedPump2 (Char.ofNat 1)).2.2 :=
  ⟨by decide,
    incomplete_block_defers (truncatedRead1 (Char.ofNat 1)).inStream
      (truncatedRead1 (Char.ofNat 1)).os 1 100 (Char.ofNat 1) "xxx".toList
      (by decide) (by decide) (by decide) (by decide) (by decide)⟩

/-! ### The stream title -/

theorem cstr_append_pad (text pad : List Char) (ht : Char.ofNat 0 ∉ text)
    (hp : pad = [] ∨ pad.head? = some (Char.ofNat 0)) : cstr (text ++ pad) = text := by
  unfold cstr
  induction text with
  | nil =>
    rcases hp with hp | hp
    · subst hp
      rfl
    · cases pad with
      | nil => rfl
      | cons x xs =>
        simp only [List.head?_cons, Option.some.injEq] at hp
        subst hp
        simp
  | cons x xs ih =>
    have hx : x ≠ Char.ofNat 0 := fun e => ht (by simp [e])
    have hxs : Char.ofNat 0 ∉ xs := fun e => ht (by simp [e])
    simp only [List.cons_append, List.takeWhile_cons, bne_iff_ne, ne_eq, hx, not_false_eq_true,
      decide_True, if_true, ih hxs]

theorem not_mem_intercalate (c : Char) (sep : List Char) (hs : c ∉ sep) :
    ∀ ls : List (List Char), (∀ l ∈ ls, c ∉ l) → c ∉ sep.intercalate ls := by
  intro ls
  induction ls with
  | nil =>
    intro _
    simp [List.intercalate]
  | cons l tl ih =>
    intro h
    cases tl with
    | nil =>
      simpa [List.intercalate] using h l (by simp)
    | cons l2 tl2 =>
      have ih1 := ih (fun x hx => h x (by simp only [List.mem_cons] at hx ⊢; exact Or.inr hx))
      have hl := h l (by simp)
      simp only [List.intercalate, List.intersperse_cons_cons, List.flatten_cons,
        List.mem_append, not_or] at ih1 ⊢
      exact ⟨hl, hs, ih1⟩

theorem icyToken_other (inStream : InputStream) (s : List Char)
    (h : ¬ "StreamTitle=".toList <+: s) : icyToken inStream s = inStream := by
  unfold icyToken
  rw [if_neg]
  intro hc
  exact h (( strncmp_eq_iff_prefix s "StreamTitle=".toList 12 rfl).1 hc)

theorem icyToken_foldl_other (toks : List (List Char))
    (h : ∀ s ∈ toks, ¬ "StreamTitle=".toList <+: s) (inStream : InputStream) :
    toks.foldl icyToken inStream = inStream := by
  induction toks generalizing inStream with
  | nil => rfl
  | cons s ss ih =>
    rw [List.foldl_cons, icyToken_other inStream s (h s (by simp))]
    exact ih (fun x hx => h x (by simp [hx])) inStream

theorem icyToken_only_title (inStream : InputStream) (s : List Char) :
    ∃ mt, icyToken inStream s = { inStream with metaTitle := mt } := by
  unfold icyToken
  split
  · exact ⟨_, rfl⟩
  · exact ⟨inStream.metaTitle, rfl⟩

theorem icyToken_foldl_only_title (toks : List (List Char)) (inStream : InputStream) :
    ∃ mt, toks.foldl icyToken inStream = { inStream with metaTitle := mt } := by
  induction toks generalizing inStream with
  | nil => exact ⟨inStream.metaTitle, rfl⟩
  | cons s ss ih =>
    obtain ⟨m1, h1⟩ := icyToken_only_title inStream s
    obtain ⟨m2, h2⟩ := ih (icyToken inStream s)
    rw [List.foldl_cons, h2, h1]
    exact ⟨m2, rfl⟩

theorem icyToken_title (inStream : InputStream) (t : List Char) :
    icyToken inStream ("StreamTitle='".toList ++ t ++ "'".toList)
      = { inStream with metaTitle := some t } := by
  have hs : "StreamTitle='".toList ++ t ++ "'".toList
      = "StreamTitle=".toList ++ (Char.ofNat 39 :: (t ++ [Char.ofNat 39])) := by
    simp
  have hp : strncmp_eq ("StreamTitle=".toList ++ (Char.ofNat 39 :: (t ++ [Char.ofNat 39])))
      "StreamTitle=".toList 12 = true :=
    ( strncmp_eq_iff_prefix _ "StreamTitle=".toList 12 rfl).2 (List.prefix_append _ _)
  have hd : ("StreamTitle=".toList ++ (Char.ofNat 39 :: (t ++ [Char.ofNat 39]))).drop 12
      = Char.ofNat 39 :: (t ++ [Char.ofNat 39]) := List.drop_left' rfl
  have he : "StreamTitle=".toList ++ (Char.ofNat 39 :: (t ++ [Char.ofNat 39]))
      = ("StreamTitle=".toList ++ (Char.ofNat 39 :: t)) ++ [Char.ofNat 39] := by simp
  have hl : ("StreamTitle=".toList ++ (Char.ofNat 39 :: (t ++ [Char.ofNat 39]))).getLast?
      = some (Char.ofNat 39) := by
    rw [he]
    exact List.getLast?_concat _
  have hdl : ("StreamTitle=".toList ++ (Char.ofNat 39 :: (t ++ [Char.ofNat 39]))).dropLast
      = "StreamTitle=".toList ++ (Char.ofNat 39 :: t) := by
    rw [he]
    exact List.dropLast_concat
  have hd13 : ("StreamTitle=".toList ++ (Char.ofNat 39 :: t)).drop 13 = t := by
    have : "StreamTitle=".toList ++ (Char.ofNat 39 :: t)
        = ("StreamTitle=".toList ++ [Char.ofNat 39]) ++ t := by simp
    rw [this]
    exact List.drop_left' rfl
  rw [hs]
  unfold icyToken
  rw [if_pos hp]
  dsimp only
  rw [hd, hl, hdl]
  simp only [List.head?_cons, if_true, hd13]

/-- C11. Let the text of a metadata block (the `size` bytes handed to
`parseIcyMetadata`) be tokens separated by `;`, followed by the NUL padding if
any, and let `StreamTitle='t'` be one of the tokens, the last one that starts
with `StreamTitle=`, where `t` holds no `;` and no NUL.  Then the title of the
stream becomes exactly `t`, and nothing else of the stream changes. -/
theorem parseIcyMetadata_streamTitle (inStream : InputStream) (metadata : List Char)
    (size : Nat) (before after : List (List Char)) (t pad : List Char)
    (ht : ';' ∉ t ∧ Char.ofNat 0 ∉ t)
    (hbefore : ∀ l ∈ before, ';' ∉ l ∧ Char.ofNat 0 ∉ l)
    (hafter : ∀ l ∈ after, ';' ∉ l ∧ Char.ofNat 0 ∉ l ∧ ¬ "StreamTitle=".toList <+: l)
    (hpad : pad = [] ∨ pad.head? = some (Char.ofNat 0))
    (hmeta : metadata.take size
      = [';'].intercalate (before ++ ["StreamTitle='".toList ++ t ++ "'".toList] ++ after)
        ++ pad) :
    parseIcyMetadata inStream metadata size = { inStream with metaTitle := some t } := by
  have hq : ∀ c : Char, c ∉ t → c ≠ Char.ofNat 39 → c ∉ "StreamTitle=".toList →
      c ∉ "StreamTitle='".toList ++ t ++ "'".toList := by
    intro c h1 h2 h3
    have e : "StreamTitle='".toList ++ t ++ "'".toList
        = "StreamTitle=".toList ++ (Char.ofNat 39 :: (t ++ [Char.ofNat 39])) := by simp
    rw [e]
    simp only [List.mem_append, List.mem_cons, List.mem_singleton, not_or, List.not_mem_nil,
      or_false]
    exact ⟨h3, h2, h1, h2⟩
  have hall : ∀ (c : Char), c ∉ t → c ≠ Char.ofNat 39 → c ∉ "StreamTitle=".toList →
      (∀ l ∈ before, c ∉ l) → (∀ l ∈ after, c ∉ l) →
      ∀ l ∈ before ++ ["StreamTitle='".toList ++ t ++ "'".toList] ++ after, c ∉ l := by
    intro c h1 h2 h3 hb ha l hl
    simp only [List.mem_append, List.mem_singleton] at hl
    rcases hl with (hl | hl) | hl
    · exact hb l hl
    · rw [hl]
      exact hq c h1 h2 h3
    · exact ha l hl
  have hsemi := hall ';' ht.1 (by decide) (by decide) (fun l hl => (hbefore l hl).1)
    (fun l hl => (hafter l hl).1)
  have hnul := hall (Char.ofNat 0) ht.2 (by decide) (by decide)
    (fun l hl => (hbefore l hl).2) (fun l hl => (hafter l hl).2.1)
  have hc : cstr (metadata.take size)
      = [';'].intercalate (before ++ ["StreamTitle='".toList ++ t ++ "'".toList] ++ after) := by
    rw [hmeta]
    exact cstr_append_pad _ _ (not_mem_intercalate _ _ (by decide) _ hnul) hpad
  have hsplit := List.splitOn_intercalate
    (before ++ ["StreamTitle='".toList ++ t ++ "'".toList] ++ after) ';' hsemi (by simp)
  have hne : ("StreamTitle='".toList ++ t ++ "'".toList).isEmpty = false := by
    simp
  unfold parseIcyMetadata strtok_r
  rw [hc, hsplit, List.filter_append, List.filter_append, List.foldl_append, List.foldl_append]
  have hmid : List.filter (fun t => !t.isEmpty) ["StreamTitle='".toList ++ t ++ "'".toList]
      = ["StreamTitle='".toList ++ t ++ "'".toList] := by
    rw [List.filter_cons, hne]
    rfl
  rw [hmid, icyToken_foldl_other _ (fun s hs => (hafter s (List.mem_filter.1 hs).1).2.2)]
  obtain ⟨mt, hmt⟩ := icyToken_foldl_only_title
    (List.filter (fun t => !t.isEmpty) before) inStream
  rw [hmt, List.foldl_cons, List.foldl_nil, icyToken_title]

theorem parseIcyMetadata_streamTitle_witness :
    parseIcyMetadata exampleStream
        ("StreamTitle='Song A';StreamUrl='';".toList ++ List.replicate 14 (Char.ofNat 0)) 48
      = { exampleStream with metaTitle := some "Song A".toList } :=
  parseIcyMetadata_streamTitle exampleStream
    ("StreamTitle='Song A';StreamUrl='';".toList ++ List.replicate 14 (Char.ofNat 0)) 48
    [] ["StreamUrl=''".toList, []] "Song A".toList (List.replicate 14 (Char.ofNat 0))
    (by decide) (by decide) (by decide) (Or.inr (by decide)) (by decide)

/-! ### The offset in the metadata interval -/

theorem wrapInt_le (x : Int) : wrapInt x ≤ 2147483647 := by
  unfold wrapInt
  omega

theorem parseUrl_icy (data : InputStreamHTTPData) (url : List Char) :
    (parseUrl data url).2.icyMetaint = data.icyMetaint ∧
      (parseUrl data url).2.icyOffset = data.icyOffset := by
  unfold parseUrl
  dsimp only
  repeat' split
  all_goals exact ⟨rfl, rfl⟩

theorem initHTTPConnection_icy (inStream : InputStream) (os : OS) :
    (initHTTPConnection inStream os).2.1.data.icyMetaint = inStream.data.icyMetaint ∧
      (initHTTPConnection inStream os).2.1.data.icyOffset = inStream.data.icyOffset := by
  unfold initHTTPConnection
  dsimp only
  repeat' split
  all_goals exact ⟨rfl, rfl⟩

theorem finishHTTPInit_icy (inStream : InputStream) (os : OS) :
    (finishHTTPInit inStream os).2.1.data.icyMetaint = inStream.data.icyMetaint ∧
      (finishHTTPInit inStream os).2.1.data.icyOffset = inStream.data.icyOffset := by
  unfold finishHTTPInit
  dsimp only
  repeat' split
  all_goals exact ⟨rfl, rfl⟩

theorem helloField_icy (p : List Char) (inStream r : InputStream)
    (h : helloField p inStream = some r) :
    r.data.icyOffset = inStream.data.icyOffset ∧
      (inStream.data.icyMetaint ≤ 2147483647 → r.data.icyMetaint ≤ 2147483647) := by
  unfold helloField at h
  dsimp only at h
  repeat' split at h
  all_goals first
    | (cases h; exact ⟨rfl, fun hh => hh⟩)
    | (cases h; exact ⟨rfl, fun _ => wrapInt_le _⟩)
    | (simp at h)

theorem helloFields_icy (cs : List Char) (needle : Nat) :
    ∀ (fuel : Nat) (cur : Option Nat) (inStream : InputStream),
      (helloFields cs needle fuel cur inStream).data.icyOffset = inStream.data.icyOffset ∧
        (inStream.data.icyMetaint ≤ 2147483647 →
          (helloFields cs needle fuel cur inStream).data.icyMetaint ≤ 2147483647) := by
  intro fuel
  induction fuel with
  | zero => intro cur inStream; exact ⟨rfl, fun h => h⟩
  | succ n ih =>
    intro cur inStream
    cases cur with
    | none => exact ⟨rfl, fun h => h⟩
    | some c =>
      simp only [helloFields]
      split
      · exact ⟨rfl, fun h => h⟩
      · split
        · exact ⟨rfl, fun h => h⟩
        · rename_i r hr
          obtain ⟨f1, f2⟩ := helloField_icy _ _ _ hr
          obtain ⟨g1, g2⟩ := ih
            ((strstr (cs.drop (c + 2)) "\r\n".toList).map (· + (c + 2))) r
          exact ⟨by rw [g1, f1], fun h => g2 (f2 h)⟩

theorem helloParse_icy (inStream : InputStream) (os : OS) :
    (helloParse inStream os).2.1.data.icyOffset = inStream.data.icyOffset ∧
      (inStream.data.icyMetaint ≤ 2147483647 →
        (helloParse inStream os).2.1.data.icyMetaint ≤ 2147483647) := by
  unfold helloParse
  dsimp only
  split
  · exact ⟨rfl, fun h => h⟩
  · split
    · exact ⟨rfl, fun h => h⟩
    · split
      · simp only []
        split
        · exact helloFields_icy _ _ _ _ _
        · exact helloFields_icy _ _ _ _ _
      · split
        · split
          · split
            · exact ⟨(parseUrl_icy _ _).2, fun h => by
                show (parseUrl _ _).2.icyMetaint ≤ _
                rw [(parseUrl_icy _ _).1]
                exact h⟩
            · exact ⟨(parseUrl_icy _ _).2, fun h => by
                show (parseUrl _ _).2.icyMetaint ≤ _
                rw [(parseUrl_icy _ _).1]
                exact h⟩
          · exact ⟨rfl, fun h => h⟩
        · exact ⟨rfl, fun h => h⟩

theorem getHTTPHello_icy (inStream : InputStream) (os : OS) :
    (getHTTPHello inStream os).2.1.data.icyOffset = inStream.data.icyOffset ∧
      (inStream.data.icyMetaint ≤ 2147483647 →
        (getHTTPHello inStream os).2.1.data.icyMetaint ≤ 2147483647) := by
  unfold getHTTPHello
  dsimp only
  repeat' split
  all_goals first
    | exact ⟨rfl, fun h => h⟩
    | exact helloParse_icy _ _

/-- The pump preserves whatever each of its parts preserves from the
connection state in which the pump runs it. -/
theorem inputStream_httpBuffer_preserves_staged (P : InputStream → OS → Prop)
    (hinit : ∀ s o, s.data.connState = HTTP_CONN_STATE_REOPEN → P s o →
      P (initHTTPConnection s o).2.1 (initHTTPConnection s o).2.2)
    (hfinish : ∀ s o, s.data.connState = HTTP_CONN_STATE_INIT → P s o →
      P (finishHTTPInit s o).2.1 (finishHTTPInit s o).2.2)
    (hhello : ∀ s o, s.data.connState = HTTP_CONN_STATE_HELLO → P s o →
      P (getHTTPHello s o).2.1 (getHTTPHello s o).2.2)
    (hfill : ∀ s o, P s o → P (httpBufferFill s o).2.1 (httpBufferFill s o).2.2)
    (inStream : InputStream) (os : OS) (h : P inStream os) :
    P (inputStream_httpBuffer inStream os).2.1 (inputStream_httpBuffer inStream os).2.2 := by
  have stage : ∀ (st : Nat) (f : InputStream → OS → Int × InputStream × OS),
      (∀ s o, s.data.connState = st → P s o → P (f s o).2.1 (f s o).2.2) →
      ∀ s o, P s o → P (pumpStage st f s o).2.1 (pumpStage st f s o).2.2 := by
    intro st f hf s o hs
    unfold pumpStage
    split
    · rename_i hst
      exact hf s o hst hs
    · exact hs
  have b1 := stage HTTP_CONN_STATE_REOPEN _ hinit inStream os h
  have b2 := stage HTTP_CONN_STATE_INIT _ hfinish _ _ b1
  have b3 := stage HTTP_CONN_STATE_HELLO _ hhello _ _ b2
  unfold inputStream_httpBuffer
  dsimp only
  split
  · exact b1
  · split
    · exact b2
    · split
      · exact b3
      · exact hfill _ _ b3

theorem IcyOffsetInv.of_zero (data : InputStreamHTTPData)
    (hm : data.icyMetaint ≤ 2147483647) (ho : data.icyOffset = 0) : IcyOffsetInv data :=
  ⟨hm, fun _ _ => ho, fun h => by rw [ho]; omega⟩

theorem IcyOffsetInv.before_open (data : InputStreamHTTPData) (h : IcyOffsetInv data)
    (h1 : data.connState ≠ HTTP_CONN_STATE_OPEN)
    (h2 : data.connState ≠ HTTP_CONN_STATE_CLOSED) :
    data.icyMetaint ≤ 2147483647 ∧ data.icyOffset = 0 :=
  ⟨h.1, h.2.1 h1 h2⟩

theorem fillRead_fields (data : InputStreamHTTPData) (os : OS) :
    (fillRead data os).2.1.icyMetaint = data.icyMetaint ∧
      (fillRead data os).2.1.icyOffset = data.icyOffset ∧
      ((fillRead data os).2.1.connState = data.connState ∨
        (fillRead data os).2.1.connState = HTTP_CONN_STATE_CLOSED) := by
  unfold fillRead
  repeat' split
  all_goals first
    | exact ⟨rfl, rfl, Or.inl rfl⟩
    | exact ⟨rfl, rfl, Or.inr rfl⟩

theorem httpBufferFill_icyOffsetInv (inStream : InputStream) (os : OS)
    (h : IcyOffsetInv inStream.data) : IcyOffsetInv (httpBufferFill inStream os).2.1.data := by
  unfold httpBufferFill
  split
  · exact h
  · obtain ⟨b1, h1⟩ := prebufferMark_eq inStream.data
    obtain ⟨b2, h2⟩ := prebufferClear_eq (fillRead (prebufferMark inStream.data) os).2.1
    obtain ⟨f1, f2, f3⟩ := fillRead_fields (prebufferMark inStream.data) os
    have hD1 : (prebufferMark inStream.data).connState = inStream.data.connState := by rw [h1]
    have hD2 : (prebufferMark inStream.data).icyMetaint = inStream.data.icyMetaint := by
      rw [h1]
    have hD3 : (prebufferMark inStream.data).icyOffset = inStream.data.icyOffset := by rw [h1]
    have hC1 : (prebufferClear (fillRead (prebufferMark inStream.data) os).2.1).connState
        = (fillRead (prebufferMark inStream.data) os).2.1.connState := by rw [h2]
    have hC2 : (prebufferClear (fillRead (prebufferMark inStream.data) os).2.1).icyMetaint
        = (fillRead (prebufferMark inStream.data) os).2.1.icyMetaint := by rw [h2]
    have hC3 : (prebufferClear (fillRead (prebufferMark inStream.data) os).2.1).icyOffset
        = (fillRead (prebufferMark inStream.data) os).2.1.icyOffset := by rw [h2]
    rw [hD1] at f3
    rw [hD2] at f1
    rw [hD3] at f2
    show IcyOffsetInv (prebufferClear (fillRead (prebufferMark inStream.data) os).2.1)
    unfold IcyOffsetInv
    rw [hC1, hC2, hC3, f1, f2]
    refine ⟨h.1, ?_, h.2.2⟩
    intro n1 n2
    rcases f3 with e | e
    · rw [e] at n1 n2
      exact h.2.1 n1 n2
    · exact absurd e n2

theorem deliverCount_bound (size : Nat) (inlen k : Int)
    (h1 : 0 ≤ inlen) (h2 : inlen ≤ 9223372036854775807)
    (h3 : 0 ≤ k) (h4 : k ≤ 9223372036854775807) (t : Int)
    (ht : deliverCount size inlen k = some t) :
    0 ≤ t ∧ t ≤ k := by
  unfold deliverCount at ht
  split at ht
  · cases ht
  · have e := Option.some.inj ht
    rw [← e]
    split
    · have hq := Nat.div_mul_le_self (wrapSize k) size
      generalize wrapSize k / size * size = q at hq ⊢
      unfold wrapSize at hq
      unfold wrapLong
      omega
    · have hq := Nat.div_mul_le_self (wrapSize inlen) size
      generalize wrapSize inlen / size * size = q at hq ⊢
      unfold wrapSize at hq
      unfold wrapLong
      omega

theorem icyMaxToSend_bound (data : InputStreamHTTPData)
    (hm : data.icyMetaint ≤ 2147483647)
    (h0 : 0 ≤ data.icyOffset) (h1 : data.icyOffset ≤ data.icyMetaint) :
    0 ≤ icyMaxToSend data ∧ icyMaxToSend data ≤ data.icyMetaint - data.icyOffset := by
  unfold icyMaxToSend wrapInt wrapSize wrapLong
  split <;> omega

theorem httpDeliver_fields (inStream : InputStream) (os : OS) (size : Nat)
    (inlen k : Int) :
    (httpDeliver inStream os size inlen k).inStream.data.icyMetaint
        = inStream.data.icyMetaint ∧
      (httpDeliver inStream os size inlen k).inStream.data.connState
        = inStream.data.connState ∧
      ((httpDeliver inStream os size inlen k).inStream.data.icyOffset
          = inStream.data.icyOffset ∨
        ∃ t, deliverCount size inlen k = some t ∧
          (httpDeliver inStream os size inlen k).inStream.data.icyOffset
            = wrapInt (inStream.data.icyOffset + t)) := by
  unfold httpDeliver
  split
  · split
    · exact ⟨rfl, rfl, Or.inl rfl⟩
    · rename_i t ht
      obtain ⟨_, d2, _, d4, d5⟩ := deliverBytes_fields inStream t
      exact ⟨d4, d5, Or.inr ⟨t, ht, d2⟩⟩
  · split
    · exact ⟨rfl, rfl, Or.inl rfl⟩
    · exact ⟨rfl, rfl, Or.inl rfl⟩

theorem httpDeliver_icyOffsetInv (inStream : InputStream) (os : OS) (size : Nat)
    (inlen : Int) (h1 : 0 ≤ inlen) (h2 : inlen ≤ 9223372036854775807)
    (hm : inStream.data.icyMetaint ≤ 2147483647)
    (ho0 : 0 ≤ inStream.data.icyOffset)
    (ho1 : inStream.data.icyOffset ≤ inStream.data.icyMetaint)
    (hst : inStream.data.connState = HTTP_CONN_STATE_OPEN ∨
      inStream.data.connState = HTTP_CONN_STATE_CLOSED) :
    IcyOffsetInv
      (httpDeliver inStream os size inlen (icyMaxToSend inStream.data)).inStream.data := by
  obtain ⟨k0, k1⟩ := icyMaxToSend_bound inStream.data hm ho0 ho1
  obtain ⟨f1, f2, f3⟩ := httpDeliver_fields inStream os size inlen (icyMaxToSend inStream.data)
  unfold IcyOffsetInv
  rw [f1, f2]
  refine ⟨hm, ?_, ?_⟩
  · intro n1 n2
    rcases hst with e | e
    · exact absurd e n1
    · exact absurd e n2
  · intro _
    rcases f3 with e | ⟨t, ht, e⟩
    · rw [e]
      exact ⟨ho0, ho1⟩
    · obtain ⟨c0, c1⟩ := deliverCount_bound size inlen (icyMaxToSend inStream.data) h1 h2 k0
        (by omega) t ht
      rw [e]
      unfold wrapInt
      omega

theorem httpReadPumped_icyOffsetInv (inStream : InputStream) (os : OS) (size : Nat)
    (inlen maxToSend : Int) (h1 : 0 ≤ inlen) (h2 : inlen ≤ 9223372036854775807)
    (h : IcyOffsetInv inStream.data) :
    IcyOffsetInv (httpReadPumped inStream os size inlen maxToSend).inStream.data := by
  unfold httpReadPumped
  dsimp only
  by_cases hg : ¬ ((inStream.data.connState = HTTP_CONN_STATE_OPEN ∧
      ¬ (inStream.data.prebuffer = true ∨
          inStream.data.buflen < wrapSize inStream.data.icyMetaint)) ∨
      (inStream.data.connState = HTTP_CONN_STATE_CLOSED ∧ inStream.data.buflen ≠ 0))
  · rw [if_pos hg]
    exact h
  · rw [if_neg hg]
    have hst : inStream.data.connState = HTTP_CONN_STATE_OPEN ∨
        inStream.data.connState = HTTP_CONN_STATE_CLOSED := by
      by_contra hc
      apply hg
      rintro (⟨e, _⟩ | ⟨e, _⟩)
      · exact hc (Or.inl e)
      · exact hc (Or.inr e)
    by_cases hm : inStream.data.icyMetaint > 0
    · rw [if_pos hm]
      obtain ⟨ho0, ho1⟩ := h.2.2 hm
      by_cases hoff : inStream.data.icyOffset ≥ inStream.data.icyMetaint
      · rw [if_pos hoff]
        by_cases hbig : wrapSize (icyMetalen inStream.data.buffer + 1) > inStream.data.buflen
        · rw [if_pos hbig]
          by_cases htoo : (HTTP_BUFFER_SIZE : Int) < icyMetalen inStream.data.buffer + 1
          · rw [if_pos htoo]
            exact ⟨h.1, fun _ n2 => absurd rfl n2, h.2.2⟩
          · rw [if_neg htoo]
            exact h
        · rw [if_neg hbig]
          obtain ⟨_, d2, _, d4, d5⟩ :=
            dropMetadata_fields inStream (icyMetalen inStream.data.buffer)
          have e : icyConsume inStream
              = dropMetadata inStream (icyMetalen inStream.data.buffer) := rfl
          exact httpDeliver_icyOffsetInv (icyConsume inStream) os size inlen h1 h2
            (by rw [e, d4]; exact h.1) (by rw [e, d2]) (by rw [e, d2, d4]; omega)
            (by rw [e, d5]; exact hst)
      · rw [if_neg hoff]
        exact httpDeliver_icyOffsetInv inStream os size inlen h1 h2 h.1 ho0 ho1 hst
    · rw [if_neg hm]
      obtain ⟨f1, f2, _⟩ := httpDeliver_fields inStream os size inlen maxToSend
      unfold IcyOffsetInv
      rw [f1, f2]
      refine ⟨h.1, ?_, fun hh => absurd hh hm⟩
      intro n1 n2
      rcases hst with e | e
      · exact absurd e n1
      · exact absurd e n2

theorem inputStream_httpBuffer_icyOffsetInv (inStream : InputStream) (os : OS)
    (h : IcyOffsetInv inStream.data) :
    IcyOffsetInv (inputStream_httpBuffer inStream os).2.1.data := by
  refine inputStream_httpBuffer_preserves_staged (fun s _ => IcyOffsetInv s.data)
    ?_ ?_ ?_ (fun s o hs => httpBufferFill_icyOffsetInv s o hs) inStream os h
  · intro s o hst hs
    obtain ⟨q1, q2⟩ := IcyOffsetInv.before_open _ hs (by rw [hst]; decide) (by rw [hst]; decide)
    obtain ⟨e1, e2⟩ := initHTTPConnection_icy s o
    exact IcyOffsetInv.of_zero _ (by rw [e1]; exact q1) (by rw [e2]; exact q2)
  · intro s o hst hs
    obtain ⟨q1, q2⟩ := IcyOffsetInv.before_open _ hs (by rw [hst]; decide) (by rw [hst]; decide)
    obtain ⟨e1, e2⟩ := finishHTTPInit_icy s o
    exact IcyOffsetInv.of_zero _ (by rw [e1]; exact q1) (by rw [e2]; exact q2)
  · intro s o hst hs
    obtain ⟨q1, q2⟩ := IcyOffsetInv.before_open _ hs (by rw [hst]; decide) (by rw [hst]; decide)
    obtain ⟨e1, e2⟩ := getHTTPHello_icy s o
    exact IcyOffsetInv.of_zero _ (e2 q1) (by rw [e1]; exact q2)

theorem inputStream_httpOpen_icyOffsetInv (inStream : InputStream) (url : List Char)
    (os : OS) : IcyOffsetInv (inputStream_httpOpen inStream url os).2.1.data := by
  have hz : ({ inStream with data := (parseUrl newInputStreamHTTPData url).2 }).data.icyMetaint
      = 0 ∧
      ({ inStream with data := (parseUrl newInputStreamHTTPData url).2 }).data.icyOffset
      = 0 := by
    obtain ⟨e1, e2⟩ := parseUrl_icy newInputStreamHTTPData url
    exact ⟨by show (parseUrl _ _).2.icyMetaint = 0; rw [e1]; rfl,
      by show (parseUrl _ _).2.icyOffset = 0; rw [e2]; rfl⟩
  unfold inputStream_httpOpen
  dsimp only
  split
  · exact IcyOffsetInv.of_zero _ (by rw [hz.1]; decide) hz.2
  · obtain ⟨e1, e2⟩ := initHTTPConnection_icy
      { inStream with data := (parseUrl newInputStreamHTTPData url).2 } os
    split
    · exact IcyOffsetInv.of_zero _ (by rw [e1, hz.1]; decide) (by rw [e2, hz.2])
    · exact IcyOffsetInv.of_zero _ (by rw [e1, hz.1]; decide) (by rw [e2, hz.2])

theorem ReachableSized.icyOffsetInv (inStream : InputStream) (os : OS)
    (h : ReachableSized inStream os) : IcyOffsetInv inStream.data := by
  induction h with
  | opened s u o _ => exact inputStream_httpOpen_icyOffsetInv s u o
  | pumped s o _ ih => exact inputStream_httpBuffer_icyOffsetInv s o ih
  | read s o size nmemb _ hn _ ih =>
    have hin : wrapLong ((size * nmemb : Nat) : Int) = ((size * nmemb : Nat) : Int) := by
      unfold wrapLong
      omega
    unfold inputStream_httpRead
    dsimp only
    rw [hin]
    exact httpReadPumped_icyOffsetInv _ _ size _ _ (by omega) (by omega)
      (inputStream_httpBuffer_icyOffsetInv s o ih)

/-- C13, amended. In every session state that a successful open, pumps and
reads bring about, under any behaviour of the operating system, where every
read asks for elements of a positive size and for at most `2^63 - 1` bytes in
all (the range of the `long` that holds the request): when the metadata
interval is positive, the offset is at least 0 and at most the interval. -/
theorem icyOffset_within_interval (inStream : InputStream) (os : OS)
    (h : ReachableSized inStream os) (hm : inStream.data.icyMetaint > 0) :
    0 ≤ inStream.data.icyOffset ∧ inStream.data.icyOffset ≤ inStream.data.icyMetaint :=
  (ReachableSized.icyOffsetInv inStream os h).2.2 hm

set_option maxRecDepth 100000

theorem icyOffset_within_interval_witness :
    0 ≤ (truncatedRead1 (Char.ofNat 1)).inStream.data.icyOffset ∧
      (truncatedRead1 (Char.ofNat 1)).inStream.data.icyOffset
        ≤ (truncatedRead1 (Char.ofNat 1)).inStream.data.icyMetaint :=
  icyOffset_within_interval (truncatedRead1 (Char.ofNat 1)).inStream
    (truncatedRead1 (Char.ofNat 1)).os
    (ReachableSized.read _ _ 1 100 (by decide) (by decide)
      (ReachableSized.opened exampleStream "http://h/".toList (truncatedOS (Char.ofNat 1))
        (by decide)))
    (by decide)

/-- C13, as stated, fails. The peer sends `icy-metaint:2` and six bytes, and
closes; the first read asks for `2^64 - 1` elements of size 1.  The request
does not fit the `long` that holds it (`inlen` is `-1`), `tosend` is `-1`, and
the session is left with the interval 2 and the offset `-1`. -/
theorem huge_request_breaks_offset :
    Reachable
        (inputStream_httpRead (truncatedOpen (Char.ofNat 1)).2.1
          (truncatedOpen (Char.ofNat 1)).2.2 1 18446744073709551615).inStream
        (inputStream_httpRead (truncatedOpen (Char.ofNat 1)).2.1
          (truncatedOpen (Char.ofNat 1)).2.2 1 18446744073709551615).os ∧
      (inputStream_httpRead (truncatedOpen (Char.ofNat 1)).2.1
          (truncatedOpen (Char.ofNat 1)).2.2 1 18446744073709551615).inStream.data.icyMetaint
        = 2 ∧
      (inputStream_httpRead (truncatedOpen (Char.ofNat 1)).2.1
          (truncatedOpen (Char.ofNat 1)).2.2 1 18446744073709551615).inStream.data.icyOffset
        = -1 :=
  ⟨Reachable.read _ _ 1 18446744073709551615
      (Reachable.opened exampleStream "http://h/".toList (truncatedOS (Char.ofNat 1))
        (by decide)),
    by decide, by decide⟩

/-! ### The header block seen line by line -/

theorem strstr_cons (x : Char) (xs pat : List Char) :
    strstr (x :: xs) pat
      = if pat.isPrefixOf (x :: xs) then some 0 else (strstr xs pat).map (· + 1) := rfl

theorem strstr_of_prefix (s pat : List Char) (h : pat <+: s) (hne : pat ≠ []) :
    strstr s pat = some 0 := by
  cases s with
  | nil =>
    have := List.prefix_nil.1 h
    exact absurd this hne
  | cons x xs =>
    rw [strstr_cons, if_pos (List.isPrefixOf_iff_prefix.2 h)]

/-- A text that holds no `\r\n` does not start with one, nor does what is left
of it after its first character. -/
theorem crlf_free_cons (x : Char) (xs : List Char)
    (h : strstr (x :: xs) "\r\n".toList = none) :
    ¬ "\r\n".toList <+: (x :: xs) ∧ strstr xs "\r\n".toList = none := by
  rw [strstr_cons] at h
  split at h
  · cases h
  · rename_i hp
    refine ⟨fun hh => hp (List.isPrefixOf_iff_prefix.2 hh), ?_⟩
    cases hs : strstr xs "\r\n".toList with
    | none => rfl
    | some k =>
      rw [hs] at h
      cases h

theorem crlf_free_drop (l : List Char) (h : strstr l "\r\n".toList = none) :
    ∀ k, strstr (l.drop k) "\r\n".toList = none := by
  induction l with
  | nil =>
    intro k
    simpa using h
  | cons x xs ih =>
    intro k
    cases k with
    | zero => exact h
    | succ k => exact ih (crlf_free_cons x xs h).2 k

/-- The first `\r\n` of a text that starts with a part free of `\r\n` and goes
on with `\r\n` is at the end of that part. -/
theorem strstr_crlf_append (l y : List Char) (hl : strstr l "\r\n".toList = none) :
    strstr (l ++ '\r' :: '\n' :: y) "\r\n".toList = some l.length := by
  induction l with
  | nil =>
    exact strstr_of_prefix _ _ ⟨y, rfl⟩ (by decide)
  | cons x xs ih =>
    obtain ⟨h1, h2⟩ := crlf_free_cons x xs hl
    have hnp : ¬ "\r\n".toList <+: (x :: (xs ++ '\r' :: '\n' :: y)) := by
      intro hp
      cases xs with
      | nil =>
        obtain ⟨t, ht⟩ := hp
        simp at ht
      | cons z zs =>
        apply h1
        obtain ⟨t, ht⟩ := hp
        simp at ht
        obtain ⟨e1, e2, _⟩ := ht
        subst e1 e2
        exact ⟨zs, rfl⟩
    rw [List.cons_append, strstr_cons,
      if_neg (fun hh => hnp (List.isPrefixOf_iff_prefix.1 hh)), ih h2]
    rfl

theorem crlf_not_prefix_append (l y : List Char) (hl : strstr l "\r\n".toList = none)
    (hne : l ≠ []) : ¬ "\r\n".toList <+: (l ++ '\r' :: '\n' :: y) := by
  intro hp
  have h := strstr_of_prefix _ _ hp (by decide)
  rw [strstr_crlf_append l y hl] at h
  simp only [Option.some.injEq] at h
  exact hne (List.length_eq_zero.1 h)

theorem headerLines_head (lines : List (List Char)) :
    ∃ y, headerLines lines = '\r' :: '\n' :: y := by
  cases lines with
  | nil => exact ⟨_, rfl⟩
  | cons l ls => exact ⟨_, rfl⟩

theorem headerLines_length (lines : List (List Char)) : 4 ≤ (headerLines lines).length := by
  induction lines with
  | nil => exact Nat.le_refl _
  | cons l ls ih =>
    simp only [headerLines, List.length_cons, List.length_append]
    omega

theorem headerLines_length_lines (lines : List (List Char)) :
    lines.length < (headerLines lines).length := by
  induction lines with
  | nil => decide
  | cons l ls ih =>
    simp only [headerLines, List.length_cons, List.length_append]
    omega

theorem strstr_terminator_append (l y : List Char) (hl : strstr l "\r\n".toList = none) :
    strstr (l ++ '\r' :: '\n' :: y) "\r\n\r\n".toList
      = (strstr ('\r' :: '\n' :: y) "\r\n\r\n".toList).map (· + l.length) := by
  induction l with
  | nil => simp
  | cons x xs ih =>
    have hnp : ¬ "\r\n\r\n".toList <+: (x :: (xs ++ '\r' :: '\n' :: y)) := fun hp =>
      crlf_not_prefix_append (x :: xs) y hl (by simp)
        (List.IsPrefix.trans ⟨"\r\n".toList, rfl⟩ hp)
    rw [List.cons_append, strstr_cons,
      if_neg (fun hh => hnp (List.isPrefixOf_iff_prefix.1 hh)),
      ih (crlf_free_cons x xs hl).2, Option.map_map]
    congr 1

theorem strstr_terminator_line (l y : List Char) (hl : strstr l "\r\n".toList = none)
    (hne : l ≠ []) :
    strstr ('\r' :: '\n' :: (l ++ '\r' :: '\n' :: y)) "\r\n\r\n".toList
      = (strstr ('\r' :: '\n' :: y) "\r\n\r\n".toList).map (· + (l.length + 2)) := by
  have h1 : ¬ "\r\n\r\n".toList <+: ('\r' :: '\n' :: (l ++ '\r' :: '\n' :: y)) := by
    intro hp
    apply crlf_not_prefix_append l y hl hne
    obtain ⟨t, ht⟩ := hp
    simp only [String.toList, List.cons_append, List.nil_append, List.cons.injEq,
      true_and] at ht
    exact ⟨t, ht⟩
  have h2 : ¬ "\r\n\r\n".toList <+: ('\n' :: (l ++ '\r' :: '\n' :: y)) := by
    intro hp
    obtain ⟨t, ht⟩ := hp
    simp at ht
  rw [strstr_cons, if_neg (fun hh => h1 (List.isPrefixOf_iff_prefix.1 hh)), strstr_cons,
    if_neg (fun hh => h2 (List.isPrefixOf_iff_prefix.1 hh)),
    strstr_terminator_append l y hl, Option.map_map, Option.map_map]
  congr 1

/-- The first empty line of well-formed header lines is the one that ends
them. -/
theorem strstr_terminator_headerLines (tail : List Char) :
    ∀ lines : List (List Char),
      (∀ l ∈ lines, l ≠ [] ∧ strstr l "\r\n".toList = none) →
      strstr (headerLines lines ++ tail) "\r\n\r\n".toList
        = some ((headerLines lines).length - 4) := by
  intro lines
  induction lines with
  | nil =>
    intro _
    exact strstr_of_prefix _ _ ⟨tail, rfl⟩ (by decide)
  | cons l ls ih =>
    intro h
    obtain ⟨hne, hl⟩ := h l (by simp)
    have ih1 := ih (fun x hx => h x (by simp [hx]))
    obtain ⟨y, hy⟩ := headerLines_head ls
    have hlen := headerLines_length ls
    have e : headerLines (l :: ls) ++ tail
        = '\r' :: '\n' :: (l ++ '\r' :: '\n' :: (y ++ tail)) := by
      simp only [headerLines, hy, List.cons_append, List.append_assoc]
    have e2 : headerLines ls ++ tail = '\r' :: '\n' :: (y ++ tail) := by
      rw [hy]
      rfl
    rw [e, strstr_terminator_line l _ hl hne, ← e2, ih1]
    simp only [Option.map_some', headerLines, List.length_cons, List.length_append,
      Option.some.injEq]
    omega

/-! #### One header line -/

theorem prefix_line (pat l y : List Char) (hpat : '\r' ∉ pat) :
    pat <+: (l ++ '\r' :: y) ↔ pat <+: l := by
  constructor
  · rintro ⟨t, ht⟩
    rcases List.append_eq_append_iff.1 ht with ⟨a, h1, _⟩ | ⟨c, h1, h2⟩
    · exact ⟨a, h1.symm⟩
    · cases c with
      | nil =>
        rw [h1, List.append_nil]
      | cons z zs =>
        simp only [List.cons_append, List.cons.injEq] at h2
        exfalso
        apply hpat
        rw [h1, ← h2.1]
        simp
  · intro h
    exact List.IsPrefix.trans h (List.prefix_append _ _)

/-- The test of the header loop for a field name, on a line that is followed
by `\r\n`: the line starts with the name. -/
theorem strncmp_line (pat l y : List Char) (n : Nat) (hpat : '\r' ∉ pat)
    (hn : pat.length + 2 = n) :
    strncmp_eq ('\r' :: '\n' :: (l ++ '\r' :: y)) ('\r' :: '\n' :: pat) n = true
      ↔ pat <+: l := by
  rw [ strncmp_eq_iff_prefix _ _ n (by simp only [List.length_cons]; omega),
    List.cons_prefix_cons, List.cons_prefix_cons]
  simp only [true_and]
  exact prefix_line pat l y hpat

theorem drop_line (l rest : List Char) (k : Nat) (hk : k ≤ l.length) :
    ('\r' :: '\n' :: (l ++ rest)).drop (k + 2) = l.drop k ++ rest := by
  show (l ++ rest).drop k = _
  rw [List.drop_append_of_le_length hk]

theorem take_line (l rest : List Char) :
    ('\r' :: '\n' :: (l ++ rest)).take (l.length + 2) = '\r' :: '\n' :: l := by
  show '\r' :: '\n' :: (l ++ rest).take l.length = _
  rw [List.take_left']
  rfl

theorem drop_takeWhile_length (p : Char → Bool) (l : List Char) :
    l.drop (l.takeWhile p).length = l.dropWhile p := by
  induction l with
  | nil => rfl
  | cons x xs ih =>
    by_cases hx : p x = true
    · simp only [List.takeWhile_cons, hx, if_true, List.length_cons, List.drop_succ_cons,
        List.dropWhile_cons, ih]
    · simp only [List.takeWhile_cons, hx, if_false, List.length_nil, List.drop_zero,
        List.dropWhile_cons, Bool.false_eq_true]

/-- The value the header loop copies for a name field: the text after the
name with its leading spaces removed, up to the end of the line. -/
theorem headerValue_trimmed (l rest : List Char) (k : Nat) (hk : k ≤ l.length) :
    headerValue ('\r' :: '\n' :: (l ++ rest)) (k + 2) (l.drop k).length
        (skipSpaces ('\r' :: '\n' :: (l ++ rest)) (k + 2) (l.drop k).length)
      = (l.drop k).dropWhile (fun c => c = ' ') := by
  have hlen : k + 2 + (l.drop k).length = l.length + 2 := by
    rw [List.length_drop]
    omega
  unfold headerValue skipSpaces
  rw [hlen, take_line]
  have hd : ('\r' :: '\n' :: l).drop (k + 2) = l.drop k := rfl
  rw [hd, ← drop_takeWhile_length, ← hd, List.drop_drop]

theorem headerValue_untrimmed (l rest : List Char) (k : Nat) (hk : k ≤ l.length) :
    headerValue ('\r' :: '\n' :: (l ++ rest)) (k + 2) (l.drop k).length (k + 2)
      = l.drop k := by
  have hlen : k + 2 + (l.drop k).length = l.length + 2 := by
    rw [List.length_drop]
    omega
  unfold headerValue
  rw [hlen, take_line]
  rfl

/-- One pass of the header loop on a well-formed line is `headerLine`. -/
theorem helloField_line (l y : List Char) (inStream : InputStream)
    (hl : strstr l "\r\n".toList = none) :
    helloField ('\r' :: '\n' :: (l ++ '\r' :: '\n' :: y)) inStream
      = some (headerLine l ('\r' :: '\n' :: y) inStream) := by
  have c1 : strncmp_eq ('\r' :: '\n' :: (l ++ '\r' :: '\n' :: y))
      "\r\nContent-Length: ".toList 18 = true ↔ "Content-Length: ".toList <+: l :=
    strncmp_line "Content-Length: ".toList l ('\n' :: y) 18 (by decide) rfl
  have c2 : strncmp_eq ('\r' :: '\n' :: (l ++ '\r' :: '\n' :: y))
      "\r\nicy-metaint:".toList 14 = true ↔ "icy-metaint:".toList <+: l :=
    strncmp_line "icy-metaint:".toList l ('\n' :: y) 14 (by decide) rfl
  have c3 : strncmp_eq ('\r' :: '\n' :: (l ++ '\r' :: '\n' :: y))
      "\r\nicy-name:".toList 11 = true ↔ "icy-name:".toList <+: l :=
    strncmp_line "icy-name:".toList l ('\n' :: y) 11 (by decide) rfl
  have c4 : strncmp_eq ('\r' :: '\n' :: (l ++ '\r' :: '\n' :: y))
      "\r\nx-audiocast-name:".toList 19 = true ↔ "x-audiocast-name:".toList <+: l :=
    strncmp_line "x-audiocast-name:".toList l ('\n' :: y) 19 (by decide) rfl
  have c5 : strncmp_eq ('\r' :: '\n' :: (l ++ '\r' :: '\n' :: y))
      "\r\nContent-Type:".toList 15 = true ↔ "Content-Type:".toList <+: l :=
    strncmp_line "Content-Type:".toList l ('\n' :: y) 15 (by decide) rfl
  have hs : ∀ k, k ≤ l.length →
      strstr (('\r' :: '\n' :: (l ++ '\r' :: '\n' :: y)).drop (k + 2)) "\r\n".toList
        = some (l.drop k).length := by
    intro k hk
    rw [drop_line l _ k hk]
    exact strstr_crlf_append _ _ (crlf_free_drop l hl k)
  unfold helloField headerLine
  by_cases h1 : "Content-Length: ".toList <+: l
  · have hk : 16 ≤ l.length := h1.length_le
    have hd : ('\r' :: '\n' :: (l ++ '\r' :: '\n' :: y)).drop 18
        = l.drop 16 ++ '\r' :: '\n' :: y := drop_line l _ 16 hk
    rw [if_pos (c1.2 h1), if_pos h1, hd]
  · rw [if_neg (fun h => h1 (c1.1 h)), if_neg h1]
    by_cases h2 : "icy-metaint:".toList <+: l
    · have hk : 12 ≤ l.length := h2.length_le
      have hd : ('\r' :: '\n' :: (l ++ '\r' :: '\n' :: y)).drop 14
          = l.drop 12 ++ '\r' :: '\n' :: y := drop_line l _ 12 hk
      rw [if_pos (c2.2 h2), if_pos h2, hd]
    · rw [if_neg (fun h => h2 (c2.1 h)), if_neg h2]
      by_cases h3 : "icy-name:".toList <+: l
      · have hk : 9 ≤ l.length := h3.length_le
        have hd : strstr (('\r' :: '\n' :: (l ++ '\r' :: '\n' :: y)).drop 11) "\r\n".toList
            = some (l.drop 9).length := hs 9 hk
        have hv : headerValue ('\r' :: '\n' :: (l ++ '\r' :: '\n' :: y)) 11 (l.drop 9).length
            (skipSpaces ('\r' :: '\n' :: (l ++ '\r' :: '\n' :: y)) 11 (l.drop 9).length)
            = (l.drop 9).dropWhile (fun c => c = ' ') := headerValue_trimmed l _ 9 hk
        rw [if_pos (c3.2 h3), if_pos h3, hd]
        simp only []
        rw [hv]
      · rw [if_neg (fun h => h3 (c3.1 h)), if_neg h3]
        by_cases h4 : "x-audiocast-name:".toList <+: l
        · have hk : 17 ≤ l.length := h4.length_le
          have hd : strstr (('\r' :: '\n' :: (l ++ '\r' :: '\n' :: y)).drop 19) "\r\n".toList
              = some (l.drop 17).length := hs 17 hk
          have hv : headerValue ('\r' :: '\n' :: (l ++ '\r' :: '\n' :: y)) 19
              (l.drop 17).length
              (skipSpaces ('\r' :: '\n' :: (l ++ '\r' :: '\n' :: y)) 19 (l.drop 17).length)
              = (l.drop 17).dropWhile (fun c => c = ' ') := headerValue_trimmed l _ 17 hk
          rw [if_pos (c4.2 h4), if_pos h4, hd]
          simp only []
          rw [hv]
        · rw [if_neg (fun h => h4 (c4.1 h)), if_neg h4]
          by_cases h5 : "Content-Type:".toList <+: l
          · have hk : 13 ≤ l.length := h5.length_le
            have hd : strstr (('\r' :: '\n' :: (l ++ '\r' :: '\n' :: y)).drop 15)
                "\r\n".toList = some (l.drop 13).length := hs 13 hk
            have hv : headerValue ('\r' :: '\n' :: (l ++ '\r' :: '\n' :: y)) 15
                (l.drop 13).length 15 = l.drop 13 := headerValue_untrimmed l _ 13 hk
            rw [if_pos (c5.2 h5), if_pos h5, hd]
            simp only []
            rw [hv]
          · rw [if_neg (fun h => h5 (c5.1 h)), if_neg h5]

/-! #### The header loop -/

/-- The header loop, started at the `\r\n` before the first of the lines that
are left, does to the stream what `headerFold` says. -/
theorem helloFields_lines (tail : List Char) :
    ∀ (lines : List (List Char)) (pre : List Char) (fuel : Nat) (inStream : InputStream),
      (∀ l ∈ lines, l ≠ [] ∧ strstr l "\r\n".toList = none) → lines.length < fuel →
      helloFields (pre ++ (headerLines lines ++ tail))
          (pre.length + ((headerLines lines).length - 4)) fuel (some pre.length) inStream
        = headerFold lines tail inStream := by
  intro lines
  induction lines with
  | nil =>
    intro pre fuel inStream _ hf
    cases fuel with
    | zero => simp at hf
    | succ f =>
      simp only [helloFields]
      rw [if_pos (by simp [headerLines])]
      rfl
  | cons l ls ih =>
    intro pre fuel inStream h hf
    obtain ⟨hne, hl⟩ := h l (by simp)
    obtain ⟨y, hy⟩ := headerLines_head ls
    have hlen := headerLines_length ls
    have hpos : 0 < l.length := List.length_pos.2 hne
    cases fuel with
    | zero => simp at hf
    | succ f =>
      have hX : headerLines (l :: ls) ++ tail
          = '\r' :: '\n' :: (l ++ '\r' :: '\n' :: (y ++ tail)) := by
        simp only [headerLines, hy, List.cons_append, List.append_assoc]
      have hrest : headerLines ls ++ tail = '\r' :: '\n' :: (y ++ tail) := by
        rw [hy]
        rfl
      have hdrop : (pre ++ (headerLines (l :: ls) ++ tail)).drop pre.length
          = '\r' :: '\n' :: (l ++ '\r' :: '\n' :: (y ++ tail)) := by
        rw [List.drop_left, hX]
      have hdrop2 : (pre ++ (headerLines (l :: ls) ++ tail)).drop (pre.length + 2)
          = l ++ '\r' :: '\n' :: (y ++ tail) := by
        have e : pre ++ (headerLines (l :: ls) ++ tail)
            = (pre ++ ['\r', '\n']) ++ (l ++ '\r' :: '\n' :: (y ++ tail)) := by
          rw [hX]
          simp
        rw [e]
        exact List.drop_left' (by simp)
      have hneq : pre.length ≠ pre.length + ((headerLines (l :: ls)).length - 4) := by
        simp only [headerLines, List.length_cons, List.length_append]
        omega
      have e1 : pre ++ (headerLines (l :: ls) ++ tail)
          = (pre ++ '\r' :: '\n' :: l) ++ (headerLines ls ++ tail) := by
        simp [headerLines]
      have e2 : pre.length + ((headerLines (l :: ls)).length - 4)
          = (pre ++ '\r' :: '\n' :: l).length + ((headerLines ls).length - 4) := by
        simp only [headerLines, List.length_cons, List.length_append]
        omega
      have e3 : l.length + (pre.length + 2) = (pre ++ '\r' :: '\n' :: l).length := by
        simp only [List.length_cons, List.length_append]
        omega
      simp only [helloFields]
      rw [if_neg hneq, hdrop, helloField_line l _ inStream hl]
      simp only []
      rw [hdrop2, strstr_crlf_append l _ hl]
      simp only [Option.map_some']
      rw [e1, e2, e3, ← hrest]
      exact ih (pre ++ '\r' :: '\n' :: l) f _ (fun x hx => h x (by simp [hx]))
        (by simp only [List.length_cons] at hf; omega)

/-! #### The parse of an accepted header block -/

theorem cstr_append_of_not_mem (h b : List Char) (hh : Char.ofNat 0 ∉ h) :
    cstr (h ++ b) = h ++ cstr b := by
  unfold cstr
  induction h with
  | nil => rfl
  | cons x xs ih =>
    have hx : x ≠ Char.ofNat 0 := fun e => hh (by simp [e])
    have hxs : Char.ofNat 0 ∉ xs := fun e => hh (by simp [e])
    simp only [List.cons_append, List.takeWhile_cons, bne_iff_ne, ne_eq, hx, not_false_eq_true,
      decide_True, if_true, ih hxs]

theorem headerLines_not_mem (c : Char) (h1 : c ≠ '\r') (h2 : c ≠ '\n') :
    ∀ lines : List (List Char), (∀ l ∈ lines, c ∉ l) → c ∉ headerLines lines := by
  intro lines
  induction lines with
  | nil =>
    intro _ hc
    simp only [headerLines, String.toList, List.mem_cons, List.mem_singleton,
      List.not_mem_nil, or_false] at hc
    rcases hc with e | e | e | e
    · exact h1 e
    · exact h2 e
    · exact h1 e
    · exact h2 e
  | cons l ls ih =>
    intro h hc
    simp only [headerLines, List.mem_cons, List.mem_append] at hc
    rcases hc with e | e | e | e
    · exact h1 e
    · exact h2 e
    · exact h l (by simp) e
    · exact ih (fun x hx => h x (by simp [hx])) e

/-- The parse of an accepted header block, line by line: the block is the
status line, the header lines and the empty line; what follows is the body. -/
theorem helloParse_accepted (inStream : InputStream) (os : OS)
    (status body : List Char) (lines : List (List Char)) (rc : Int)
    (hbuf : inStream.data.buffer = status ++ (headerLines lines ++ body))
    (hs0 : Char.ofNat 0 ∉ status) (hs1 : strstr status "\r\n".toList = none)
    (hlines : ∀ l ∈ lines, l ≠ [] ∧ Char.ofNat 0 ∉ l ∧ strstr l "\r\n".toList = none)
    (hst : helloStatus (cstr inStream.data.buffer) = some rc) (hrc : rc = 200 ∨ rc = 206) :
    (helloParse inStream os).1 = 0 ∧
      (helloParse inStream os).2.2 = os ∧
      (helloParse inStream os).2.1.data.connState = HTTP_CONN_STATE_OPEN ∧
      ∃ sk : Bool,
        (helloParse inStream os).2.1.size
          = (headerFold lines (cstr body) { inStream with seekable := sk }).size ∧
        (helloParse inStream os).2.1.metaName
          = (headerFold lines (cstr body) { inStream with seekable := sk }).metaName ∧
        (helloParse inStream os).2.1.mime
          = (headerFold lines (cstr body) { inStream with seekable := sk }).mime ∧
        (helloParse inStream os).2.1.data.icyMetaint
          = (headerFold lines (cstr body) { inStream with seekable := sk }).data.icyMetaint := by
  have hcs : cstr inStream.data.buffer = status ++ (headerLines lines ++ cstr body) := by
    rw [hbuf, cstr_append_of_not_mem _ _ hs0,
      cstr_append_of_not_mem _ _ (headerLines_not_mem _ (by decide) (by decide) lines
        (fun l hl => (hlines l hl).2.1))]
  obtain ⟨y, hy⟩ := headerLines_head lines
  have hrest : headerLines lines ++ cstr body = '\r' :: '\n' :: (y ++ cstr body) := by
    rw [hy]
    rfl
  have hneedle : strstr (cstr inStream.data.buffer) "\r\n\r\n".toList
      = some (status.length + ((headerLines lines).length - 4)) := by
    rw [hcs, hrest, strstr_terminator_append status _ hs1, ← hrest,
      strstr_terminator_headerLines (cstr body) lines
        (fun l hl => ⟨(hlines l hl).1, (hlines l hl).2.2⟩)]
    simp only [Option.map_some', Option.some.injEq]
    omega
  have hfirst : strstr (cstr inStream.data.buffer) "\r\n".toList = some status.length := by
    rw [hcs, hrest]
    exact strstr_crlf_append status _ hs1
  have hfuel : lines.length < (cstr inStream.data.buffer).length := by
    have := headerLines_length_lines lines
    rw [hcs]
    simp only [List.length_append]
    omega
  have hloop : ∀ st : InputStream,
      helloFields (cstr inStream.data.buffer) (status.length + ((headerLines lines).length - 4))
        (cstr inStream.data.buffer).length (some status.length) st
        = headerFold lines (cstr body) st := by
    intro st
    have := helloFields_lines (cstr body) lines status (cstr inStream.data.buffer).length st
      (fun l hl => ⟨(hlines l hl).1, (hlines l hl).2.2⟩) hfuel
    rw [← hcs] at this
    exact this
  unfold helloParse
  dsimp only
  rw [hneedle]
  simp only []
  rw [hst]
  simp only []
  rw [if_pos hrc, hfirst, hloop]
  refine ⟨rfl, rfl, rfl, helloSeekable (cstr inStream.data.buffer) inStream.seekable, ?_⟩
  split <;> exact ⟨rfl, rfl, rfl, rfl⟩

/-! #### The name of the stream -/

theorem headerLine_metaName_keep (l rest : List Char) (inStream : InputStream)
    (h : ¬ "icy-name:".toList <+: l ∧ ¬ "x-audiocast-name:".toList <+: l) :
    (headerLine l rest inStream).metaName = inStream.metaName := by
  unfold headerLine
  rw [if_neg h.1, if_neg h.2]
  repeat' split
  all_goals rfl

theorem headerLine_metaName_name (name value rest : List Char) (inStream : InputStream)
    (hname : name = "icy-name:".toList ∨ name = "x-audiocast-name:".toList) :
    (headerLine (name ++ value) rest inStream).metaName
      = some (value.dropWhile (fun c => c = ' ')) := by
  have hp : name <+: name ++ value := List.prefix_append _ _
  unfold headerLine
  rcases hname with e | e
  · subst e
    rw [if_neg (fun h => not_both_prefix _ _ _ h hp (by decide) (by decide)),
      if_neg (fun h => not_both_prefix _ _ _ h hp (by decide) (by decide)), if_pos hp]
    have hd : ("icy-name:".toList ++ value).drop 9 = value := List.drop_left' rfl
    show some (((("icy-name:".toList ++ value).drop 9)).dropWhile _) = _
    rw [hd]
  · subst e
    rw [if_neg (fun h => not_both_prefix _ _ _ h hp (by decide) (by decide)),
      if_neg (fun h => not_both_prefix _ _ _ h hp (by decide) (by decide)),
      if_neg (fun h => not_both_prefix _ _ _ h hp (by decide) (by decide)), if_pos hp]
    have hd : ("x-audiocast-name:".toList ++ value).drop 17 = value := List.drop_left' rfl
    show some (((("x-audiocast-name:".toList ++ value).drop 17)).dropWhile _) = _
    rw [hd]

theorem headerFold_metaName_keep (tail : List Char) :
    ∀ (lines : List (List Char)) (inStream : InputStream),
      (∀ l ∈ lines, ¬ "icy-name:".toList <+: l ∧ ¬ "x-audiocast-name:".toList <+: l) →
      (headerFold lines tail inStream).metaName = inStream.metaName := by
  intro lines
  induction lines with
  | nil => intro _ _; rfl
  | cons l ls ih =>
    intro inStream h
    show (headerFold ls tail (headerLine l (headerLines ls ++ tail) inStream)).metaName = _
    rw [ih _ (fun x hx => h x (by simp [hx])), headerLine_metaName_keep l _ _ (h l (by simp))]

theorem headerFold_metaName_last (tail name value : List Char) (after : List (List Char))
    (hname : name = "icy-name:".toList ∨ name = "x-audiocast-name:".toList)
    (hafter : ∀ l ∈ after,
      ¬ "icy-name:".toList <+: l ∧ ¬ "x-audiocast-name:".toList <+: l) :
    ∀ (before : List (List Char)) (inStream : InputStream),
      (headerFold (before ++ (name ++ value) :: after) tail inStream).metaName
        = some (value.dropWhile (fun c => c = ' ')) := by
  intro before
  induction before with
  | nil =>
    intro inStream
    show (headerFold after tail
      (headerLine (name ++ value) (headerLines after ++ tail) inStream)).metaName = _
    rw [headerFold_metaName_keep tail after _ hafter,
      headerLine_metaName_name name value _ _ hname]
  | cons x xs ih =>
    intro inStream
    exact ih _

theorem helloField_buffer (p : List Char) (inStream r : InputStream)
    (h : helloField p inStream = some r) : r.data.buffer = inStream.data.buffer := by
  unfold helloField at h
  dsimp only at h
  repeat' split at h
  all_goals first
    | (cases h; rfl)
    | (simp at h)

/-- The header loop leaves the bytes of the buffer as they were received. -/
theorem helloFields_buffer (cs : List Char) (needle : Nat) :
    ∀ (fuel : Nat) (cur : Option Nat) (inStream : InputStream),
      (helloFields cs needle fuel cur inStream).data.buffer = inStream.data.buffer := by
  intro fuel
  induction fuel with
  | zero => intro cur inStream; rfl
  | succ n ih =>
    intro cur inStream
    cases cur with
    | none => rfl
    | some c =>
      simp only [helloFields]
      split
      · rfl
      · split
        · rfl
        · rename_i r hr
          rw [ih, helloField_buffer _ _ _ hr]

/-- C20. For every accepted header block (status line, header lines, empty
line; no line is empty or holds NUL or `\r\n`): when the last header line that
starts with `icy-name:` or `x-audiocast-name:` is that name followed by
`value`, the parse succeeds and the name of the stream is `value` without its
leading spaces, whatever lines of either kind come before; and the header
loop leaves the bytes of the buffer as they were received. -/
theorem metaName_last_name_line (inStream : InputStream) (os : OS)
    (status body name value : List Char) (before after : List (List Char)) (rc : Int)
    (hbuf : inStream.data.buffer
      = status ++ (headerLines (before ++ (name ++ value) :: after) ++ body))
    (hs0 : Char.ofNat 0 ∉ status) (hs1 : strstr status "\r\n".toList = none)
    (hlines : ∀ l ∈ before ++ (name ++ value) :: after,
      l ≠ [] ∧ Char.ofNat 0 ∉ l ∧ strstr l "\r\n".toList = none)
    (hst : helloStatus (cstr inStream.data.buffer) = some rc) (hrc : rc = 200 ∨ rc = 206)
    (hname : name = "icy-name:".toList ∨ name = "x-audiocast-name:".toList)
    (hafter : ∀ l ∈ after,
      ¬ "icy-name:".toList <+: l ∧ ¬ "x-audiocast-name:".toList <+: l) :
    (helloParse inStream os).1 = 0 ∧
      (helloParse inStream os).2.1.metaName = some (value.dropWhile (fun c => c = ' ')) ∧
      ∀ (needle fuel : Nat) (cur : Option Nat) (s : InputStream),
        (helloFields (cstr inStream.data.buffer) needle fuel cur s).data.buffer
          = s.data.buffer := by
  obtain ⟨h1, _, _, sk, _, h4, _, _⟩ :=
    helloParse_accepted inStream os status body _ rc hbuf hs0 hs1 hlines hst hrc
  refine ⟨h1, ?_, fun needle fuel cur s => helloFields_buffer _ needle fuel cur s⟩
  rw [h4]
  exact headerFold_metaName_last (cstr body) name value after hname hafter before _

set_option maxRecDepth 100000

theorem metaName_last_name_line_witness :
    (helloParse
        (helloState ("HTTP/1.1 200 OK\r\nicy-name:Old\r\nx-audiocast-name:  Radio One\r\n"
          ++ "Content-Type: audio/mpeg\r\n\r\nDATA").toList) idleOS).2.1.metaName
      = some "Radio One".toList :=
  (metaName_last_name_line
    (helloState ("HTTP/1.1 200 OK\r\nicy-name:Old\r\nx-audiocast-name:  Radio One\r\n"
      ++ "Content-Type: audio/mpeg\r\n\r\nDATA").toList) idleOS
    "HTTP/1.1 200 OK".toList "DATA".toList "x-audiocast-name:".toList "  Radio One".toList
    ["icy-name:Old".toList] ["Content-Type: audio/mpeg".toList] 200
    (by decide) (by decide) (by decide) (by decide) (by decide) (Or.inl rfl)
    (Or.inr rfl) (by decide)).2.1

/-! #### The size of the stream -/

theorem headerLine_size_keep (l rest : List Char) (inStream : InputStream)
    (h : inStream.size ≠ 0 ∨ ¬ "Content-Length: ".toList <+: l) :
    (headerLine l rest inStream).size = inStream.size := by
  unfold headerLine
  repeat' split
  all_goals first
    | rfl
    | (rename_i h1 h2
       rcases h with h | h
       · exact absurd h2 h
       · exact absurd h1 h)

theorem headerLine_size_value (ds rest : List Char) (inStream : InputStream)
    (hsize : inStream.size = 0)
    (hne : ds ≠ []) (hd : ∀ c ∈ ds, isdigit c = true)
    (hv : (digitsValue ds : Int) ≤ LONG_MAX) (hr : rest.head? = some '\r') :
    (headerLine ("Content-Length: ".toList ++ ds) rest inStream).size
      = (digitsValue ds : Int) := by
  have hdrop : ("Content-Length: ".toList ++ ds).drop 16 = ds := List.drop_left' rfl
  unfold headerLine
  rw [if_pos (List.prefix_append _ _), if_pos hsize, hdrop]
  show atol (ds ++ rest) = _
  unfold atol
  rw [strtol_digits ds rest hne hd (fun c hc => by
    rw [hr] at hc
    cases hc
    decide) hv]

theorem headerFold_size_keep (tail : List Char) :
    ∀ (lines : List (List Char)) (inStream : InputStream), inStream.size ≠ 0 →
      (headerFold lines tail inStream).size = inStream.size := by
  intro lines
  induction lines with
  | nil => intro _ _; rfl
  | cons l ls ih =>
    intro inStream h
    have h1 := headerLine_size_keep l (headerLines ls ++ tail) inStream (Or.inl h)
    show (headerFold ls tail (headerLine l (headerLines ls ++ tail) inStream)).size = _
    rw [ih _ (by rw [h1]; exact h), h1]

theorem headerLines_append_head (lines : List (List Char)) (tail : List Char) :
    (headerLines lines ++ tail).head? = some '\r' := by
  obtain ⟨y, hy⟩ := headerLines_head lines
  rw [hy]
  rfl

theorem headerFold_size_first (tail ds : List Char) (after : List (List Char))
    (hne : ds ≠ []) (hd : ∀ c ∈ ds, isdigit c = true)
    (hv : (digitsValue ds : Int) ≤ LONG_MAX) (hnz : digitsValue ds ≠ 0) :
    ∀ (before : List (List Char)) (inStream : InputStream), inStream.size = 0 →
      (∀ x ∈ before, "Content-Length: ".toList <+: x →
        ∃ zs, x = "Content-Length: ".toList ++ zs ∧ zs ≠ [] ∧
          (∀ c ∈ zs, isdigit c = true) ∧ digitsValue zs = 0) →
      (headerFold (before ++ ("Content-Length: ".toList ++ ds) :: after) tail inStream).size
        = (digitsValue ds : Int) := by
  intro before
  induction before with
  | nil =>
    intro inStream hsize _
    have h1 := headerLine_size_value ds (headerLines after ++ tail) inStream hsize hne hd hv
      (headerLines_append_head after tail)
    show (headerFold after tail (headerLine ("Content-Length: ".toList ++ ds)
      (headerLines after ++ tail) inStream)).size = _
    rw [headerFold_size_keep tail after _ (by rw [h1]; exact_mod_cast hnz), h1]
  | cons x xs ih =>
    intro inStream hsize hb
    apply ih
    · by_cases hx : "Content-Length: ".toList <+: x
      · obtain ⟨zs, e, z1, z2, z3⟩ := hb x (by simp) hx
        rw [e, headerLine_size_value zs _ inStream hsize z1 z2
          (by rw [z3]; decide) (headerLines_append_head _ tail), z3]
        rfl
      · rw [headerLine_size_keep x _ inStream (Or.inr hx)]
        exact hsize
    · exact fun y hy => hb y (by simp [hy])

/-- C18, amended. For every accepted header block (status line, header lines,
empty line; no line is empty or holds NUL or `\r\n`) parsed while the size of
the stream is 0: when a line `Content-Length: ` followed by a decimal numeral
`ds` with a value that is not 0 and within the range of `long` comes after
lines of which those that start with `Content-Length: ` carry a decimal
numeral of value 0, the size after the parse is the value of `ds`, whatever
lines come later. -/
theorem size_first_nonzero_content_length (inStream : InputStream) (os : OS)
    (status body ds : List Char) (before after : List (List Char)) (rc : Int)
    (hbuf : inStream.data.buffer
      = status ++ (headerLines (before ++ ("Content-Length: ".toList ++ ds) :: after) ++ body))
    (hs0 : Char.ofNat 0 ∉ status) (hs1 : strstr status "\r\n".toList = none)
    (hlines : ∀ l ∈ before ++ ("Content-Length: ".toList ++ ds) :: after,
      l ≠ [] ∧ Char.ofNat 0 ∉ l ∧ strstr l "\r\n".toList = none)
    (hst : helloStatus (cstr inStream.data.buffer) = some rc) (hrc : rc = 200 ∨ rc = 206)
    (hsize : inStream.size = 0)
    (hne : ds ≠ []) (hd : ∀ c ∈ ds, isdigit c = true)
    (hv : (digitsValue ds : Int) ≤ LONG_MAX) (hnz : digitsValue ds ≠ 0)
    (hbefore : ∀ x ∈ before, "Content-Length: ".toList <+: x →
      ∃ zs, x = "Content-Length: ".toList ++ zs ∧ zs ≠ [] ∧
        (∀ c ∈ zs, isdigit c = true) ∧ digitsValue zs = 0) :
    (helloParse inStream os).1 = 0 ∧
      (helloParse inStream os).2.1.size = (digitsValue ds : Int) := by
  obtain ⟨h1, _, _, sk, h3, _, _, _⟩ :=
    helloParse_accepted inStream os status body _ rc hbuf hs0 hs1 hlines hst hrc
  refine ⟨h1, ?_⟩
  rw [h3]
  exact headerFold_size_first (cstr body) ds after hne hd hv hnz before _ hsize hbefore

theorem size_first_nonzero_content_length_witness :
    (helloParse
        (helloState ("HTTP/1.1 200 OK\r\nContent-Type: audio/mpeg\r\nContent-Length: 0\r\n"
          ++ "Content-Length: 5\r\nContent-Length: 9\r\n\r\nDATA").toList) idleOS).2.1.size
      = 5 :=
  (size_first_nonzero_content_length
    (helloState ("HTTP/1.1 200 OK\r\nContent-Type: audio/mpeg\r\nContent-Length: 0\r\n"
      ++ "Content-Length: 5\r\nContent-Length: 9\r\n\r\nDATA").toList) idleOS
    "HTTP/1.1 200 OK".toList "DATA".toList "5".toList
    ["Content-Type: audio/mpeg".toList, "Content-Length: 0".toList]
    ["Content-Length: 9".toList] 200
    (by decide) (by decide) (by decide) (by decide) (by decide) (Or.inl rfl) (by decide)
    (by decide) (by decide) (by decide) (by decide)
    (fun x hx hp => by
      simp only [List.mem_cons, List.mem_singleton, List.not_mem_nil, or_false] at hx
      rcases hx with e | e
      · subst e
        exact absurd hp (by decide)
      · subst e
        exact ⟨"0".toList, by decide, by decide, by decide, by decide⟩)).2

/-- C18, as stated, fails. In a header block accepted with the lines
`Content-Length: 0` and `Content-Length: 5` the size after the parse is 5, not
the value 0 of the first line; and the line `Content-Length:7`, without a
space after the colon, leaves the size at 0. -/
theorem content_length_zero_then_later :
    (helloParse
        (helloState "HTTP/1.1 200 OK\r\nContent-Length: 0\r\nContent-Length: 5\r\n\r\n".toList)
        idleOS).1 = 0 ∧
      (helloParse
        (helloState "HTTP/1.1 200 OK\r\nContent-Length: 0\r\nContent-Length: 5\r\n\r\n".toList)
        idleOS).2.1.size = 5 ∧
      (helloParse (helloState "HTTP/1.1 200 OK\r\nContent-Length:7\r\n\r\n".toList)
        idleOS).1 = 0 ∧
      (helloParse (helloState "HTTP/1.1 200 OK\r\nContent-Length:7\r\n\r\n".toList)
        idleOS).2.1.data.connState = HTTP_CONN_STATE_OPEN ∧
      (helloParse (helloState "HTTP/1.1 200 OK\r\nContent-Length:7\r\n\r\n".toList)
        idleOS).2.1.size = 0 := by
  decide

/-! ### Seeking -/

/-- C24. `inputStream_httpSeek` fails (`-1`) for every stream, whatever its
state and its seekable flag, for every offset and every `whence`; the
function takes the stream and has no result but the status, so nothing of the
session changes. -/
theorem inputStream_httpSeek_fails (inStream : InputStream) (offset whence : Int) :
    inputStream_httpSeek inStream offset whence = -1 ∧
      ∀ seekable : Bool,
        inputStream_httpSeek { inStream with seekable := seekable } offset whence = -1 :=
  ⟨rfl, fun _ => rfl⟩

/-! ### A URL without a path -/

theorem parseUrl_host_only (data : InputStreamHTTPData) (host : List Char)
    (hne : host ≠ []) (hc : ':' ∉ host) (hs : '/' ∉ host) :
    parseUrl data ("http://".toList ++ host)
      = (0, { data with host := some host, path := some "/".toList }) := by
  have hdrop : ("http://".toList ++ host).drop 7 = host := by simp
  have hcolon := strchr_eq_none_of_not_mem host ':' hc
  have hslash := strchr_eq_none_of_not_mem host '/' hs
  have hlen : 0 < host.length := List.length_pos.2 hne
  have hnle : ¬ (host.length + 1 ≤ 1) := by omega
  unfold parseUrl
  simp only [strncmp_http, hdrop, hcolon, hslash]
  simp [hnle]

theorem parseUrl_host_port (data : InputStreamHTTPData) (host ds : List Char)
    (hne : host ≠ []) (hc : ':' ∉ host) (hs : '/' ∉ host)
    (hdne : ds ≠ []) (hd : ∀ c ∈ ds, isdigit c = true)
    (hp1 : 1 ≤ digitsValue ds) (hp2 : digitsValue ds ≤ 65535) :
    parseUrl data ("http://".toList ++ (host ++ ':' :: ds))
      = (0, { data with host := some host, port := (digitsValue ds : Int),
                        path := some "/".toList }) := by
  have hdrop : ("http://".toList ++ (host ++ ':' :: ds)).drop 7 = host ++ ':' :: ds := by
    simp
  have hcolon : strchr (host ++ ':' :: ds) ':' = some host.length :=
    strchr_append_of_not_mem _ _ _ hc
  have hslash : strchr (host ++ ':' :: ds) '/' = none := by
    apply strchr_eq_none_of_not_mem
    intro hm
    rcases List.mem_append.1 hm with h | h
    · exact hs h
    · rcases List.mem_cons.1 h with h | h
      · exact absurd h (by decide)
      · exact (isdigit_not_special _ (hd _ h)).2.2.2.1 rfl
  have hlen : 0 < host.length := List.length_pos.2 hne
  have hst : strtol (ds ++ []) = ((digitsValue ds : Int), ds.length) := by
    apply strtol_digits ds [] hdne hd
    · intro c hc'
      simp at hc'
    · simp only [LONG_MAX]
      omega
  rw [List.append_nil] at hst
  have hw : wrapInt (digitsValue ds : Int) = (digitsValue ds : Int) := by
    apply wrapInt_of_range <;> omega
  have e1 : (host ++ ':' :: ds).drop (host.length + 1) = ds := by
    rw [show host ++ ':' :: ds = (host ++ [':']) ++ ds by simp]
    exact List.drop_left' (by simp)
  have e3 : (host ++ ':' :: ds).take host.length = host := List.take_left' rfl
  have e4 : ds.drop ds.length = [] := List.drop_length ds
  have hpos : ¬ ((digitsValue ds : Int) ≤ 0) := by omega
  unfold parseUrl
  simp only [strncmp_http, hdrop, hcolon, hslash]
  simp [e1, e3, e4, hst, hw, hpos]
  exact hne

/-- C25. For every host that is not empty and holds no `:` and no `/`:
`parseUrl` on `http://host` succeeds with that host and the path `/` (the port
stays as it was), and on `http://host:port`, for every port written as a
string of decimal digits with a value from 1 to 65535, it succeeds with that
host, that port and the path `/`. -/
theorem parseUrl_default_path (data : InputStreamHTTPData) (host : List Char)
    (hne : host ≠ []) (hc : ':' ∉ host) (hs : '/' ∉ host) :
    parseUrl data ("http://".toList ++ host)
        = (0, { data with host := some host, path := some "/".toList }) ∧
      ∀ ds : List Char, ds ≠ [] → (∀ c ∈ ds, isdigit c = true) →
        1 ≤ digitsValue ds → digitsValue ds ≤ 65535 →
        parseUrl data ("http://".toList ++ (host ++ ':' :: ds))
          = (0, { data with host := some host, port := (digitsValue ds : Int),
                            path := some "/".toList }) :=
  ⟨parseUrl_host_only data host hne hc hs,
    fun ds h1 h2 h3 h4 => parseUrl_host_port data host ds hne hc hs h1 h2 h3 h4⟩

theorem parseUrl_default_path_witness :
    parseUrl newInputStreamHTTPData "http://example.org".toList
        = (0, { newInputStreamHTTPData with
                  host := some "example.org".toList, path := some "/".toList }) ∧
      parseUrl newInputStreamHTTPData "http://example.org:8000".toList
        = (0, { newInputStreamHTTPData with
                  host := some "example.org".toList, port := 8000,
                  path := some "/".toList }) :=
  ⟨(parseUrl_default_path newInputStreamHTTPData "example.org".toList
      (by decide) (by decide) (by decide)).1,
    (parseUrl_default_path newInputStreamHTTPData "example.org".toList
      (by decide) (by decide) (by decide)).2 "8000".toList
      (by decide) (by decide) (by decide) (by decide)⟩

/-! ### What an accepted header leaves -/

theorem helloField_buflen (p : List Char) (inStream r : InputStream)
    (h : helloField p inStream = some r) : r.data.buflen = inStream.data.buflen := by
  unfold helloField at h
  dsimp only at h
  repeat' split at h
  all_goals first
    | (cases h; rfl)
    | (simp at h)

theorem helloFields_buflen (cs : List Char) (needle : Nat) :
    ∀ (fuel : Nat) (cur : Option Nat) (inStream : InputStream),
      (helloFields cs needle fuel cur inStream).data.buflen = inStream.data.buflen := by
  intro fuel
  induction fuel with
  | zero => intro cur inStream; rfl
  | succ n ih =>
    intro cur inStream
    cases cur with
    | none => rfl
    | some c =>
      simp only [helloFields]
      split
      · rfl
      · split
        · rfl
        · rename_i r hr
          rw [ih, helloField_buflen _ _ _ hr]

/-- The parser leaves a session open, that was not open before, only when it
has found the end of the header and read the status 200 or 206. -/
theorem helloParse_open (inStream : InputStream) (os : OS)
    (hs : inStream.data.connState ≠ HTTP_CONN_STATE_OPEN)
    (hopen : (helloParse inStream os).2.1.data.connState = HTTP_CONN_STATE_OPEN) :
    ∃ needle rc, strstr (cstr inStream.data.buffer) "\r\n\r\n".toList = some needle ∧
      helloStatus (cstr inStream.data.buffer) = some rc ∧ (rc = 200 ∨ rc = 206) := by
  cases hn : strstr (cstr inStream.data.buffer) "\r\n\r\n".toList with
  | none =>
    exfalso
    have e : helloParse inStream os = (0, inStream, os) := by
      unfold helloParse
      dsimp only
      rw [hn]
    rw [e] at hopen
    exact hs hopen
  | some needle =>
    obtain ⟨c1, c2⟩ := helloParse_cases inStream os needle hn
    cases hst : helloStatus (cstr inStream.data.buffer) with
    | none =>
      exfalso
      rw [(c1 hst).2] at hopen
      exact absurd hopen (by decide)
    | some rc =>
      obtain ⟨d1, d2, d3⟩ := c2 rc hst
      by_cases h1 : rc = 200 ∨ rc = 206
      · exact ⟨needle, rc, rfl, rfl, h1⟩
      · exfalso
        by_cases h2 : rc = 301 ∨ rc = 302
        · rcases d2 h1 h2 with h | h
          · rw [h.2] at hopen
            exact absurd hopen (by decide)
          · rw [h.2] at hopen
            exact absurd hopen (by decide)
        · rw [(d3 h1 h2).2] at hopen
          exact absurd hopen (by decide)

/-- What the parser leaves of the session when it accepts the header. -/
theorem helloParse_accepted_data (inStream : InputStream) (os : OS) (needle : Nat) (rc : Int)
    (hn : strstr (cstr inStream.data.buffer) "\r\n\r\n".toList = some needle)
    (hst : helloStatus (cstr inStream.data.buffer) = some rc) (hrc : rc = 200 ∨ rc = 206) :
    (helloParse inStream os).2.1.seekable = false ∧
      (helloParse inStream os).2.1.data.prebuffer = true ∧
      (helloParse inStream os).2.1.data.buflen
        = wrapSize ((inStream.data.buflen : Int) - ((needle : Int) + 4)) ∧
      (helloParse inStream os).2.1.data.buffer
        = (inStream.data.buffer.drop (needle + 4)).take
            (wrapSize ((inStream.data.buflen : Int) - ((needle : Int) + 4))) := by
  have hb : ∀ st : InputStream,
      (helloFields (cstr inStream.data.buffer) needle (cstr inStream.data.buffer).length
        (strstr (cstr inStream.data.buffer) "\r\n".toList) st).data.buffer
        = st.data.buffer := fun st => helloFields_buffer _ _ _ _ st
  have hl : ∀ st : InputStream,
      (helloFields (cstr inStream.data.buffer) needle (cstr inStream.data.buffer).length
        (strstr (cstr inStream.data.buffer) "\r\n".toList) st).data.buflen
        = st.data.buflen := fun st => helloFields_buflen _ _ _ _ st
  unfold helloParse
  dsimp only
  rw [hn]
  simp only []
  rw [hst]
  simp only []
  rw [if_pos hrc]
  split
  · refine ⟨rfl, rfl, ?_, ?_⟩
    · simp only []
      rw [hl]
    · simp only []
      rw [hl, hb]
  · refine ⟨rfl, rfl, ?_, ?_⟩
    · simp only []
      rw [hl]
    · simp only []
      rw [hl, hb]

theorem OS.recv_selects (os : OS) (sel : List Ret) (len : Nat) :
    (OS.recv { os with selects := sel } len).1 = (os.recv len).1 := by
  unfold OS.recv
  dsimp only
  split
  · rfl
  · rfl
  · split <;> rfl

/-- The receive step leaves a session open, that was not open before, only by
handing the bytes it received to the parser. -/
theorem getHTTPHello_open (inStream : InputStream) (os : OS)
    (hs : inStream.data.connState ≠ HTTP_CONN_STATE_OPEN)
    (hopen : (getHTTPHello inStream os).2.1.data.connState = HTTP_CONN_STATE_OPEN) :
    ∃ bs os1, bs.length ≤ HTTP_BUFFER_SIZE - 1 - inStream.data.buflen ∧
      inStream.data.buflen < HTTP_BUFFER_SIZE - 1 ∧
      (os.recv (HTTP_BUFFER_SIZE - 1 - inStream.data.buflen)).1 = RecvAnswer.bytes bs ∧
      getHTTPHello inStream os
        = helloParse { inStream with data := { inStream.data with
              buffer := inStream.data.buffer ++ bs,
              buflen := inStream.data.buflen + bs.length,
              stale := Char.ofNat 0 :: inStream.data.stale.drop (bs.length + 1) } } os1 := by
  have hco : HTTP_CONN_STATE_CLOSED ≠ HTTP_CONN_STATE_OPEN := by decide
  unfold getHTTPHello at hopen ⊢
  dsimp only at hopen ⊢
  by_cases h1 : (os.selects.headD ⟨0, Errno.EOTHER⟩).val = 0 ∨
      ((os.selects.headD ⟨0, Errno.EOTHER⟩).val < 0 ∧
        (os.selects.headD ⟨0, Errno.EOTHER⟩).errno = Errno.EINTR)
  · rw [if_pos h1] at hopen
    exact absurd hopen hs
  rw [if_neg h1] at hopen ⊢
  by_cases h2 : (os.selects.headD ⟨0, Errno.EOTHER⟩).val < 0
  · rw [if_pos h2] at hopen
    exact absurd hopen hco
  rw [if_neg h2] at hopen ⊢
  by_cases h3 : inStream.data.buflen ≥ HTTP_BUFFER_SIZE - 1
  · rw [if_pos h3] at hopen
    exact absurd hopen hco
  rw [if_neg h3] at hopen ⊢
  rcases hr : OS.recv { os with selects := os.selects.tail }
      (HTTP_BUFFER_SIZE - 1 - inStream.data.buflen) with ⟨a, os1⟩
  rw [hr] at hopen
  cases a with
  | fail e =>
    simp only [] at hopen
    split at hopen
    · exact absurd hopen hs
    · exact absurd hopen hco
  | bytes bs =>
    simp only [] at hopen ⊢
    by_cases h4 : bs.length = 0
    · rw [if_pos h4] at hopen
      exact absurd hopen hco
    rw [if_neg h4]
    refine ⟨bs, os1, (OS.recv_bytes _ _ _ _ hr).1, Nat.lt_of_not_le h3, ?_, rfl⟩
    rw [← OS.recv_selects os os.selects.tail, hr]

/-! ### Seekability after the header -/

/-- C23. Whenever `getHTTPHello`, run on a session that awaits the header,
leaves the session open (the header was parsed with success), the stream's
seekable flag is false: for every content of the buffer and every answer of
the peer, so for each form of the status line and with or without a
`Content-Length` line. -/
theorem getHTTPHello_not_seekable (inStream : InputStream) (os : OS)
    (hs : inStream.data.connState = HTTP_CONN_STATE_HELLO)
    (hopen : (getHTTPHello inStream os).2.1.data.connState = HTTP_CONN_STATE_OPEN) :
    (getHTTPHello inStream os).2.1.seekable = false := by
  have hne : inStream.data.connState ≠ HTTP_CONN_STATE_OPEN := by
    rw [hs]
    decide
  obtain ⟨bs, os1, -, -, -, e⟩ := getHTTPHello_open inStream os hne hopen
  rw [e] at hopen ⊢
  obtain ⟨needle, rc, hn, hst, hrc⟩ :=
    helloParse_open { inStream with data := { inStream.data with
        buffer := inStream.data.buffer ++ bs,
        buflen := inStream.data.buflen + bs.length,
        stale := Char.ofNat 0 :: inStream.data.stale.drop (bs.length + 1) } } os1 hne hopen
  exact (helloParse_accepted_data _ _ needle rc hn hst hrc).1

theorem getHTTPHello_not_seekable_witness :
    partialHello.data.connState = HTTP_CONN_STATE_HELLO ∧
      (getHTTPHello partialHello partialHelloOS).2.1.data.connState = HTTP_CONN_STATE_OPEN ∧
      (getHTTPHello partialHello partialHelloOS).2.1.size = 5 ∧
      (getHTTPHello partialHello partialHelloOS).2.1.seekable = false :=
  ⟨by decide, by decide, by decide,
    getHTTPHello_not_seekable partialHello partialHelloOS (by decide) (by decide)⟩

/-! ### The bytes after the header -/

/-- Where `strstr` finds the pattern, the pattern stands, within the text, and
it stands nowhere before. -/
theorem strstr_some (pat : List Char) : ∀ (s : List Char) (n : Nat), strstr s pat = some n →
    pat <+: s.drop n ∧ n + pat.length ≤ s.length ∧ ∀ k < n, ¬ pat <+: s.drop k := by
  intro s
  induction s with
  | nil =>
    intro n h
    unfold strstr at h
    split at h
    · rename_i hp
      cases h
      subst hp
      exact ⟨List.prefix_refl _, by simp, fun k hk => absurd hk (Nat.not_lt_zero k)⟩
    · cases h
  | cons x xs ih =>
    intro n h
    rw [strstr_cons] at h
    split at h
    · rename_i hp
      cases h
      have hp2 := List.isPrefixOf_iff_prefix.1 hp
      exact ⟨hp2, by simpa using hp2.length_le, fun k hk => absurd hk (Nat.not_lt_zero k)⟩
    · rename_i hp
      cases hm : strstr xs pat with
      | none =>
        rw [hm] at h
        cases h
      | some m =>
        rw [hm, Option.map_some'] at h
        have hn : m + 1 = n := Option.some.inj h
        subst hn
        obtain ⟨a, b, c⟩ := ih m hm
        refine ⟨a, by simp only [List.length_cons]; omega, ?_⟩
        intro k hk
        cases k with
        | zero => exact fun hh => hp (List.isPrefixOf_iff_prefix.2 hh)
        | succ j => exact c j (by omega)

/-- The first occurrence of a pattern in the C string held in a buffer is its
first occurrence in the buffer. -/
theorem strstr_cstr_first (buffer pat : List Char) (n : Nat)
    (h : strstr (cstr buffer) pat = some n) :
    pat <+: buffer.drop n ∧ n + pat.length ≤ buffer.length ∧
      ∀ k < n, ¬ pat <+: buffer.drop k := by
  obtain ⟨a, b, c⟩ := strstr_some pat _ n h
  have hb : buffer = cstr buffer ++ buffer.dropWhile (fun c => c != Char.ofNat 0) :=
    (List.takeWhile_append_dropWhile _ buffer).symm
  generalize cstr buffer = cs at a b c hb
  generalize buffer.dropWhile (fun c => c != Char.ofNat 0) = tail at hb
  subst hb
  refine ⟨?_, ?_, ?_⟩
  · rw [List.drop_append_of_le_length (by omega)]
    exact a.trans (List.prefix_append _ _)
  · rw [List.length_append]
    omega
  · intro k hk hh
    rw [List.drop_append_of_le_length (by omega)] at hh
    refine c k hk (List.prefix_of_prefix_length_le hh (List.prefix_append _ _) ?_)
    rw [List.length_drop]
    omega

theorem wrapSize_sub (b n : Nat) (h : n + 4 ≤ b) (hb : b < 18446744073709551616) :
    wrapSize ((b : Int) - ((n : Int) + 4)) = b - (n + 4) := by
  unfold wrapSize
  omega

/-- What the parser leaves in the buffer when it accepts the header. -/
theorem helloParse_keeps_body (inStream : InputStream) (os : OS)
    (hne : inStream.data.connState ≠ HTTP_CONN_STATE_OPEN)
    (hlen : inStream.data.buffer.length = inStream.data.buflen)
    (hcap : inStream.data.buflen < 18446744073709551616)
    (hopen : (helloParse inStream os).2.1.data.connState = HTTP_CONN_STATE_OPEN) :
    ∃ header : List Char,
      inStream.data.buffer
        = header ++ "\r\n\r\n".toList ++ (helloParse inStream os).2.1.data.buffer ∧
      (∀ k < header.length, ¬ "\r\n\r\n".toList <+: inStream.data.buffer.drop k) ∧
      header.length + 4 ≤ inStream.data.buflen ∧
      (helloParse inStream os).2.1.data.buflen = inStream.data.buflen - (header.length + 4) ∧
      (helloParse inStream os).2.1.data.buffer.length
        = (helloParse inStream os).2.1.data.buflen := by
  obtain ⟨needle, rc, hn, hst, hrc⟩ := helloParse_open inStream os hne hopen
  obtain ⟨-, -, hbl, hbuf⟩ := helloParse_accepted_data inStream os needle rc hn hst hrc
  obtain ⟨a, b, c⟩ := strstr_cstr_first _ _ needle hn
  have hpl : "\r\n\r\n".toList.length = 4 := rfl
  rw [hpl, hlen] at b
  have hw := wrapSize_sub inStream.data.buflen needle b hcap
  rw [hw] at hbl hbuf
  have hdl : (inStream.data.buffer.drop (needle + 4)).length
      = inStream.data.buflen - (needle + 4) := by
    rw [List.length_drop, hlen]
  have hbuf2 : (helloParse inStream os).2.1.data.buffer
      = inStream.data.buffer.drop (needle + 4) := by
    rw [hbuf]
    exact List.take_of_length_le (le_of_eq hdl)
  have hhl : (inStream.data.buffer.take needle).length = needle := by
    rw [List.length_take, hlen]
    omega
  obtain ⟨t, ht⟩ := a
  have hd4 : inStream.data.buffer.drop (needle + 4) = t := by
    rw [← List.drop_drop, ← ht, ← hpl, List.drop_left]
  refine ⟨inStream.data.buffer.take needle, ?_, ?_, ?_, ?_, ?_⟩
  · rw [hbuf2, hd4, List.append_assoc, ht, List.take_append_drop]
  · intro k hk
    rw [hhl] at hk
    exact c k hk
  · rw [hhl]
    exact b
  · rw [hhl]
    exact hbl
  · rw [hbuf2, hdl]
    exact hbl.symm

/-- C21. Whenever `getHTTPHello`, run on a session that awaits the header and
whose buffer holds the bytes counted in `buflen`, leaves the session open (the
header was accepted): the bytes received so far, those of this call `bs`
included, are a header block `header`, in which and across whose end no
`\r\n\r\n` starts earlier, the terminator `\r\n\r\n`, and exactly the bytes the
buffer holds afterwards, in their order; the byte count afterwards is the count
of the bytes received minus the length of the header block and the terminator,
and is the number of bytes the buffer holds. -/
theorem getHTTPHello_keeps_body (inStream : InputStream) (os : OS)
    (hs : inStream.data.connState = HTTP_CONN_STATE_HELLO)
    (hlen : inStream.data.buffer.length = inStream.data.buflen)
    (hopen : (getHTTPHello inStream os).2.1.data.connState = HTTP_CONN_STATE_OPEN) :
    ∃ bs header : List Char,
      (os.recv (HTTP_BUFFER_SIZE - 1 - inStream.data.buflen)).1 = RecvAnswer.bytes bs ∧
      inStream.data.buffer ++ bs
        = header ++ "\r\n\r\n".toList ++ (getHTTPHello inStream os).2.1.data.buffer ∧
      (∀ k < header.length,
        ¬ "\r\n\r\n".toList <+: (inStream.data.buffer ++ bs).drop k) ∧
      header.length + 4 ≤ inStream.data.buflen + bs.length ∧
      (getHTTPHello inStream os).2.1.data.buflen
        = inStream.data.buflen + bs.length - (header.length + 4) ∧
      (getHTTPHello inStream os).2.1.data.buffer.length
        = (getHTTPHello inStream os).2.1.data.buflen := by
  have hne : inStream.data.connState ≠ HTTP_CONN_STATE_OPEN := by
    rw [hs]
    decide
  obtain ⟨bs, os1, hle, hlt, hrecv, e⟩ := getHTTPHello_open inStream os hne hopen
  rw [e] at hopen ⊢
  have hcap : HTTP_BUFFER_SIZE = 131072 := rfl
  rw [hcap] at hle hlt
  have htot : (inStream.data.buffer ++ bs).length = inStream.data.buflen + bs.length := by
    rw [List.length_append, hlen]
  have hbound : inStream.data.buflen + bs.length < 18446744073709551616 := by omega
  obtain ⟨header, h1, h2, h3, h4, h5⟩ :=
    helloParse_keeps_body { inStream with data := { inStream.data with
        buffer := inStream.data.buffer ++ bs,
        buflen := inStream.data.buflen + bs.length,
        stale := Char.ofNat 0 :: inStream.data.stale.drop (bs.length + 1) } } os1 hne htot hbound hopen
  exact ⟨bs, header, hrecv, h1, h2, h3, h4, h5⟩

theorem getHTTPHello_keeps_body_witness :
    partialHello.data.connState = HTTP_CONN_STATE_HELLO ∧
      (getHTTPHello partialHello partialHelloOS).2.1.data.connState = HTTP_CONN_STATE_OPEN ∧
      (getHTTPHello partialHello partialHelloOS).2.1.data.buffer = "abc".toList ∧
      (getHTTPHello partialHello partialHelloOS).2.1.data.buflen = 3 ∧
      ∃ bs header : List Char,
        (partialHelloOS.recv (HTTP_BUFFER_SIZE - 1 - partialHello.data.buflen)).1
          = RecvAnswer.bytes bs ∧
        partialHello.data.buffer ++ bs
          = header ++ "\r\n\r\n".toList
              ++ (getHTTPHello partialHello partialHelloOS).2.1.data.buffer ∧
        (∀ k < header.length,
          ¬ "\r\n\r\n".toList <+: (partialHello.data.buffer ++ bs).drop k) ∧
        header.length + 4 ≤ partialHello.data.buflen + bs.length ∧
        (getHTTPHello partialHello partialHelloOS).2.1.data.buflen
          = partialHello.data.buflen + bs.length - (header.length + 4) ∧
        (getHTTPHello partialHello partialHelloOS).2.1.data.buffer.length
          = (getHTTPHello partialHello partialHelloOS).2.1.data.buflen :=
  ⟨by decide, by decide, by decide, by decide,
    getHTTPHello_keeps_body partialHello partialHelloOS (by decide) (by decide) (by decide)⟩

/-! ### The socket and the connection state -/

theorem initHTTPConnection_socket (s : InputStream) (o : OS) :
    ((initHTTPConnection s o).1 = -1 ∧
        (initHTTPConnection s o).2.1.data.connState = s.data.connState ∧
        ((initHTTPConnection s o).2.2.sockOpen = o.sockOpen ∨
          (initHTTPConnection s o).2.2.sockOpen = false)) ∨
      ((initHTTPConnection s o).1 = 0 ∧
        (initHTTPConnection s o).2.1.data.connState = HTTP_CONN_STATE_INIT ∧
        (initHTTPConnection s o).2.2.sockOpen = true) := by
  unfold initHTTPConnection
  dsimp only
  repeat' split
  all_goals first
    | exact Or.inl ⟨rfl, rfl, Or.inl rfl⟩
    | exact Or.inl ⟨rfl, rfl, Or.inr rfl⟩
    | exact Or.inr ⟨rfl, rfl, rfl⟩

theorem finishHTTPInit_socket (s : InputStream) (o : OS) :
    ((finishHTTPInit s o).2.1.data.connState = s.data.connState ∧
        (finishHTTPInit s o).2.2.sockOpen = o.sockOpen) ∨
      ((finishHTTPInit s o).2.1.data.connState = HTTP_CONN_STATE_CLOSED ∧
        (finishHTTPInit s o).2.2.sockOpen = false) ∨
      ((finishHTTPInit s o).2.1.data.connState = HTTP_CONN_STATE_HELLO ∧
        (finishHTTPInit s o).2.2.sockOpen = o.sockOpen) := by
  unfold finishHTTPInit
  dsimp only
  repeat' split
  all_goals first
    | exact Or.inl ⟨rfl, rfl⟩
    | exact Or.inr (Or.inl ⟨rfl, rfl⟩)
    | exact Or.inr (Or.inr ⟨rfl, rfl⟩)

theorem helloParse_socket (s : InputStream) (o : OS) :
    ((helloParse s o).2.1.data.connState = s.data.connState ∧
        (helloParse s o).2.2.sockOpen = o.sockOpen) ∨
      (((helloParse s o).2.1.data.connState = HTTP_CONN_STATE_CLOSED ∨
          (helloParse s o).2.1.data.connState = HTTP_CONN_STATE_REOPEN) ∧
        (helloParse s o).2.2.sockOpen = false) ∨
      ((helloParse s o).2.1.data.connState = HTTP_CONN_STATE_OPEN ∧
        (helloParse s o).2.2.sockOpen = o.sockOpen) := by
  unfold helloParse
  dsimp only
  repeat' split
  all_goals first
    | exact Or.inl ⟨rfl, rfl⟩
    | exact Or.inr (Or.inl ⟨Or.inl rfl, rfl⟩)
    | exact Or.inr (Or.inl ⟨Or.inr rfl, rfl⟩)
    | exact Or.inr (Or.inr ⟨rfl, rfl⟩)

theorem OS.recv_sockOpen (os : OS) (len : Nat) : (os.recv len).2.sockOpen = os.sockOpen := by
  unfold OS.recv
  split
  · rfl
  · rfl
  · split <;> rfl

theorem getHTTPHello_socket (s : InputStream) (o : OS) :
    ((getHTTPHello s o).2.1.data.connState = s.data.connState ∧
        (getHTTPHello s o).2.2.sockOpen = o.sockOpen) ∨
      (((getHTTPHello s o).2.1.data.connState = HTTP_CONN_STATE_CLOSED ∨
          (getHTTPHello s o).2.1.data.connState = HTTP_CONN_STATE_REOPEN) ∧
        (getHTTPHello s o).2.2.sockOpen = false) ∨
      ((getHTTPHello s o).2.1.data.connState = HTTP_CONN_STATE_OPEN ∧
        (getHTTPHello s o).2.2.sockOpen = o.sockOpen) := by
  unfold getHTTPHello
  dsimp only
  split
  · exact Or.inl ⟨rfl, rfl⟩
  split
  · exact Or.inr (Or.inl ⟨Or.inl rfl, rfl⟩)
  split
  · exact Or.inr (Or.inl ⟨Or.inl rfl, rfl⟩)
  have hso := OS.recv_sockOpen { o with selects := o.selects.tail }
    (HTTP_BUFFER_SIZE - 1 - s.data.buflen)
  rcases hr : OS.recv { o with selects := o.selects.tail }
      (HTTP_BUFFER_SIZE - 1 - s.data.buflen) with ⟨a, os1⟩
  rw [hr] at hso
  have hso1 : os1.sockOpen = o.sockOpen := hso
  cases a with
  | fail e =>
    simp only []
    split
    · exact Or.inl ⟨rfl, hso1⟩
    · exact Or.inr (Or.inl ⟨Or.inl rfl, rfl⟩)
  | bytes bs =>
    simp only []
    split
    · exact Or.inr (Or.inl ⟨Or.inl rfl, rfl⟩)
    · rw [← hso1]
      exact helloParse_socket { s with data := { s.data with
          buffer := s.data.buffer ++ bs, buflen := s.data.buflen + bs.length,
          stale := Char.ofNat 0 :: s.data.stale.drop (bs.length + 1) } } os1

theorem fillRead_socket (data : InputStreamHTTPData) (o : OS) :
    ((fillRead data o).2.1.connState = data.connState ∧
        (fillRead data o).2.2.sockOpen = o.sockOpen) ∨
      ((fillRead data o).2.1.connState = HTTP_CONN_STATE_CLOSED ∧
        (fillRead data o).2.2.sockOpen = false) := by
  unfold fillRead
  split
  · have hso := OS.recv_sockOpen o (HTTP_BUFFER_SIZE - 1 - data.buflen)
    rcases hr : OS.recv o (HTTP_BUFFER_SIZE - 1 - data.buflen) with ⟨a, os1⟩
    rw [hr] at hso
    have hso1 : os1.sockOpen = o.sockOpen := hso
    cases a with
    | fail e =>
      simp only []
      split
      · exact Or.inl ⟨rfl, hso1⟩
      · exact Or.inr ⟨rfl, rfl⟩
    | bytes bs =>
      simp only []
      split
      · exact Or.inr ⟨rfl, rfl⟩
      · exact Or.inl ⟨rfl, hso1⟩
  · exact Or.inl ⟨rfl, rfl⟩

theorem httpBufferFill_socket (s : InputStream) (o : OS) :
    ((httpBufferFill s o).2.1.data.connState = s.data.connState ∧
        (httpBufferFill s o).2.2.sockOpen = o.sockOpen) ∨
      ((httpBufferFill s o).2.1.data.connState = HTTP_CONN_STATE_CLOSED ∧
        (httpBufferFill s o).2.2.sockOpen = false) := by
  unfold httpBufferFill
  split
  · exact Or.inl ⟨rfl, rfl⟩
  · obtain ⟨b1, h1⟩ := prebufferMark_eq s.data
    obtain ⟨b2, h2⟩ := prebufferClear_eq (fillRead (prebufferMark s.data) o).2.1
    have hD1 : (prebufferMark s.data).connState = s.data.connState := by rw [h1]
    have hC1 : (prebufferClear (fillRead (prebufferMark s.data) o).2.1).connState
        = (fillRead (prebufferMark s.data) o).2.1.connState := by rw [h2]
    rcases fillRead_socket (prebufferMark s.data) o with ⟨f1, f2⟩ | ⟨f1, f2⟩
    · exact Or.inl ⟨by show (prebufferClear _).connState = _; rw [hC1, f1, hD1], f2⟩
    · exact Or.inr ⟨by show (prebufferClear _).connState = _; rw [hC1, f1], f2⟩

theorem httpDeliver_os (s : InputStream) (o : OS) (size : Nat) (inlen k : Int) :
    (httpDeliver s o size inlen k).os = o := by
  unfold httpDeliver
  repeat' split
  all_goals rfl

theorem httpReadPumped_socket (s : InputStream) (o : OS) (size : Nat)
    (inlen maxToSend : Int) :
    ((httpReadPumped s o size inlen maxToSend).inStream.data.connState = s.data.connState ∧
        (httpReadPumped s o size inlen maxToSend).os.sockOpen = o.sockOpen) ∨
      ((httpReadPumped s o size inlen maxToSend).inStream.data.connState
          = HTTP_CONN_STATE_CLOSED ∧
        (httpReadPumped s o size inlen maxToSend).os.sockOpen = false) := by
  unfold httpReadPumped
  dsimp only
  repeat' split
  all_goals first
    | exact Or.inl ⟨rfl, rfl⟩
    | exact Or.inr ⟨rfl, rfl⟩
    | exact Or.inl ⟨(httpDeliver_fields _ _ _ _ _).2.1, by rw [httpDeliver_os]⟩

theorem SockInv.of_same (s s1 : InputStream) (o o1 : OS) (h : SockInv s o)
    (e1 : s1.data.connState = s.data.connState) (e2 : o1.sockOpen = o.sockOpen) :
    SockInv s1 o1 := by
  unfold SockInv at h ⊢
  rw [e1, e2]
  exact h

theorem SockInv.of_closed (s1 : InputStream) (o1 : OS)
    (e1 : s1.data.connState = HTTP_CONN_STATE_CLOSED ∨
      s1.data.connState = HTTP_CONN_STATE_REOPEN)
    (e2 : o1.sockOpen = false) : SockInv s1 o1 := by
  unfold SockInv
  rw [e2]
  rcases e1 with e | e <;> rw [e] <;> decide

theorem SockInv.of_used (s1 : InputStream) (o1 : OS)
    (e1 : s1.data.connState = HTTP_CONN_STATE_INIT ∨
      s1.data.connState = HTTP_CONN_STATE_HELLO ∨
      s1.data.connState = HTTP_CONN_STATE_OPEN)
    (e2 : o1.sockOpen = true) : SockInv s1 o1 := by
  unfold SockInv
  exact ⟨fun _ => e1, fun _ => e2⟩

theorem initHTTPConnection_sockInv (s : InputStream) (o : OS)
    (hs : s.data.connState = HTTP_CONN_STATE_REOPEN) (h : SockInv s o) :
    SockInv (initHTTPConnection s o).2.1 (initHTTPConnection s o).2.2 := by
  have hclosed : o.sockOpen = false := by
    cases hb : o.sockOpen with
    | false => rfl
    | true =>
      have := h.1 hb
      rw [hs] at this
      exact absurd this (by decide)
  rcases initHTTPConnection_socket s o with ⟨-, e1, e2⟩ | ⟨-, e1, e2⟩
  · refine SockInv.of_closed _ _ (Or.inr (e1.trans hs)) ?_
    rcases e2 with e | e
    · exact e.trans hclosed
    · exact e
  · exact SockInv.of_used _ _ (Or.inl e1) e2

theorem finishHTTPInit_sockInv (s : InputStream) (o : OS)
    (hs : s.data.connState = HTTP_CONN_STATE_INIT) (h : SockInv s o) :
    SockInv (finishHTTPInit s o).2.1 (finishHTTPInit s o).2.2 := by
  have hopen : o.sockOpen = true := h.2 (Or.inl hs)
  rcases finishHTTPInit_socket s o with ⟨e1, e2⟩ | ⟨e1, e2⟩ | ⟨e1, e2⟩
  · exact SockInv.of_same s _ o _ h e1 e2
  · exact SockInv.of_closed _ _ (Or.inl e1) e2
  · exact SockInv.of_used _ _ (Or.inr (Or.inl e1)) (e2.trans hopen)

theorem getHTTPHello_sockInv (s : InputStream) (o : OS)
    (hs : s.data.connState = HTTP_CONN_STATE_HELLO) (h : SockInv s o) :
    SockInv (getHTTPHello s o).2.1 (getHTTPHello s o).2.2 := by
  have hopen : o.sockOpen = true := h.2 (Or.inr (Or.inl hs))
  rcases getHTTPHello_socket s o with ⟨e1, e2⟩ | ⟨e1, e2⟩ | ⟨e1, e2⟩
  · exact SockInv.of_same s _ o _ h e1 e2
  · exact SockInv.of_closed _ _ e1 e2
  · exact SockInv.of_used _ _ (Or.inr (Or.inr e1)) (e2.trans hopen)

theorem httpBufferFill_sockInv (s : InputStream) (o : OS) (h : SockInv s o) :
    SockInv (httpBufferFill s o).2.1 (httpBufferFill s o).2.2 := by
  rcases httpBufferFill_socket s o with ⟨e1, e2⟩ | ⟨e1, e2⟩
  · exact SockInv.of_same s _ o _ h e1 e2
  · exact SockInv.of_closed _ _ (Or.inl e1) e2

theorem inputStream_httpBuffer_sockInv (s : InputStream) (o : OS) (h : SockInv s o) :
    SockInv (inputStream_httpBuffer s o).2.1 (inputStream_httpBuffer s o).2.2 :=
  inputStream_httpBuffer_preserves_staged SockInv initHTTPConnection_sockInv
    finishHTTPInit_sockInv getHTTPHello_sockInv httpBufferFill_sockInv s o h

theorem httpReadPumped_sockInv (s : InputStream) (o : OS) (size : Nat)
    (inlen maxToSend : Int) (h : SockInv s o) :
    SockInv (httpReadPumped s o size inlen maxToSend).inStream
      (httpReadPumped s o size inlen maxToSend).os := by
  rcases httpReadPumped_socket s o size inlen maxToSend with ⟨e1, e2⟩ | ⟨e1, e2⟩
  · exact SockInv.of_same s _ o _ h e1 e2
  · exact SockInv.of_closed _ _ (Or.inl e1) e2

theorem inputStream_httpOpen_sockInv (s : InputStream) (url : List Char) (o : OS)
    (h : (inputStream_httpOpen s url o).1 = 0) :
    SockInv (inputStream_httpOpen s url o).2.1 (inputStream_httpOpen s url o).2.2 := by
  have hm : ¬ ((-1 : Int) = 0) := by decide
  unfold inputStream_httpOpen at h ⊢
  dsimp only at h ⊢
  split at h
  · exact absurd h hm
  · rename_i h1
    rw [if_neg h1]
    split at h
    · exact absurd h hm
    · rename_i h2
      rw [if_neg h2]
      rcases initHTTPConnection_socket
          { s with data := (parseUrl newInputStreamHTTPData url).2 } o
        with ⟨e0, -, -⟩ | ⟨-, e1, e2⟩
      · exact absurd (by rw [e0]; decide) h2
      · exact SockInv.of_used _ _ (Or.inl e1) e2

theorem Reachable.sockInv (inStream : InputStream) (os : OS) (h : Reachable inStream os) :
    SockInv inStream os := by
  induction h with
  | opened s u o h0 => exact inputStream_httpOpen_sockInv s u o h0
  | pumped s o _ ih => exact inputStream_httpBuffer_sockInv s o ih
  | read s o size nmemb _ ih =>
    unfold inputStream_httpRead
    dsimp only
    exact httpReadPumped_sockInv _ _ size _ _ (inputStream_httpBuffer_sockInv s o ih)

/-- A step whose outcome is one of: the state is kept and the socket is as it
was or closed; the state is closed or reopening and the socket is closed; the
state is connecting and the socket is open; the state is another one and the
socket is as it was; keeps the discipline on the socket. -/
theorem SocketStep.of_outcome (s s1 : InputStream) (o o1 : OS)
    (h : (s1.data.connState = s.data.connState ∧
            (o1.sockOpen = o.sockOpen ∨ o1.sockOpen = false)) ∨
          ((s1.data.connState = HTTP_CONN_STATE_CLOSED ∨
              s1.data.connState = HTTP_CONN_STATE_REOPEN) ∧ o1.sockOpen = false) ∨
          (s1.data.connState = HTTP_CONN_STATE_INIT ∧ o1.sockOpen = true) ∨
          ((s1.data.connState = HTTP_CONN_STATE_HELLO ∨
              s1.data.connState = HTTP_CONN_STATE_OPEN) ∧ o1.sockOpen = o.sockOpen)) :
    SocketStep s o s1 o1 := by
  unfold SocketStep
  rcases h with ⟨e1, e2⟩ | ⟨e1, e2⟩ | ⟨e1, e2⟩ | ⟨e1, e2⟩
  · refine ⟨fun _ hne => absurd e1 hne, fun h0 h1 => ?_⟩
    rcases e2 with e | e
    · rw [e, h0] at h1
      cases h1
    · rw [e] at h1
      cases h1
  · refine ⟨fun _ _ => e2, fun _ h1 => ?_⟩
    rw [e2] at h1
    cases h1
  · refine ⟨fun hc _ => ?_, fun _ _ => e1⟩
    rw [e1] at hc
    exact absurd hc (by decide)
  · refine ⟨fun hc _ => ?_, fun h0 h1 => ?_⟩
    · rcases e1 with e | e <;> rw [e] at hc <;> exact absurd hc (by decide)
    · rw [e2, h0] at h1
      cases h1

/-- C27. In every session state that a successful open, pumps and reads bring
about, under any behaviour of the operating system, the socket is open if and
only if the connection state is connecting (`INIT`), awaiting the header
(`HELLO`) or open (`OPEN`).  Each part of the session that changes the state
(`initHTTPConnection`, `finishHTTPInit`, `getHTTPHello`, the second half of the
pump, the read after the pump) keeps the discipline `SocketStep` from every
state: when it enters the closed or the reopening state the socket is closed
afterwards, and when a socket is open afterwards that was not open before, the
state is the connecting one. -/
theorem socket_open_iff_connected (inStream : InputStream) (os : OS)
    (h : Reachable inStream os) :
    (os.sockOpen = true ↔
        (inStream.data.connState = HTTP_CONN_STATE_INIT ∨
          inStream.data.connState = HTTP_CONN_STATE_HELLO ∨
          inStream.data.connState = HTTP_CONN_STATE_OPEN)) ∧
      (∀ s o, SocketStep s o (initHTTPConnection s o).2.1 (initHTTPConnection s o).2.2) ∧
      (∀ s o, SocketStep s o (finishHTTPInit s o).2.1 (finishHTTPInit s o).2.2) ∧
      (∀ s o, SocketStep s o (getHTTPHello s o).2.1 (getHTTPHello s o).2.2) ∧
      (∀ s o, SocketStep s o (httpBufferFill s o).2.1 (httpBufferFill s o).2.2) ∧
      (∀ s o size inlen maxToSend,
        SocketStep s o (httpReadPumped s o size inlen maxToSend).inStream
          (httpReadPumped s o size inlen maxToSend).os) := by
  refine ⟨Reachable.sockInv inStream os h, ?_, ?_, ?_, ?_, ?_⟩
  · intro s o
    refine SocketStep.of_outcome _ _ _ _ ?_
    rcases initHTTPConnection_socket s o with ⟨-, e1, e2⟩ | ⟨-, e1, e2⟩
    · exact Or.inl ⟨e1, e2⟩
    · exact Or.inr (Or.inr (Or.inl ⟨e1, e2⟩))
  · intro s o
    refine SocketStep.of_outcome _ _ _ _ ?_
    rcases finishHTTPInit_socket s o with ⟨e1, e2⟩ | ⟨e1, e2⟩ | ⟨e1, e2⟩
    · exact Or.inl ⟨e1, Or.inl e2⟩
    · exact Or.inr (Or.inl ⟨Or.inl e1, e2⟩)
    · exact Or.inr (Or.inr (Or.inr ⟨Or.inl e1, e2⟩))
  · intro s o
    refine SocketStep.of_outcome _ _ _ _ ?_
    rcases getHTTPHello_socket s o with ⟨e1, e2⟩ | ⟨e1, e2⟩ | ⟨e1, e2⟩
    · exact Or.inl ⟨e1, Or.inl e2⟩
    · exact Or.inr (Or.inl ⟨e1, e2⟩)
    · exact Or.inr (Or.inr (Or.inr ⟨Or.inr e1, e2⟩))
  · intro s o
    refine SocketStep.of_outcome _ _ _ _ ?_
    rcases httpBufferFill_socket s o with ⟨e1, e2⟩ | ⟨e1, e2⟩
    · exact Or.inl ⟨e1, Or.inl e2⟩
    · exact Or.inr (Or.inl ⟨Or.inl e1, e2⟩)
  · intro s o size inlen maxToSend
    refine SocketStep.of_outcome _ _ _ _ ?_
    rcases httpReadPumped_socket s o size inlen maxToSend with ⟨e1, e2⟩ | ⟨e1, e2⟩
    · exact Or.inl ⟨e1, Or.inl e2⟩
    · exact Or.inr (Or.inl ⟨Or.inl e1, e2⟩)

set_option maxRecDepth 100000

theorem socket_open_iff_connected_witness :
    shortRead2.inStream.data.connState = HTTP_CONN_STATE_CLOSED ∧
      shortRead2.os.sockOpen = false ∧
      (shortRead2.os.sockOpen = true ↔
        (shortRead2.inStream.data.connState = HTTP_CONN_STATE_INIT ∨
          shortRead2.inStream.data.connState = HTTP_CONN_STATE_HELLO ∨
          shortRead2.inStream.data.connState = HTTP_CONN_STATE_OPEN)) :=
  ⟨by decide, by decide,
    (socket_open_iff_connected shortRead2.inStream shortRead2.os
      (Reachable.read _ _ 1 100
        (Reachable.read _ _ 1 100
          (Reachable.opened exampleStream "http://h/".toList shortOS (by decide))))).1⟩

/-! ### A pump that finds the socket not ready -/

theorem finishHTTPInit_not_ready (inStream : InputStream) (os : OS)
    (h : ∀ a rest, os.inits = a :: rest →
      a.select.val = 0 ∨ (a.select.val < 0 ∧ a.select.errno = Errno.EINTR)) :
    (finishHTTPInit inStream os).1 = 0 ∧ (finishHTTPInit inStream os).2.1 = inStream := by
  unfold finishHTTPInit
  split
  · exact ⟨rfl, rfl⟩
  · rename_i a rest ha
    dsimp only
    rw [if_pos (h a rest ha)]
    exact ⟨rfl, rfl⟩

theorem getHTTPHello_not_ready (inStream : InputStream) (os : OS)
    (h : ((os.selects.headD ⟨0, Errno.EOTHER⟩).val = 0 ∨
          ((os.selects.headD ⟨0, Errno.EOTHER⟩).val < 0 ∧
            (os.selects.headD ⟨0, Errno.EOTHER⟩).errno = Errno.EINTR)) ∨
        (0 < (os.selects.headD ⟨0, Errno.EOTHER⟩).val ∧
          inStream.data.buflen < HTTP_BUFFER_SIZE - 1 ∧
          ∃ e, (os.recv (HTTP_BUFFER_SIZE - 1 - inStream.data.buflen)).1 = RecvAnswer.fail e ∧
            (e = Errno.EAGAIN ∨ e = Errno.EINTR))) :
    (getHTTPHello inStream os).1 = 0 ∧ (getHTTPHello inStream os).2.1 = inStream := by
  unfold getHTTPHello
  dsimp only
  rcases h with h | ⟨h1, h2, e, h3, h4⟩
  · rw [if_pos h]
    exact ⟨rfl, rfl⟩
  · rw [if_neg (by omega), if_neg (by omega), if_neg (by omega)]
    rw [← OS.recv_selects os os.selects.tail] at h3
    rcases hr : OS.recv { os with selects := os.selects.tail }
        (HTTP_BUFFER_SIZE - 1 - inStream.data.buflen) with ⟨a, os1⟩
    rw [hr] at h3
    cases h3
    simp only []
    rw [if_pos h4]
    exact ⟨rfl, rfl⟩

theorem fillRead_not_ready (data : InputStreamHTTPData) (os : OS) (e : Errno)
    (hs : data.connState = HTTP_CONN_STATE_OPEN)
    (hl : data.buflen < HTTP_BUFFER_SIZE - 1)
    (hr : (os.recv (HTTP_BUFFER_SIZE - 1 - data.buflen)).1 = RecvAnswer.fail e)
    (he : e = Errno.EAGAIN ∨ e = Errno.EINTR) :
    (fillRead data os).1 = 0 ∧ (fillRead data os).2.1 = data := by
  unfold fillRead
  rw [if_pos ⟨hs, hl⟩]
  rcases hr1 : OS.recv os (HTTP_BUFFER_SIZE - 1 - data.buflen) with ⟨a, os1⟩
  rw [hr1] at hr
  cases hr
  simp only []
  rw [if_pos he]
  exact ⟨rfl, rfl⟩

/-- A pump in the connecting state that `finishHTTPInit` leaves as it is. -/
theorem inputStream_httpBuffer_init_kept (inStream : InputStream) (os : OS)
    (hs : inStream.data.connState = HTTP_CONN_STATE_INIT)
    (h0 : (finishHTTPInit inStream os).1 = 0)
    (h1 : (finishHTTPInit inStream os).2.1 = inStream) :
    (inputStream_httpBuffer inStream os).1 = -1 ∧
      (inputStream_httpBuffer inStream os).2.1 = inStream := by
  have p1 : pumpStage HTTP_CONN_STATE_REOPEN initHTTPConnection inStream os
      = (0, inStream, os) := by
    unfold pumpStage
    rw [if_neg (by rw [hs]; decide)]
  have p2 : pumpStage HTTP_CONN_STATE_INIT finishHTTPInit inStream os
      = (0, inStream, (finishHTTPInit inStream os).2.2) := by
    unfold pumpStage
    rw [if_pos hs]
    exact Prod.ext h0 (Prod.ext h1 rfl)
  have p3 : pumpStage HTTP_CONN_STATE_HELLO getHTTPHello inStream
      (finishHTTPInit inStream os).2.2 = (0, inStream, (finishHTTPInit inStream os).2.2) := by
    unfold pumpStage
    rw [if_neg (by rw [hs]; decide)]
  have p4 : httpBufferFill inStream (finishHTTPInit inStream os).2.2
      = (-1, inStream, (finishHTTPInit inStream os).2.2) := by
    unfold httpBufferFill
    rw [if_pos ⟨by rw [hs]; decide, by rw [hs]; decide⟩]
  unfold inputStream_httpBuffer
  simp only [p1, p2, p3, p4, lt_self_iff_false, if_false]
  exact ⟨trivial, trivial⟩

/-- A pump in the state that awaits the header that `getHTTPHello` leaves as it
is. -/
theorem inputStream_httpBuffer_hello_kept (inStream : InputStream) (os : OS)
    (hs : inStream.data.connState = HTTP_CONN_STATE_HELLO)
    (h0 : (getHTTPHello inStream os).1 = 0)
    (h1 : (getHTTPHello inStream os).2.1 = inStream) :
    (inputStream_httpBuffer inStream os).1 = -1 ∧
      (inputStream_httpBuffer inStream os).2.1 = inStream := by
  have p1 : pumpStage HTTP_CONN_STATE_REOPEN initHTTPConnection inStream os
      = (0, inStream, os) := by
    unfold pumpStage
    rw [if_neg (by rw [hs]; decide)]
  have p2 : pumpStage HTTP_CONN_STATE_INIT finishHTTPInit inStream os
      = (0, inStream, os) := by
    unfold pumpStage
    rw [if_neg (by rw [hs]; decide)]
  have p3 : pumpStage HTTP_CONN_STATE_HELLO getHTTPHello inStream os
      = (0, inStream, (getHTTPHello inStream os).2.2) := by
    unfold pumpStage
    rw [if_pos hs]
    exact Prod.ext h0 (Prod.ext h1 rfl)
  have p4 : httpBufferFill inStream (getHTTPHello inStream os).2.2
      = (-1, inStream, (getHTTPHello inStream os).2.2) := by
    unfold httpBufferFill
    rw [if_pos ⟨by rw [hs]; decide, by rw [hs]; decide⟩]
  unfold inputStream_httpBuffer
  simp only [p1, p2, p3, p4, lt_self_iff_false, if_false]
  exact ⟨trivial, trivial⟩

/-- A pump in the open state is the second half of the pump. -/
theorem inputStream_httpBuffer_open (inStream : InputStream) (os : OS)
    (hs : inStream.data.connState = HTTP_CONN_STATE_OPEN) :
    inputStream_httpBuffer inStream os = httpBufferFill inStream os := by
  have p1 : pumpStage HTTP_CONN_STATE_REOPEN initHTTPConnection inStream os
      = (0, inStream, os) := by
    unfold pumpStage
    rw [if_neg (by rw [hs]; decide)]
  have p2 : pumpStage HTTP_CONN_STATE_INIT finishHTTPInit inStream os
      = (0, inStream, os) := by
    unfold pumpStage
    rw [if_neg (by rw [hs]; decide)]
  have p3 : pumpStage HTTP_CONN_STATE_HELLO getHTTPHello inStream os
      = (0, inStream, os) := by
    unfold pumpStage
    rw [if_neg (by rw [hs]; decide)]
  unfold inputStream_httpBuffer
  simp only [p1, p2, p3, lt_self_iff_false, if_false]

theorem httpBufferFill_not_ready (inStream : InputStream) (os : OS) (e : Errno)
    (hs : inStream.data.connState = HTTP_CONN_STATE_OPEN)
    (hl : inStream.data.buflen < HTTP_BUFFER_SIZE - 1)
    (hr : (os.recv (HTTP_BUFFER_SIZE - 1 - inStream.data.buflen)).1 = RecvAnswer.fail e)
    (he : e = Errno.EAGAIN ∨ e = Errno.EINTR) :
    (httpBufferFill inStream os).1 = 0 ∧
      (httpBufferFill inStream os).2.1.data.connState = inStream.data.connState ∧
      (httpBufferFill inStream os).2.1.data.buffer = inStream.data.buffer ∧
      (httpBufferFill inStream os).2.1.data.buflen = inStream.data.buflen := by
  obtain ⟨b1, m1⟩ := prebufferMark_eq inStream.data
  have hs1 : (prebufferMark inStream.data).connState = HTTP_CONN_STATE_OPEN := by
    rw [m1]
    exact hs
  have hl1 : (prebufferMark inStream.data).buflen = inStream.data.buflen := by rw [m1]
  obtain ⟨f0, f1⟩ := fillRead_not_ready (prebufferMark inStream.data) os e hs1
    (by rw [hl1]; exact hl) (by rw [hl1]; exact hr) he
  obtain ⟨b2, m2⟩ := prebufferClear_eq (fillRead (prebufferMark inStream.data) os).2.1
  unfold httpBufferFill
  rw [if_neg (by rw [hs]; decide)]
  refine ⟨?_, ?_, ?_, ?_⟩
  · show (if (fillRead (prebufferMark inStream.data) os).1 ≠ 0 then (1 : Int) else 0) = 0
    rw [f0]
    rfl
  · show (prebufferClear (fillRead (prebufferMark inStream.data) os).2.1).connState = _
    rw [m2, f1, m1]
  · show (prebufferClear (fillRead (prebufferMark inStream.data) os).2.1).buffer = _
    rw [m2, f1, m1]
  · show (prebufferClear (fillRead (prebufferMark inStream.data) os).2.1).buflen = _
    rw [m2, f1, m1]

set_option maxRecDepth 100000

/-- C22, the claim fails. A session that is connecting, whose `select` reports
nothing: the pump changes nothing of the session and returns `-1`, the value
it returns when the `select` fails (a fault, after which the session is
closed).  The same holds for a session that awaits the header.  In the open
state the pump returns `0` when the read would block, and `0` as well when the
read fails with another error, after which the session is closed. -/
theorem not_ready_returns_fault_code :
    (pendingOpen selIdle).1 = 0 ∧
      (pendingOpen selIdle).2.1.data.connState = HTTP_CONN_STATE_INIT ∧
      (pendingPump selIdle).1 = -1 ∧
      (pendingPump selIdle).2.1 = (pendingOpen selIdle).2.1 ∧
      (pendingOpen selFault).2.1 = (pendingOpen selIdle).2.1 ∧
      (pendingPump selFault).1 = -1 ∧
      (pendingPump selFault).2.1.data.connState = HTTP_CONN_STATE_CLOSED ∧
      partialHello.data.connState = HTTP_CONN_STATE_HELLO ∧
      idleHelloPump.1 = -1 ∧ idleHelloPump.2.1 = partialHello ∧
      mimePump.2.1.data.connState = HTTP_CONN_STATE_OPEN ∧
      idleOpenPump.1 = 0 ∧
      idleOpenPump.2.1.data.connState = HTTP_CONN_STATE_OPEN ∧
      faultOpenPump.1 = 0 ∧
      faultOpenPump.2.1.data.connState = HTTP_CONN_STATE_CLOSED := by
  decide

/-- C22, amended. When a pump finds the socket not ready: in the connecting
state (`select` reports nothing or is interrupted), in the state that awaits
the header (`select` reports nothing or is interrupted, or `recv` would block
or is interrupted) and in the open state (`read` would block or is
interrupted), the pump leaves the connection state, the buffer and the byte
count as they are; in the connecting state and in the state that awaits the
header it leaves the whole session as it is, the part it runs
(`finishHTTPInit`, `getHTTPHello`) returns `0`, and the pump returns `-1`; in
the open state the pump returns `0`. -/
theorem pump_not_ready (inStream : InputStream) (os : OS)
    (h : (inStream.data.connState = HTTP_CONN_STATE_INIT ∧
            ∀ a rest, os.inits = a :: rest →
              a.select.val = 0 ∨ (a.select.val < 0 ∧ a.select.errno = Errno.EINTR)) ∨
          (inStream.data.connState = HTTP_CONN_STATE_HELLO ∧
            (((os.selects.headD ⟨0, Errno.EOTHER⟩).val = 0 ∨
                ((os.selects.headD ⟨0, Errno.EOTHER⟩).val < 0 ∧
                  (os.selects.headD ⟨0, Errno.EOTHER⟩).errno = Errno.EINTR)) ∨
              (0 < (os.selects.headD ⟨0, Errno.EOTHER⟩).val ∧
                inStream.data.buflen < HTTP_BUFFER_SIZE - 1 ∧
                ∃ e, (os.recv (HTTP_BUFFER_SIZE - 1 - inStream.data.buflen)).1
                    = RecvAnswer.fail e ∧
                  (e = Errno.EAGAIN ∨ e = Errno.EINTR)))) ∨
          (inStream.data.connState = HTTP_CONN_STATE_OPEN ∧
            inStream.data.buflen < HTTP_BUFFER_SIZE - 1 ∧
            ∃ e, (os.recv (HTTP_BUFFER_SIZE - 1 - inStream.data.buflen)).1
                = RecvAnswer.fail e ∧
              (e = Errno.EAGAIN ∨ e = Errno.EINTR))) :
    (inputStream_httpBuffer inStream os).2.1.data.connState = inStream.data.connState ∧
      (inputStream_httpBuffer inStream os).2.1.data.buffer = inStream.data.buffer ∧
      (inputStream_httpBuffer inStream os).2.1.data.buflen = inStream.data.buflen ∧
      (inStream.data.connState = HTTP_CONN_STATE_INIT →
        (finishHTTPInit inStream os).1 = 0 ∧
          (finishHTTPInit inStream os).2.1 = inStream ∧
          (inputStream_httpBuffer inStream os).2.1 = inStream ∧
          (inputStream_httpBuffer inStream os).1 = -1) ∧
      (inStream.data.connState = HTTP_CONN_STATE_HELLO →
        (getHTTPHello inStream os).1 = 0 ∧
          (getHTTPHello inStream os).2.1 = inStream ∧
          (inputStream_httpBuffer inStream os).2.1 = inStream ∧
          (inputStream_httpBuffer inStream os).1 = -1) ∧
      (inStream.data.connState = HTTP_CONN_STATE_OPEN →
        (inputStream_httpBuffer inStream os).1 = 0) := by
  rcases h with ⟨hs, h⟩ | ⟨hs, h⟩ | ⟨hs, hl, e, hr, he⟩
  · obtain ⟨f0, f1⟩ := finishHTTPInit_not_ready inStream os h
    obtain ⟨g0, g1⟩ := inputStream_httpBuffer_init_kept inStream os hs f0 f1
    refine ⟨by rw [g1], by rw [g1], by rw [g1], fun _ => ⟨f0, f1, g1, g0⟩, ?_, ?_⟩
    · intro h2
      rw [hs] at h2
      exact absurd h2 (by decide)
    · intro h2
      rw [hs] at h2
      exact absurd h2 (by decide)
  · obtain ⟨f0, f1⟩ := getHTTPHello_not_ready inStream os h
    obtain ⟨g0, g1⟩ := inputStream_httpBuffer_hello_kept inStream os hs f0 f1
    refine ⟨by rw [g1], by rw [g1], by rw [g1], ?_, fun _ => ⟨f0, f1, g1, g0⟩, ?_⟩
    · intro h2
      rw [hs] at h2
      exact absurd h2 (by decide)
    · intro h2
      rw [hs] at h2
      exact absurd h2 (by decide)
  · obtain ⟨f0, f1, f2, f3⟩ := httpBufferFill_not_ready inStream os e hs hl hr he
    rw [inputStream_httpBuffer_open inStream os hs]
    refine ⟨f1, f2, f3, ?_, ?_, fun _ => f0⟩
    · intro h2
      rw [hs] at h2
      exact absurd h2 (by decide)
    · intro h2
      rw [hs] at h2
      exact absurd h2 (by decide)

theorem pump_not_ready_witness :
    (pendingPump selIdle).2.1.data.connState = HTTP_CONN_STATE_INIT ∧
      (pendingPump selIdle).2.1.data.buffer = [] ∧
      (pendingPump selIdle).1 = -1 ∧
      idleHelloPump.2.1.data.buffer = "HTTP/1.1 200 OK\r\nContent-Le".toList ∧
      idleHelloPump.1 = -1 ∧
      idleOpenPump.2.1.data.connState = HTTP_CONN_STATE_OPEN ∧
      idleOpenPump.1 = 0 :=
  have hi : ∀ a rest, (pendingOpen selIdle).2.2.inits = a :: rest →
      a.select.val = 0 ∨ (a.select.val < 0 ∧ a.select.errno = Errno.EINTR) := by
    intro a rest h
    have e : (pendingOpen selIdle).2.2.inits
        = [{ select := selIdle, soError := 0, written := WriteAnswer.all }] := by decide
    rw [e] at h
    cases h
    exact Or.inl rfl
  ⟨(pump_not_ready (pendingOpen selIdle).2.1 (pendingOpen selIdle).2.2
      (Or.inl ⟨by decide, hi⟩)).1,
    (pump_not_ready (pendingOpen selIdle).2.1 (pendingOpen selIdle).2.2
      (Or.inl ⟨by decide, hi⟩)).2.1,
    ((pump_not_ready (pendingOpen selIdle).2.1 (pendingOpen selIdle).2.2
      (Or.inl ⟨by decide, hi⟩)).2.2.2.1 (by decide)).2.2.2,
    (pump_not_ready partialHello { partialHelloOS with selects := [selIdle] }
      (Or.inr (Or.inl ⟨by decide, Or.inl (Or.inl (by decide))⟩))).2.1,
    ((pump_not_ready partialHello { partialHelloOS with selects := [selIdle] }
      (Or.inr (Or.inl ⟨by decide, Or.inl (Or.inl (by decide))⟩))).2.2.2.2.1 (by decide)).2.2.2,
    (pump_not_ready mimePump.2.1 { mimePump.2.2 with recvs := [RecvAnswer.fail Errno.EAGAIN] }
      (Or.inr (Or.inr ⟨by decide, by decide, Errno.EAGAIN, by decide, Or.inl rfl⟩))).1,
    (pump_not_ready mimePump.2.1 { mimePump.2.2 with recvs := [RecvAnswer.fail Errno.EAGAIN] }
      (Or.inr (Or.inr ⟨by decide, by decide, Errno.EAGAIN, by decide, Or.inl rfl⟩))).2.2.2.2.2
      (by decide)⟩

/-! ### The prebuffer flag after a pump -/

theorem httpBufferFill_of_ne (s : InputStream) (o : OS)
    (h : (httpBufferFill s o).1 ≠ -1) :
    s.data.connState = HTTP_CONN_STATE_OPEN ∨ s.data.connState = HTTP_CONN_STATE_CLOSED := by
  by_contra hcon
  apply h
  unfold httpBufferFill
  rw [if_pos ⟨fun e => hcon (Or.inl e), fun e => hcon (Or.inr e)⟩]

/-- A pump that does not return `-1` has run its second half, from the open or
the closed state. -/
theorem inputStream_httpBuffer_of_ne (inStream : InputStream) (os : OS)
    (h : (inputStream_httpBuffer inStream os).1 ≠ -1) :
    ∃ s o, inputStream_httpBuffer inStream os = httpBufferFill s o ∧
      (s.data.connState = HTTP_CONN_STATE_OPEN ∨
        s.data.connState = HTTP_CONN_STATE_CLOSED) := by
  unfold inputStream_httpBuffer at h ⊢
  dsimp only at h ⊢
  split at h
  · exact absurd rfl h
  rename_i h1
  rw [if_neg h1]
  split at h
  · exact absurd rfl h
  rename_i h2
  rw [if_neg h2]
  split at h
  · exact absurd rfl h
  rename_i h3
  rw [if_neg h3]
  exact ⟨_, _, rfl, httpBufferFill_of_ne _ _ h⟩

theorem fillRead_prebuffer (data : InputStreamHTTPData) (os : OS) :
    (fillRead data os).2.1.prebuffer = data.prebuffer ∧
      (fillRead data os).2.1.icyMetaint = data.icyMetaint ∧
      data.buflen ≤ (fillRead data os).2.1.buflen := by
  unfold fillRead
  repeat' split
  all_goals first
    | exact ⟨rfl, rfl, Nat.le_refl _⟩
    | exact ⟨rfl, rfl, Nat.le_add_right _ _⟩

/-- The prebuffer flag, the byte count and the metadata interval after the
second half of the pump, run from the open or the closed state. -/
theorem httpBufferFill_prebuffer (s : InputStream) (o : OS)
    (hs : s.data.connState = HTTP_CONN_STATE_OPEN ∨
      s.data.connState = HTTP_CONN_STATE_CLOSED) :
    ((httpBufferFill s o).2.1.data.buflen > HTTP_PREBUFFER_SIZE →
        (httpBufferFill s o).2.1.data.prebuffer = false) ∧
      ((httpBufferFill s o).2.1.data.buflen ≤ HTTP_PREBUFFER_SIZE →
        ((httpBufferFill s o).2.1.data.buflen = 0 ∨
          (httpBufferFill s o).2.1.data.buflen
            < wrapSize (httpBufferFill s o).2.1.data.icyMetaint) →
        (httpBufferFill s o).2.1.data.prebuffer = true) := by
  have hne : ¬ (s.data.connState ≠ HTTP_CONN_STATE_OPEN ∧
      s.data.connState ≠ HTTP_CONN_STATE_CLOSED) := by
    rintro ⟨a, b⟩
    rcases hs with h | h
    · exact a h
    · exact b h
  obtain ⟨f1, f2, f3⟩ := fillRead_prebuffer (prebufferMark s.data) o
  have e : (httpBufferFill s o).2.1.data
      = prebufferClear (fillRead (prebufferMark s.data) o).2.1 := by
    unfold httpBufferFill
    rw [if_neg hne]
  rw [e]
  generalize (fillRead (prebufferMark s.data) o).2.1 = d1 at f1 f2 f3
  have m1 : (prebufferMark s.data).buflen = s.data.buflen := by
    obtain ⟨b, hb⟩ := prebufferMark_eq s.data
    rw [hb]
  have m2 : (prebufferMark s.data).icyMetaint = s.data.icyMetaint := by
    obtain ⟨b, hb⟩ := prebufferMark_eq s.data
    rw [hb]
  have m3 : (s.data.buflen = 0 ∨ s.data.buflen < wrapSize s.data.icyMetaint) →
      (prebufferMark s.data).prebuffer = true := by
    intro h
    unfold prebufferMark
    rw [if_pos h]
  rw [m1] at f3
  rw [m2] at f2
  constructor
  · intro h
    unfold prebufferClear at h ⊢
    split
    · rfl
    · rename_i hn
      rw [if_neg hn] at h
      exact absurd h hn
  · intro h hz
    have c : prebufferClear d1 = d1 := by
      unfold prebufferClear at h ⊢
      split
      · rename_i hp
        rw [if_pos hp] at h
        exact absurd hp (Nat.not_lt.2 h)
      · rfl
    rw [c] at hz ⊢
    rw [f1]
    apply m3
    rw [f2] at hz
    rcases hz with hz | hz
    · exact Or.inl (by omega)
    · exact Or.inr (by omega)

/-- C28, amended. After every pump that does not return `-1` (the pump has run
to its end, the session is open or closed): the prebuffer flag is clear
whenever the buffered byte count exceeds `HTTP_PREBUFFER_SIZE` (32768), and it
is set whenever the count is at most 32768 and is zero or below the metadata
interval (compared as the source does, the interval converted to `size_t`). -/
theorem prebuffer_after_pump (inStream : InputStream) (os : OS)
    (h : (inputStream_httpBuffer inStream os).1 ≠ -1) :
    ((inputStream_httpBuffer inStream os).2.1.data.connState = HTTP_CONN_STATE_OPEN ∨
        (inputStream_httpBuffer inStream os).2.1.data.connState = HTTP_CONN_STATE_CLOSED) ∧
      ((inputStream_httpBuffer inStream os).2.1.data.buflen > HTTP_PREBUFFER_SIZE →
        (inputStream_httpBuffer inStream os).2.1.data.prebuffer = false) ∧
      ((inputStream_httpBuffer inStream os).2.1.data.buflen ≤ HTTP_PREBUFFER_SIZE →
        ((inputStream_httpBuffer inStream os).2.1.data.buflen = 0 ∨
          (inputStream_httpBuffer inStream os).2.1.data.buflen
            < wrapSize (inputStream_httpBuffer inStream os).2.1.data.icyMetaint) →
        (inputStream_httpBuffer inStream os).2.1.data.prebuffer = true) := by
  obtain ⟨s, o, e, hs⟩ := inputStream_httpBuffer_of_ne inStream os h
  rw [e]
  obtain ⟨p1, p2⟩ := httpBufferFill_prebuffer s o hs
  refine ⟨?_, p1, p2⟩
  rcases httpBufferFill_socket s o with ⟨e1, -⟩ | ⟨e1, -⟩
  · rw [e1]
    exact hs
  · exact Or.inr e1

theorem fillRead_bytes (data : InputStreamHTTPData) (os : OS) (bs : List Char)
    (rest : List RecvAnswer)
    (hs : data.connState = HTTP_CONN_STATE_OPEN)
    (hl : data.buflen < HTTP_BUFFER_SIZE - 1)
    (hr : os.recvs = RecvAnswer.bytes bs :: rest) (hne : bs.length ≠ 0)
    (hle : bs.length ≤ HTTP_BUFFER_SIZE - 1 - data.buflen) :
    (fillRead data os).2.1
      = { data with buffer := data.buffer ++ bs, buflen := data.buflen + bs.length,
                    stale := data.stale.drop bs.length } := by
  have e : os.recv (HTTP_BUFFER_SIZE - 1 - data.buflen)
      = (RecvAnswer.bytes bs, { os with recvs := rest }) := by
    unfold OS.recv
    rw [hr]
    simp only []
    rw [if_pos hle]
  unfold fillRead
  rw [if_pos ⟨hs, hl⟩, e]
  simp only []
  rw [if_neg hne]

/-- The second half of the pump on an open session for which a segment `bs`
has arrived that fits the free space of the buffer. -/
theorem httpBufferFill_bytes (s : InputStream) (os : OS) (bs : List Char)
    (rest : List RecvAnswer)
    (hs : s.data.connState = HTTP_CONN_STATE_OPEN)
    (hl : s.data.buflen < HTTP_BUFFER_SIZE - 1)
    (hr : os.recvs = RecvAnswer.bytes bs :: rest) (hne : bs.length ≠ 0)
    (hle : bs.length ≤ HTTP_BUFFER_SIZE - 1 - s.data.buflen) :
    (httpBufferFill s os).2.1.data.connState = HTTP_CONN_STATE_OPEN ∧
      (httpBufferFill s os).2.1.data.buflen = s.data.buflen + bs.length ∧
      (httpBufferFill s os).2.1.data.buffer = s.data.buffer ++ bs ∧
      (httpBufferFill s os).2.1.data.icyMetaint = s.data.icyMetaint := by
  obtain ⟨b1, m1⟩ := prebufferMark_eq s.data
  have hs1 : (prebufferMark s.data).connState = HTTP_CONN_STATE_OPEN := by
    rw [m1]
    exact hs
  have hl1 : (prebufferMark s.data).buflen = s.data.buflen := by rw [m1]
  have f := fillRead_bytes (prebufferMark s.data) os bs rest hs1
    (by rw [hl1]; exact hl) hr hne (by rw [hl1]; exact hle)
  obtain ⟨b2, m2⟩ := prebufferClear_eq (fillRead (prebufferMark s.data) os).2.1
  have e : (httpBufferFill s os).2.1.data
      = prebufferClear (fillRead (prebufferMark s.data) os).2.1 := by
    unfold httpBufferFill
    rw [if_neg (by rw [hs]; decide)]
  rw [e, m2, f, m1]
  exact ⟨hs, rfl, rfl, rfl⟩

set_option maxRecDepth 100000

theorem widePump1_state :
    wideOpen.1 = 0 ∧
      widePump1.2.1.data.connState = HTTP_CONN_STATE_OPEN ∧
      widePump1.2.1.data.buflen = 0 ∧
      widePump1.2.1.data.icyMetaint = 40000 := by
  decide

theorem widePump1_recvs :
    widePump1.2.2.recvs = [RecvAnswer.bytes (List.replicate 35000 'x')] := rfl

/-- C28, the claim fails. A pump that ends closed on a fault of `select` in the
connecting state leaves zero bytes buffered and the prebuffer flag clear; and
in a session whose header gave `icy-metaint:40000`, the pump that reads the
first 35000 bytes ends open with 35000 bytes buffered, fewer than the metadata
interval, and the prebuffer flag clear. -/
theorem prebuffer_clear_below_interval :
    (pendingPump selFault).2.1.data.connState = HTTP_CONN_STATE_CLOSED ∧
      (pendingPump selFault).2.1.data.buflen = 0 ∧
      (pendingPump selFault).2.1.data.prebuffer = false ∧
      wideOpen.1 = 0 ∧
      widePump2.2.1.data.connState = HTTP_CONN_STATE_OPEN ∧
      widePump2.2.1.data.icyMetaint = 40000 ∧
      widePump2.2.1.data.buflen = 35000 ∧
      widePump2.2.1.data.prebuffer = false := by
  obtain ⟨w0, w1, w2, w3⟩ := widePump1_state
  have hcap : HTTP_BUFFER_SIZE = 131072 := rfl
  have hlr : (List.replicate 35000 'x').length = 35000 := List.length_replicate _ _
  have e : widePump2 = httpBufferFill widePump1.2.1 widePump1.2.2 :=
    inputStream_httpBuffer_open _ _ w1
  obtain ⟨f1, f2, f3, f4⟩ := httpBufferFill_bytes widePump1.2.1 widePump1.2.2
    (List.replicate 35000 'x') [] w1 (by rw [w2, hcap]; decide) widePump1_recvs
    (by rw [hlr]; decide) (by rw [hlr, w2, hcap]; decide)
  rw [w2, hlr] at f2
  have f5 : (httpBufferFill widePump1.2.1 widePump1.2.2).2.1.data.buflen = 35000 := by
    rw [f2]
  refine ⟨by decide, by decide, by decide, w0, ?_, ?_, ?_, ?_⟩
  · rw [e]
    exact f1
  · rw [e, f4]
    exact w3
  · rw [e]
    exact f5
  · rw [e]
    refine (httpBufferFill_prebuffer _ _ (Or.inl w1)).1 ?_
    rw [f5]
    decide

theorem prebuffer_after_pump_witness :
    mimePump.1 ≠ -1 ∧ mimePump.2.1.data.buflen = 0 ∧
      mimePump.2.1.data.prebuffer = true :=
  ⟨by decide, by decide,
    (prebuffer_after_pump mimeOpen.2.1 mimeOpen.2.2 (by decide)).2.2 (by decide)
      (Or.inl (by decide))⟩

/-! ### The removal of a metadata block -/

/-- C26, amended. After the pump at the start of a read, let the session pass
the test of the connection state (open, not prebuffering and with at least
`icyMetaint` bytes, or closed), the metadata interval be positive, the offset
have reached it, and the buffer, which holds the `buflen` bytes counted (at
most `HTTP_BUFFER_SIZE - 1`), start with a length byte `L` of at most 127 and
hold the whole block of `1 + L*16` bytes.  Then the read is the delivery step
run on the session from which the block has been removed: there the buffer
holds the bytes that followed the block, in their order, the count is smaller
by `1 + L*16`, and the offset is 0. -/
theorem block_removed_before_delivery (inStream : InputStream) (os : OS) (size nmemb : Nat)
    (c : Char) (rest : List Char)
    (hb : (inputStream_httpBuffer inStream os).2.1.data.buffer = c :: rest)
    (hL : c.toNat < 128)
    (hlen : (inputStream_httpBuffer inStream os).2.1.data.buffer.length
      = (inputStream_httpBuffer inStream os).2.1.data.buflen)
    (hcap : (inputStream_httpBuffer inStream os).2.1.data.buflen ≤ HTTP_BUFFER_SIZE - 1)
    (hgate : ((inputStream_httpBuffer inStream os).2.1.data.connState = HTTP_CONN_STATE_OPEN ∧
          (inputStream_httpBuffer inStream os).2.1.data.prebuffer = false ∧
          ¬ (inputStream_httpBuffer inStream os).2.1.data.buflen
              < wrapSize (inputStream_httpBuffer inStream os).2.1.data.icyMetaint) ∨
        (inputStream_httpBuffer inStream os).2.1.data.connState = HTTP_CONN_STATE_CLOSED)
    (hm : (inputStream_httpBuffer inStream os).2.1.data.icyMetaint > 0)
    (hoff : (inputStream_httpBuffer inStream os).2.1.data.icyOffset
      ≥ (inputStream_httpBuffer inStream os).2.1.data.icyMetaint)
    (hwhole : 1 + c.toNat * 16 ≤ (inputStream_httpBuffer inStream os).2.1.data.buflen) :
    inputStream_httpRead inStream os size nmemb
        = httpDeliver (icyConsume (inputStream_httpBuffer inStream os).2.1)
            (inputStream_httpBuffer inStream os).2.2 size
            (wrapLong ((size * nmemb : Nat) : Int))
            (icyMaxToSend (icyConsume (inputStream_httpBuffer inStream os).2.1).data) ∧
      (icyConsume (inputStream_httpBuffer inStream os).2.1).data.buffer
        = rest.drop (c.toNat * 16) ∧
      (icyConsume (inputStream_httpBuffer inStream os).2.1).data.buflen
        = (inputStream_httpBuffer inStream os).2.1.data.buflen - (1 + c.toNat * 16) ∧
      (icyConsume (inputStream_httpBuffer inStream os).2.1).data.buffer.length
        = (icyConsume (inputStream_httpBuffer inStream os).2.1).data.buflen ∧
      (icyConsume (inputStream_httpBuffer inStream os).2.1).data.icyOffset = 0 := by
  have hc : (inputStream_httpBuffer inStream os).2.1.data.buflen ≤ 131071 := hcap
  have hml := icyMetalen_cons c rest hL
  rw [← hb] at hml
  have hfit : ¬ wrapSize (icyMetalen (inputStream_httpBuffer inStream os).2.1.data.buffer + 1)
      > (inputStream_httpBuffer inStream os).2.1.data.buflen := by
    rw [hml]
    unfold wrapSize
    omega
  have hg : ¬ ¬ (((inputStream_httpBuffer inStream os).2.1.data.connState
        = HTTP_CONN_STATE_OPEN ∧
      ¬ ((inputStream_httpBuffer inStream os).2.1.data.prebuffer = true ∨
          (inputStream_httpBuffer inStream os).2.1.data.buflen
            < wrapSize (inputStream_httpBuffer inStream os).2.1.data.icyMetaint)) ∨
      ((inputStream_httpBuffer inStream os).2.1.data.connState = HTTP_CONN_STATE_CLOSED ∧
        (inputStream_httpBuffer inStream os).2.1.data.buflen ≠ 0)) := by
    intro hn
    apply hn
    rcases hgate with ⟨g1, g2, g3⟩ | g
    · refine Or.inl ⟨g1, ?_⟩
      rintro (h | h)
      · rw [g2] at h
        cases h
      · exact g3 h
    · exact Or.inr ⟨g, by omega⟩
  have hread : inputStream_httpRead inStream os size nmemb
      = httpDeliver (icyConsume (inputStream_httpBuffer inStream os).2.1)
          (inputStream_httpBuffer inStream os).2.2 size
          (wrapLong ((size * nmemb : Nat) : Int))
          (icyMaxToSend (icyConsume (inputStream_httpBuffer inStream os).2.1).data) := by
    unfold inputStream_httpRead
    dsimp only
    unfold httpReadPumped
    dsimp only
    rw [if_neg hg, if_pos hm, if_pos hoff, if_neg hfit]
  have hw : wrapSize (((inputStream_httpBuffer inStream os).2.1.data.buflen : Int)
        - (((c.toNat * 16 : Nat) : Int) + 1))
      = (inputStream_httpBuffer inStream os).2.1.data.buflen - (1 + c.toNat * 16) := by
    unfold wrapSize
    omega
  have hn1 : ((((c.toNat * 16 : Nat) : Int) + 1)).toNat = c.toNat * 16 + 1 := by omega
  obtain ⟨d1, d2, d3, -, -⟩ :=
    dropMetadata_fields (inputStream_httpBuffer inStream os).2.1 ((c.toNat * 16 : Nat) : Int)
  have hcons : icyConsume (inputStream_httpBuffer inStream os).2.1
      = dropMetadata (inputStream_httpBuffer inStream os).2.1 ((c.toNat * 16 : Nat) : Int) := by
    unfold icyConsume
    rw [hml]
  rw [hw] at d1 d3
  rw [hn1, hb] at d3
  have hrl : rest.length + 1 = (inputStream_httpBuffer inStream os).2.1.data.buflen := by
    rw [← hlen, hb]
    rfl
  have hdrop : (c :: rest).drop (c.toNat * 16 + 1) = rest.drop (c.toNat * 16) := rfl
  have hdl : (rest.drop (c.toNat * 16)).length
      = (inputStream_httpBuffer inStream os).2.1.data.buflen - (1 + c.toNat * 16) := by
    rw [List.length_drop]
    omega
  rw [hdrop, List.take_of_length_le (le_of_eq hdl)] at d3
  refine ⟨hread, ?_, ?_, ?_, ?_⟩
  · rw [hcons]
    exact d3
  · rw [hcons]
    exact d1
  · rw [hcons, d3, d1]
    exact hdl
  · rw [hcons]
    exact d2

set_option maxRecDepth 100000

theorem block_removed_before_delivery_witness :
    icyPump3.2.1.data.buffer
        = Char.ofNat 1 :: (List.replicate 16 'x' ++ "abcdefghij".toList) ∧
      icyPump3.2.1.data.buflen = 27 ∧
      (icyConsume icyPump3.2.1).data.buffer = "abcdefghij".toList ∧
      (icyConsume icyPump3.2.1).data.buflen = 27 - (1 + (Char.ofNat 1).toNat * 16) ∧
      (icyConsume icyPump3.2.1).data.icyOffset = 0 ∧
      icyRead3.out = "abcdefghij".toList :=
  ⟨by decide, by decide,
    (block_removed_before_delivery icyRead2.inStream icyRead2.os 1 100 (Char.ofNat 1)
      (List.replicate 16 'x' ++ "abcdefghij".toList) (by decide) (by decide) (by decide)
      (by decide) (Or.inr (by decide)) (by decide) (by decide) (by decide)).2.1,
    (block_removed_before_delivery icyRead2.inStream icyRead2.os 1 100 (Char.ofNat 1)
      (List.replicate 16 'x' ++ "abcdefghij".toList) (by decide) (by decide) (by decide)
      (by decide) (Or.inr (by decide)) (by decide) (by decide) (by decide)).2.2.1,
    (block_removed_before_delivery icyRead2.inStream icyRead2.os 1 100 (Char.ofNat 1)
      (List.replicate 16 'x' ++ "abcdefghij".toList) (by decide) (by decide) (by decide)
      (by decide) (Or.inr (by decide)) (by decide) (by decide) (by decide)).2.2.2.2,
    by decide⟩

/-- C26, the claim fails. The peer answers `ICY 200 OK`, `icy-metaint:2` and
sends the audio `ab`, the length byte 128 and the 2048 bytes `x` of the block,
then closes.  At the second read the offset has reached the interval and the
whole block of `1 + 128*16 = 2049` bytes is buffered; the length byte is read
as a signed `char`, `metalen` is negative and is set to 0: one byte is
removed, 2048 bytes stay, and the read returns two bytes of the block. -/
theorem long_block_loses_one_byte :
    bigBlockPump2.2.1.data.connState = HTTP_CONN_STATE_CLOSED ∧
      bigBlockPump2.2.1.data.icyMetaint = 2 ∧
      bigBlockPump2.2.1.data.icyOffset = 2 ∧
      bigBlockPump2.2.1.data.buffer = Char.ofNat 128 :: List.replicate 2048 'x' ∧
      bigBlockPump2.2.1.data.buflen = 2049 ∧
      (icyConsume bigBlockPump2.2.1).data.buflen = 2048 ∧
      (icyConsume bigBlockPump2.2.1).data.buffer = List.replicate 2048 'x' ∧
      bigBlockRead2.out = "xx".toList ∧
      bigBlockRead2.inStream.data.buflen = 2046 := by
  decide!

/-! ### The request -/

/-- The request that `finishHTTPInit` composes is the first 2047 characters of
the complete request made of the lines of the format string. -/
theorem httpRequest_eq (path host : List Char) (offset : Int) :
    httpRequest path host offset
      = (requestOfLines (requestLines path host offset)).take 2047 := by
  have e1 : " HTTP/1.1\r\n".toList = " HTTP/1.1".toList ++ "\r\n".toList := rfl
  have e2 : "Connection: close\r\n".toList = "Connection: close".toList ++ "\r\n".toList := rfl
  have e3 : "-\r\n".toList = "-".toList ++ "\r\n".toList := rfl
  have e4 : "Icy-Metadata:1\r\n".toList = "Icy-Metadata:1".toList ++ "\r\n".toList := rfl
  unfold httpRequest requestOfLines requestLines
  rw [e1, e2, e3, e4]
  simp only [List.foldr_cons, List.foldr_nil, List.append_assoc]

/-- C29, amended. In `finishHTTPInit`, when the socket is ready (`select`
returns a positive count) and has no pending error, and the complete request
made of the lines `GET <path> HTTP/1.1`, `Host: <host>`, `Connection: close`,
`User-Agent: httpTest/0.0.0`, `Range: bytes=<offset>-` and `Icy-Metadata:1`
(no space after the colon), each ended by `\r\n` and closed by an empty line,
has at most 2047 characters: that request is what is handed to `write`; when
`write` takes all of it the function returns 0, the session awaits the header
and the socket stays as it was; when `write` takes another number of bytes or
fails, the function returns `-1`, the session is closed and the socket is
closed. -/
theorem finishHTTPInit_sends_request (inStream : InputStream) (os : OS)
    (a : InitAnswer) (rest : List InitAnswer)
    (hi : os.inits = a :: rest) (hsel : 0 < a.select.val) (herr : a.soError = 0)
    (hfit : (requestOfLines (requestLines (inStream.data.path.getD [])
        (inStream.data.host.getD []) inStream.offset)).length ≤ 2047) :
    ((a.written = WriteAnswer.all ∨
        a.written = WriteAnswer.count (requestOfLines (requestLines
          (inStream.data.path.getD []) (inStream.data.host.getD [])
          inStream.offset)).length) →
      finishHTTPInit inStream os
        = (0, { inStream with data := { inStream.data with
                  connState := HTTP_CONN_STATE_HELLO } },
            { os with inits := rest,
                      log := os.log ++ [Call.write (requestOfLines (requestLines
                        (inStream.data.path.getD []) (inStream.data.host.getD [])
                        inStream.offset))] })) ∧
    (∀ k : Nat, a.written = WriteAnswer.count k →
      k ≠ (requestOfLines (requestLines (inStream.data.path.getD [])
        (inStream.data.host.getD []) inStream.offset)).length →
      finishHTTPInit inStream os
        = (-1, { inStream with data := { inStream.data with
                  connState := HTTP_CONN_STATE_CLOSED } },
            { os with inits := rest,
                      sockOpen := false,
                      log := os.log ++ [Call.write ((requestOfLines (requestLines
                        (inStream.data.path.getD []) (inStream.data.host.getD [])
                        inStream.offset)).take k), Call.close os.sockOpen] })) ∧
    (a.written = WriteAnswer.fail →
      finishHTTPInit inStream os
        = (-1, { inStream with data := { inStream.data with
                  connState := HTTP_CONN_STATE_CLOSED } },
            { os with inits := rest,
                      sockOpen := false,
                      log := os.log ++ [Call.write [], Call.close os.sockOpen] })) := by
  have hreq : httpRequest (inStream.data.path.getD []) (inStream.data.host.getD [])
      inStream.offset
      = requestOfLines (requestLines (inStream.data.path.getD [])
          (inStream.data.host.getD []) inStream.offset) := by
    rw [httpRequest_eq]
    exact List.take_of_length_le hfit
  generalize requestOfLines (requestLines (inStream.data.path.getD [])
    (inStream.data.host.getD []) inStream.offset) = req at hreq hfit ⊢
  have h1 : ¬ (a.select.val = 0 ∨ (a.select.val < 0 ∧ a.select.errno = Errno.EINTR)) := by
    omega
  have h2 : ¬ a.select.val < 0 := by omega
  have h3 : ¬ a.soError ≠ 0 := fun h => h herr
  unfold finishHTTPInit
  rw [hi]
  simp only []
  rw [if_neg h1, if_neg h2, if_neg h3, hreq]
  refine ⟨?_, ?_, ?_⟩
  · rintro (hw | hw)
    · rw [hw]
      simp only [ne_eq, not_true_eq_false, if_false, Int.toNat_ofNat, List.take_length]
    · rw [hw]
      simp only [ne_eq, not_true_eq_false, if_false, Int.toNat_ofNat, List.take_length]
  · intro k hw hk
    rw [hw]
    have hk2 : ((k : Int) ≠ (req.length : Int)) := by omega
    simp only [hk2, ne_eq, not_false_eq_true, if_true, Int.toNat_ofNat, OS.close,
      List.append_assoc, List.singleton_append]
  · intro hw
    rw [hw]
    have hk2 : ((-1 : Int) ≠ (req.length : Int)) := by omega
    simp only [hk2, ne_eq, not_false_eq_true, if_true, OS.close, List.append_assoc,
      List.singleton_append]
    rfl

set_option maxRecDepth 100000

theorem finishHTTPInit_sends_request_witness :
    finishHTTPInit mimeOpen.2.1 mimeOpen.2.2
      = (0, { mimeOpen.2.1 with data := { mimeOpen.2.1.data with
                connState := HTTP_CONN_STATE_HELLO } },
          { mimeOpen.2.2 with
              inits := [],
              log := mimeOpen.2.2.log ++ [Call.write (requestOfLines
                (requestLines "/".toList "h".toList 0))] }) :=
  (finishHTTPInit_sends_request mimeOpen.2.1 mimeOpen.2.2
    { select := selReady, soError := 0, written := WriteAnswer.all } []
    (by decide) (by decide) (by decide) (by decide)).1 (Or.inl rfl)

/-- C29, the claim fails. For the session opened on `http://h/` the bytes
handed to `write` end with the line `Icy-Metadata:1`: the text
`Icy-Metadata: 1` does not occur in them, and they differ from the request
worded in the specification.  For a session whose path has 2101 characters
the bytes handed to `write` are the first 2047 characters of the request,
`GET /aaa...`, which hold no line end: the function returns 0 and the session
awaits the header although no complete request was sent. -/
theorem request_differs_from_spec :
    (finishHTTPInit mimeOpen.2.1 mimeOpen.2.2).2.2.log.getLast?
        = some (Call.write ("GET / HTTP/1.1\r\nHost: h\r\nConnection: close\r\n".toList
            ++ "User-Agent: httpTest/0.0.0\r\nRange: bytes=0-\r\n".toList
            ++ "Icy-Metadata:1\r\n\r\n".toList)) ∧
      strstr ("GET / HTTP/1.1\r\nHost: h\r\nConnection: close\r\n".toList
            ++ "User-Agent: httpTest/0.0.0\r\nRange: bytes=0-\r\n".toList
            ++ "Icy-Metadata:1\r\n\r\n".toList) "Icy-Metadata: 1".toList = none ∧
      "GET / HTTP/1.1\r\nHost: h\r\nConnection: close\r\n".toList
            ++ "User-Agent: httpTest/0.0.0\r\nRange: bytes=0-\r\n".toList
            ++ "Icy-Metadata:1\r\n\r\n".toList
        ≠ requestOfLines (specRequestLines "/".toList "h".toList 0
            "httpTest/0.0.0".toList) ∧
      longPathOpen.1 = 0 ∧
      longPathOpen.2.1.data.path = some ('/' :: List.replicate 2100 'a') ∧
      (finishHTTPInit longPathOpen.2.1 longPathOpen.2.2).1 = 0 ∧
      (finishHTTPInit longPathOpen.2.1 longPathOpen.2.2).2.1.data.connState
        = HTTP_CONN_STATE_HELLO ∧
      (finishHTTPInit longPathOpen.2.1 longPathOpen.2.2).2.2.log.getLast?
        = some (Call.write ("GET /".toList ++ List.replicate 2042 'a')) ∧
      strstr ("GET /".toList ++ List.replicate 2042 'a') "\r\n".toList = none := by
  decide!

/-! ### Draining a closed session -/

set_option maxRecDepth 100000

/-- The session `truncatedOS` leaves after its first read: closed, with the
length byte 1 and three of the sixteen bytes of the block in the buffer. -/
theorem truncatedRead1_state :
    (truncatedRead1 (Char.ofNat 1)).out = "ab".toList ∧
      (truncatedRead1 (Char.ofNat 1)).inStream.data.connState = HTTP_CONN_STATE_CLOSED ∧
      (truncatedRead1 (Char.ofNat 1)).inStream.data.buffer = Char.ofNat 1 :: "xxx".toList ∧
      (truncatedRead1 (Char.ofNat 1)).inStream.data.buflen = 4 ∧
      (truncatedRead1 (Char.ofNat 1)).inStream.data.icyMetaint = 2 ∧
      (truncatedRead1 (Char.ofNat 1)).inStream.data.icyOffset = 2 ∧
      (truncatedRead1 (Char.ofNat 1)).os.recvs = [] := by
  decide

theorem truncatedRead1_pump :
    inputStream_httpBuffer (truncatedRead1 (Char.ofNat 1)).inStream
        (truncatedRead1 (Char.ofNat 1)).os
      = (0, (truncatedRead1 (Char.ofNat 1)).inStream, (truncatedRead1 (Char.ofNat 1)).os) := by
  decide

theorem truncatedRead1_read (n : Nat) :
    inputStream_httpRead (truncatedRead1 (Char.ofNat 1)).inStream
        (truncatedRead1 (Char.ofNat 1)).os 1 n
      = { ret := 0, out := []
          inStream := (truncatedRead1 (Char.ofNat 1)).inStream
          os := (truncatedRead1 (Char.ofNat 1)).os } := by
  unfold inputStream_httpRead
  dsimp only
  rw [truncatedRead1_pump]
  unfold httpReadPumped
  dsimp only
  rw [if_neg (by decide), if_pos (by decide), if_pos (by decide), if_pos (by decide),
    if_neg (by decide)]

theorem truncatedRead1_run (ns : List Nat) :
    readRun (truncatedRead1 (Char.ofNat 1)).inStream (truncatedRead1 (Char.ofNat 1)).os ns
      = ([], (truncatedRead1 (Char.ofNat 1)).inStream, (truncatedRead1 (Char.ofNat 1)).os) := by
  induction ns with
  | nil => rfl
  | cons n ns ih =>
    unfold readRun
    rw [truncatedRead1_read n]
    dsimp only
    rw [ih]
    rfl

/-- C30, the code falls short. The peer sends `icy-metaint:2`, the audio `ab`,
the length byte 1 and three of the sixteen bytes of the block, and closes.
After the first read the session is reachable, closed, and holds four bytes;
from then on every read of element size 1, whatever the number of bytes asked
for, returns 0 and leaves the session and the operating system as they are, so
no sequence of reads changes the byte count, and the end of the stream is
never reported. -/
theorem truncated_block_never_drains :
    Reachable (truncatedRead1 (Char.ofNat 1)).inStream (truncatedRead1 (Char.ofNat 1)).os ∧
      (truncatedRead1 (Char.ofNat 1)).inStream.data.connState = HTTP_CONN_STATE_CLOSED ∧
      (truncatedRead1 (Char.ofNat 1)).inStream.data.buflen = 4 ∧
      (∀ n : Nat,
        inputStream_httpRead (truncatedRead1 (Char.ofNat 1)).inStream
            (truncatedRead1 (Char.ofNat 1)).os 1 n
          = { ret := 0, out := []
              inStream := (truncatedRead1 (Char.ofNat 1)).inStream
              os := (truncatedRead1 (Char.ofNat 1)).os }) ∧
      (∀ ns : List Nat,
        (readRun (truncatedRead1 (Char.ofNat 1)).inStream
            (truncatedRead1 (Char.ofNat 1)).os ns).2.1.data.buflen = 4 ∧
          inputStream_httpAtEOF (readRun (truncatedRead1 (Char.ofNat 1)).inStream
            (truncatedRead1 (Char.ofNat 1)).os ns).2.1 = 0) := by
  refine ⟨?_, truncatedRead1_state.2.1, truncatedRead1_state.2.2.2.1, truncatedRead1_read, ?_⟩
  · exact Reachable.read _ _ 1 100
      (Reachable.opened exampleStream "http://h/".toList (truncatedOS (Char.ofNat 1))
        (by decide))
  · intro ns
    rw [truncatedRead1_run ns]
    exact ⟨truncatedRead1_state.2.2.2.1, by decide⟩

/-! ### The buffer before the header is accepted -/

theorem initHTTPConnection_buffer (s : InputStream) (o : OS) :
    ((initHTTPConnection s o).1 = -1 ∧
        (initHTTPConnection s o).2.1.data.connState = s.data.connState ∧
        (initHTTPConnection s o).2.1.data.buffer = s.data.buffer ∧
        (initHTTPConnection s o).2.1.data.buflen = s.data.buflen) ∨
      ((initHTTPConnection s o).1 = 0 ∧
        (initHTTPConnection s o).2.1.data.buffer = [] ∧
        (initHTTPConnection s o).2.1.data.buflen = 0) := by
  unfold initHTTPConnection
  dsimp only
  repeat' split
  all_goals first
    | exact Or.inl ⟨rfl, rfl, rfl, rfl⟩
    | exact Or.inr ⟨rfl, rfl, rfl⟩

theorem finishHTTPInit_buffer (s : InputStream) (o : OS) :
    (finishHTTPInit s o).2.1.data.buffer = s.data.buffer ∧
      (finishHTTPInit s o).2.1.data.buflen = s.data.buflen := by
  unfold finishHTTPInit
  dsimp only
  repeat' split
  all_goals exact ⟨rfl, rfl⟩

theorem helloParse_buffer (s : InputStream) (o : OS) :
    (helloParse s o).2.1 = s ∨
      (helloParse s o).2.1.data.connState = HTTP_CONN_STATE_CLOSED ∨
      (helloParse s o).2.1.data.connState = HTTP_CONN_STATE_OPEN ∨
      ((helloParse s o).2.1.data.buffer = [] ∧ (helloParse s o).2.1.data.buflen = 0) := by
  unfold helloParse
  dsimp only
  repeat' split
  all_goals first
    | exact Or.inl rfl
    | exact Or.inr (Or.inl rfl)
    | exact Or.inr (Or.inr (Or.inl rfl))
    | exact Or.inr (Or.inr (Or.inr ⟨rfl, rfl⟩))

theorem getHTTPHello_buffer (s : InputStream) (o : OS)
    (h : s.data.buffer.length = s.data.buflen) :
    (getHTTPHello s o).2.1.data.connState = HTTP_CONN_STATE_CLOSED ∨
      (getHTTPHello s o).2.1.data.connState = HTTP_CONN_STATE_OPEN ∨
      (getHTTPHello s o).2.1.data.buffer.length = (getHTTPHello s o).2.1.data.buflen := by
  unfold getHTTPHello
  dsimp only
  split
  · exact Or.inr (Or.inr h)
  split
  · exact Or.inl rfl
  split
  · exact Or.inl rfl
  rcases hr : OS.recv { o with selects := o.selects.tail }
      (HTTP_BUFFER_SIZE - 1 - s.data.buflen) with ⟨a, os1⟩
  cases a with
  | fail e =>
    simp only []
    split
    · exact Or.inr (Or.inr h)
    · exact Or.inl rfl
  | bytes bs =>
    simp only []
    split
    · exact Or.inl rfl
    · rcases helloParse_buffer { s with data := { s.data with
          buffer := s.data.buffer ++ bs, buflen := s.data.buflen + bs.length,
          stale := Char.ofNat 0 :: s.data.stale.drop (bs.length + 1) } } os1
        with e | e | e | ⟨e1, e2⟩
      · refine Or.inr (Or.inr ?_)
        rw [e]
        show (s.data.buffer ++ bs).length = s.data.buflen + bs.length
        rw [List.length_append, h]
      · exact Or.inl e
      · exact Or.inr (Or.inl e)
      · refine Or.inr (Or.inr ?_)
        rw [e1, e2]
        rfl

theorem httpBufferFill_early (s : InputStream) (o : OS)
    (h1 : s.data.connState ≠ HTTP_CONN_STATE_OPEN)
    (h2 : s.data.connState ≠ HTTP_CONN_STATE_CLOSED) :
    (httpBufferFill s o).2.1 = s := by
  unfold httpBufferFill
  rw [if_pos ⟨h1, h2⟩]

theorem httpReadPumped_early (s : InputStream) (o : OS) (size : Nat) (inlen maxToSend : Int)
    (h1 : s.data.connState ≠ HTTP_CONN_STATE_OPEN)
    (h2 : s.data.connState ≠ HTTP_CONN_STATE_CLOSED) :
    (httpReadPumped s o size inlen maxToSend).inStream = s := by
  unfold httpReadPumped
  dsimp only
  rw [if_pos]
  rintro (⟨e, -⟩ | ⟨e, -⟩)
  · exact h1 e
  · exact h2 e

/-- In every session state that a successful open, pumps and reads bring
about, as long as the header has not been accepted and the session is not
closed, the buffer holds exactly the bytes counted in `buflen`. -/
theorem Reachable.buffer_counted (inStream : InputStream) (os : OS)
    (h : Reachable inStream os) :
    inStream.data.connState ≠ HTTP_CONN_STATE_OPEN →
      inStream.data.connState ≠ HTTP_CONN_STATE_CLOSED →
      inStream.data.buffer.length = inStream.data.buflen := by
  have hpump : ∀ s o,
      (s.data.connState ≠ HTTP_CONN_STATE_OPEN → s.data.connState ≠ HTTP_CONN_STATE_CLOSED →
        s.data.buffer.length = s.data.buflen) →
      ((inputStream_httpBuffer s o).2.1.data.connState ≠ HTTP_CONN_STATE_OPEN →
        (inputStream_httpBuffer s o).2.1.data.connState ≠ HTTP_CONN_STATE_CLOSED →
        (inputStream_httpBuffer s o).2.1.data.buffer.length
          = (inputStream_httpBuffer s o).2.1.data.buflen) := by
    intro s o hs
    refine inputStream_httpBuffer_preserves_staged
      (fun s _ => s.data.connState ≠ HTTP_CONN_STATE_OPEN →
        s.data.connState ≠ HTTP_CONN_STATE_CLOSED → s.data.buffer.length = s.data.buflen)
      ?_ ?_ ?_ ?_ s o hs
    · intro s o hst hp h1 h2
      rcases initHTTPConnection_buffer s o with ⟨-, e1, e2, e3⟩ | ⟨-, e2, e3⟩
      · rw [e2, e3]
        exact hp (by rw [hst]; decide) (by rw [hst]; decide)
      · rw [e2, e3]
        rfl
    · intro s o hst hp h1 h2
      obtain ⟨e2, e3⟩ := finishHTTPInit_buffer s o
      rw [e2, e3]
      exact hp (by rw [hst]; decide) (by rw [hst]; decide)
    · intro s o hst hp h1 h2
      rcases getHTTPHello_buffer s o (hp (by rw [hst]; decide) (by rw [hst]; decide))
        with e | e | e
      · exact absurd e h2
      · exact absurd e h1
      · exact e
    · intro s o hp h1 h2
      rcases httpBufferFill_socket s o with ⟨e1, -⟩ | ⟨e1, -⟩
      · rw [e1] at h1 h2
        rw [httpBufferFill_early s o h1 h2]
        exact hp h1 h2
      · exact absurd e1 h2
  induction h with
  | opened s u o h0 =>
    intro _ _
    have hm : ¬ ((-1 : Int) = 0) := by decide
    unfold inputStream_httpOpen at h0 ⊢
    dsimp only at h0 ⊢
    split at h0
    · exact absurd h0 hm
    · rename_i h1
      rw [if_neg h1]
      split at h0
      · exact absurd h0 hm
      · rename_i h2
        rw [if_neg h2]
        rcases initHTTPConnection_buffer
            { s with data := (parseUrl newInputStreamHTTPData u).2 } o
          with ⟨e0, -, -, -⟩ | ⟨-, c2, c3⟩
        · exact absurd (by rw [e0]; decide) h2
        · rw [c2, c3]
          rfl
  | pumped s o _ ih => exact hpump s o ih
  | read s o size nmemb _ ih =>
    intro h1 h2
    have hp := hpump s o ih
    unfold inputStream_httpRead at h1 h2 ⊢
    dsimp only at h1 h2 ⊢
    rcases httpReadPumped_socket (inputStream_httpBuffer s o).2.1
        (inputStream_httpBuffer s o).2.2 size (wrapLong ((size * nmemb : Nat) : Int))
        (wrapLong (s.data.buflen : Int)) with ⟨e1, -⟩ | ⟨e1, -⟩
    · rw [e1] at h1 h2
      rw [httpReadPumped_early _ _ _ _ _ h1 h2]
      exact hp h1 h2
    · exact absurd e1 h2

/-! ### `CopyString` -/

theorem set_append_length (a : Char) : ∀ (A B : List Char),
    (A ++ B).set A.length a = A ++ B.set 0 a := by
  intro A
  induction A with
  | nil => intro B; rfl
  | cons x xs ih =>
    intro B
    simp only [List.cons_append, List.length_cons, List.set_cons_succ, ih]

theorem cstr_not_mem (s : List Char) : Char.ofNat 0 ∉ cstr s := by
  intro h
  have := List.mem_takeWhile_imp h
  simp at this

theorem cstr_initial (s : List Char) : cstr s <+: s :=
  List.takeWhile_prefix _

theorem cstr_terminated (a b : List Char) (h : Char.ofNat 0 ∉ a) :
    cstr (a ++ Char.ofNat 0 :: b) = a := by
  rw [cstr_append_of_not_mem a _ h]
  have : cstr (Char.ofNat 0 :: b) = [] := by
    unfold cstr
    simp
  rw [this, List.append_nil]

/-- C31. For every memory at `dest` of at least `size` bytes, every source and
every `size` of at least 1 (a `size_t`): with `k` the smaller of the length of
the source string and `size - 1`, `CopyString` returns the pointer `dest + k`;
the memory at `dest` holds the first `k` characters of the source, then a NUL
(at the place the pointer returned points to), then the bytes that were there
before; no byte from `dest[size]` on is changed; the string at `dest` is the
first `k` characters of the source: the whole source when its length is below
`size`, its first `size - 1` characters otherwise. -/
theorem CopyString_spec (dest src : List Char) (size : Nat)
    (h1 : 1 ≤ size) (h2 : size ≤ dest.length) (h3 : size < 18446744073709551616) :
    (CopyString dest src size).2 = min (cstr src).length (size - 1) ∧
      (CopyString dest src size).1
        = (cstr src).take (min (cstr src).length (size - 1))
            ++ Char.ofNat 0 :: dest.drop (min (cstr src).length (size - 1) + 1) ∧
      (CopyString dest src size).1.length = dest.length ∧
      (CopyString dest src size).1.drop size = dest.drop size ∧
      (CopyString dest src size).1[(CopyString dest src size).2]?
        = some (Char.ofNat 0) ∧
      cstr (CopyString dest src size).1
        = (cstr src).take (min (cstr src).length (size - 1)) ∧
      ((cstr src).length < size → cstr (CopyString dest src size).1 = cstr src) ∧
      (size ≤ (cstr src).length →
        cstr (CopyString dest src size).1 = (cstr src).take (size - 1)) := by
  have hw : wrapSize ((size : Int) - 1) = size - 1 := by
    unfold wrapSize
    omega
  have hk : (if (cstr src).length ≥ size then wrapSize ((size : Int) - 1)
      else (cstr src).length) = min (cstr src).length (size - 1) := by
    rw [hw]
    split <;> omega
  have hkle : min (cstr src).length (size - 1) ≤ (cstr src).length := Nat.min_le_left _ _
  have hklt : min (cstr src).length (size - 1) < dest.length := by omega
  generalize hkd : min (cstr src).length (size - 1) = k at hk hkle hklt
  have hp2 : (CopyString dest src size).2 = k := by
    unfold CopyString
    dsimp only
    exact hk
  obtain ⟨tail, htail⟩ := cstr_initial src
  have htake : src.take k = (cstr src).take k := by
    have e : src.take k = (cstr src ++ tail).take k := by rw [htail]
    rw [e]
    exact List.take_append_of_le_length hkle
  have hlen : ((cstr src).take k).length = k := by
    rw [List.length_take]
    omega
  have hdrop : dest.drop k = (dest.drop k).head?.getD 'x' :: dest.drop (k + 1) := by
    have hl : (dest.drop k).length = dest.length - k := List.length_drop _ _
    cases hd : dest.drop k with
    | nil =>
      rw [hd] at hl
      simp at hl
      omega
    | cons d t =>
      have ht : t = dest.drop (k + 1) := by
        have := List.tail_drop dest k
        rw [hd] at this
        exact this
      rw [ht]
      rfl
  have hmem : (CopyString dest src size).1
      = (cstr src).take k ++ Char.ofNat 0 :: dest.drop (k + 1) := by
    unfold CopyString copy_n
    dsimp only
    rw [hk, htake]
    have := set_append_length (Char.ofNat 0) ((cstr src).take k) (dest.drop k)
    rw [hlen] at this
    rw [this, hdrop]
    rfl
  have hnul : Char.ofNat 0 ∉ (cstr src).take k :=
    fun h => cstr_not_mem src (List.mem_of_mem_take h)
  have hcs : cstr (CopyString dest src size).1 = (cstr src).take k := by
    rw [hmem]
    exact cstr_terminated _ _ hnul
  refine ⟨hp2, hmem, ?_, ?_, ?_, hcs, ?_, ?_⟩
  · rw [hmem, List.length_append, hlen, List.length_cons, List.length_drop]
    omega
  · rw [hmem, List.drop_append_eq_append_drop, hlen, List.drop_of_length_le (by omega),
      List.nil_append]
    have e : size - k = (size - k - 1) + 1 := by omega
    rw [e, List.drop_succ_cons, List.drop_drop]
    congr 1
    omega
  · rw [hp2, hmem, List.getElem?_append_right (by omega), hlen, Nat.sub_self]
    exact List.getElem?_cons_zero
  · intro hlt
    rw [hcs]
    exact List.take_of_length_le (by omega)
  · intro hge
    rw [hcs]
    congr 1
    omega

theorem CopyString_spec_witness :
    CopyString (List.replicate 8 'z') ("hello world".toList ++ [Char.ofNat 0]) 6
        = ("hello".toList ++ Char.ofNat 0 :: "zz".toList, 5) ∧
      cstr (CopyString (List.replicate 8 'z') ("hello world".toList ++ [Char.ofNat 0]) 6).1
        = (cstr ("hello world".toList ++ [Char.ofNat 0])).take (6 - 1) ∧
      cstr (CopyString (List.replicate 8 'z') ("hi".toList ++ [Char.ofNat 0]) 6).1
        = cstr ("hi".toList ++ [Char.ofNat 0]) :=
  ⟨by decide,
    (CopyString_spec (List.replicate 8 'z') ("hello world".toList ++ [Char.ofNat 0]) 6
      (by decide) (by decide) (by decide)).2.2.2.2.2.2.2 (by decide),
    (CopyString_spec (List.replicate 8 'z') ("hi".toList ++ [Char.ofNat 0]) 6
      (by decide) (by decide) (by decide)).2.2.2.2.2.2.1 (by decide)⟩

/-! ### Subtune names -/

theorem digitsValue_zeros (l : List Char) : ∀ n : Nat,
    digitsValue (List.replicate n '0' ++ l) = digitsValue l := by
  intro n
  induction n with
  | zero => rfl
  | succ n ih =>
    have e : digitsValue ('0' :: (List.replicate n '0' ++ l))
        = digitsValue (List.replicate n '0' ++ l) := by
      simp [digitsValue]
    rw [List.replicate_succ, List.cons_append, e, ih]

/-- The conversion `%03u` gives at least three digits, and at most ten for an
`unsigned`, whose value is the number printed. -/
theorem formatU03_digits (u : Nat) :
    3 ≤ (formatU03 u).length ∧ (u < 4294967296 → (formatU03 u).length ≤ 10) ∧
      (∀ c ∈ formatU03 u, isdigit c = true) ∧ digitsValue (formatU03 u) = u := by
  obtain ⟨h1, h2, h3⟩ := repr_digits u
  unfold formatU03
  refine ⟨?_, ?_, ?_, ?_⟩
  · rw [List.length_append, List.length_replicate]
    omega
  · intro hu
    have hl : (Nat.repr u).toList.length ≤ 10 :=
      Nat.repr_length u 10 (by decide) (by omega)
    rw [List.length_append, List.length_replicate]
    omega
  · intro c hc
    rcases List.mem_append.1 hc with h | h
    · rw [(List.mem_replicate.1 h).2]
      decide
    · exact h2 c h
  · rw [digitsValue_zeros, h3]

theorem strtoul_digits (ds rest : List Char) (hne : ds ≠ [])
    (hd : ∀ c ∈ ds, isdigit c = true)
    (hr : ∀ c, rest.head? = some c → isdigit c = false)
    (hv : digitsValue ds ≤ ULONG_MAX) :
    strtoul (ds ++ rest) = (digitsValue ds, ds.length) := by
  obtain ⟨d, ds', rfl⟩ := List.exists_cons_of_ne_nil hne
  have hdd := isdigit_not_special d (hd d (by simp))
  have h1 : ((d :: ds') ++ rest).takeWhile isspace = [] := by
    simp [List.takeWhile, hdd.1]
  have h2 := takeWhile_isdigit_append (d :: ds') rest hd hr
  unfold strtoul
  simp only [h1, List.length_nil, List.drop_zero]
  have h3 : ((d :: ds') ++ rest).head? = some d := by simp
  have h4 : ¬ (some d = some '-' ∨ some d = some '+') := by
    simp [hdd.2.1, hdd.2.2.1]
  simp only [h3, h4, if_false, List.drop_zero, h2]
  have h5 : ¬ digitsValue (d :: ds') > ULONG_MAX := Nat.not_lt.2 hv
  simp [hdd.2.1, h5]

/-- The name of a subsong, cut by `snprintf` to 31 characters, keeps the
prefix, the digits and the dot. -/
theorem subtuneName_eq (lib : PathLib) (hfmt : ∀ t, lib.StringFormat 32 t = t.take 31)
    (i : Nat) (hi : i < 2147483647) (ext : List Char) :
    subtuneName lib i ext
      = SUBTUNE_PREFIX ++ (formatU03 (i + 1) ++ '.' ::
          (cstr ext).take (31 - (5 + (formatU03 (i + 1)).length + 1))) := by
  have hu : (wrapInt ((i : Int) + 1) % 4294967296).toNat = i + 1 := by
    unfold wrapInt
    omega
  obtain ⟨-, h10, -, -⟩ := formatU03_digits (i + 1)
  have hl := h10 (by omega)
  unfold subtuneName
  rw [hfmt, hu]
  have hp : SUBTUNE_PREFIX.length = 5 := rfl
  have e : SUBTUNE_PREFIX ++ formatU03 (i + 1) ++ ".".toList ++ cstr ext
      = (SUBTUNE_PREFIX ++ (formatU03 (i + 1) ++ ['.'])) ++ cstr ext := by
    simp only [List.append_assoc]
    rfl
  have hlen : (SUBTUNE_PREFIX ++ (formatU03 (i + 1) ++ ['.'])).length
      = 5 + (formatU03 (i + 1)).length + 1 := by
    rw [List.length_append, List.length_append, hp]
    rfl
  rw [e, List.take_append_eq_append_take, hlen,
    List.take_of_length_le (by rw [hlen]; omega)]
  simp only [List.append_assoc, List.singleton_append]

/-- C32. Let the helper functions of the repository that are not among the
sources do what their names say: `StringAfterPrefix` returns the text after
the prefix `tune_` of a text that starts with it, `StringFormat<32>` keeps the
first 31 characters of the formatted text, `GetBase` returns the part of a
path after its last `/` and `GetDirectoryName` the part before it.  Then for
every subsong index `i` of an `int32_t` loop (`i + 1` does not overflow),
every type suffix `ext` without `/` and every container path that is not
empty: the name generated for subsong `i` starts with `tune_`, at least three
digits of value `i + 1` and a dot, and is `tune_` + digits + `.` + `ext` when
that fits 31 characters; `ParseSubtuneName` parses it back to `i + 1`;
`ParseContainerPath` on container + `/` + name returns the container path and
the track `i`; and this name is the entry `i` of the list that
`openmpt_container_scan` returns for a module with more than `i` subsongs. -/
theorem subtune_name_roundtrip (lib : PathLib)
    (hpre : ∀ s, lib.StringAfterPrefix (SUBTUNE_PREFIX ++ s) SUBTUNE_PREFIX = some s)
    (hfmt : ∀ t, lib.StringFormat 32 t = t.take 31)
    (hbase : ∀ dir name, '/' ∉ name → lib.GetBase (dir ++ '/' :: name) = some name)
    (hdir : ∀ dir name, dir ≠ [] → '/' ∉ name →
      lib.GetDirectoryName (dir ++ '/' :: name) = dir)
    (i : Nat) (hi : i < 2147483647) (ext container : List Char)
    (hext : '/' ∉ cstr ext) (hc : container ≠ []) :
    (∃ rest, subtuneName lib i ext = SUBTUNE_PREFIX ++ (formatU03 (i + 1) ++ '.' :: rest) ∧
        rest <+: cstr ext) ∧
      3 ≤ (formatU03 (i + 1)).length ∧
      digitsValue (formatU03 (i + 1)) = i + 1 ∧
      ((SUBTUNE_PREFIX ++ formatU03 (i + 1) ++ ".".toList ++ cstr ext).length ≤ 31 →
        subtuneName lib i ext
          = SUBTUNE_PREFIX ++ formatU03 (i + 1) ++ ".".toList ++ cstr ext) ∧
      ParseSubtuneName lib (subtuneName lib i ext) = i + 1 ∧
      ParseContainerPath lib (container ++ '/' :: subtuneName lib i ext)
        = { path := container, track := i } ∧
      (∀ (subsongs : Int) (type : Nat → List Char), (i : Int) < subsongs → 1 < subsongs →
        (openmpt_container_scan lib subsongs type)[i]?
          = some (subtuneName lib i (type i))) := by
  obtain ⟨h3, -, hd, hv⟩ := formatU03_digits (i + 1)
  have hname := subtuneName_eq lib hfmt i hi ext
  generalize hrest : (cstr ext).take (31 - (5 + (formatU03 (i + 1)).length + 1)) = rest
    at hname
  have hne : formatU03 (i + 1) ≠ [] := by
    intro e
    rw [e] at h3
    simp at h3
  have hst : strtoul (formatU03 (i + 1) ++ '.' :: rest)
      = (i + 1, (formatU03 (i + 1)).length) := by
    have := strtoul_digits (formatU03 (i + 1)) ('.' :: rest) hne hd
      (by
        intro c hc
        simp only [List.head?_cons, Option.some.injEq] at hc
        subst hc
        decide)
      (by rw [hv]; unfold ULONG_MAX; omega)
    rw [hv] at this
    exact this
  have hparse : ParseSubtuneName lib (subtuneName lib i ext) = i + 1 := by
    unfold ParseSubtuneName
    rw [hname, hpre]
    simp only []
    rw [hst]
    simp only []
    have hl0 : ¬ ((formatU03 (i + 1)).length = 0 ∨
        ((formatU03 (i + 1) ++ '.' :: rest).drop (formatU03 (i + 1)).length).head?
          ≠ some '.') := by
      rw [List.drop_left]
      simp only [List.head?_cons, ne_eq, not_true_eq_false, or_false]
      omega
    rw [if_neg hl0]
    omega
  have hslash : '/' ∉ subtuneName lib i ext := by
    rw [hname]
    intro hm
    rcases List.mem_append.1 hm with h | h
    · exact absurd h (by decide)
    · rcases List.mem_append.1 h with h | h
      · exact (isdigit_not_special _ (hd _ h)).2.2.2.1 rfl
      · rcases List.mem_cons.1 h with h | h
        · exact absurd h (by decide)
        · rw [← hrest] at h
          exact hext (List.mem_of_mem_take h)
  refine ⟨⟨rest, hname, ?_⟩, h3, hv, ?_, hparse, ?_, ?_⟩
  · rw [← hrest]
    exact List.take_prefix _ _
  · intro hfit
    unfold subtuneName
    have hu : (wrapInt ((i : Int) + 1) % 4294967296).toNat = i + 1 := by
      unfold wrapInt
      omega
    rw [hfmt, hu]
    exact List.take_of_length_le hfit
  · unfold ParseContainerPath
    rw [hbase container _ hslash]
    simp only []
    rw [hparse, if_neg (by omega), hdir container _ hc hslash]
    have ht : wrapSize (((i + 1 : Nat) : Int) - 1) % 4294967296 = i := by
      unfold wrapSize
      omega
    rw [ht]
  · intro subsongs type hlt h1
    unfold openmpt_container_scan
    rw [if_neg (by omega), List.getElem?_map, List.getElem?_range (by omega)]
    rfl

/-! ### The helper functions on paths with the separator `/` -/

theorem takeWhile_append_stop (p : Char → Bool) (x : Char) (hx : p x = false) :
    ∀ (a b : List Char), (∀ c ∈ a, p c = true) → (a ++ x :: b).takeWhile p = a := by
  intro a
  induction a with
  | nil =>
    intro b _
    simp [List.takeWhile, hx]
  | cons y ys ih =>
    intro b h
    have hy : p y = true := h y (by simp)
    have hys : ∀ c ∈ ys, p c = true := fun c hc => h c (by simp [hc])
    simp only [List.cons_append, List.takeWhile_cons, hy, if_true, ih b hys]

theorem dropWhile_append_stop (p : Char → Bool) (x : Char) (hx : p x = false) :
    ∀ (a b : List Char), (∀ c ∈ a, p c = true) → (a ++ x :: b).dropWhile p = x :: b := by
  intro a
  induction a with
  | nil =>
    intro b _
    simp [List.dropWhile, hx]
  | cons y ys ih =>
    intro b h
    have hy : p y = true := h y (by simp)
    have hys : ∀ c ∈ ys, p c = true := fun c hc => h c (by simp [hc])
    simp only [List.cons_append, List.dropWhile_cons, hy, if_true, ih b hys]

theorem posixLib_prefixed (p s : List Char) :
    posixLib.StringAfterPrefix (p ++ s) p = some s := by
  show (if p.isPrefixOf (p ++ s) then some ((p ++ s).drop p.length) else none) = some s
  rw [if_pos (List.isPrefixOf_iff_prefix.2 (List.prefix_append p s)), List.drop_left]

theorem posixLib_reverse (dir name : List Char) (h : '/' ∉ name) :
    (∀ c ∈ name.reverse, (fun c => c != '/') c = true) ∧
      (dir ++ '/' :: name).reverse = name.reverse ++ '/' :: dir.reverse := by
  refine ⟨?_, by simp⟩
  intro c hc
  have : c ≠ '/' := fun e => h (e ▸ List.mem_reverse.1 hc)
  simp [this]

theorem posixLib_base (dir name : List Char) (h : '/' ∉ name) :
    posixLib.GetBase (dir ++ '/' :: name) = some name := by
  obtain ⟨h1, h2⟩ := posixLib_reverse dir name h
  show some ((dir ++ '/' :: name).reverse.takeWhile (fun c => c != '/')).reverse = some name
  rw [h2, takeWhile_append_stop _ '/' (by decide) _ _ h1, List.reverse_reverse]

theorem posixLib_directory (dir name : List Char) (hd : dir ≠ []) (h : '/' ∉ name) :
    posixLib.GetDirectoryName (dir ++ '/' :: name) = dir := by
  obtain ⟨h1, h2⟩ := posixLib_reverse dir name h
  have hm : ¬ '/' ∉ dir ++ '/' :: name := by simp
  have hdw : (dir ++ '/' :: name).reverse.dropWhile (fun c => c != '/')
      = '/' :: dir.reverse := by
    rw [h2, dropWhile_append_stop _ '/' (by decide) _ _ h1]
  have hl : ¬ ('/' :: dir.reverse).length = 1 := by
    obtain ⟨d, t, rfl⟩ := List.exists_cons_of_ne_nil hd
    simp
  show (if '/' ∉ dir ++ '/' :: name then ".".toList
    else if ((dir ++ '/' :: name).reverse.dropWhile (fun c => c != '/')).length = 1 then
      "/".toList
    else ((dir ++ '/' :: name).reverse.dropWhile (fun c => c != '/')).reverse.dropLast) = dir
  rw [if_neg hm, hdw, if_neg hl]
  simp

theorem subtune_name_roundtrip_witness :
    subtuneName posixLib 4 "mod".toList = "tune_005.mod".toList ∧
      ParseSubtuneName posixLib "tune_005.mod".toList = 4 + 1 ∧
      ParseContainerPath posixLib "/music/a.mod/tune_005.mod".toList
        = { path := "/music/a.mod".toList, track := 4 } :=
  ⟨by decide,
    (subtune_name_roundtrip posixLib (posixLib_prefixed SUBTUNE_PREFIX) (fun _ => rfl)
      posixLib_base posixLib_directory 4 (by decide) "mod".toList "/music/a.mod".toList
      (by decide) (by decide)).2.2.2.2.1,
    (subtune_name_roundtrip posixLib (posixLib_prefixed SUBTUNE_PREFIX) (fun _ => rfl)
      posixLib_base posixLib_directory 4 (by decide) "mod".toList "/music/a.mod".toList
      (by decide) (by decide)).2.2.2.2.2.1⟩

/-! ### Status lines read by `atoi` -/

theorem helloParse_counts (inStream : InputStream) (os : OS)
    (h : inStream.data.connState ≠ HTTP_CONN_STATE_REOPEN) :
    ((helloParse inStream os).2.1.data.connState = HTTP_CONN_STATE_REOPEN ∧
      (helloParse inStream os).2.1.data.timesRedirected
        = inStream.data.timesRedirected + 1) ∨
    ((helloParse inStream os).2.1.data.connState ≠ HTTP_CONN_STATE_REOPEN ∧
      (helloParse inStream os).2.1.data.timesRedirected
        = inStream.data.timesRedirected) := by
  have hc : HTTP_CONN_STATE_CLOSED ≠ HTTP_CONN_STATE_REOPEN := by decide
  have ho : HTTP_CONN_STATE_OPEN ≠ HTTP_CONN_STATE_REOPEN := by decide
  unfold helloParse
  dsimp only
  split
  · right; exact ⟨h, rfl⟩
  · split
    · right; exact ⟨hc, rfl⟩
    · split
      · right
        refine ⟨ho, ?_⟩
        simp only []
        split <;> simp [helloFields_timesRedirected]
      · split
        · split
          · split
            · left
              exact ⟨rfl, by simp [parseUrl_timesRedirected]⟩
            · right
              exact ⟨hc, by simp [helloFail, parseUrl_timesRedirected]⟩
          · right; exact ⟨hc, rfl⟩
        · right; exact ⟨hc, rfl⟩

theorem getHTTPHello_counts (inStream : InputStream) (os : OS)
    (h : inStream.data.connState ≠ HTTP_CONN_STATE_REOPEN) :
    ((getHTTPHello inStream os).2.1.data.connState = HTTP_CONN_STATE_REOPEN ∧
      (getHTTPHello inStream os).2.1.data.timesRedirected
        = inStream.data.timesRedirected + 1) ∨
    ((getHTTPHello inStream os).2.1.data.connState ≠ HTTP_CONN_STATE_REOPEN ∧
      (getHTTPHello inStream os).2.1.data.timesRedirected
        = inStream.data.timesRedirected) := by
  have hc : HTTP_CONN_STATE_CLOSED ≠ HTTP_CONN_STATE_REOPEN := by decide
  unfold getHTTPHello
  dsimp only
  repeat' split
  all_goals first
    | exact Or.inr ⟨h, rfl⟩
    | exact Or.inr ⟨hc, rfl⟩
    | exact helloParse_counts _ _ h

theorem pumpStage_pos (state : Nat) (f : InputStream → OS → Int × InputStream × OS)
    (inStream : InputStream) (os : OS) (h : inStream.data.connState = state) :
    pumpStage state f inStream os = f inStream os := by
  unfold pumpStage
  rw [if_pos h]

theorem pumpStage_neg (state : Nat) (f : InputStream → OS → Int × InputStream × OS)
    (inStream : InputStream) (os : OS) (h : inStream.data.connState ≠ state) :
    pumpStage state f inStream os = (0, inStream, os) := by
  unfold pumpStage
  rw [if_neg h]

theorem pumpStage_init_timesRedirected (inStream : InputStream) (os : OS) :
    (pumpStage HTTP_CONN_STATE_REOPEN initHTTPConnection inStream os).2.1.data.timesRedirected
      = inStream.data.timesRedirected := by
  unfold pumpStage
  split
  · exact initHTTPConnection_timesRedirected _ _
  · rfl

theorem pumpStage_finish_timesRedirected (inStream : InputStream) (os : OS) :
    (pumpStage HTTP_CONN_STATE_INIT finishHTTPInit inStream os).2.1.data.timesRedirected
      = inStream.data.timesRedirected := by
  unfold pumpStage
  split
  · exact finishHTTPInit_timesRedirected _ _
  · rfl

/-- When the pump calls `getHTTPHello`, the session is awaiting the header, its
counter is the one the pump started with, and the pump ends with what
`getHTTPHello` and the second half of the pump make of it. -/
theorem pumpToHello_some (inStream : InputStream) (os : OS) (r : InputStream × OS)
    (h : pumpToHello inStream os = some r) :
    r.1.data.connState = HTTP_CONN_STATE_HELLO ∧
      r.1.data.timesRedirected = inStream.data.timesRedirected ∧
      inputStream_httpBuffer inStream os
        = (if (getHTTPHello r.1 r.2).1 < 0 then (-1, (getHTTPHello r.1 r.2).2)
           else httpBufferFill (getHTTPHello r.1 r.2).2.1 (getHTTPHello r.1 r.2).2.2) := by
  unfold pumpToHello at h
  dsimp only at h
  split at h
  · cases h
  · split at h
    · cases h
    · split at h
      · rename_i h1 h2 h3
        have hr := Option.some.inj h
        subst hr
        refine ⟨h3, ?_, ?_⟩
        · rw [pumpStage_finish_timesRedirected, pumpStage_init_timesRedirected]
        · unfold inputStream_httpBuffer
          dsimp only
          rw [if_neg h1, if_neg h2, pumpStage_pos _ _ _ _ h3]
      · cases h

theorem pumpToHello_none (inStream : InputStream) (os : OS)
    (h : pumpToHello inStream os = none) :
    (inputStream_httpBuffer inStream os).2.1.data.timesRedirected
      = inStream.data.timesRedirected := by
  unfold pumpToHello at h
  dsimp only at h
  unfold inputStream_httpBuffer
  dsimp only
  split at h
  · rename_i h1
    rw [if_pos h1]
    exact pumpStage_init_timesRedirected _ _
  · rename_i h1
    rw [if_neg h1]
    split at h
    · rename_i h2
      rw [if_pos h2]
      show (pumpStage HTTP_CONN_STATE_INIT finishHTTPInit _ _).2.1.data.timesRedirected = _
      rw [pumpStage_finish_timesRedirected, pumpStage_init_timesRedirected]
    · rename_i h2
      rw [if_neg h2]
      split at h
      · cases h
      · rename_i h3
        rw [pumpStage_neg _ _ _ _ h3]
        have hz : ¬ ((0 : Int) < 0) := by decide
        rw [if_neg hz, httpBufferFill_timesRedirected, pumpStage_finish_timesRedirected,
          pumpStage_init_timesRedirected]

/-- The pump adds one to the counter when it follows a redirect, and leaves the
counter as it is otherwise. -/
theorem inputStream_httpBuffer_counts (inStream : InputStream) (os : OS) :
    (inputStream_httpBuffer inStream os).2.1.data.timesRedirected
      = inStream.data.timesRedirected
        + (if followsRedirect inStream os = true then 1 else 0) := by
  cases h : pumpToHello inStream os with
  | none =>
    have hf : followsRedirect inStream os = false := by
      unfold followsRedirect
      rw [h]
    rw [hf, pumpToHello_none _ _ h]
    simp
  | some r =>
    obtain ⟨hs, ht, he⟩ := pumpToHello_some _ _ _ h
    have hne : r.1.data.connState ≠ HTTP_CONN_STATE_REOPEN := by
      rw [hs]; decide
    have hf : followsRedirect inStream os
        = decide ((getHTTPHello r.1 r.2).2.1.data.connState = HTTP_CONN_STATE_REOPEN) := by
      unfold followsRedirect
      rw [h]
    have hp : (inputStream_httpBuffer inStream os).2.1.data.timesRedirected
        = (getHTTPHello r.1 r.2).2.1.data.timesRedirected := by
      rw [he]
      split
      · rfl
      · exact httpBufferFill_timesRedirected _ _
    rw [hp, hf, ← ht]
    rcases getHTTPHello_counts r.1 r.2 hne with ⟨a, b⟩ | ⟨a, b⟩
    · rw [b]; simp [a]
    · rw [b]; simp [a]

theorem inputStream_httpRead_counts (inStream : InputStream) (os : OS) (size nmemb : Nat) :
    (inputStream_httpRead inStream os size nmemb).inStream.data.timesRedirected
      = inStream.data.timesRedirected
        + (if followsRedirect inStream os = true then 1 else 0) := by
  unfold inputStream_httpRead
  dsimp only
  rw [httpReadPumped_timesRedirected]
  exact inputStream_httpBuffer_counts inStream os

/-- The counter of a session is the number of redirects it has followed. -/
theorem Followed.timesRedirected_eq (k : Nat) (inStream : InputStream) (os : OS)
    (h : Followed k inStream os) : inStream.data.timesRedirected = k := by
  induction h with
  | opened s u o _ => exact inputStream_httpOpen_timesRedirected _ _ _
  | pumped k s o _ hf ih => rw [inputStream_httpBuffer_counts, hf, ih]; simp
  | redirected k s o _ hf ih => rw [inputStream_httpBuffer_counts, hf, ih]; simp
  | read k s o size nmemb _ hf ih => rw [inputStream_httpRead_counts, hf, ih]; simp
  | readRedirected k s o size nmemb _ hf ih =>
    rw [inputStream_httpRead_counts, hf, ih]; simp

theorem Followed.reachable (k : Nat) (inStream : InputStream) (os : OS)
    (h : Followed k inStream os) : Reachable inStream os := by
  induction h with
  | opened s u o h0 => exact Reachable.opened s u o h0
  | pumped k s o _ _ ih => exact Reachable.pumped s o ih
  | redirected k s o _ _ ih => exact Reachable.pumped s o ih
  | read k s o size nmemb _ _ ih => exact Reachable.read s o size nmemb ih
  | readRedirected k s o size nmemb _ _ ih => exact Reachable.read s o size nmemb ih

theorem Reachable.followed (inStream : InputStream) (os : OS)
    (h : Reachable inStream os) : ∃ k, Followed k inStream os := by
  induction h with
  | opened s u o h0 => exact ⟨0, Followed.opened s u o h0⟩
  | pumped s o _ ih =>
    obtain ⟨k, hk⟩ := ih
    cases hf : followsRedirect s o with
    | false => exact ⟨k, Followed.pumped k s o hk hf⟩
    | true => exact ⟨k + 1, Followed.redirected k s o hk hf⟩
  | read s o size nmemb _ ih =>
    obtain ⟨k, hk⟩ := ih
    cases hf : followsRedirect s o with
    | false => exact ⟨k, Followed.read k s o size nmemb hk hf⟩
    | true => exact ⟨k + 1, Followed.readRedirected k s o size nmemb hk hf⟩

theorem OS.recv_conns (os : OS) (len : Nat) : (os.recv len).2.conns = os.conns := by
  unfold OS.recv
  repeat' split
  all_goals rfl

/-- What `getHTTPHello` does when the socket is ready, the buffer has room and
the peer sent the bytes `bs`: it stores them and runs the header parser. -/
theorem getHTTPHello_received (inStream : InputStream) (os o2 : OS) (bs : List Char)
    (hsel : 0 < (os.selects.headD ⟨0, Errno.EOTHER⟩).val)
    (hroom : inStream.data.buflen < HTTP_BUFFER_SIZE - 1)
    (hrecv : OS.recv { os with selects := os.selects.tail }
        (HTTP_BUFFER_SIZE - 1 - inStream.data.buflen) = (RecvAnswer.bytes bs, o2))
    (hbs : bs ≠ []) :
    getHTTPHello inStream os
      = helloParse
          { inStream with data := { inStream.data with
              buffer := inStream.data.buffer ++ bs,
              buflen := inStream.data.buflen + bs.length,
              stale := Char.ofNat 0 :: inStream.data.stale.drop (bs.length + 1) } } o2 := by
  have h1 : ¬ ((os.selects.headD ⟨0, Errno.EOTHER⟩).val = 0 ∨
      ((os.selects.headD ⟨0, Errno.EOTHER⟩).val < 0 ∧
        (os.selects.headD ⟨0, Errno.EOTHER⟩).errno = Errno.EINTR)) := by
    intro h
    rcases h with h | h
    · omega
    · omega
  have h2 : ¬ ((os.selects.headD ⟨0, Errno.EOTHER⟩).val < 0) := by omega
  have h3 : ¬ (inStream.data.buflen ≥ HTTP_BUFFER_SIZE - 1) := by omega
  have h4 : ¬ (bs.length = 0) := by
    intro h
    exact hbs (List.length_eq_zero.1 h)
  unfold getHTTPHello
  dsimp only
  rw [if_neg h1, if_neg h2, if_neg h3, hrecv]
  dsimp only
  rw [if_neg h4]

/-- The header parser leaves a session in the state `HTTP_CONN_STATE_REOPEN`
exactly when the header block is complete, its status line gives the code 301
or 302, it holds `Location: ` followed by a URL that `parseUrl` accepts, and
the counter is below `HTTP_REDIRECT_MAX`. -/
theorem helloParse_reopen_iff (inStream : InputStream) (os : OS)
    (h : inStream.data.connState ≠ HTTP_CONN_STATE_REOPEN) :
    (helloParse inStream os).2.1.data.connState = HTTP_CONN_STATE_REOPEN ↔
      ∃ needle rc loc,
        strstr (cstr inStream.data.buffer) "\r\n\r\n".toList = some needle ∧
        helloStatus (cstr inStream.data.buffer) = some rc ∧ (rc = 301 ∨ rc = 302) ∧
        strstr (cstr inStream.data.buffer) "Location: ".toList = some loc ∧
        (parseUrl inStream.data
          (((cstr inStream.data.buffer).drop (loc + 10)).takeWhile
            (fun c => c != '\r'))).1 = 0 ∧
        inStream.data.timesRedirected < HTTP_REDIRECT_MAX := by
  have hc : HTTP_CONN_STATE_CLOSED ≠ HTTP_CONN_STATE_REOPEN := by decide
  have ho : HTTP_CONN_STATE_OPEN ≠ HTTP_CONN_STATE_REOPEN := by decide
  unfold helloParse
  dsimp only
  cases hn : strstr (cstr inStream.data.buffer) "\r\n\r\n".toList with
  | none =>
    constructor
    · intro h1
      exact absurd h1 h
    · rintro ⟨needle, rc, loc, h1, _⟩
      cases h1
  | some needle =>
    cases hst : helloStatus (cstr inStream.data.buffer) with
    | none =>
      constructor
      · intro h1
        exact absurd h1 hc
      · rintro ⟨needle, rc, loc, _, h1, _⟩
        cases h1
    | some rc =>
      dsimp only
      by_cases h2 : rc = 200 ∨ rc = 206
      · rw [if_pos h2]
        constructor
        · intro h1
          exact absurd h1 ho
        · rintro ⟨_, rc2, _, _, h1, h3, _⟩
          cases h1
          omega
      · rw [if_neg h2]
        by_cases h3 : rc = 301 ∨ rc = 302
        · rw [if_pos h3]
          cases hl : strstr (cstr inStream.data.buffer) "Location: ".toList with
          | none =>
            constructor
            · intro h1
              exact absurd h1 hc
            · rintro ⟨_, _, _, _, _, _, h1, _⟩
              cases h1
          | some loc =>
            dsimp only
            split
            · rename_i h4
              rw [parseUrl_timesRedirected] at h4
              constructor
              · intro _
                exact ⟨needle, rc, loc, rfl, rfl, h3, rfl, h4.1, h4.2⟩
              · intro _
                rfl
            · rename_i h4
              rw [parseUrl_timesRedirected] at h4
              constructor
              · intro h1
                exact absurd h1 hc
              · rintro ⟨_, _, loc2, _, _, _, h1, h5, h6⟩
                cases h1
                exact absurd ⟨h5, h6⟩ h4
        · rw [if_neg h3]
          constructor
          · intro h1
            exact absurd h1 hc
          · rintro ⟨_, rc2, _, _, h1, h4, _⟩
            cases h1
            exact absurd h4 h3

/-- The call of `getHTTPHello` leaves a session in the state
`HTTP_CONN_STATE_REOPEN` exactly when the socket is ready, the buffer has room,
bytes arrive, and the header parser, run on the buffer with these bytes, leaves
that state. -/
theorem getHTTPHello_reopen_iff (inStream : InputStream) (os : OS)
    (h : inStream.data.connState ≠ HTTP_CONN_STATE_REOPEN) :
    (getHTTPHello inStream os).2.1.data.connState = HTTP_CONN_STATE_REOPEN ↔
      ∃ bs o2, 0 < (os.selects.headD ⟨0, Errno.EOTHER⟩).val ∧
        inStream.data.buflen < HTTP_BUFFER_SIZE - 1 ∧
        OS.recv { os with selects := os.selects.tail }
          (HTTP_BUFFER_SIZE - 1 - inStream.data.buflen) = (RecvAnswer.bytes bs, o2) ∧
        bs ≠ [] ∧
        (helloParse
          { inStream with data := { inStream.data with
              buffer := inStream.data.buffer ++ bs,
              buflen := inStream.data.buflen + bs.length,
              stale := Char.ofNat 0 :: inStream.data.stale.drop (bs.length + 1) } }
          o2).2.1.data.connState = HTTP_CONN_STATE_REOPEN := by
  have hc : HTTP_CONN_STATE_CLOSED ≠ HTTP_CONN_STATE_REOPEN := by decide
  constructor
  · intro h1
    unfold getHTTPHello at h1
    dsimp only at h1
    split at h1
    · exact absurd h1 h
    · split at h1
      · exact absurd h1 hc
      · split at h1
        · exact absurd h1 hc
        · split at h1
          · split at h1
            · exact absurd h1 h
            · exact absurd h1 hc
          · split at h1
            · exact absurd h1 hc
            · rename_i hs1 hs2 hroom _ bs o2 heq hbs
              refine ⟨bs, o2, by omega, by omega, heq, ?_, h1⟩
              intro hnil
              exact hbs (by rw [hnil]; rfl)
  · rintro ⟨bs, o2, hsel, hroom, hrecv, hbs, h1⟩
    rw [getHTTPHello_received inStream os o2 bs hsel hroom hrecv hbs]
    exact h1

/-- A pump follows a redirect exactly when it calls `getHTTPHello`, the socket
is ready, the buffer has room, bytes arrive that complete a header block whose
status line gives the code 301 or 302 and that holds `Location: ` followed by
a URL that `parseUrl` accepts, and the counter is below `HTTP_REDIRECT_MAX`. -/
theorem followsRedirect_iff (inStream : InputStream) (os : OS) :
    followsRedirect inStream os = true ↔
      ∃ s1 o1 bs o2 needle rc loc,
        pumpToHello inStream os = some (s1, o1) ∧
        0 < (o1.selects.headD ⟨0, Errno.EOTHER⟩).val ∧
        s1.data.buflen < HTTP_BUFFER_SIZE - 1 ∧
        OS.recv { o1 with selects := o1.selects.tail }
          (HTTP_BUFFER_SIZE - 1 - s1.data.buflen) = (RecvAnswer.bytes bs, o2) ∧
        bs ≠ [] ∧
        strstr (cstr (s1.data.buffer ++ bs)) "\r\n\r\n".toList = some needle ∧
        helloStatus (cstr (s1.data.buffer ++ bs)) = some rc ∧ (rc = 301 ∨ rc = 302) ∧
        strstr (cstr (s1.data.buffer ++ bs)) "Location: ".toList = some loc ∧
        (parseUrl
          { s1.data with
              buffer := s1.data.buffer ++ bs,
              buflen := s1.data.buflen + bs.length,
              stale := Char.ofNat 0 :: s1.data.stale.drop (bs.length + 1) }
          (((cstr (s1.data.buffer ++ bs)).drop (loc + 10)).takeWhile
            (fun c => c != '\r'))).1 = 0 ∧
        s1.data.timesRedirected < HTTP_REDIRECT_MAX := by
  have hne : ∀ r : InputStream × OS, pumpToHello inStream os = some r →
      r.1.data.connState ≠ HTTP_CONN_STATE_REOPEN := by
    intro r hr
    rw [(pumpToHello_some _ _ _ hr).1]
    decide
  constructor
  · intro hf
    unfold followsRedirect at hf
    cases hto : pumpToHello inStream os with
    | none =>
      rw [hto] at hf
      cases hf
    | some r =>
      rw [hto] at hf
      have h1 : (getHTTPHello r.1 r.2).2.1.data.connState = HTTP_CONN_STATE_REOPEN :=
        of_decide_eq_true hf
      obtain ⟨bs, o2, hsel, hroom, hrecv, hbs, h2⟩ :=
        (getHTTPHello_reopen_iff r.1 r.2 (hne r hto)).1 h1
      obtain ⟨needle, rc, loc, a1, a2, a3, a4, a5, a6⟩ :=
        (helloParse_reopen_iff
          { r.1 with data := { r.1.data with
              buffer := r.1.data.buffer ++ bs,
              buflen := r.1.data.buflen + bs.length,
              stale := Char.ofNat 0 :: r.1.data.stale.drop (bs.length + 1) } } o2
          (hne r hto)).1 h2
      exact ⟨r.1, r.2, bs, o2, needle, rc, loc, rfl, hsel, hroom, hrecv, hbs, a1, a2, a3, a4,
        a5, a6⟩
  · rintro ⟨s1, o1, bs, o2, needle, rc, loc, hto, hsel, hroom, hrecv, hbs, a1, a2, a3, a4,
      a5, a6⟩
    have h2 := (helloParse_reopen_iff
      { s1 with data := { s1.data with
          buffer := s1.data.buffer ++ bs,
          buflen := s1.data.buflen + bs.length,
          stale := Char.ofNat 0 :: s1.data.stale.drop (bs.length + 1) } } o2
      (hne (s1, o1) hto)).2 ⟨needle, rc, loc, a1, a2, a3, a4, a5, a6⟩
    have h1 := (getHTTPHello_reopen_iff s1 o1 (hne (s1, o1) hto)).2
      ⟨bs, o2, hsel, hroom, hrecv, hbs, h2⟩
    unfold followsRedirect
    rw [hto]
    exact decide_eq_true h1

/-- C9. In every reachable session state the redirect counter is at most
`HTTP_REDIRECT_MAX` (10).  The reachable states are those of a session that has
followed some number `k` of redirects, a redirect being followed by each pump
whose call of `getHTTPHello` leaves the session about to reconnect, which is
each pump that receives a complete 301 or 302 response with a `Location: ` that
`parseUrl` accepts while the counter is below 10; the counter of such a session
is `k`, and `k` is at most 10.  When a session has followed 10
redirects and a pump receives a complete 301 or 302 response (the socket is
ready, the buffer has room, the bytes `bs` arrive and complete a header block
that begins with `HTTP/1.0 ` or `HTTP/1.1 ` and carries the code 301 or 302),
the pump follows no redirect and fails (`-1`): the session is closed, the socket
is closed, the buffer is empty, no connection attempt is taken from the
operating system, and every later pump leaves the operating system untouched
and the session closed. -/
theorem redirect_bound :
    (∀ inStream os, Reachable inStream os →
      inStream.data.timesRedirected ≤ HTTP_REDIRECT_MAX) ∧
    (∀ inStream os, Reachable inStream os ↔ ∃ k, Followed k inStream os) ∧
    (∀ inStream os, followsRedirect inStream os = true ↔
      ∃ s1 o1 bs o2 needle rc loc,
        pumpToHello inStream os = some (s1, o1) ∧
        0 < (o1.selects.headD ⟨0, Errno.EOTHER⟩).val ∧
        s1.data.buflen < HTTP_BUFFER_SIZE - 1 ∧
        OS.recv { o1 with selects := o1.selects.tail }
          (HTTP_BUFFER_SIZE - 1 - s1.data.buflen) = (RecvAnswer.bytes bs, o2) ∧
        bs ≠ [] ∧
        strstr (cstr (s1.data.buffer ++ bs)) "\r\n\r\n".toList = some needle ∧
        helloStatus (cstr (s1.data.buffer ++ bs)) = some rc ∧ (rc = 301 ∨ rc = 302) ∧
        strstr (cstr (s1.data.buffer ++ bs)) "Location: ".toList = some loc ∧
        (parseUrl
          { s1.data with
              buffer := s1.data.buffer ++ bs,
              buflen := s1.data.buflen + bs.length,
              stale := Char.ofNat 0 :: s1.data.stale.drop (bs.length + 1) }
          (((cstr (s1.data.buffer ++ bs)).drop (loc + 10)).takeWhile
            (fun c => c != '\r'))).1 = 0 ∧
        s1.data.timesRedirected < HTTP_REDIRECT_MAX) ∧
    (∀ k inStream os, Followed k inStream os →
      inStream.data.timesRedirected = k ∧ (k : Int) ≤ HTTP_REDIRECT_MAX) ∧
    (∀ (inStream : InputStream) (os : OS) (s1 : InputStream) (o1 o2 : OS)
        (bs : List Char) (needle : Nat),
      Followed 10 inStream os →
      pumpToHello inStream os = some (s1, o1) →
      0 < (o1.selects.headD ⟨0, Errno.EOTHER⟩).val →
      s1.data.buflen < HTTP_BUFFER_SIZE - 1 →
      OS.recv { o1 with selects := o1.selects.tail }
          (HTTP_BUFFER_SIZE - 1 - s1.data.buflen) = (RecvAnswer.bytes bs, o2) →
      bs ≠ [] →
      strstr (cstr (s1.data.buffer ++ bs)) "\r\n\r\n".toList = some needle →
      ("HTTP/1.0 ".toList <+: cstr (s1.data.buffer ++ bs) ∨
        "HTTP/1.1 ".toList <+: cstr (s1.data.buffer ++ bs)) →
      (atoi ((cstr (s1.data.buffer ++ bs)).drop 9) = 301 ∨
        atoi ((cstr (s1.data.buffer ++ bs)).drop 9) = 302) →
      followsRedirect inStream os = false ∧
        (inputStream_httpBuffer inStream os).1 = -1 ∧
        (inputStream_httpBuffer inStream os).2.1.data.connState = HTTP_CONN_STATE_CLOSED ∧
        (inputStream_httpBuffer inStream os).2.1.data.buflen = 0 ∧
        (inputStream_httpBuffer inStream os).2.1.data.buffer = [] ∧
        (inputStream_httpBuffer inStream os).2.1.data.timesRedirected
          = HTTP_REDIRECT_MAX ∧
        (inputStream_httpBuffer inStream os).2.2.sockOpen = false ∧
        (inputStream_httpBuffer inStream os).2.2.conns = o1.conns ∧
        ∀ os3, (inputStream_httpBuffer (inputStream_httpBuffer inStream os).2.1 os3).2.2
            = os3 ∧
          (inputStream_httpBuffer
            (inputStream_httpBuffer inStream os).2.1 os3).2.1.data.connState
            = HTTP_CONN_STATE_CLOSED) := by
  refine ⟨Reachable.timesRedirected_le, ?_, followsRedirect_iff, ?_, ?_⟩
  · intro inStream os
    constructor
    · exact Reachable.followed inStream os
    · intro h
      obtain ⟨k, hk⟩ := h
      exact Followed.reachable k inStream os hk
  · intro k inStream os h
    have hk := Followed.timesRedirected_eq k inStream os h
    refine ⟨hk, ?_⟩
    rw [← hk]
    exact Reachable.timesRedirected_le inStream os (Followed.reachable k inStream os h)
  · intro inStream os s1 o1 o2 bs needle hF hto hsel hroom hrecv hbs hterm hpre hrc
    obtain ⟨_, ht, he⟩ := pumpToHello_some _ _ _ hto
    have hk : inStream.data.timesRedirected = HTTP_REDIRECT_MAX :=
      Followed.timesRedirected_eq _ _ _ hF
    have hg := getHTTPHello_received s1 o1 o2 bs hsel hroom hrecv hbs
    have ht2 : s1.data.timesRedirected = HTTP_REDIRECT_MAX := by
      rw [← hk]; exact ht
    have hR := helloParse_redirect_refused
      { s1 with data := { s1.data with
          buffer := s1.data.buffer ++ bs,
          buflen := s1.data.buflen + bs.length,
          stale := Char.ofNat 0 :: s1.data.stale.drop (bs.length + 1) } } o2 needle
      hterm hpre hrc (le_of_eq ht2.symm)
    rw [← hg] at hR
    obtain ⟨r1, r2, r3, r4, r5, r6, r7⟩ := hR
    have hneg : (getHTTPHello s1 o1).1 < 0 := by rw [r1]; decide
    have hp : inputStream_httpBuffer inStream os = (-1, (getHTTPHello s1 o1).2) := by
      rw [he]
      exact if_pos hneg
    have hconns : o2.conns = o1.conns := by
      have h := OS.recv_conns { o1 with selects := o1.selects.tail }
        (HTTP_BUFFER_SIZE - 1 - s1.data.buflen)
      rw [hrecv] at h
      exact h
    have hfol : followsRedirect inStream os = false := by
      unfold followsRedirect
      rw [hto]
      show decide ((getHTTPHello s1 o1).2.1.data.connState = HTTP_CONN_STATE_REOPEN) = false
      rw [r2]
      decide
    have hcount : (getHTTPHello s1 o1).2.1.data.timesRedirected = HTTP_REDIRECT_MAX := by
      have h := inputStream_httpBuffer_counts inStream os
      rw [hfol, hp, hk] at h
      simpa using h
    rw [hp]
    exact ⟨hfol, rfl, r2, r3, r4, hcount, r5, r6.trans hconns, r7⟩

set_option maxRecDepth 100000

theorem redirect_bound_witness :
    Followed 10 (redirectsRun 10).2.1 (redirectsRun 10).2.2 ∧
      (redirectsRun 10).2.1.data.timesRedirected = 10 ∧
      (redirectsRun 10).2.1.data.connState = HTTP_CONN_STATE_REOPEN ∧
      (redirectsRun 10).2.2.conns.length = 1 ∧
      followsRedirect (redirectsRun 10).2.1 (redirectsRun 10).2.2 = false ∧
      (inputStream_httpBuffer (redirectsRun 10).2.1 (redirectsRun 10).2.2).1 = -1 ∧
      (inputStream_httpBuffer (redirectsRun 10).2.1
        (redirectsRun 10).2.2).2.1.data.connState = HTTP_CONN_STATE_CLOSED ∧
      (inputStream_httpBuffer (redirectsRun 10).2.1
        (redirectsRun 10).2.2).2.2.sockOpen = false ∧
      (inputStream_httpBuffer (redirectsRun 10).2.1
        (redirectsRun 10).2.2).2.2.conns = [] :=
  have h0 : Followed 0 (redirectsRun 0).2.1 (redirectsRun 0).2.2 :=
    Followed.opened exampleStream "http://a/x".toList (redirectsOS 11) (by decide)
  have h1 : Followed 1 (redirectsRun 1).2.1 (redirectsRun 1).2.2 :=
    Followed.redirected 0 _ _ h0 (by decide)
  have h2 : Followed 2 (redirectsRun 2).2.1 (redirectsRun 2).2.2 :=
    Followed.redirected 1 _ _ h1 (by decide)
  have h3 : Followed 3 (redirectsRun 3).2.1 (redirectsRun 3).2.2 :=
    Followed.redirected 2 _ _ h2 (by decide)
  have h4 : Followed 4 (redirectsRun 4).2.1 (redirectsRun 4).2.2 :=
    Followed.redirected 3 _ _ h3 (by decide)
  have h5 : Followed 5 (redirectsRun 5).2.1 (redirectsRun 5).2.2 :=
    Followed.redirected 4 _ _ h4 (by decide)
  have h6 : Followed 6 (redirectsRun 6).2.1 (redirectsRun 6).2.2 :=
    Followed.redirected 5 _ _ h5 (by decide)
  have h7 : Followed 7 (redirectsRun 7).2.1 (redirectsRun 7).2.2 :=
    Followed.redirected 6 _ _ h6 (by decide)
  have h8 : Followed 8 (redirectsRun 8).2.1 (redirectsRun 8).2.2 :=
    Followed.redirected 7 _ _ h7 (by decide)
  have h9 : Followed 9 (redirectsRun 9).2.1 (redirectsRun 9).2.2 :=
    Followed.redirected 8 _ _ h8 (by decide)
  have h10 : Followed 10 (redirectsRun 10).2.1 (redirectsRun 10).2.2 :=
    Followed.redirected 9 _ _ h9 (by decide)
  have hr := redirect_bound.2.2.2.2 (redirectsRun 10).2.1 (redirectsRun 10).2.2
    redirectsHello.2.1 redirectsHello.2.2
    (OS.recv { redirectsHello.2.2 with selects := redirectsHello.2.2.selects.tail }
      (HTTP_BUFFER_SIZE - 1 - redirectsHello.2.1.data.buflen)).2
    redirectResponse 47 h10 (by decide) (by decide) (by decide) (by decide) (by decide)
    (by decide) (Or.inr (by decide)) (Or.inr (by decide))
  ⟨h10, (redirect_bound.2.2.2.1 10 _ _ h10).1, by decide, by decide, hr.1, hr.2.1, hr.2.2.1,
    hr.2.2.2.2.2.2.1, hr.2.2.2.2.2.2.2.1.trans (by decide)⟩

end MPD
